import Mathlib

/-!
# Furnace generator utilities (`src/gen`): embedding and verified properties

The C++ sources `genUtil.cpp`, `patchGen.cpp` are embedded as pure Lean functions.

* `uint32_t` values are natural numbers reduced modulo `2^32` after every operation.
* `int` values are integers; every arithmetic result that can leave the 32-bit range
  is passed through `toI32` (two's complement wrap-around).
* A mutable object (`GenRNG`, an `int*` array) is passed in and returned explicitly.
* An operation the C++ leaves undefined (division by zero, an index outside its
  array) makes the embedded function return `none`.
-/

namespace Furnace

/-! ## Machine integers -/

/-- Truncation of a natural number to `uint32_t`. -/
def u32 (n : Nat) : Nat := n % 4294967296

/-- Conversion of an integer to `int`: the representative of its residue modulo `2^32`
in `[-2^31, 2^31)`. -/
def toI32 (x : Int) : Int := (x + 2147483648) % 4294967296 - 2147483648

/-- Conversion of an integer to `uint32_t`: the residue modulo `2^32`. -/
def toU32 (x : Int) : Nat := (x % 4294967296).toNat

/-- The values an `int` can hold. -/
def InI32 (x : Int) : Prop := -2147483648 ≤ x ∧ x ≤ 2147483647

instance (x : Int) : Decidable (InI32 x) := by unfold InI32; infer_instance

/-! ## GenRNG (xoshiro128**), genUtil.cpp 25-84 -/

/-- The four state words `state[0..3]` of `GenRNG`. -/
structure GenRNG where
  s0 : Nat
  s1 : Nat
  s2 : Nat
  s3 : Nat
deriving DecidableEq, Repr

/-- Every state word is a `uint32_t`. -/
def GenRNG.WF (g : GenRNG) : Prop :=
  g.s0 < 4294967296 ∧ g.s1 < 4294967296 ∧ g.s2 < 4294967296 ∧ g.s3 < 4294967296

/-- Assignment `state[i]=v`. -/
def GenRNG.setWord (g : GenRNG) (i : Nat) (v : Nat) : GenRNG :=
  match i with
  | 0 => { g with s0 := v }
  | 1 => { g with s1 := v }
  | 2 => { g with s2 := v }
  | 3 => { g with s3 := v }
  | _ => g

/-- `GenRNG::rotl`: `(x<<k)|(x>>(32-k))` on `uint32_t`. -/
def rotl (x : Nat) (k : Nat) : Nat := u32 (u32 (x <<< k) ||| (x >>> (32 - k)))

/-- The splitmix32 finaliser applied to the running seed in `GenRNG::seed`. -/
def seedMix (s : Nat) : Nat :=
  let z := s
  let z := u32 ((z ^^^ (z >>> 16)) * 0x85ebca6b)
  let z := u32 ((z ^^^ (z >>> 13)) * 0xc2b2ae35)
  z ^^^ (z >>> 16)

/-- The loop of `GenRNG::seed`: `n` iterations left, loop counter `i`, running seed `s`. -/
def seedLoop : Nat → Nat → Nat → GenRNG → GenRNG
  | 0, _, _, g => g
  | n + 1, i, s, g =>
    let s := u32 (s + 0x9e3779b9)
    seedLoop n (i + 1) s (g.setWord i (seedMix s))

/-- `GenRNG::seed(s)`, acting on the prior state `g`. -/
def GenRNG.seed (g : GenRNG) (s : Nat) : GenRNG := seedLoop 4 0 (u32 s) g

/-- `GenRNG::next()`: the returned word and the new state. -/
def GenRNG.next (g : GenRNG) : Nat × GenRNG :=
  let result := u32 (rotl (u32 (g.s1 * 5)) 7 * 9)
  let t := u32 (g.s1 <<< 9)
  let s2 := g.s2 ^^^ g.s0
  let s3 := g.s3 ^^^ g.s1
  let s1 := g.s1 ^^^ s2
  let s0 := g.s0 ^^^ s3
  let s2 := s2 ^^^ t
  let s3 := rotl s3 11
  (result, { s0 := s0, s1 := s1, s2 := s2, s3 := s3 })

/-- The state after `n` calls of `next()`. -/
def GenRNG.advance : Nat → GenRNG → GenRNG
  | 0, g => g
  | n + 1, g => GenRNG.advance n g.next.2

/-- The value returned by the call of `next()` number `n` (counted from 0). -/
def GenRNG.nth (g : GenRNG) (n : Nat) : Nat := (GenRNG.advance n g).next.1

/-- The modulus `range=(uint32_t)(max-min+1)` of `GenRNG::randInt`. -/
def randIntRange (min max : Int) : Nat := toU32 (toI32 (toI32 (max - min) + 1))

/-- `GenRNG::randInt(min,max)`; `none` when `next()%range` divides by zero. -/
def GenRNG.randInt (g : GenRNG) (min max : Int) : Option (Int × GenRNG) :=
  if min ≥ max then some (min, g)
  else
    let range := randIntRange min max
    if range = 0 then none
    else
      let r := g.next
      some (toI32 (min + toI32 ((r.1 % range : Nat) : Int)), r.2)

/-- `GenRNG::pick(v)`; `none` when the index leaves the vector. -/
def GenRNG.pick (g : GenRNG) (v : List Int) : Option (Int × GenRNG) :=
  if v.isEmpty then some (0, g)
  else
    match g.randInt 0 (toI32 ((v.length : Int) - 1)) with
    | none => none
    | some (idx, g1) =>
      if idx < 0 then none
      else
        match v[idx.toNat]? with
        | none => none
        | some x => some (x, g1)

/-- `GenRNG::GenRNG()`: zeroed state, then `seed(12345)`. -/
def GenRNG.init : GenRNG := GenRNG.seed { s0 := 0, s1 := 0, s2 := 0, s3 := 0 } 12345

/-! ## Scale system, genUtil.cpp 110-207 -/

def scaleMinor : List Int := [0, 2, 3, 5, 7, 8, 10]
def scaleHarmonicMinor : List Int := [0, 2, 3, 5, 7, 8, 11]
def scaleMelodicMinor : List Int := [0, 2, 3, 5, 7, 9, 11]
def scalePhrygian : List Int := [0, 1, 3, 5, 7, 8, 10]
def scalePhrygianDom : List Int := [0, 1, 4, 5, 7, 8, 10]
def scaleDorian : List Int := [0, 2, 3, 5, 7, 9, 10]
def scaleMixolydian : List Int := [0, 2, 4, 5, 7, 9, 10]
def scaleMajor : List Int := [0, 2, 4, 5, 7, 9, 11]
def scalePentMinor : List Int := [0, 3, 5, 7, 10]
def scalePentMajor : List Int := [0, 2, 4, 7, 9]
def scaleChromatic : List Int := [0, 1, 2, 3, 4, 5, 6, 7, 8, 9, 10, 11]
def scaleLocrian : List Int := [0, 1, 3, 5, 6, 8, 10]
def scaleBlues : List Int := [0, 3, 5, 6, 7, 10]

/-- The enumerator `GEN_SCALE_MAX`. -/
def GEN_SCALE_MAX : Int := 13

/-- The pair `(intervals, len)` of `struct ScaleData`. -/
structure ScaleData where
  intervals : List Int
  len : Int
deriving DecidableEq, Repr

/-- The array `scaleTable[GEN_SCALE_MAX]`. -/
def scaleTable : List ScaleData :=
  [ ⟨scaleMinor, 7⟩, ⟨scaleHarmonicMinor, 7⟩, ⟨scaleMelodicMinor, 7⟩, ⟨scalePhrygian, 7⟩,
    ⟨scalePhrygianDom, 7⟩, ⟨scaleDorian, 7⟩, ⟨scaleMixolydian, 7⟩, ⟨scaleMajor, 7⟩,
    ⟨scalePentMinor, 5⟩, ⟨scalePentMajor, 5⟩, ⟨scaleChromatic, 12⟩, ⟨scaleLocrian, 7⟩,
    ⟨scaleBlues, 6⟩ ]

/-- `genScaleIntervals(scale,outLen)`: the returned table together with `outLen`.
A `GenScaleType` is any `int` (the enum is cast from integers). -/
def genScaleIntervals (scale : Int) : ScaleData :=
  if scale < 0 ∨ scale ≥ GEN_SCALE_MAX then ⟨scaleMinor, 7⟩
  else scaleTable.getD scale.toNat ⟨scaleMinor, 7⟩

/-- `genClamp(val,min,max)`. -/
def genClamp (val min max : Int) : Int :=
  if val < min then min
  else if val > max then max
  else val

/-- The loop `while (degree<0) { degree+=scaleLen; octOffset--; }` shared by
`genScaleNoteToFurnace` and `genDegreesToSemitones`, with `scaleLen` the length returned by
`genScaleIntervals(scale,scaleLen)`. Inside the loop `degree<0` and `0<scaleLen<=12`, and the
counter is decremented fewer than `2^31` times, so neither assignment leaves the `int` range. -/
def wrapDegree (scale : Int) (degree octOffset : Int) : Int × Int :=
  if degree < 0 then
    wrapDegree scale (degree + (genScaleIntervals scale).len) (octOffset - 1)
  else (degree, octOffset)
termination_by (-degree).toNat
decreasing_by
  have hl : 0 < (genScaleIntervals scale).len := by
    unfold genScaleIntervals
    split
    · decide
    · rename_i h
      simp only [GEN_SCALE_MAX, not_or, not_lt, ge_iff_le, not_le] at h
      obtain ⟨n, rfl⟩ := Int.eq_ofNat_of_zero_le h.1
      have hn : n < 13 := by omega
      simp only [Int.toNat_ofNat]
      interval_cases n <;> decide
  omega

/-- `genDegreesToSemitones(degree,scale)`; `none` when `intervals[degree]` leaves the table
or the division is by zero. -/
def genDegreesToSemitones (degree : Int) (scale : Int) : Option Int :=
  let sd := genScaleIntervals scale
  let w := wrapDegree scale degree 0
  if sd.len = 0 then none
  else
    let octOffset := toI32 (w.2 + Int.tdiv w.1 sd.len)
    let degree := Int.tmod w.1 sd.len
    if degree < 0 then none
    else
      match sd.intervals[degree.toNat]? with
      | none => none
      | some iv => some (toI32 (iv + toI32 (octOffset * 12)))

/-- `genScaleNoteToFurnace(root,scale,degree,octave)`; `none` when `intervals[degree]` leaves
the table or the division is by zero. -/
def genScaleNoteToFurnace (root : Int) (scale : Int) (degree : Int) (octave : Int) : Option Int :=
  let sd := genScaleIntervals scale
  let w := wrapDegree scale degree 0
  if sd.len = 0 then none
  else
    let octaveOffset := toI32 (w.2 + Int.tdiv w.1 sd.len)
    let degree := Int.tmod w.1 sd.len
    if degree < 0 then none
    else
      match sd.intervals[degree.toNat]? with
      | none => none
      | some iv =>
        let note := toI32 (toI32 (root + iv) + toI32 (toI32 (toI32 (octave + octaveOffset) + 5) * 12))
        some (genClamp note 0 179)

/-- `genIsMinorFamily(scale)`. -/
def genIsMinorFamily (scale : Int) : Bool :=
  scale == 0 || scale == 1 || scale == 2 || scale == 3 || scale == 4 || scale == 5 ||
  scale == 11 || scale == 12 || scale == 8

/-! ## genShuffle, genUtil.cpp 209-216 -/

/-- One iteration of the loop of `genShuffle` at counter `i`: `j=rng.randInt(0,i)`, then
`arr[i]` and `arr[j]` are exchanged. The `int*` array is a list; an index outside it gives
`none`. -/
def shuffleStep (i : Nat) (g : GenRNG) (arr : List Int) : Option (List Int × GenRNG) :=
  match g.randInt 0 (i : Int) with
  | none => none
  | some (j, g1) =>
    if j < 0 then none
    else
      match arr[i]?, arr[j.toNat]? with
      | some ai, some aj => some ((arr.set i aj).set j.toNat ai, g1)
      | _, _ => none

/-- The loop `for (int i=count-1; i>0; i--)` of `genShuffle`, entered with counter `i`. -/
def shuffleLoop : Nat → GenRNG → List Int → Option (List Int × GenRNG)
  | 0, g, arr => some (arr, g)
  | i + 1, g, arr =>
    (shuffleStep (i + 1) g arr).bind (fun p => shuffleLoop i p.2 p.1)

/-- `genShuffle(arr,count,rng)`: the array and the generator after the call. -/
def genShuffle (arr : List Int) (count : Int) (g : GenRNG) : Option (List Int × GenRNG) :=
  shuffleLoop (toI32 (count - 1)).toNat g arr

/-! ## IEEE 754 binary32 (`float`)

A `float` is a finite rational of the form `m * 2^e` with `|m| < 2^24` and
`-149 <= e <= 104`, an infinity or NaN. Every operation computes the exact result and
rounds it to the nearest `float`, ties to even (the default rounding mode), one operation
at a time. The sign of a zero is not represented. -/

/-- A binary32 value. -/
inductive F32 where
  | fin (q : ℚ)
  | inf (neg : Bool)
  | nan
deriving DecidableEq, Repr

namespace F32

/-- Exponent of the unit in the last place of the binary32 grid around `q`. -/
def ulpExp (q : ℚ) : Int := max (Int.log 2 |q| - 23) (-149)

/-- Rounding of a rational to the nearest integer, ties to the even one. -/
def roundHalfEven (x : ℚ) : Int :=
  let f := ⌊x⌋
  let r := x - f
  if r < 1 / 2 then f
  else if 1 / 2 < r then f + 1
  else if f % 2 = 0 then f else f + 1

/-- The largest finite binary32 value, `(2^24-1) * 2^104`. -/
def maxFinite : ℚ := 340282346638528859811704183484516925440

/-- Rounding of an exact result to binary32 (round to nearest, ties to even; a result
whose rounded magnitude exceeds `maxFinite` becomes an infinity). -/
def round (q : ℚ) : F32 :=
  if q = 0 then fin 0
  else
    let e := ulpExp q
    let v := (roundHalfEven (q / 2 ^ e) : ℚ) * 2 ^ e
    if maxFinite < |v| then inf (decide (q < 0)) else fin v

/-- The value is one that a `float` can hold. -/
def IsFloat : F32 → Prop
  | fin q => round q = fin q
  | _ => True

instance (x : F32) : Decidable (IsFloat x) := by
  cases x <;> unfold IsFloat <;> infer_instance

/-- Conversion `(float)n` of an integer. -/
def ofInt (n : Int) : F32 := round n

/-- Binary32 addition. -/
def add : F32 → F32 → F32
  | fin a, fin b => round (a + b)
  | fin _, inf s => inf s
  | inf s, fin _ => inf s
  | inf s, inf t => if s = t then inf s else nan
  | _, _ => nan

/-- Binary32 multiplication. -/
def mul : F32 → F32 → F32
  | fin a, fin b => round (a * b)
  | fin a, inf s => if a = 0 then nan else inf (xor s (decide (a < 0)))
  | inf s, fin a => if a = 0 then nan else inf (xor s (decide (a < 0)))
  | inf s, inf t => inf (xor s t)
  | _, _ => nan

/-- Binary32 division (a zero divisor is taken as `+0`). -/
def div : F32 → F32 → F32
  | fin a, fin b =>
    if b = 0 then (if a = 0 then nan else inf (decide (a < 0)))
    else round (a / b)
  | fin _, inf _ => fin 0
  | inf s, fin b => inf (xor s (decide (b < 0)))
  | _, _ => nan

/-- The comparison `x<y` on `float`; false when either side is NaN. -/
def lt : F32 → F32 → Bool
  | fin a, fin b => decide (a < b)
  | fin _, inf s => !s
  | inf s, fin _ => s
  | inf s, inf t => s && !t
  | _, _ => false

/-- The comparison `x<=y` on `float`; false when either side is NaN. -/
def le : F32 → F32 → Bool
  | fin a, fin b => decide (a ≤ b)
  | fin _, inf s => !s
  | inf s, fin _ => s
  | inf s, inf t => s || !t
  | _, _ => false

end F32

/-! ## Float helpers of GenRNG, genUtil.cpp 59-74 -/

/-- `GenRNG::randFloat()`: `(float)(next()>>8)/(float)(1<<24)`. -/
def GenRNG.randFloat (g : GenRNG) : F32 × GenRNG :=
  let r := g.next
  (F32.div (F32.ofInt ((r.1 >>> 8 : Nat) : Int)) (F32.ofInt (1 <<< 24 : Nat)), r.2)

/-- The first loop of `weightedPick`: `total+=weights[i]` over the array. -/
def sumWeights : List F32 → F32 → F32
  | [], total => total
  | w :: ws, total => sumWeights ws (F32.add total w)

/-- The second loop of `weightedPick` from index `i` on: `accum+=weights[i]; if (r<accum)
return i;`. The result is `none` when the loop ends without returning. -/
def pickLoop : List F32 → F32 → F32 → Int → Option Int
  | [], _, _, _ => none
  | w :: ws, r, accum, i =>
    let accum := F32.add accum w
    if F32.lt r accum then some i else pickLoop ws r accum (i + 1)

/-- `GenRNG::weightedPick(weights,count)`. The pair of the pointer and `count` is the list
of the `count` floats it addresses. -/
def GenRNG.weightedPick (g : GenRNG) (weights : List F32) : Int × GenRNG :=
  let count : Int := weights.length
  let total := sumWeights weights (F32.fin 0)
  if F32.le total (F32.fin 0) then (0, g)
  else
    let rf := g.randFloat
    let r := F32.mul rf.1 total
    match pickLoop weights r (F32.fin 0) 0 with
    | some i => (i, rf.2)
    | none => (toI32 (count - 1), rf.2)

/-! ## Patch generator, patchGen.cpp 24-107 and styleEngine.h 24-72 -/

/-- Conversion `(unsigned char)x` of an `int`. -/
def toU8 (x : Int) : Nat := (x % 256).toNat

/-- `struct OperatorConstraints`. -/
structure OperatorConstraints where
  tlMin : Int := 0
  tlMax : Int := 127
  arMin : Int := 0
  arMax : Int := 31
  drMin : Int := 0
  drMax : Int := 31
  slMin : Int := 0
  slMax : Int := 15
  rrMin : Int := 0
  rrMax : Int := 15
  multMin : Int := 0
  multMax : Int := 15
  dtMin : Int := 0
  dtMax : Int := 7
  d2rMin : Int := 0
  d2rMax : Int := 31
  rsMin : Int := 0
  rsMax : Int := 3
  amMin : Int := 0
  amMax : Int := 1
deriving DecidableEq

/-- `struct PatchRoleConstraints`; `ops` stands for the array `ops[4]`. -/
structure PatchRoleConstraints where
  algorithms : List Int := []
  feedbackMin : Int := 0
  feedbackMax : Int := 7
  ops : List OperatorConstraints := [{}, {}, {}, {}]
deriving DecidableEq

/-- `patchRoleName(role)`, styleEngine.cpp 23-34. -/
def patchRoleName (role : Int) : String :=
  if role = 0 then "Lead"
  else if role = 1 then "Bass"
  else if role = 2 then "Pad"
  else if role = 3 then "Rhythm"
  else if role = 4 then "SFX"
  else if role = 5 then "Slap Bass"
  else if role = 6 then "Dist. Guitar"
  else "Unknown"

/-- Modelled from the spec: the fields of the engine type `DivInstrumentFM::Operator`
(`engine/instrument.h`) that the patch generator assigns; each is an `unsigned char`
holding one of the ten FM operator parameters, `enable` is a `bool`. -/
structure FMOperator where
  tl : Nat
  ar : Nat
  dr : Nat
  sl : Nat
  rr : Nat
  mult : Nat
  dt : Nat
  d2r : Nat
  rs : Nat
  am : Nat
  enable : Bool
deriving DecidableEq

/-- Modelled from the spec: the fields of the engine type `DivInstrument`
(`engine/instrument.h`) that the patch generator reads or assigns: the flag
`type==DIV_INS_FM`, the name, and of `fm` the algorithm, the feedback, the operator
count and the operators `op[0..3]`. -/
structure DivInstrument where
  isFM : Bool
  name : String
  alg : Nat
  fb : Nat
  ops : Nat
  op : List FMOperator
deriving DecidableEq

/-- `PatchGenerator::applyOperatorConstraints(op,c)`. -/
def applyOperatorConstraints (g : GenRNG) (op : FMOperator) (c : OperatorConstraints) :
    Option (FMOperator × GenRNG) := do
  let (tl, g) ← g.randInt c.tlMin c.tlMax
  let (ar, g) ← g.randInt c.arMin c.arMax
  let (dr, g) ← g.randInt c.drMin c.drMax
  let (sl, g) ← g.randInt c.slMin c.slMax
  let (rr, g) ← g.randInt c.rrMin c.rrMax
  let (mult, g) ← g.randInt c.multMin c.multMax
  let (dt, g) ← g.randInt c.dtMin c.dtMax
  let (d2r, g) ← g.randInt c.d2rMin c.d2rMax
  let (rs, g) ← g.randInt c.rsMin c.rsMax
  let (am, g) ← g.randInt c.amMin c.amMax
  pure ({ op with tl := toU8 tl, ar := toU8 ar, dr := toU8 dr, sl := toU8 sl, rr := toU8 rr,
                  mult := toU8 mult, dt := toU8 dt, d2r := toU8 d2r, rs := toU8 rs,
                  am := toU8 am, enable := true }, g)

/-- The loop `for (int i=0; i<4; i++) applyOperatorConstraints(ins.fm.op[i],constraints.ops[i])`
from index `i` on, `n` iterations left. -/
def generateOps : Nat → Nat → GenRNG → List FMOperator → List OperatorConstraints →
    Option (List FMOperator × GenRNG)
  | 0, _, g, ops, _ => some (ops, g)
  | n + 1, i, g, ops, cs =>
    match ops[i]?, cs[i]? with
    | some op, some c =>
      (applyOperatorConstraints g op c).bind
        (fun p => generateOps n (i + 1) p.2 (ops.set i p.1) cs)
    | _, _ => none

/-- `PatchGenerator::generate(role,constraints)`. The generator object is its `rng`;
`ins0` is the default-constructed `DivInstrument ins`. -/
def PatchGenerator.generate (g : GenRNG) (ins0 : DivInstrument) (role : Int)
    (constraints : PatchRoleConstraints) : Option (DivInstrument × GenRNG) := do
  let ins := { ins0 with isFM := true, ops := 4 }
  let (alg, g) ←
    if !constraints.algorithms.isEmpty then g.pick constraints.algorithms
    else g.randInt 0 7
  let ins := { ins with alg := toU8 alg }
  let (fb, g) ← g.randInt constraints.feedbackMin constraints.feedbackMax
  let ins := { ins with fb := toU8 fb }
  let (ops, g) ← generateOps 4 0 g ins.op constraints.ops
  let ins := { ins with op := ops }
  pure ({ ins with name := "Gen " ++ patchRoleName role }, g)

/-- `PatchGenerator::setSeed(seed)` and `PatternGenerator::setSeed(seed)`: `rng.seed(seed)`. -/
def setSeed (g : GenRNG) (seed : Nat) : GenRNG := g.seed seed

/-- One pass of the loop of `PatchGenerator::mutate`: `target=rng.randInt(0,5)` selects the
algorithm, the feedback or (default branch) one of eight parameters of a random operator. -/
def mutateStep (constraints : PatchRoleConstraints) (g : GenRNG) (ins : DivInstrument) :
    Option (DivInstrument × GenRNG) := do
  let (target, g) ← g.randInt 0 5
  if target = 0 then
    if !constraints.algorithms.isEmpty then
      let (alg, g) ← g.pick constraints.algorithms
      pure ({ ins with alg := toU8 alg }, g)
    else pure (ins, g)
  else if target = 1 then
    let (fb, g) ← g.randInt constraints.feedbackMin constraints.feedbackMax
    pure ({ ins with fb := toU8 fb }, g)
  else
    let (opIdx, g) ← g.randInt 0 3
    if opIdx < 0 then none
    else
      let c ← constraints.ops[opIdx.toNat]?
      let op ← ins.op[opIdx.toNat]?
      let (param, g) ← g.randInt 0 7
      if param = 0 then
        let (v, g) ← g.randInt c.tlMin c.tlMax
        pure ({ ins with op := ins.op.set opIdx.toNat { op with tl := toU8 v } }, g)
      else if param = 1 then
        let (v, g) ← g.randInt c.arMin c.arMax
        pure ({ ins with op := ins.op.set opIdx.toNat { op with ar := toU8 v } }, g)
      else if param = 2 then
        let (v, g) ← g.randInt c.drMin c.drMax
        pure ({ ins with op := ins.op.set opIdx.toNat { op with dr := toU8 v } }, g)
      else if param = 3 then
        let (v, g) ← g.randInt c.slMin c.slMax
        pure ({ ins with op := ins.op.set opIdx.toNat { op with sl := toU8 v } }, g)
      else if param = 4 then
        let (v, g) ← g.randInt c.rrMin c.rrMax
        pure ({ ins with op := ins.op.set opIdx.toNat { op with rr := toU8 v } }, g)
      else if param = 5 then
        let (v, g) ← g.randInt c.multMin c.multMax
        pure ({ ins with op := ins.op.set opIdx.toNat { op with mult := toU8 v } }, g)
      else if param = 6 then
        let (v, g) ← g.randInt c.dtMin c.dtMax
        pure ({ ins with op := ins.op.set opIdx.toNat { op with dt := toU8 v } }, g)
      else if param = 7 then
        let (v, g) ← g.randInt c.d2rMin c.d2rMax
        pure ({ ins with op := ins.op.set opIdx.toNat { op with d2r := toU8 v } }, g)
      else pure (ins, g)

/-- The loop `for (int m=0; m<mutations; m++)` of `PatchGenerator::mutate`, `n` passes
left. -/
def mutateLoop (constraints : PatchRoleConstraints) :
    Nat → GenRNG → DivInstrument → Option (DivInstrument × GenRNG)
  | 0, g, ins => some (ins, g)
  | n + 1, g, ins =>
    (mutateStep constraints g ins).bind (fun p => mutateLoop constraints n p.2 p.1)

/-- `PatchGenerator::mutate(source,role,constraints,mutations)`. -/
def PatchGenerator.mutate (g : GenRNG) (source : DivInstrument) (role : Int)
    (constraints : PatchRoleConstraints) (mutations : Int) : Option (DivInstrument × GenRNG) :=
  mutateLoop constraints mutations.toNat g source

/-- The ten `(min,max)` pairs of an `OperatorConstraints` satisfy `0 <= min <= max <= 255`. -/
def OperatorConstraints.Ordered (c : OperatorConstraints) : Prop :=
  (0 ≤ c.tlMin ∧ c.tlMin ≤ c.tlMax ∧ c.tlMax ≤ 255) ∧
  (0 ≤ c.arMin ∧ c.arMin ≤ c.arMax ∧ c.arMax ≤ 255) ∧
  (0 ≤ c.drMin ∧ c.drMin ≤ c.drMax ∧ c.drMax ≤ 255) ∧
  (0 ≤ c.slMin ∧ c.slMin ≤ c.slMax ∧ c.slMax ≤ 255) ∧
  (0 ≤ c.rrMin ∧ c.rrMin ≤ c.rrMax ∧ c.rrMax ≤ 255) ∧
  (0 ≤ c.multMin ∧ c.multMin ≤ c.multMax ∧ c.multMax ≤ 255) ∧
  (0 ≤ c.dtMin ∧ c.dtMin ≤ c.dtMax ∧ c.dtMax ≤ 255) ∧
  (0 ≤ c.d2rMin ∧ c.d2rMin ≤ c.d2rMax ∧ c.d2rMax ≤ 255) ∧
  (0 ≤ c.rsMin ∧ c.rsMin ≤ c.rsMax ∧ c.rsMax ≤ 255) ∧
  (0 ≤ c.amMin ∧ c.amMin ≤ c.amMax ∧ c.amMax ≤ 255)

instance (c : OperatorConstraints) : Decidable c.Ordered := by
  unfold OperatorConstraints.Ordered
  infer_instance

/-- A `PatchRoleConstraints` whose array `ops` has its four entries, whose algorithm vector
has a size that is an `int`, and in which every pair satisfies `0 <= min <= max <= 255`. -/
def PatchRoleConstraints.Ordered (c : PatchRoleConstraints) : Prop :=
  (0 ≤ c.feedbackMin ∧ c.feedbackMin ≤ c.feedbackMax ∧ c.feedbackMax ≤ 255) ∧
  c.ops.length = 4 ∧ (c.algorithms.length : Int) ≤ 2147483647 ∧
  ∀ oc ∈ c.ops, oc.Ordered

instance (c : PatchRoleConstraints) : Decidable c.Ordered := by
  unfold PatchRoleConstraints.Ordered
  infer_instance

/-- Every generated parameter of the operator lies in its `[min,max]`. -/
def FMOperator.Within (op : FMOperator) (c : OperatorConstraints) : Prop :=
  (c.tlMin ≤ op.tl ∧ (op.tl : Int) ≤ c.tlMax) ∧
  (c.arMin ≤ op.ar ∧ (op.ar : Int) ≤ c.arMax) ∧
  (c.drMin ≤ op.dr ∧ (op.dr : Int) ≤ c.drMax) ∧
  (c.slMin ≤ op.sl ∧ (op.sl : Int) ≤ c.slMax) ∧
  (c.rrMin ≤ op.rr ∧ (op.rr : Int) ≤ c.rrMax) ∧
  (c.multMin ≤ op.mult ∧ (op.mult : Int) ≤ c.multMax) ∧
  (c.dtMin ≤ op.dt ∧ (op.dt : Int) ≤ c.dtMax) ∧
  (c.d2rMin ≤ op.d2r ∧ (op.d2r : Int) ≤ c.d2rMax) ∧
  (c.rsMin ≤ op.rs ∧ (op.rs : Int) ≤ c.rsMax) ∧
  (c.amMin ≤ op.am ∧ (op.am : Int) ≤ c.amMax)

/-- The relation of a mutated operator to the source operator: each of the eight mutable
parameters is the source's or lies in its `[min,max]`; `rs`, `am` and `enable` are the
source's. -/
def FMOperator.MutatedFrom (op src : FMOperator) (c : OperatorConstraints) : Prop :=
  (op.tl = src.tl ∨ (c.tlMin ≤ op.tl ∧ (op.tl : Int) ≤ c.tlMax)) ∧
  (op.ar = src.ar ∨ (c.arMin ≤ op.ar ∧ (op.ar : Int) ≤ c.arMax)) ∧
  (op.dr = src.dr ∨ (c.drMin ≤ op.dr ∧ (op.dr : Int) ≤ c.drMax)) ∧
  (op.sl = src.sl ∨ (c.slMin ≤ op.sl ∧ (op.sl : Int) ≤ c.slMax)) ∧
  (op.rr = src.rr ∨ (c.rrMin ≤ op.rr ∧ (op.rr : Int) ≤ c.rrMax)) ∧
  (op.mult = src.mult ∨ (c.multMin ≤ op.mult ∧ (op.mult : Int) ≤ c.multMax)) ∧
  (op.dt = src.dt ∨ (c.dtMin ≤ op.dt ∧ (op.dt : Int) ≤ c.dtMax)) ∧
  (op.d2r = src.d2r ∨ (c.d2rMin ≤ op.d2r ∧ (op.d2r : Int) ≤ c.d2rMax)) ∧
  op.rs = src.rs ∧ op.am = src.am ∧ op.enable = src.enable

/-- The relation of a mutated patch to its source: operator count, type and name are the
source's, the feedback is the source's or in its range, the algorithm is the source's or an
entry of the allowed list converted to `unsigned char`, and every operator is
`MutatedFrom` the source's. -/
def DivInstrument.MutatedFrom (ins src : DivInstrument) (c : PatchRoleConstraints) : Prop :=
  ins.ops = src.ops ∧ ins.isFM = src.isFM ∧ ins.name = src.name ∧
  (ins.fb = src.fb ∨ (c.feedbackMin ≤ ins.fb ∧ (ins.fb : Int) ≤ c.feedbackMax)) ∧
  (ins.alg = src.alg ∨ ∃ a ∈ c.algorithms, ins.alg = toU8 a) ∧
  ins.op.length = src.op.length ∧
  ∀ (i : Nat) (op sop : FMOperator) (oc : OperatorConstraints),
    ins.op[i]? = some op → src.op[i]? = some sop → c.ops[i]? = some oc →
    op.MutatedFrom sop oc

/-- `PatternGenerator::computeBarCount(patternLength,rowsPerBar)`; the divisor is positive,
and the quotient is not larger in magnitude than `patternLength`. -/
def computeBarCount (patternLength rowsPerBar : Int) : Int :=
  let rowsPerBar := if rowsPerBar ≤ 0 then 16 else rowsPerBar
  let bars := Int.tdiv patternLength rowsPerBar
  genClamp bars 1 16

/-! ## Pattern generator: data, patternGen.h 28-152 and styleEngine.h 74-110

Enumerators are their `int` values: `PatchRole` is `ROLE_LEAD=0`, `ROLE_BASS=1`,
`ROLE_PAD=2`, `ROLE_RHYTHM=3`, `ROLE_SFX=4`, `ROLE_SLAP_BASS=5`, `ROLE_DIST_GUITAR=6`;
`GenContour` is `ARCH=0`, `INV_ARCH=1`, `ASCENDING=2`, `DESCENDING=3`, `FLAT=4`, `RANDOM=5`;
`GenPhraseForm` is `AABA=0`, `ABAB=1`, `AAAB=2`, `ABAC=3`, `RANDOM=4`; `GenGrooveType` is
`STRAIGHT=0`, `SHUFFLE=1`, `FUNK=2`, `DRIVING=3`, `HALFTIME=4`. -/

/-- An evaluation with undefined behaviour that stops the run of the pattern generator. -/
inductive Fault where
  /-- Integer division or modulo by zero. -/
  | divByZero
  /-- Index outside one of the fixed-size arrays of a motif, groove, phrase or table. -/
  | arrayIndex
  /-- Access to `newData[row]` with `row` outside `[0, DIV_MAX_ROWS)`. -/
  | gridIndex (row : Int)
  /-- Conversion to `int` of a `float` whose truncation is not an `int`. -/
  | floatToInt
  /-- Loop that does not terminate. -/
  | diverges
deriving DecidableEq, Repr

/-- A result of `Option` type read as a run: `none` becomes the fault `f`. -/
def orFault {α : Type} (f : Fault) : Option α → Except Fault α
  | some a => .ok a
  | none => .error f

/-- Conversion `(short)x` of an `int`. -/
def toI16 (x : Int) : Int := (x + 32768) % 65536 - 32768

/-- The `int` sum `a+b`. -/
def iadd (a b : Int) : Int := toI32 (a + b)

/-- The `int` difference `a-b`. -/
def isub (a b : Int) : Int := toI32 (a - b)

/-- The `int` product `a*b`. -/
def imul (a b : Int) : Int := toI32 (a * b)

/-- The `int` quotient `a/b` (truncated); a fault when `b` is zero. -/
def idiv (a b : Int) : Except Fault Int :=
  if b = 0 then .error .divByZero else .ok (toI32 (Int.tdiv a b))

/-- The `int` remainder `a%b` (sign of the dividend); a fault when `b` is zero. -/
def imod (a b : Int) : Except Fault Int :=
  if b = 0 then .error .divByZero else .ok (Int.tmod a b)

/-- The call `abs(x)` on `int`. -/
def iabs (x : Int) : Int := toI32 |x|

/-- Binary32 subtraction. -/
def F32.sub : F32 → F32 → F32
  | .fin a, .fin b => F32.round (a - b)
  | .fin _, .inf s => .inf (!s)
  | .inf s, .fin _ => .inf s
  | .inf s, .inf t => if s = t then .nan else .inf s
  | _, _ => .nan

/-- Conversion `(int)x` of a `float`: truncation toward zero; `none` when the value is not
finite or its truncation is not an `int`. -/
def F32.toInt : F32 → Option Int
  | .fin q =>
    let t : Int := if 0 ≤ q then ⌊q⌋ else -⌊-q⌋
    if InI32 t then some t else none
  | _ => none

/-- `GenRNG::randInt` as a run of the pattern generator. -/
def randIntE (g : GenRNG) (min max : Int) : Except Fault (Int × GenRNG) :=
  orFault .divByZero (g.randInt min max)

/-- The loop `for (i=start; cond(i); i+=step) body`, with the variables the body assigns
gathered in the state `s`; `continue` is a body that returns its state. The loop runs at
most `fuel` iterations and is a fault when the condition still holds after them. -/
def forLoop {σ : Type} (cond : Int → σ → Bool) (step : Int)
    (body : Int → σ → Except Fault σ) : Nat → Int → σ → Except Fault σ
  | 0, i, s => if cond i s then .error .diverges else .ok s
  | n + 1, i, s =>
    if cond i s then (body i s).bind (fun s1 => forLoop cond step body n (i + step) s1)
    else .ok s

/-- `struct MotifNote` with its constructor's values. -/
structure MotifNote where
  relativeDegree : Int := 0
  rowOffset : Int := 0
  duration : Int := 0
  velOffset : Int := 0
  isRest : Bool := false
deriving DecidableEq, Repr

/-- `struct Motif` with its constructor's values; `notes` stands for the array `notes[8]`. -/
structure Motif where
  notes : List MotifNote := List.replicate 8 {}
  noteCount : Int := 0
  lengthInRows : Int := 16
deriving DecidableEq, Repr

/-- Read of `m.notes[k]`. -/
def Motif.getNote (m : Motif) (k : Int) : Except Fault MotifNote :=
  if k < 0 ∨ k ≥ 8 then .error .arrayIndex
  else orFault .arrayIndex m.notes[k.toNat]?

/-- Assignment to fields of `m.notes[k]`: the note becomes `f` of its former value. -/
def Motif.modifyNote (m : Motif) (k : Int) (f : MotifNote → MotifNote) : Except Fault Motif :=
  (m.getNote k).map (fun n => { m with notes := m.notes.set k.toNat (f n) })

/-- `struct GrooveTemplate` with its constructor's values; `velocity` stands for the array
`velocity[16]`. -/
structure GrooveTemplate where
  velocity : List Int :=
    [0x7F, 0x68, 0x68, 0x68, 0x70, 0x68, 0x68, 0x68, 0x74, 0x68, 0x68, 0x68, 0x70, 0x68, 0x68,
     0x68]
deriving DecidableEq, Repr

/-- `struct BarChord` with its constructor's values; `chordTones` stands for the array
`chordTones[4]`. -/
structure BarChord where
  rootDegree : Int := 0
  chordTones : List Int := [0, 2, 4, 6]
  chordToneCount : Int := 3
deriving DecidableEq, Repr

/-- `struct MotifPlacement` with its constructor's values. -/
structure MotifPlacement where
  motifIndex : Int := 0
  barIndex : Int := 0
  transposeDegrees : Int := 0
  invertContour : Bool := false
deriving DecidableEq, Repr

/-- `struct Phrase` with its constructor's values; `placements` stands for the array
`placements[16]`. -/
structure Phrase where
  placements : List MotifPlacement := List.replicate 16 {}
  placementCount : Int := 0
  totalBars : Int := 4
deriving DecidableEq, Repr

/-- `struct GenPatternParams` with its constructor's values. -/
structure GenPatternParams where
  channel : Int := 0
  insIndex : Int := 0
  role : Int := 0
  scaleRoot : Int := 9
  scaleType : Int := 0
  density : Int := 60
  complexity : Int := 50
  octaveMin : Int := 3
  octaveMax : Int := 5
  patternLength : Int := 64
  allowEffects : Bool := true
  rowsPerBeat : Int := 4
  rowsPerBar : Int := 16
  grooveType : Int := 0
  phraseForm : Int := 4
  contourHint : Int := 5
  motifLengthHint : Int := 0
  articulationGap : Int := 0
  chordToneEmphasis : F32 := F32.round (7 / 10)

/-- `struct StylePreset` with its constructor's values; `roles` and `roleMotifLength` stand
for the arrays indexed by role. -/
structure StylePreset where
  name : String := "Custom"
  tempoMin : Int := 100
  tempoMax : Int := 200
  preferredScales : List Int := []
  roles : List PatchRoleConstraints := List.replicate 7 {}
  rhythmDensity : F32 := F32.fin (1 / 2)
  syncopation : F32 := F32.round (3 / 10)
  chromaticism : F32 := F32.round (2 / 10)
  preferFastArpeggios : Bool := false
  use16thSubdivisions : Bool := false
  defaultGroove : Int := 0
  defaultPhraseForm : Int := 4
  chordToneEmphasis : F32 := F32.round (7 / 10)
  roleMotifLength : List Int := List.replicate 7 0

/-- Modelled from the spec: one row of the engine's grid (`DivPattern::newData[row]`,
`engine/pattern.h`), with the named columns the generator addresses: `DIV_PAT_NOTE`,
`DIV_PAT_INS`, `DIV_PAT_VOL`, `DIV_PAT_FX(0)` and `DIV_PAT_FXVAL(0)`. Each cell is a
`short`; `-1` is the empty cell. -/
structure PatRow where
  note : Int
  ins : Int
  vol : Int
  fx : Int
  fxVal : Int
deriving DecidableEq, Repr

/-- Modelled from the spec: the engine type `DivPattern` as its grid `newData`, addressed
by row. Rows outside `[0, DIV_MAX_ROWS)` are not part of the array: the accessors below
fault on them. -/
structure DivPattern where
  newData : Int → PatRow

/-- Read of `pat->newData[row][DIV_PAT_NOTE]`, with `maxRows` the engine constant
`DIV_MAX_ROWS`. -/
def DivPattern.readNote (maxRows : Int) (pat : DivPattern) (row : Int) : Except Fault Int :=
  if 0 ≤ row ∧ row < maxRows then .ok (pat.newData row).note else .error (.gridIndex row)

/-- Assignment to cells of `pat->newData[row]`: the row becomes `f` of its former value. -/
def DivPattern.modifyRow (maxRows : Int) (pat : DivPattern) (row : Int)
    (f : PatRow → PatRow) : Except Fault DivPattern :=
  if 0 ≤ row ∧ row < maxRows then
    .ok { newData := fun r => if r = row then f (pat.newData r) else pat.newData r }
  else .error (.gridIndex row)

/-! ## Pattern generator: pipeline infrastructure, patternGen.cpp 31-240 -/

/-- The loop of `BarChord::isChordTone` from index `i` on. -/
def isChordToneLoop (c : BarChord) (sd scaleLen : Int) : Nat → Nat → Except Fault Bool
  | 0, i => if (i : Int) < c.chordToneCount then .error .diverges else .ok false
  | n + 1, i =>
    if (i : Int) < c.chordToneCount then
      (orFault .arrayIndex c.chordTones[i]?).bind (fun t =>
        let ct := Int.tmod (iadd (Int.tmod (iadd c.rootDegree t) scaleLen) scaleLen) scaleLen
        if sd = ct then .ok true else isChordToneLoop c sd scaleLen n (i + 1))
    else .ok false

/-- `BarChord::isChordTone(scaleDegree,scaleLen)`. -/
def BarChord.isChordTone (c : BarChord) (scaleDegree scaleLen : Int) : Except Fault Bool :=
  let scaleLen := if scaleLen ≤ 0 then 7 else scaleLen
  let sd := Int.tmod (iadd (Int.tmod scaleDegree scaleLen) scaleLen) scaleLen
  isChordToneLoop c sd scaleLen c.chordToneCount.toNat 0

/-- The table `minorProgs`. -/
def minorProgs : List (List Int) :=
  [[0, 3, 4, 0], [0, 5, 2, 6], [0, 3, 6, 2], [0, 4, 5, 4], [0, 3, 4, 3]]

/-- The table `majorProgs`. -/
def majorProgs : List (List Int) :=
  [[0, 3, 4, 0], [0, 5, 3, 4], [0, 2, 5, 1], [0, 3, 1, 4], [0, 4, 3, 4]]

/-- The weight `weights[i]` of `generateChordProgression`:
`1.0f-(float)i*(1.0f-cf)*0.25f`, raised to `0.1f` when below it. -/
def progWeight (cf : F32) (i : Int) : F32 :=
  let w := F32.sub (F32.fin 1)
    (F32.mul (F32.mul (F32.ofInt i) (F32.sub (F32.fin 1) cf)) (F32.fin (1 / 4)))
  if F32.lt w (F32.round (1 / 10)) then F32.round (1 / 10) else w

/-- Read of `progs[progIdx][k]`. -/
def progAt (progs : List (List Int)) (progIdx : Int) (k : Int) : Except Fault Int :=
  if progIdx < 0 ∨ k < 0 then .error .arrayIndex
  else (orFault .arrayIndex progs[progIdx.toNat]?).bind
    (fun row => orFault .arrayIndex row[k.toNat]?)

/-- The body of the loop over the bars of `generateChordProgression` at bar `b`. -/
def chordStep (progs : List (List Int)) (progIdx : Int) (cf : F32) (b : Int)
    (s : List BarChord × GenRNG) : Except Fault (List BarChord × GenRNG) :=
  (progAt progs progIdx (Int.tmod b 4)).bind (fun chordRoot =>
    if b < 0 ∨ b.toNat ≥ s.1.length then .error .arrayIndex
    else
      let rf := s.2.randFloat
      let seventh := F32.lt (F32.round (6 / 10)) cf &&
        F32.lt rf.1 (F32.mul cf (F32.round (4 / 10)))
      let g := if F32.lt (F32.round (6 / 10)) cf then rf.2 else s.2
      .ok (s.1.set b.toNat
        { rootDegree := chordRoot, chordTones := [0, 2, 4, 6],
          chordToneCount := if seventh then 4 else 3 }, g))

/-- `PatternGenerator::generateChordProgression(chords,barCount,scaleType,complexity)`:
the array `chords[16]` and the generator after the call. -/
def generateChordProgression (g : GenRNG) (chords : List BarChord) (barCount : Int)
    (scaleType : Int) (complexity : Int) : Except Fault (List BarChord × GenRNG) :=
  let progs := if genIsMinorFamily scaleType then minorProgs else majorProgs
  let cf := F32.div (F32.ofInt complexity) (F32.fin 100)
  let weights := (List.range 5).map (fun i : Nat => progWeight cf (i : Int))
  let wp := g.weightedPick weights
  forLoop (fun b _ => decide (b < barCount)) 1 (chordStep progs wp.1 cf) barCount.toNat 0
    (chords, wp.2)

/-- `PatternGenerator::buildGrooveTemplate(type)`. -/
def buildGrooveTemplate (type : Int) : GrooveTemplate :=
  if type = 0 then
    { velocity := [0x7F, 0x50, 0x58, 0x48, 0x6C, 0x50, 0x58, 0x48, 0x74, 0x50, 0x58, 0x48,
                   0x6C, 0x50, 0x58, 0x48] }
  else if type = 1 then
    { velocity := [0x7F, 0x40, 0x68, 0x38, 0x6C, 0x40, 0x68, 0x38, 0x74, 0x40, 0x68, 0x38,
                   0x6C, 0x40, 0x68, 0x38] }
  else if type = 2 then
    { velocity := [0x7F, 0x30, 0x58, 0x30, 0x60, 0x30, 0x6A, 0x30, 0x70, 0x30, 0x58, 0x30,
                   0x60, 0x30, 0x6A, 0x30] }
  else if type = 3 then
    { velocity := [0x7F, 0x55, 0x60, 0x55, 0x70, 0x55, 0x60, 0x55, 0x7A, 0x55, 0x60, 0x55,
                   0x70, 0x55, 0x60, 0x55] }
  else if type = 4 then
    { velocity := [0x7F, 0x48, 0x50, 0x48, 0x58, 0x48, 0x50, 0x48, 0x78, 0x48, 0x50, 0x48,
                   0x58, 0x48, 0x50, 0x48] }
  else {}

/-- The table `formMap`. -/
def formMap : List (List Int) :=
  [[0, 0, 1, 0], [0, 1, 0, 1], [0, 0, 0, 1], [0, 1, 0, -1]]

/-- The body of the loop of `buildPhrase` at bar `b`. -/
def phraseStep (formIdx motifCount : Int) (b : Int) (s : Phrase × GenRNG) :
    Except Fault (Phrase × GenRNG) := do
  let mapVal ← progAt formMap formIdx (Int.tmod b 4)
  let motifIndex ← (if mapVal = -1 then pure 0 else imod mapVal motifCount)
  let transpose : Int := if mapVal = -1 then 2 else 0
  let tg ←
    (if b ≥ 4 then
      (randIntE s.2 (-1) 2).map
        (fun p => (iadd transpose (imul (Int.tdiv b 4) p.1), p.2))
    else pure (transpose, s.2))
  let mp : MotifPlacement :=
    { motifIndex := motifIndex, barIndex := b, transposeDegrees := tg.1,
      invertContour := false }
  if s.1.placementCount < 0 ∨ s.1.placementCount.toNat ≥ s.1.placements.length then
    .error .arrayIndex
  else
    pure ({ s.1 with placements := s.1.placements.set s.1.placementCount.toNat mp,
                     placementCount := iadd s.1.placementCount 1 }, tg.2)

/-- `PatternGenerator::buildPhrase(form,barCount,motifCount)`. -/
def buildPhrase (g : GenRNG) (form barCount motifCount : Int) :
    Except Fault (Phrase × GenRNG) := do
  let ph : Phrase := { totalBars := barCount }
  let fg ← (if form = 4 then randIntE g 0 3 else pure (form, g))
  let formIdx : Int := if fg.1 < 0 ∨ fg.1 > 3 then 0 else fg.1
  forLoop (fun b s => decide (b < barCount) && decide (s.1.placementCount < 16)) 1
    (phraseStep formIdx motifCount) 16 0 ({ ph with placementCount := 0 }, fg.2)

/-- The value `contourOffset` of `applyMelodicContour` for the note at index `i`, with
`sinf` the C library function. -/
def contourOffset (sinf : F32 → F32) (g : GenRNG) (contour : Int) (amplitude : Int)
    (noteCount : Int) (i : Int) : Except Fault (Int × GenRNG) :=
  let position := F32.div (F32.ofInt i) (F32.ofInt (isub noteCount 1))
  if contour = 0 then
    (orFault .floatToInt
      (F32.toInt (F32.mul (sinf (F32.mul (F32.round (314159 / 100000)) position))
        (F32.ofInt amplitude)))).map (fun v => (v, g))
  else if contour = 1 then
    (orFault .floatToInt
      (F32.toInt (F32.mul (sinf (F32.mul (F32.round (314159 / 100000)) position))
        (F32.ofInt amplitude)))).map (fun v => (toI32 (-v), g))
  else if contour = 2 then
    (orFault .floatToInt (F32.toInt (F32.mul position (F32.ofInt amplitude)))).map
      (fun v => (v, g))
  else if contour = 3 then
    (orFault .floatToInt
      (F32.toInt (F32.mul (F32.sub (F32.fin 1) position) (F32.ofInt amplitude)))).map
      (fun v => (v, g))
  else if contour = 4 then randIntE g (-1) 1
  else .ok (0, g)

/-- The body of the loop of `applyMelodicContour` at index `i`. -/
def contourStep (sinf : F32 → F32) (contour amplitude : Int) (i : Int) (s : Motif × GenRNG) :
    Except Fault (Motif × GenRNG) := do
  let mn ← s.1.getNote i
  if mn.isRest then pure s
  else
    let og ← contourOffset sinf s.2 contour amplitude s.1.noteCount i
    let m ← s.1.modifyNote i (fun n => { n with relativeDegree := iadd n.relativeDegree og.1 })
    pure (m, og.2)

/-- `PatternGenerator::applyMelodicContour(motif,contour,complexity,scaleLen)`: the motif
and the generator after the call. -/
def applyMelodicContour (sinf : F32 → F32) (g : GenRNG) (motif : Motif) (contour : Int)
    (complexity : Int) (scaleLen : Int) : Except Fault (Motif × GenRNG) :=
  if motif.noteCount < 2 then .ok (motif, g)
  else
    let cf := F32.div (F32.ofInt complexity) (F32.fin 100)
    (orFault .floatToInt (F32.toInt (F32.mul cf (F32.fin 5)))).bind (fun a =>
      forLoop (fun i s => decide (i < s.1.noteCount)) 1 (contourStep sinf contour (iadd 2 a))
        motif.noteCount.toNat 0 (motif, g))

/-- The inner loop `for (int oct=-1; oct<=1; oct++)` of `applyChordToneGravity` for the
chord degree `chordDegree`, acting on the pair `(bestDist, bestDegree)`. -/
def gravityOct (chordDegree scaleLen degree : Int) (oct : Int) (best : Int × Int) :
    Except Fault (Int × Int) :=
  let candidate := iadd chordDegree (imul oct scaleLen)
  let dist := iabs (isub candidate degree)
  if dist < best.1 then .ok (dist, candidate) else .ok best

/-- The loop `for (int ct=0; ct<chord.chordToneCount; ct++)` of `applyChordToneGravity`. -/
def gravityTone (chord : BarChord) (scaleLen degree : Int) (ct : Int) (best : Int × Int) :
    Except Fault (Int × Int) :=
  if ct < 0 then .error .arrayIndex
  else (orFault .arrayIndex chord.chordTones[ct.toNat]?).bind (fun t =>
    forLoop (fun oct _ => decide (oct ≤ 1)) 1 (gravityOct (iadd chord.rootDegree t) scaleLen
      degree) 3 (-1) best)

/-- The body of the loop of `applyChordToneGravity` at index `i`. -/
def gravityStep (chord : BarChord) (scaleLen rowsPerBeat : Int) (emphasis : F32) (i : Int)
    (s : Motif × GenRNG) : Except Fault (Motif × GenRNG) := do
  let mn ← s.1.getNote i
  if mn.isRest then pure s
  else
    let r ← imod mn.rowOffset rowsPerBeat
    if r = 0 then
      let rf := s.2.randFloat
      if F32.lt rf.1 emphasis then
        let degree := mn.relativeDegree
        let tone ← chord.isChordTone degree scaleLen
        if tone then pure (s.1, rf.2)
        else
          let best ← forLoop (fun ct _ => decide (ct < chord.chordToneCount)) 1
            (gravityTone chord scaleLen degree) chord.chordToneCount.toNat 0 (999, degree)
          let m ← s.1.modifyNote i (fun n => { n with relativeDegree := best.2 })
          pure (m, rf.2)
      else pure (s.1, rf.2)
    else pure s

/-- `PatternGenerator::applyChordToneGravity(motif,chord,scaleLen,rowsPerBeat,emphasis)`:
the motif and the generator after the call. -/
def applyChordToneGravity (g : GenRNG) (motif : Motif) (chord : BarChord)
    (scaleLen rowsPerBeat : Int) (emphasis : F32) : Except Fault (Motif × GenRNG) :=
  let scaleLen := if scaleLen ≤ 0 then 7 else scaleLen
  forLoop (fun i s => decide (i < s.1.noteCount)) 1
    (gravityStep chord scaleLen rowsPerBeat emphasis) motif.noteCount.toNat 0 (motif, g)

/-! ## Pattern generator: role motif generators, patternGen.cpp 246-542 -/

/-- The draw `(rng.randFloat()<0.5f)?a:b`. -/
def coin (g : GenRNG) (a b : Int) : Int × GenRNG :=
  let rf := g.randFloat
  (if F32.lt rf.1 (F32.fin (1 / 2)) then a else b, rf.2)

/-- The body of the loop over the candidates of the funk branch of `generateBassMotif`,
with `candidates` the scaled array. -/
def bassFunkStep (candidates : List Int) (df : F32) (rowsPerBar scaleLen : Int) (c : Int)
    (s : Motif × GenRNG) : Except Fault (Motif × GenRNG) :=
  let rf := s.2.randFloat
  if F32.lt rf.1 df then
    if c < 0 then .error .arrayIndex
    else (orFault .arrayIndex candidates[c.toNat]?).bind (fun cand =>
      let deg : Int := if Int.tmod c 2 = 0 then 0 else 4
      let rf2 := rf.2.randFloat
      let deg := if F32.lt rf2.1 (F32.round (2 / 10)) then isub deg scaleLen else deg
      (imod cand (Int.tdiv rowsPerBar 4)).bind (fun r =>
        (s.1.modifyNote s.1.noteCount (fun n =>
          { n with rowOffset := cand, relativeDegree := deg,
                   velOffset := if r ≠ 0 then -15 else 5 })).map
          (fun m => ({ m with noteCount := iadd m.noteCount 1 }, rf2.2))))
  else .ok (s.1, rf.2)

/-- `PatternGenerator::generateBassMotif(density,complexity,syncopation,rowsPerBar,scaleLen)`. -/
def generateBassMotif (g : GenRNG) (density complexity : Int) (syncopation : F32)
    (rowsPerBar scaleLen : Int) : Except Fault (Motif × GenRNG) := do
  let m : Motif := { lengthInRows := rowsPerBar }
  let cf := F32.div (F32.ofInt complexity) (F32.fin 100)
  if F32.lt cf (F32.round (34 / 100)) then
    let m := { m with noteCount := 2 }
    let m ← m.modifyNote 0 (fun n => { n with rowOffset := 0, relativeDegree := 0, velOffset := 10 })
    let fifthPos := Int.tdiv rowsPerBar 2
    let rf := g.randFloat
    let sync := F32.lt (F32.round (3 / 10)) syncopation && F32.lt rf.1 syncopation
    let g1 := if F32.lt (F32.round (3 / 10)) syncopation then rf.2 else g
    let cn := coin g1 (-1) 1
    let fifthPos := if sync then iadd fifthPos cn.1 else fifthPos
    let g2 := if sync then cn.2 else g1
    let m ← m.modifyNote 1
      (fun n => { n with rowOffset := fifthPos, relativeDegree := 4, velOffset := 0 })
    let rf3 := g2.randFloat
    if F32.lt (F32.fin (1 / 2)) syncopation then
      if F32.lt rf3.1 (F32.fin (1 / 2)) then
        let m ← m.modifyNote 2 (fun n =>
          { n with rowOffset := Int.tdiv (imul rowsPerBar 3) 4, relativeDegree := scaleLen,
                   velOffset := -5 })
        pure ({ m with noteCount := 3 }, rf3.2)
      else pure (m, rf3.2)
    else pure (m, g2)
  else if F32.lt cf (F32.round (67 / 100)) then
    let m := { m with noteCount := 4 }
    let beatStep := Int.tdiv rowsPerBar 4
    let m ← m.modifyNote 0 (fun n => { n with rowOffset := 0, relativeDegree := 0, velOffset := 8 })
    let m ← m.modifyNote 1
      (fun n => { n with rowOffset := beatStep, relativeDegree := 2, velOffset := 0 })
    let m ← m.modifyNote 2
      (fun n => { n with rowOffset := imul beatStep 2, relativeDegree := 4, velOffset := 0 })
    let approach := coin g (-1) (isub scaleLen 1)
    let m ← m.modifyNote 3
      (fun n => { n with rowOffset := imul beatStep 3, relativeDegree := approach.1,
                         velOffset := -3 })
    pure (m, approach.2)
  else
    let candidates : List Int :=
      [0, 3, 6, 8, 11, 14].map (fun c => Int.tdiv (imul c rowsPerBar) 16)
    let m := { m with noteCount := 0 }
    let df := F32.div (F32.ofInt density) (F32.fin 100)
    let s ← forLoop (fun c s => decide (c < 6) && decide (s.1.noteCount < 8)) 1
      (bassFunkStep candidates df rowsPerBar scaleLen) 6 0 (m, g)
    if s.1.noteCount < 2 then
      let m ← s.1.modifyNote 0
        (fun n => { n with rowOffset := 0, relativeDegree := 0, velOffset := 8 })
      let m ← m.modifyNote 1
        (fun n => { n with rowOffset := Int.tdiv rowsPerBar 2, relativeDegree := 4,
                           velOffset := 0 })
      pure ({ m with noteCount := 2 }, s.2)
    else pure s

/-- The body of the loop of the stepwise branch of `generateLeadMotif` at index `i`, acting
on the motif, the running degree `deg` and the generator. The operands of
`rng.randInt(1,2)*(rng.randFloat()<0.5f?1:-1)` are evaluated left to right. -/
def leadStepwiseStep (beatPositions : List Int) (syncopation : F32) (rowsPerBar : Int)
    (i : Int) (s : Motif × Int × GenRNG) : Except Fault (Motif × Int × GenRNG) := do
  if i < 0 then .error .arrayIndex
  else
    let pos ← orFault .arrayIndex beatPositions[(Int.tmod i 5).toNat]?
    let g := s.2.2
    let rf := g.randFloat
    let sync := F32.lt (F32.round (2 / 10)) syncopation && F32.lt rf.1 syncopation &&
      decide (i > 0)
    let g1 := if F32.lt (F32.round (2 / 10)) syncopation then rf.2 else g
    let cn := coin g1 (-1) 1
    let pos := if sync then genClamp (iadd pos cn.1) 0 (isub rowsPerBar 1) else pos
    let g2 := if sync then cn.2 else g1
    let dg ←
      (if i = Int.tdiv s.1.noteCount 2 then
        (randIntE g2 1 2).map (fun p =>
          let cs := coin p.2 1 (-1)
          (iadd s.2.1 (imul p.1 cs.1), cs.2))
      else
        let cs := coin g2 1 (-1)
        pure (iadd s.2.1 cs.1, cs.2))
    let m ← s.1.modifyNote i
      (fun n => { n with rowOffset := pos, relativeDegree := dg.1, velOffset := 0 })
    pure (m, dg.1, dg.2)

/-- The body of the first loop of the sequential branch of `generateLeadMotif`. -/
def leadSeqStepA (kernel : List Int) (step : Int) (i : Int) (m : Motif) : Except Fault Motif :=
  if i < 0 then .error .arrayIndex
  else (orFault .arrayIndex kernel[i.toNat]?).bind (fun k =>
    m.modifyNote i (fun n =>
      { n with rowOffset := imul i step, relativeDegree := k,
               velOffset := if i = 0 then 5 else 0 }))

/-- The body of the second loop of the sequential branch of `generateLeadMotif`. -/
def leadSeqStepB (kernel : List Int) (step halfBar : Int) (i : Int) (m : Motif) :
    Except Fault Motif :=
  if i < 0 then .error .arrayIndex
  else (orFault .arrayIndex kernel[i.toNat]?).bind (fun k =>
    m.modifyNote (iadd 3 i) (fun n =>
      { n with rowOffset := iadd halfBar (imul i step), relativeDegree := iadd k 2,
               velOffset := if i = 0 then 5 else 0 }))

/-- The body of the loop of the arpeggio branch of `generateLeadMotif`. -/
def leadArpStep (startPos rowsPerBar : Int) (i : Int) (m : Motif) : Except Fault Motif :=
  m.modifyNote i (fun n =>
    { n with rowOffset := if iadd startPos i ≥ rowsPerBar then isub rowsPerBar 1
                          else iadd startPos i,
             relativeDegree := i,
             velOffset := iadd (-5) (if i = 0 then 10 else 0) })

/-- `PatternGenerator::generateLeadMotif(density,complexity,syncopation,rowsPerBar,scaleLen)`. -/
def generateLeadMotif (g : GenRNG) (density complexity : Int) (syncopation : F32)
    (rowsPerBar scaleLen : Int) : Except Fault (Motif × GenRNG) := do
  let m : Motif := { lengthInRows := rowsPerBar }
  let cf := F32.div (F32.ofInt complexity) (F32.fin 100)
  if F32.lt cf (F32.round (34 / 100)) then
    let beatStep := Int.tdiv rowsPerBar 4
    let beatStep := if beatStep < 1 then 1 else beatStep
    let p ← randIntE g 0 2
    let m := { m with noteCount := iadd 3 p.1 }
    let beatPositions : List Int :=
      [0, beatStep, imul beatStep 2, imul beatStep 3,
       iadd (imul beatStep 3) (Int.tdiv beatStep 2)]
    let s ← forLoop (fun i s => decide (i < s.1.noteCount)) 1
      (leadStepwiseStep beatPositions syncopation rowsPerBar) m.noteCount.toNat 0 (m, 0, p.2)
    pure (s.1, s.2.2)
  else if F32.lt cf (F32.round (67 / 100)) then
    let k1 ← randIntE g 1 2
    let k2 ← randIntE k1.2 (-1) 1
    let kernel : List Int := [0, k1.1, k2.1]
    let step := Int.tdiv rowsPerBar 8
    let step := if step < 1 then 1 else step
    let m := { m with noteCount := 6 }
    let m ← forLoop (fun i _ => decide (i < 3)) 1 (leadSeqStepA kernel step) 3 0 m
    let halfBar := Int.tdiv rowsPerBar 2
    let m ← forLoop (fun i _ => decide (i < 3)) 1 (leadSeqStepB kernel step halfBar) 3 0 m
    pure (m, k2.2)
  else
    let p ← randIntE g 0 3
    let noteCount := iadd 5 p.1
    let noteCount := if noteCount > 8 then 8 else noteCount
    let m := { m with noteCount := noteCount }
    let sp := coin p.2 0 (Int.tdiv rowsPerBar 2)
    let m ← forLoop (fun i m => decide (i < m.noteCount)) 1 (leadArpStep sp.1 rowsPerBar)
      m.noteCount.toNat 0 m
    pure (m, sp.2)

/-- `PatternGenerator::generatePadMotif(density,complexity,syncopation,rowsPerBar,scaleLen)`. -/
def generatePadMotif (g : GenRNG) (density complexity : Int) (syncopation : F32)
    (rowsPerBar scaleLen : Int) : Except Fault (Motif × GenRNG) := do
  let m : Motif := { lengthInRows := rowsPerBar }
  let cf := F32.div (F32.ofInt complexity) (F32.fin 100)
  let m := { m with noteCount := 1 }
  let m ← m.modifyNote 0
    (fun n => { n with rowOffset := 0, relativeDegree := 0, duration := 0, velOffset := 5 })
  let rf := g.randFloat
  let second := F32.lt (F32.round (3 / 10)) cf && F32.lt rf.1 cf
  let g1 := if F32.lt (F32.round (3 / 10)) cf then rf.2 else g
  let m ←
    (if second then
      (m.modifyNote 1 (fun n =>
        { n with rowOffset := Int.tdiv rowsPerBar 2, relativeDegree := 2, duration := 0,
                 velOffset := 0 })).map (fun m => { m with noteCount := 2 })
    else pure m)
  let rf2 := g1.randFloat
  let third := F32.lt (F32.round (6 / 10)) cf &&
    F32.lt rf2.1 (F32.mul cf (F32.fin (1 / 2))) && decide (m.noteCount < 8)
  let g2 := if F32.lt (F32.round (6 / 10)) cf then rf2.2 else g1
  if third then
    let m ← m.modifyNote m.noteCount (fun n =>
      { n with rowOffset := Int.tdiv rowsPerBar 4, relativeDegree := 4, duration := 0,
               velOffset := -5 })
    pure ({ m with noteCount := iadd m.noteCount 1 }, g2)
  else pure (m, g2)

/-- The body of the loop of `generateRhythmMotif` at subdivision `s`. -/
def rhythmStep (syncopation : F32) (rowsPerBar step : Int) (s : Int) (st : Motif × GenRNG) :
    Except Fault (Motif × GenRNG) := do
  let pos := imul s step
  let rf := st.2.randFloat
  let drawn := F32.lt (F32.round (3 / 10)) syncopation &&
    F32.lt rf.1 (F32.mul syncopation (F32.round (3 / 10)))
  let g := if F32.lt (F32.round (3 / 10)) syncopation then rf.2 else st.2
  let skip ←
    (if drawn then (imod pos (Int.tdiv rowsPerBar 4)).map (fun r => decide (r = 0 ∧ pos ≠ 0))
    else pure false)
  if skip then pure (st.1, g)
  else
    let vel ←
      (if pos = 0 then pure 15
      else if pos = Int.tdiv rowsPerBar 2 then pure 8
      else (imod pos (Int.tdiv rowsPerBar 4)).map (fun r => if r = 0 then (3 : Int) else -10))
    let m ← st.1.modifyNote st.1.noteCount (fun n =>
      { n with rowOffset := pos, relativeDegree := 0,
               duration := if step > 1 then isub step 1 else 1, velOffset := vel })
    pure ({ m with noteCount := iadd m.noteCount 1 }, g)

/-- `PatternGenerator::generateRhythmMotif(density,complexity,syncopation,rowsPerBar,scaleLen)`. -/
def generateRhythmMotif (g : GenRNG) (density complexity : Int) (syncopation : F32)
    (rowsPerBar scaleLen : Int) : Except Fault (Motif × GenRNG) := do
  let m : Motif := { lengthInRows := rowsPerBar }
  let df := F32.div (F32.ofInt density) (F32.fin 100)
  let subdivision : Int :=
    if F32.lt df (F32.round (33 / 100)) then 4
    else if F32.lt df (F32.round (66 / 100)) then 8
    else 16
  let step := Int.tdiv rowsPerBar subdivision
  let step := if step < 1 then 1 else step
  let m := { m with noteCount := 0 }
  forLoop (fun s st => decide (s < subdivision) && decide (st.1.noteCount < 8)) 1
    (rhythmStep syncopation rowsPerBar step) 16 0 (m, g)

/-- The body of the loop of `generateSfxMotif` at index `i`. -/
def sfxStep (burstStart rowsPerBar : Int) (i : Int) (s : Motif × GenRNG) :
    Except Fault (Motif × GenRNG) := do
  let p ← randIntE s.2 (-3) 3
  let m ← s.1.modifyNote i (fun n =>
    { n with rowOffset := if iadd burstStart i ≥ rowsPerBar then isub rowsPerBar 1
                          else iadd burstStart i,
             relativeDegree := p.1, duration := 1, velOffset := isub 10 (imul i 5) })
  pure (m, p.2)

/-- `PatternGenerator::generateSfxMotif(density,complexity,syncopation,rowsPerBar,scaleLen)`.
The note's `rowOffset` is assigned before `relativeDegree` draws from the generator; a
fault of the draw ends the run, so the order of the two is not observable. -/
def generateSfxMotif (g : GenRNG) (density complexity : Int) (syncopation : F32)
    (rowsPerBar scaleLen : Int) : Except Fault (Motif × GenRNG) := do
  let m : Motif := { lengthInRows := rowsPerBar }
  let bs := coin g 0 (isub rowsPerBar 4)
  let burstStart := if bs.1 < 0 then 0 else bs.1
  let p ← randIntE bs.2 2 4
  let noteCount := if p.1 > 8 then 8 else p.1
  let m := { m with noteCount := noteCount }
  forLoop (fun i s => decide (i < s.1.noteCount)) 1 (sfxStep burstStart rowsPerBar)
    m.noteCount.toNat 0 (m, p.2)

/-- The array `ghostPositions` of `generateSlapBassMotif`. -/
def ghostPositions : List Int := [3, 5, 7, 11, 13, 15]

/-- The body of the loop over the ghost positions of `generateSlapBassMotif`. -/
def slapGhostStep (df syncopation : F32) (rowsPerBar : Int) (k : Int) (s : Motif × GenRNG) :
    Except Fault (Motif × GenRNG) :=
  let rf := s.2.randFloat
  if F32.lt rf.1 (F32.mul df (F32.round (7 / 10))) then
    if k < 0 then .error .arrayIndex
    else (orFault .arrayIndex ghostPositions[k.toNat]?).bind (fun gp =>
      let pos := Int.tdiv (imul gp rowsPerBar) 16
      let cn := coin rf.2 (-1) 0
      let pos := if F32.lt (F32.round (3 / 10)) syncopation then iadd pos cn.1 else pos
      let g := if F32.lt (F32.round (3 / 10)) syncopation then cn.2 else rf.2
      let pos := genClamp pos 1 (isub rowsPerBar 1)
      (s.1.modifyNote s.1.noteCount (fun n =>
        { n with rowOffset := pos, relativeDegree := 0, velOffset := -20, duration := 1 })).map
        (fun m => ({ m with noteCount := iadd m.noteCount 1 }, g)))
  else .ok (s.1, rf.2)

/-- `PatternGenerator::generateSlapBassMotif(density,complexity,syncopation,rowsPerBar,scaleLen)`. -/
def generateSlapBassMotif (g : GenRNG) (density complexity : Int) (syncopation : F32)
    (rowsPerBar scaleLen : Int) : Except Fault (Motif × GenRNG) := do
  let m : Motif := { lengthInRows := rowsPerBar }
  let df := F32.div (F32.ofInt density) (F32.fin 100)
  let m := { m with noteCount := 0 }
  let m ← m.modifyNote m.noteCount (fun n =>
    { n with rowOffset := 0, relativeDegree := 0, velOffset := 15, duration := 2 })
  let m := { m with noteCount := iadd m.noteCount 1 }
  let s ← forLoop (fun k s => decide (k < 6) && decide (s.1.noteCount < 7)) 1
    (slapGhostStep df syncopation rowsPerBar) 6 0 (m, g)
  let rf := s.2.randFloat
  if F32.lt rf.1 (F32.round (7 / 10)) then
    if s.1.noteCount < 8 then
      let pp := coin rf.2 (Int.tdiv (imul rowsPerBar 3) 8) (Int.tdiv (imul rowsPerBar 5) 8)
      let m ← s.1.modifyNote s.1.noteCount (fun n =>
        { n with rowOffset := pp.1, relativeDegree := scaleLen, velOffset := 5, duration := 2 })
      pure ({ m with noteCount := iadd m.noteCount 1 }, pp.2)
    else pure (s.1, rf.2)
  else pure (s.1, rf.2)

/-- The body of the loop of the first branch of `generateDistGuitarMotif` at row `r`. -/
def distChugStep (rowsPerBar : Int) (r : Int) (m : Motif) : Except Fault Motif :=
  (imod r (Int.tdiv rowsPerBar 2)).bind (fun q =>
    (m.modifyNote m.noteCount (fun n =>
      { n with rowOffset := r, relativeDegree := 0, duration := 1,
               velOffset := if q = 0 then 10 else -5 })).map
      (fun m => { m with noteCount := iadd m.noteCount 1 }))

/-- The array `pattern` of `generateDistGuitarMotif`. -/
def distPattern : List Int := [0, 3, 6, 8, 11]

/-- The array `degrees` of `generateDistGuitarMotif`. -/
def distDegrees : List Int := [0, 4, 0, 4, 0]

/-- The body of the loop of the second branch of `generateDistGuitarMotif` at index `i`. -/
def distRiffStep (rowsPerBar : Int) (i : Int) (s : Motif × GenRNG) :
    Except Fault (Motif × GenRNG) :=
  let rf := s.2.randFloat
  if F32.lt rf.1 (F32.round (7 / 10)) then
    if i < 0 then .error .arrayIndex
    else (orFault .arrayIndex distPattern[i.toNat]?).bind (fun pt =>
      (orFault .arrayIndex distDegrees[i.toNat]?).bind (fun dg =>
        (s.1.modifyNote s.1.noteCount (fun n =>
          { n with rowOffset := Int.tdiv (imul pt rowsPerBar) 16, relativeDegree := dg,
                   duration := 1, velOffset := if Int.tmod pt 4 ≠ 0 then 5 else -3 })).map
          (fun m => ({ m with noteCount := iadd m.noteCount 1 }, rf.2))))
  else .ok (s.1, rf.2)

/-- `PatternGenerator::generateDistGuitarMotif(density,complexity,syncopation,rowsPerBar,
scaleLen)`. -/
def generateDistGuitarMotif (g : GenRNG) (density complexity : Int) (syncopation : F32)
    (rowsPerBar scaleLen : Int) : Except Fault (Motif × GenRNG) := do
  let m : Motif := { lengthInRows := rowsPerBar }
  let cf := F32.div (F32.ofInt complexity) (F32.fin 100)
  if F32.lt cf (F32.fin (1 / 2)) then
    let step := Int.tdiv rowsPerBar 8
    let step := if step < 1 then 1 else step
    let m := { m with noteCount := 0 }
    let m ← forLoop (fun r m => decide (r < rowsPerBar) && decide (m.noteCount < 8)) step
      (distChugStep rowsPerBar) 8 0 m
    pure (m, g)
  else
    let m := { m with noteCount := 0 }
    let s ← forLoop (fun i s => decide (i < 5) && decide (s.1.noteCount < 8)) 1
      (distRiffStep rowsPerBar) 5 0 (m, g)
    if s.1.noteCount < 2 then
      let m ← s.1.modifyNote 0
        (fun n => { n with rowOffset := 0, relativeDegree := 0, velOffset := 10 })
      let m ← m.modifyNote 1
        (fun n => { n with rowOffset := Int.tdiv rowsPerBar 2, relativeDegree := 0,
                           velOffset := 5 })
      pure ({ m with noteCount := 2 }, s.2)
    else pure s

/-- `PatternGenerator::generateRoleMotif(role,density,complexity,syncopation,rowsPerBar,
motifLengthHint,scaleLen)`. -/
def generateRoleMotif (g : GenRNG) (role : Int) (density complexity : Int)
    (syncopation : F32) (rowsPerBar motifLengthHint scaleLen : Int) :
    Except Fault (Motif × GenRNG) :=
  if role = 1 then generateBassMotif g density complexity syncopation rowsPerBar scaleLen
  else if role = 0 then generateLeadMotif g density complexity syncopation rowsPerBar scaleLen
  else if role = 2 then generatePadMotif g density complexity syncopation rowsPerBar scaleLen
  else if role = 3 then generateRhythmMotif g density complexity syncopation rowsPerBar scaleLen
  else if role = 4 then generateSfxMotif g density complexity syncopation rowsPerBar scaleLen
  else if role = 5 then
    generateSlapBassMotif g density complexity syncopation rowsPerBar scaleLen
  else if role = 6 then
    generateDistGuitarMotif g density complexity syncopation rowsPerBar scaleLen
  else generateLeadMotif g density complexity syncopation rowsPerBar scaleLen

/-! ## Pattern generator: grid writing and passes, patternGen.cpp 548-829

`maxRows` is the engine constant `DIV_MAX_ROWS` (`engine/defines.h`), a parameter of every
function that addresses the grid. -/

/-- The loop `while (degree<0) degree+=scaleLen;` of `writeMotifToPattern`. -/
def wrapUp (scaleLen : Int) : Nat → Int → Except Fault Int
  | 0, d => if d < 0 then .error .diverges else .ok d
  | n + 1, d => if d < 0 then wrapUp scaleLen n (iadd d scaleLen) else .ok d

/-- The loop `while (degree>=degreeRange) degree-=scaleLen;` of `writeMotifToPattern`. -/
def wrapDown (scaleLen degreeRange : Int) : Nat → Int → Except Fault Int
  | 0, d => if d ≥ degreeRange then .error .diverges else .ok d
  | n + 1, d =>
    if d ≥ degreeRange then wrapDown scaleLen degreeRange n (isub d scaleLen) else .ok d

/-- The loop `while (semitone>=12) { semitone-=12; octave++; }` of `writeMotifToPattern`,
acting on the pair `(semitone, octave)`. -/
def semitoneDown : Nat → Int × Int → Int × Int
  | 0, p => p
  | n + 1, p => if p.1 ≥ 12 then semitoneDown n (isub p.1 12, iadd p.2 1) else p

/-- The loop `while (semitone<0) { semitone+=12; octave--; }` of `writeMotifToPattern`,
acting on the pair `(semitone, octave)`. -/
def semitoneUp : Nat → Int × Int → Int × Int
  | 0, p => p
  | n + 1, p => if p.1 < 0 then semitoneUp n (iadd p.1 12, isub p.2 1) else p

/-- The body of the loop of `writeMotifToPattern` at note index `i`. -/
def writeNoteStep (maxRows : Int) (motif : Motif) (placement : MotifPlacement)
    (chord : BarChord) (groove : GrooveTemplate) (params : GenPatternParams)
    (scaleLen : Int) (intervals : List Int) (barStartRow degreeRangeBase : Int)
    (octMin degreeRange : Int) (i : Int) (pat : DivPattern) : Except Fault DivPattern := do
  let mn ← motif.getNote i
  if mn.isRest then pure pat
  else
    let noteRow := iadd barStartRow mn.rowOffset
    if noteRow < 0 ∨ noteRow ≥ maxRows then pure pat
    else
      let degree :=
        if placement.invertContour then
          iadd (isub degreeRangeBase (iadd mn.relativeDegree placement.transposeDegrees))
            degreeRangeBase
        else iadd (iadd degreeRangeBase mn.relativeDegree) placement.transposeDegrees
      let degree := iadd degree chord.rootDegree
      let degree ← wrapUp scaleLen (-degree).toNat degree
      let degree ← wrapDown scaleLen degreeRange (degree - degreeRange + 1).toNat degree
      let q ← idiv degree scaleLen
      let octave := iadd octMin q
      let r ← imod degree scaleLen
      let degInScale ← imod (iadd r scaleLen) scaleLen
      if degInScale < 0 then .error .arrayIndex
      else
        let iv ← orFault .arrayIndex intervals[degInScale.toNat]?
        let semitone := iadd params.scaleRoot iv
        let so := semitoneDown semitone.toNat (semitone, octave)
        let so := semitoneUp (-so.1).toNat so
        let octave := genClamp so.2 0 9
        let furnaceNote := iadd (imul (iadd octave 5) 12) so.1
        let furnaceNote := genClamp furnaceNote 0 179
        let pat ← pat.modifyRow maxRows noteRow
          (fun c => { c with note := toI16 furnaceNote, ins := toI16 params.insIndex })
        let grooveRow := Int.tmod mn.rowOffset 16
        if grooveRow < 0 then .error .arrayIndex
        else
          let gv ← orFault .arrayIndex groove.velocity[grooveRow.toNat]?
          let vel := genClamp (iadd gv mn.velOffset) 0x10 0x7F
          pat.modifyRow maxRows noteRow (fun c => { c with vol := toI16 vel })

/-- `PatternGenerator::writeMotifToPattern(pat,motif,placement,chord,groove,params,scaleLen,
intervals,barStartRow,degreeRangeBase)`: the grid after the call. -/
def writeMotifToPattern (maxRows : Int) (pat : DivPattern) (motif : Motif)
    (placement : MotifPlacement) (chord : BarChord) (groove : GrooveTemplate)
    (params : GenPatternParams) (scaleLen : Int) (intervals : List Int)
    (barStartRow degreeRangeBase : Int) : Except Fault DivPattern :=
  let octMin := genClamp params.octaveMin 0 9
  let octMax := genClamp params.octaveMax 0 9
  let degreeRange := imul (iadd (isub octMax octMin) 1) scaleLen
  let degreeRange := if degreeRange ≤ 0 then scaleLen else degreeRange
  forLoop (fun i _ => decide (i < motif.noteCount)) 1
    (writeNoteStep maxRows motif placement chord groove params scaleLen intervals barStartRow
      degreeRangeBase octMin degreeRange) motif.noteCount.toNat 0 pat

/-- The search `for (int r=row-1; r>=startRow; r--)` of `applyEffects` and
`applyChromaticPassing` for the nearest row at or after `startRow` holding a note in
`[0,179]`, entered at row `r`; the result is the value of `prevRow`, `-1` when there is
none. The read of `newData[r]` is not guarded by a bounds check. -/
def findPrevNote (maxRows : Int) (pat : DivPattern) (startRow : Int) :
    Nat → Int → Except Fault Int
  | 0, r => if r ≥ startRow then .error .diverges else .ok (-1)
  | n + 1, r =>
    if r ≥ startRow then
      (pat.readNote maxRows r).bind (fun v =>
        if 0 ≤ v ∧ v ≤ 179 then .ok r else findPrevNote maxRows pat startRow n (r - 1))
    else .ok (-1)

/-- The search `for (int r=row+1; r<endRow&&r<DIV_MAX_ROWS; r++)` of `applyChromaticPassing`
for the next row holding a note in `[0,179]`, entered at row `r`; the result is the value
of `nextRow`, `-1` when there is none. -/
def findNextNote (maxRows : Int) (pat : DivPattern) (endRow : Int) :
    Nat → Int → Except Fault Int
  | 0, r => if r < endRow ∧ r < maxRows then .error .diverges else .ok (-1)
  | n + 1, r =>
    if r < endRow ∧ r < maxRows then
      (pat.readNote maxRows r).bind (fun v =>
        if 0 ≤ v ∧ v ≤ 179 then .ok r else findNextNote maxRows pat endRow n (r + 1))
    else .ok (-1)

/-- The search `for (int r=row+1; r<endRow&&r<DIV_MAX_ROWS; r++)` of `applyNoteOffs` for the
next row whose note cell is not empty, entered at row `r`; the result is the value of
`nextNoteRow`, `endRow` when there is none. -/
def findNextEvent (maxRows : Int) (pat : DivPattern) (endRow : Int) :
    Nat → Int → Except Fault Int
  | 0, r => if r < endRow ∧ r < maxRows then .error .diverges else .ok endRow
  | n + 1, r =>
    if r < endRow ∧ r < maxRows then
      (pat.readNote maxRows r).bind (fun v =>
        if v ≠ -1 then .ok r else findNextEvent maxRows pat endRow n (r + 1))
    else .ok endRow

/-- The loop `for (int r=row+1; r<row+3&&r<endRow; r++)` of `applyEffects`, entered at row
`r`; the result is the value of `longNote`. -/
def isLongNote (maxRows : Int) (pat : DivPattern) (row endRow : Int) :
    Nat → Int → Except Fault Bool
  | 0, r => if r < iadd row 3 ∧ r < endRow then .error .diverges else .ok true
  | n + 1, r =>
    if r < iadd row 3 ∧ r < endRow then
      if r < maxRows then
        (pat.readNote maxRows r).bind (fun v =>
          if v ≠ -1 then .ok false else isLongNote maxRows pat row endRow n (r + 1))
      else isLongNote maxRows pat row endRow n (r + 1)
    else .ok true

/-- The statement `switch (params.role)` of `applyEffects` for the note at `row`. -/
def effectForRole (maxRows : Int) (params : GenPatternParams) (cf : F32) (startRow : Int)
    (row : Int) (largeInterval longNote : Bool) (s : DivPattern × GenRNG) :
    Except Fault (DivPattern × GenRNG) := do
  let pat := s.1
  let g := s.2
  if params.role = 0 then
    let rf := g.randFloat
    let g1 := if largeInterval then rf.2 else g
    if largeInterval && F32.lt rf.1 (F32.mul (F32.round (4 / 10)) cf) then
      let pat ← pat.modifyRow maxRows row (fun c => { c with fx := 0x03 })
      let p ← randIntE g1 0x10 0x30
      let pat ← pat.modifyRow maxRows row (fun c => { c with fxVal := toI16 p.1 })
      pure (pat, p.2)
    else
      let rf2 := g1.randFloat
      let g2 := if longNote then rf2.2 else g1
      if longNote && F32.lt rf2.1 (F32.mul (F32.round (3 / 10)) cf) then
        let pat ← pat.modifyRow maxRows row (fun c => { c with fx := 0x04 })
        let speed ← randIntE g2 3 5
        let depth ← randIntE speed.2 2 4
        let pat ← pat.modifyRow maxRows row
          (fun c => { c with fxVal := toI16 ((speed.1.toNat <<< 4 ||| depth.1.toNat : Nat)) })
        pure (pat, depth.2)
      else pure (pat, g2)
  else if params.role = 1 ∨ params.role = 5 then
    let r ← imod (isub row startRow) params.rowsPerBar
    let rf := g.randFloat
    let g1 := if r = 0 then rf.2 else g
    if r = 0 ∧ F32.lt rf.1 (F32.mul (F32.round (2 / 10)) cf) = true then
      let pat ← pat.modifyRow maxRows row (fun c => { c with fx := 0x02 })
      let p ← randIntE g1 0x08 0x18
      let pat ← pat.modifyRow maxRows row (fun c => { c with fxVal := toI16 p.1 })
      pure (pat, p.2)
    else pure (pat, g1)
  else if params.role = 2 then
    let rf := g.randFloat
    if F32.lt rf.1 (F32.fin (1 / 2)) then
      let pat ← pat.modifyRow maxRows row (fun c => { c with fx := 0x04 })
      let speed ← randIntE rf.2 2 3
      let depth ← randIntE speed.2 1 3
      let pat ← pat.modifyRow maxRows row
        (fun c => { c with fxVal := toI16 ((speed.1.toNat <<< 4 ||| depth.1.toNat : Nat)) })
      pure (pat, depth.2)
    else pure (pat, rf.2)
  else if params.role = 6 then
    let r ← imod (isub row startRow) params.rowsPerBeat
    let rf := g.randFloat
    let g1 := if r ≠ 0 then rf.2 else g
    if r ≠ 0 ∧ F32.lt rf.1 (F32.mul (F32.round (3 / 10)) cf) = true then
      let pat ← pat.modifyRow maxRows row (fun c => { c with fx := 0x0A })
      let pat ← pat.modifyRow maxRows row (fun c => { c with fxVal := 0x08 })
      pure (pat, g1)
    else pure (pat, g1)
  else
    let rf := g.randFloat
    let g1 := if largeInterval then rf.2 else g
    if largeInterval && F32.lt rf.1 (F32.mul (F32.round (15 / 100)) cf) then
      let pat ← pat.modifyRow maxRows row (fun c => { c with fx := 0x03 })
      let p ← randIntE g1 0x10 0x28
      let pat ← pat.modifyRow maxRows row (fun c => { c with fxVal := toI16 p.1 })
      pure (pat, p.2)
    else pure (pat, g1)

/-- The body of the loop of `applyEffects` at `row`. -/
def effectStep (maxRows : Int) (params : GenPatternParams) (cf : F32)
    (startRow endRow : Int) (row : Int) (s : DivPattern × GenRNG) :
    Except Fault (DivPattern × GenRNG) := do
  if row < 0 ∨ row ≥ maxRows then pure s
  else
    let note ← s.1.readNote maxRows row
    if note < 0 ∨ note > 179 then pure s
    else
      let prevRow ← findPrevNote maxRows s.1 startRow (row - startRow).toNat (row - 1)
      let largeInterval ←
        (if prevRow ≥ 0 then
          (s.1.readNote maxRows prevRow).map (fun pn => decide (iabs (isub note pn) > 4))
        else pure false)
      let longNote ← isLongNote maxRows s.1 row endRow 2 (row + 1)
      effectForRole maxRows params cf startRow row largeInterval longNote s

/-- `PatternGenerator::applyEffects(pat,params,style,startRow,endRow)`: the grid and the
generator after the call. -/
def applyEffects (maxRows : Int) (g : GenRNG) (pat : DivPattern) (params : GenPatternParams)
    (style : StylePreset) (startRow endRow : Int) : Except Fault (DivPattern × GenRNG) :=
  let cf := F32.div (F32.ofInt params.complexity) (F32.fin 100)
  forLoop (fun row _ => decide (row < endRow)) 1
    (effectStep maxRows params cf startRow endRow) (endRow - startRow).toNat startRow (pat, g)

/-- The body of the loop of `applyNoteOffs` at `row`, with `gap` the resolved gap. -/
def noteOffStep (maxRows : Int) (endRow gap : Int) (row : Int) (pat : DivPattern) :
    Except Fault DivPattern := do
  if row < 0 ∨ row ≥ maxRows then pure pat
  else
    let note ← pat.readNote maxRows row
    if note < 0 ∨ note > 179 then pure pat
    else
      let nextNoteRow ← findNextEvent maxRows pat endRow (endRow - row).toNat (row + 1)
      let offRow := isub nextNoteRow gap
      if offRow ≤ row then pure pat
      else if offRow ≥ endRow ∨ offRow ≥ maxRows then pure pat
      else
        let v ← pat.readNote maxRows offRow
        if v = -1 then pat.modifyRow maxRows offRow (fun c => { c with note := 253 })
        else pure pat

/-- `PatternGenerator::applyNoteOffs(pat,startRow,endRow,articulationGap,role)`: the grid
after the call. -/
def applyNoteOffs (maxRows : Int) (pat : DivPattern) (startRow endRow : Int)
    (articulationGap : Int) (role : Int) : Except Fault DivPattern :=
  let gap := articulationGap
  let gap : Int :=
    if gap ≤ 0 then
      if role = 1 then 1
      else if role = 5 then 2
      else if role = 0 then 0
      else if role = 2 then 0
      else if role = 3 then 2
      else if role = 4 then 3
      else if role = 6 then 1
      else 1
    else gap
  if gap ≤ 0 then .ok pat
  else
    forLoop (fun row _ => decide (row < endRow)) 1 (noteOffStep maxRows endRow gap)
      (endRow - startRow).toNat startRow pat

/-- The body of the loop of `applyChromaticPassing` at offset `i`. -/
def chromaticStep (maxRows : Int) (params : GenPatternParams) (chromaticism : F32)
    (startRow endRow : Int) (i : Int) (s : DivPattern × GenRNG) :
    Except Fault (DivPattern × GenRNG) := do
  let row := iadd startRow i
  if row < 0 ∨ row ≥ maxRows then pure s
  else
    let note ← s.1.readNote maxRows row
    if note ≠ -1 then pure s
    else if Int.tmod i 4 = 0 then pure s
    else
      let prevRow ← findPrevNote maxRows s.1 startRow (row - startRow).toNat (row - 1)
      let nextRow ← findNextNote maxRows s.1 endRow (endRow - row).toNat (row + 1)
      if prevRow < 0 ∨ nextRow < 0 then pure s
      else
        let rf := s.2.randFloat
        if F32.lt rf.1 (F32.mul chromaticism (F32.fin (1 / 4))) then
          let prevNote ← s.1.readNote maxRows prevRow
          let nextNote ← s.1.readNote maxRows nextRow
          let diff := isub nextNote prevNote
          if iabs diff < 2 ∨ iabs diff > 6 then pure (s.1, rf.2)
          else
            let passing := genClamp (iadd nextNote (if diff > 0 then -1 else 1)) 0 179
            let pat ← s.1.modifyRow maxRows row
              (fun c => { c with note := toI16 passing, ins := toI16 params.insIndex })
            let p ← randIntE rf.2 0x30 0x50
            let pat ← pat.modifyRow maxRows row (fun c => { c with vol := toI16 p.1 })
            pure (pat, p.2)
        else pure (s.1, rf.2)

/-- `PatternGenerator::applyChromaticPassing(pat,params,chromaticism,startRow,endRow)`: the
grid and the generator after the call. -/
def applyChromaticPassing (maxRows : Int) (g : GenRNG) (pat : DivPattern)
    (params : GenPatternParams) (chromaticism : F32) (startRow endRow : Int) :
    Except Fault (DivPattern × GenRNG) :=
  forLoop (fun i _ => decide (i < isub (isub endRow startRow) 1)) 1
    (chromaticStep maxRows params chromaticism startRow endRow)
    (isub (isub endRow startRow) 1 - 1).toNat 1 (pat, g)

/-- The body of the loop over the placements of `generateFill` at index `p`. -/
def placementStep (maxRows : Int) (params : GenPatternParams) (phrase : Phrase)
    (motifPool : List Motif) (chords : List BarChord) (groove : GrooveTemplate)
    (scaleLen : Int) (intervals : List Int) (barCount rowsPerBar rowsPerBeat : Int)
    (startRow endRow degreeRangeBase : Int) (p : Int) (s : DivPattern × GenRNG) :
    Except Fault (DivPattern × GenRNG) := do
  if p < 0 then .error .arrayIndex
  else
    let mp ← orFault .arrayIndex phrase.placements[p.toNat]?
    if mp.barIndex ≥ barCount then pure s
    else
      let barStartRow := iadd startRow (imul mp.barIndex rowsPerBar)
      if barStartRow ≥ endRow then pure s
      else
        let k := Int.tmod mp.motifIndex 2
        if k < 0 ∨ mp.barIndex < 0 then .error .arrayIndex
        else
          let m ← orFault .arrayIndex motifPool[k.toNat]?
          let chord ← orFault .arrayIndex chords[mp.barIndex.toNat]?
          let mg ← applyChordToneGravity s.2 m chord scaleLen rowsPerBeat
            params.chordToneEmphasis
          let pat ← writeMotifToPattern maxRows s.1 mg.1 mp chord groove params scaleLen
            intervals barStartRow degreeRangeBase
          pure (pat, mg.2)

/-- `PatternGenerator::generateFill(pat,params,style,startRow,endRow)` for a non-null `pat`:
the grid and the generator after the call, with `sinf` the C library function. -/
def generateFill (maxRows : Int) (sinf : F32 → F32) (g : GenRNG) (pat : DivPattern)
    (params : GenPatternParams) (style : StylePreset) (startRow endRow : Int) :
    Except Fault (DivPattern × GenRNG) := do
  let len := isub endRow startRow
  if len ≤ 0 ∨ len > maxRows then pure (pat, g)
  else
    let rowsPerBar := if params.rowsPerBar ≤ 0 then 16 else params.rowsPerBar
    let rowsPerBeat := if params.rowsPerBeat ≤ 0 then 4 else params.rowsPerBeat
    let barCount := computeBarCount len rowsPerBar
    let sd := genScaleIntervals params.scaleType
    let scaleLen := sd.len
    let intervals := sd.intervals
    let cg ← generateChordProgression g (List.replicate 16 {}) barCount params.scaleType
      params.complexity
    let groove := buildGrooveTemplate params.grooveType
    let ma ← generateRoleMotif cg.2 params.role params.density params.complexity
      style.syncopation rowsPerBar params.motifLengthHint scaleLen
    let mb ← generateRoleMotif ma.2 params.role params.density params.complexity
      style.syncopation rowsPerBar params.motifLengthHint scaleLen
    let ca ← (if params.contourHint = 5 then randIntE mb.2 0 4
      else pure (params.contourHint, mb.2))
    let cb ← (if params.contourHint = 5 then randIntE ca.2 0 4
      else pure (params.contourHint, ca.2))
    let motifA ← applyMelodicContour sinf cb.2 ma.1 ca.1 params.complexity scaleLen
    let motifB ← applyMelodicContour sinf motifA.2 mb.1 cb.1 params.complexity scaleLen
    let motifPool := [motifA.1, motifB.1]
    let phrase ← buildPhrase motifB.2 params.phraseForm barCount 2
    let octMin := genClamp params.octaveMin 0 9
    let octMax := genClamp params.octaveMax 0 9
    let octMax := if octMax < octMin then octMin else octMax
    let degreeRange := imul (iadd (isub octMax octMin) 1) scaleLen
    let degreeRange := if degreeRange ≤ 0 then scaleLen else degreeRange
    let degreeRangeBase := Int.tdiv degreeRange 2
    let s ← forLoop (fun p _ => decide (p < phrase.1.placementCount)) 1
      (placementStep maxRows params phrase.1 motifPool cg.1 groove scaleLen intervals barCount
        rowsPerBar rowsPerBeat startRow endRow degreeRangeBase)
      phrase.1.placementCount.toNat 0 (pat, phrase.2)
    let s ← (if params.allowEffects then
        applyEffects maxRows s.2 s.1 params style startRow endRow
      else pure s)
    let pat ← applyNoteOffs maxRows s.1 startRow endRow params.articulationGap params.role
    if F32.lt (F32.fin 0) style.chromaticism then
      applyChromaticPassing maxRows s.2 pat params style.chromaticism startRow endRow
    else pure (pat, s.2)

/-- `PatternGenerator::generate(pat,params,style)`. -/
def PatternGenerator.generate (maxRows : Int) (sinf : F32 → F32) (g : GenRNG)
    (pat : DivPattern) (params : GenPatternParams) (style : StylePreset) :
    Except Fault (DivPattern × GenRNG) :=
  generateFill maxRows sinf g pat params style 0 params.patternLength

/-- The range relation between a grid `pat0` and a later grid `pat`: every note cell of
`pat` holds the value it has in `pat0`, a note in `[0,179]` or the note-off value 253, and
every volume cell holds the value it has in `pat0` or a value in `[0x10,0x7F]`. -/
def DivPattern.RangeInv (pat0 pat : DivPattern) : Prop :=
  ∀ row : Int,
    ((pat.newData row).note = (pat0.newData row).note ∨
      (0 ≤ (pat.newData row).note ∧ (pat.newData row).note ≤ 179) ∨
      (pat.newData row).note = 253) ∧
    ((pat.newData row).vol = (pat0.newData row).vol ∨
      (0x10 ≤ (pat.newData row).vol ∧ (pat.newData row).vol ≤ 0x7F))

/-! ## Scenario inputs -/

/-- The grid whose cells are all empty. -/
def emptyPattern : DivPattern := { newData := fun _ => ⟨-1, -1, -1, -1, -1⟩ }

/-- The request of the bass scenario: role Bass, complexity 0, phrase form AABA, ascending
contour, chord-tone emphasis 0, effects off; every other field has its constructor's
value (root A, minor scale, octaves 3 to 5, 16 rows per bar, 4 rows per beat, articulation
gap 0). -/
def bassParams : GenPatternParams :=
  { role := 1, complexity := 0, phraseForm := 0, contourHint := 2,
    chordToneEmphasis := F32.fin 0, allowEffects := false }

/-- The style of the scenarios: the constructor's values with syncopation 0 and
chromaticism 0. -/
def plainStyle : StylePreset := { syncopation := F32.fin 0, chromaticism := F32.fin 0 }

/-- The motif of the root-fifth ostinato of `generateBassMotif` without syncopation. -/
def ostinato (rowsPerBar : Int) : Motif :=
  { notes := [{ rowOffset := 0, relativeDegree := 0, velOffset := 10 },
              { rowOffset := Int.tdiv rowsPerBar 2, relativeDegree := 4, velOffset := 0 },
              {}, {}, {}, {}, {}, {}],
    noteCount := 2, lengthInRows := rowsPerBar }

/-- The ostinato after the ascending contour at complexity 0: the fifth is raised by the
amplitude 2. -/
def ostinatoAscending (rowsPerBar : Int) : Motif :=
  { notes := [{ rowOffset := 0, relativeDegree := 0, velOffset := 10 },
              { rowOffset := Int.tdiv rowsPerBar 2, relativeDegree := 6, velOffset := 0 },
              {}, {}, {}, {}, {}, {}],
    noteCount := 2, lengthInRows := rowsPerBar }

/-! ## Style presets, stylePresets.cpp 22-436

Scale, groove and phrase enumerators are their `int` values (`GEN_SCALE_MINOR=0`,
`HARMONIC_MINOR=1`, `MELODIC_MINOR=2`, `PHRYGIAN=3`, `PHRYGIAN_DOMINANT=4`, `DORIAN=5`,
`MIXOLYDIAN=6`, `MAJOR=7`, `PENTATONIC_MINOR=8`, `PENTATONIC_MAJOR=9`, `CHROMATIC=10`,
`LOCRIAN=11`, `BLUES=12`). The array `roles[ROLE_MAX]` is the list of the seven roles in
the order Lead, Bass, Pad, Rhythm, SFX, Slap Bass, Distorted Guitar. -/

/-- `setCarrierDefaults(op)`. -/
def setCarrierDefaults (op : OperatorConstraints) : OperatorConstraints :=
  { op with tlMin := 0, tlMax := 20, arMin := 25, arMax := 31, drMin := 4, drMax := 15,
            slMin := 2, slMax := 12, rrMin := 3, rrMax := 10, multMin := 0, multMax := 4,
            dtMin := 0, dtMax := 3, d2rMin := 0, d2rMax := 8, rsMin := 0, rsMax := 2 }

/-- `setModulatorDefaults(op)`. -/
def setModulatorDefaults (op : OperatorConstraints) : OperatorConstraints :=
  { op with tlMin := 15, tlMax := 90, arMin := 20, arMax := 31, drMin := 3, drMax := 20,
            slMin := 0, slMax := 15, rrMin := 1, rrMax := 12, multMin := 1, multMax := 10,
            dtMin := 0, dtMax := 7, d2rMin := 0, d2rMax := 15, rsMin := 0, rsMax := 3 }

/-- `genPresetThunderForce()`. -/
def genPresetThunderForce : StylePreset :=
  { name := "Thunder Force"
    tempoMin := 148
    tempoMax := 180
    preferredScales := [0, 1, 4]
    rhythmDensity := F32.round (8 / 10)
    syncopation := F32.round (4 / 10)
    chromaticism := F32.round (35 / 100)
    preferFastArpeggios := true
    use16thSubdivisions := true
    defaultGroove := 3
    defaultPhraseForm := 1
    chordToneEmphasis := F32.round (6 / 10)
    roleMotifLength := [16, 16, 0, 0, 0, 0, 0]
    roles :=
      [ -- Lead
        { algorithms := [0, 1, 2], feedbackMin := 4, feedbackMax := 7,
          ops :=
            [ { tlMin := 30, tlMax := 60, arMin := 28, arMax := 31, drMin := 5, drMax := 12,
                slMin := 3, slMax := 10, rrMin := 3, rrMax := 8, multMin := 1, multMax := 3,
                dtMin := 3, dtMax := 6 },
              { tlMin := 35, tlMax := 70, arMin := 25, arMax := 31, drMin := 5, drMax := 15,
                slMin := 2, slMax := 12, rrMin := 2, rrMax := 8, multMin := 2, multMax := 7,
                dtMin := 0, dtMax := 5 },
              { setModulatorDefaults {} with multMin := 1, multMax := 4 },
              setCarrierDefaults {} ] },
        -- Bass
        { algorithms := [0, 4], feedbackMin := 3, feedbackMax := 6,
          ops :=
            [ { multMin := 0, multMax := 3, tlMin := 25, tlMax := 55, arMin := 28, arMax := 31,
                drMin := 8, drMax := 18, slMin := 2, slMax := 8, rrMin := 5, rrMax := 10 },
              { multMin := 0, multMax := 3 },
              { multMin := 0, multMax := 3 },
              { setCarrierDefaults { multMin := 0, multMax := 3 } with
                arMin := 28, arMax := 31, drMin := 6, drMax := 14 } ] },
        -- Pad
        { algorithms := [2, 4, 5], feedbackMin := 0, feedbackMax := 3,
          ops :=
            [ { arMin := 8, arMax := 22, drMin := 2, drMax := 10, slMin := 5, slMax := 14,
                rrMin := 4, rrMax := 12, multMin := 0, multMax := 4 },
              { arMin := 8, arMax := 22, drMin := 2, drMax := 10, slMin := 5, slMax := 14,
                rrMin := 4, rrMax := 12, multMin := 0, multMax := 4 },
              { arMin := 8, arMax := 22, drMin := 2, drMax := 10, slMin := 5, slMax := 14,
                rrMin := 4, rrMax := 12, multMin := 0, multMax := 4 },
              { setCarrierDefaults
                  { arMin := 8, arMax := 22, drMin := 2, drMax := 10, slMin := 5, slMax := 14,
                    rrMin := 4, rrMax := 12, multMin := 0, multMax := 4 } with
                arMin := 10, arMax := 20 } ] },
        -- Rhythm
        { algorithms := [5, 6, 7], feedbackMin := 2, feedbackMax := 6,
          ops := List.replicate 4
            { arMin := 28, arMax := 31, drMin := 12, drMax := 25, slMin := 0, slMax := 5,
              rrMin := 8, rrMax := 15, multMin := 1, multMax := 14, dtMin := 0, dtMax := 7 } },
        -- SFX
        { algorithms := [0, 1, 2, 3, 4, 5, 6, 7], feedbackMin := 3, feedbackMax := 7,
          ops := List.replicate 4
            { tlMin := 0, tlMax := 127, arMin := 20, arMax := 31, drMin := 5, drMax := 31,
              multMin := 0, multMax := 15, dtMin := 0, dtMax := 7 } },
        -- Slap Bass
        { algorithms := [0, 4], feedbackMin := 4, feedbackMax := 7,
          ops :=
            [ { tlMin := 20, tlMax := 50, arMin := 30, arMax := 31, drMin := 15, drMax := 25,
                slMin := 0, slMax := 3, rrMin := 8, rrMax := 15, multMin := 4, multMax := 8 },
              { setModulatorDefaults {} with multMin := 1, multMax := 3 },
              { setModulatorDefaults {} with multMin := 0, multMax := 2 },
              { setCarrierDefaults {} with
                arMin := 30, arMax := 31, drMin := 10, drMax := 18, multMin := 0,
                multMax := 2 } ] },
        -- Distorted Guitar
        { algorithms := [0, 1], feedbackMin := 5, feedbackMax := 7,
          ops :=
            [ { tlMin := 25, tlMax := 50, arMin := 28, arMax := 31, drMin := 6, drMax := 12,
                slMin := 4, slMax := 10, rrMin := 3, rrMax := 8, multMin := 1, multMax := 2,
                dtMin := 3, dtMax := 6 },
              { tlMin := 30, tlMax := 65, arMin := 26, arMax := 31, drMin := 5, drMax := 14,
                multMin := 1, multMax := 5 },
              setModulatorDefaults {},
              setCarrierDefaults {} ] } ] }

/-- `genPresetStreetsOfRage()`. -/
def genPresetStreetsOfRage : StylePreset :=
  { name := "Streets of Rage"
    tempoMin := 100
    tempoMax := 130
    preferredScales := [5, 0, 12, 8]
    rhythmDensity := F32.round (6 / 10)
    syncopation := F32.round (65 / 100)
    chromaticism := F32.round (2 / 10)
    preferFastArpeggios := false
    use16thSubdivisions := true
    defaultGroove := 2
    defaultPhraseForm := 0
    chordToneEmphasis := F32.fin (3 / 4)
    roleMotifLength := [0, 16, 0, 0, 0, 16, 0]
    roles :=
      [ -- Lead
        { algorithms := [2, 4, 5], feedbackMin := 2, feedbackMax := 5,
          ops :=
            [ { setModulatorDefaults {} with multMin := 1, multMax := 4 },
              setModulatorDefaults {},
              setModulatorDefaults {},
              { setCarrierDefaults {} with arMin := 20, arMax := 28 } ] },
        -- Bass
        { algorithms := [0, 4], feedbackMin := 2, feedbackMax := 5,
          ops :=
            [ setModulatorDefaults { multMin := 0, multMax := 3 },
              { multMin := 0, multMax := 3 },
              { multMin := 0, multMax := 3 },
              { setCarrierDefaults { multMin := 0, multMax := 3 } with
                arMin := 26, arMax := 31, drMin := 8, drMax := 16 } ] },
        -- Pad
        { algorithms := [4, 5, 7], feedbackMin := 0, feedbackMax := 2,
          ops :=
            [ { arMin := 10, arMax := 20, slMin := 6, slMax := 14 },
              { arMin := 10, arMax := 20, slMin := 6, slMax := 14 },
              { arMin := 10, arMax := 20, slMin := 6, slMax := 14 },
              { setCarrierDefaults { arMin := 10, arMax := 20, slMin := 6, slMax := 14 } with
                arMin := 10, arMax := 18 } ] },
        -- Rhythm
        { algorithms := [5, 6, 7], feedbackMin := 1, feedbackMax := 4,
          ops := List.replicate 4
            { arMin := 28, arMax := 31, drMin := 10, drMax := 22, slMin := 0, slMax := 4,
              rrMin := 7, rrMax := 14 } },
        -- SFX, Slap Bass, Distorted Guitar
        {}, {}, {} ] }

/-- `genPresetSonic()`. -/
def genPresetSonic : StylePreset :=
  { name := "Sonic"
    tempoMin := 120
    tempoMax := 160
    preferredScales := [7, 6, 9]
    rhythmDensity := F32.round (65 / 100)
    syncopation := F32.fin (1 / 2)
    chromaticism := F32.round (15 / 100)
    preferFastArpeggios := true
    use16thSubdivisions := true
    defaultGroove := 0
    defaultPhraseForm := 1
    chordToneEmphasis := F32.round (8 / 10)
    roleMotifLength := [16, 0, 0, 0, 0, 0, 0]
    roles :=
      [ -- Lead
        { algorithms := [2, 3, 4], feedbackMin := 2, feedbackMax := 5,
          ops :=
            [ { setModulatorDefaults {} with multMin := 1, multMax := 5 },
              { setModulatorDefaults {} with multMin := 1, multMax := 4 },
              setModulatorDefaults {},
              { setCarrierDefaults {} with arMin := 26, arMax := 31 } ] },
        -- Bass
        { algorithms := [0, 4], feedbackMin := 1, feedbackMax := 4,
          ops :=
            [ { multMin := 0, multMax := 3 },
              { multMin := 0, multMax := 3 },
              { multMin := 0, multMax := 3 },
              setCarrierDefaults { multMin := 0, multMax := 3 } ] },
        -- Pad, Rhythm, SFX, Slap Bass, Distorted Guitar
        {}, {}, {}, {}, {} ] }

/-- `genPresetMUSHA()`. -/
def genPresetMUSHA : StylePreset :=
  { name := "M.U.S.H.A."
    tempoMin := 130
    tempoMax := 165
    preferredScales := [3, 11, 1, 4]
    rhythmDensity := F32.round (7 / 10)
    syncopation := F32.round (35 / 100)
    chromaticism := F32.round (45 / 100)
    preferFastArpeggios := true
    use16thSubdivisions := true
    defaultGroove := 3
    defaultPhraseForm := 2
    chordToneEmphasis := F32.fin (1 / 2)
    roleMotifLength := [16, 0, 0, 0, 0, 0, 0]
    roles :=
      [ -- Lead
        { algorithms := [0, 1, 3], feedbackMin := 3, feedbackMax := 7,
          ops :=
            [ { setModulatorDefaults {} with dtMin := 3, dtMax := 7, multMin := 1, multMax := 6 },
              { setModulatorDefaults {} with multMin := 2, multMax := 8 },
              setModulatorDefaults {},
              setCarrierDefaults {} ] },
        -- Bass
        { algorithms := [0, 1], feedbackMin := 4, feedbackMax := 7,
          ops :=
            [ { setModulatorDefaults {} with multMin := 1, multMax := 3 },
              setModulatorDefaults {},
              setModulatorDefaults {},
              { setCarrierDefaults {} with multMin := 0, multMax := 2 } ] },
        -- Pad, Rhythm, SFX, Slap Bass, Distorted Guitar
        {}, {}, {}, {}, {} ] }

/-- `genPresetCustom()`. -/
def genPresetCustom : StylePreset :=
  { name := "Custom"
    tempoMin := 80
    tempoMax := 220
    preferredScales := [0, 7, 10]
    rhythmDensity := F32.fin (1 / 2)
    syncopation := F32.round (3 / 10)
    chromaticism := F32.round (2 / 10)
    preferFastArpeggios := false
    use16thSubdivisions := false
    roles := List.replicate 7
      { algorithms := [0, 1, 2, 3, 4, 5, 6, 7], feedbackMin := 0, feedbackMax := 7 } }

/-! ## Style registry, styleEngine.cpp 36-78 -/

/-- `class StyleEngine`: the vector `presets` and `activePresetIdx`. -/
structure StyleEngine where
  presets : List StylePreset
  activePresetIdx : Int

/-- `StyleEngine::loadBuiltinPresets()`. -/
def StyleEngine.loadBuiltinPresets (_e : StyleEngine) : StyleEngine :=
  { presets := [genPresetThunderForce, genPresetStreetsOfRage, genPresetSonic, genPresetMUSHA,
                genPresetCustom],
    activePresetIdx := 0 }

/-- The constructor `StyleEngine::StyleEngine()`. -/
def StyleEngine.init : StyleEngine :=
  StyleEngine.loadBuiltinPresets { presets := [], activePresetIdx := 0 }

/-- `StyleEngine::getPresetCount()`: `(int)presets.size()`. -/
def StyleEngine.getPresetCount (e : StyleEngine) : Int := toI32 e.presets.length

/-- `StyleEngine::getPreset(idx)`; `none` when the returned reference is to an element the
vector does not have. -/
def StyleEngine.getPreset (e : StyleEngine) (idx : Int) : Option StylePreset :=
  if idx < 0 ∨ idx ≥ toI32 e.presets.length then e.presets[0]?
  else e.presets[idx.toNat]?

/-- `StyleEngine::getActivePreset()`. -/
def StyleEngine.getActivePreset (e : StyleEngine) : Option StylePreset :=
  e.getPreset e.activePresetIdx

/-- `StyleEngine::getActivePresetIdx()`. -/
def StyleEngine.getActivePresetIdx (e : StyleEngine) : Int := e.activePresetIdx

/-- `StyleEngine::setActivePreset(idx)`. -/
def StyleEngine.setActivePreset (e : StyleEngine) (idx : Int) : StyleEngine :=
  if idx ≥ 0 ∧ idx < toI32 e.presets.length then { e with activePresetIdx := idx } else e

/-- `StyleEngine::getRoleConstraints(role)`, with `ROLE_MAX=7` and `ROLE_LEAD=0`. -/
def StyleEngine.getRoleConstraints (e : StyleEngine) (role : Int) :
    Option PatchRoleConstraints :=
  e.getActivePreset.bind (fun p =>
    if role < 0 ∨ role ≥ 7 then p.roles[0]? else p.roles[role.toNat]?)

/-! ## Reference definitions of the specification -/

/-- The 4-bar template of motif indices of a resolved phrase form in the words of the
specification: AABA is `0,0,1,0`, ABAB is `0,1,0,1`, AAAB is `0,0,0,1` and ABAC is
`0,1,0,0`, its fourth slot being motif A again. -/
def specPhraseTemplate (form : Int) : List Int :=
  if form = 1 then [0, 1, 0, 1]
  else if form = 2 then [0, 0, 0, 1]
  else if form = 3 then [0, 1, 0, 0]
  else [0, 0, 1, 0]

/-- The transposition of a slot of the template before the later cycles are shifted, in the
words of the specification: `0`, except `+2` for the fourth slot of ABAC. -/
def specPhraseBase (form : Int) (slot : Nat) : Int :=
  if form = 3 ∧ slot = 3 then 2 else 0

/-- The relation between a grid `pat0` and a later grid `pat` whose note cells hold the
value they have in `pat0` or a value in `[lo, hi]`. -/
def DivPattern.NotesWithin (lo hi : Int) (pat0 pat : DivPattern) : Prop :=
  ∀ row : Int, (pat.newData row).note = (pat0.newData row).note ∨
    (lo ≤ (pat.newData row).note ∧ (pat.newData row).note ≤ hi)

/-- The candidate degrees of harmonic gravity in the words of the specification:
`rootDegree + chordTones[k] + o*scaleLen` for `k < chordToneCount` ascending and, for each
`k`, `o = -1, 0, +1`. -/
def specGravityCandidates (chord : BarChord) (scaleLen : Int) : List Int :=
  (List.range chord.chordToneCount.toNat).flatMap (fun k =>
    [-1, 0, 1].map (fun o : Int => chord.rootDegree + chord.chordTones.getD k 0 + o * scaleLen))

/-- The degree `c` is the first entry of `cands` at the least distance from `d`. -/
def IsFirstNearest (d : Int) (cands : List Int) (c : Int) : Prop :=
  ∃ j : Nat, j < cands.length ∧ cands.getD j 0 = c ∧ (∀ x ∈ cands, |c - d| ≤ |x - d|) ∧
    ∀ j1 : Nat, j1 < j → |c - d| < |cands.getD j1 0 - d|

instance (d : Int) (cands : List Int) (c : Int) : Decidable (IsFirstNearest d cands c) := by
  unfold IsFirstNearest
  infer_instance

/-- The update of the pair `(bestDist, bestDegree)` of `applyChordToneGravity` by one
candidate, without wrap-around of `int`. -/
def gravityUpdate (degree : Int) (best : Int × Int) (candidate : Int) : Int × Int :=
  if |candidate - degree| < best.1 then (|candidate - degree|, candidate) else best

/-- The test of `applyChordToneGravity` under which a note draws from the generator: it is
not a rest and its row offset is divisible by `rowsPerBeat`. -/
def strongNote (rowsPerBeat : Int) (n : MotifNote) : Bool :=
  !n.isRest && decide (Int.tmod n.rowOffset rowsPerBeat = 0)

/-- The number of draws that `applyChordToneGravity` makes before it reaches the note at
index `i`. -/
def gravityDraws (motif : Motif) (rowsPerBeat : Int) (i : Nat) : Nat :=
  ((motif.notes.take i).filter (strongNote rowsPerBeat)).length

/-! ## Further scenario inputs -/

/-- The grid that holds one note, C-0 at full volume on row 0, and is empty elsewhere. -/
def singleNotePattern : DivPattern :=
  { newData := fun r => if r = 0 then ⟨60, 0, 0x7F, -1, -1⟩ else ⟨-1, -1, -1, -1, -1⟩ }

/-- The request of the pad scenario: role Pad at complexity 0, every other field at its
constructor's value. -/
def padParams : GenPatternParams := { role := 2, complexity := 0 }

/-- The request of the lead scenario: role Lead at complexity 0, every other field at its
constructor's value. -/
def leadParams : GenPatternParams := { role := 0, complexity := 0 }

/-! ## Further reference definitions of the specification -/

/-- The ten `(min,max)` pairs of an `OperatorConstraints` lie within the legal ranges of the
FM operator parameters, with `min <= max`: `tl` in `0..127`; `ar`, `dr`, `d2r` in `0..31`;
`sl`, `rr`, `mult` in `0..15`; `dt` in `0..7`; `rs` in `0..3`; `am` in `0..1`. -/
def OperatorConstraints.Legal (c : OperatorConstraints) : Prop :=
  (0 ≤ c.tlMin ∧ c.tlMin ≤ c.tlMax ∧ c.tlMax ≤ 127) ∧
  (0 ≤ c.arMin ∧ c.arMin ≤ c.arMax ∧ c.arMax ≤ 31) ∧
  (0 ≤ c.drMin ∧ c.drMin ≤ c.drMax ∧ c.drMax ≤ 31) ∧
  (0 ≤ c.slMin ∧ c.slMin ≤ c.slMax ∧ c.slMax ≤ 15) ∧
  (0 ≤ c.rrMin ∧ c.rrMin ≤ c.rrMax ∧ c.rrMax ≤ 15) ∧
  (0 ≤ c.multMin ∧ c.multMin ≤ c.multMax ∧ c.multMax ≤ 15) ∧
  (0 ≤ c.dtMin ∧ c.dtMin ≤ c.dtMax ∧ c.dtMax ≤ 7) ∧
  (0 ≤ c.d2rMin ∧ c.d2rMin ≤ c.d2rMax ∧ c.d2rMax ≤ 31) ∧
  (0 ≤ c.rsMin ∧ c.rsMin ≤ c.rsMax ∧ c.rsMax ≤ 3) ∧
  (0 ≤ c.amMin ∧ c.amMin ≤ c.amMax ∧ c.amMax ≤ 1)

instance (c : OperatorConstraints) : Decidable c.Legal := by
  unfold OperatorConstraints.Legal
  infer_instance

/-- A `PatchRoleConstraints` with four legal operator slots, `0 <= feedbackMin <=
feedbackMax <= 7` and every allowed algorithm index in `0..7`. -/
def PatchRoleConstraints.Legal (c : PatchRoleConstraints) : Prop :=
  (0 ≤ c.feedbackMin ∧ c.feedbackMin ≤ c.feedbackMax ∧ c.feedbackMax ≤ 7) ∧
  c.ops.length = 4 ∧ (∀ a ∈ c.algorithms, 0 ≤ a ∧ a ≤ 7) ∧
  ∀ oc ∈ c.ops, oc.Legal

instance (c : PatchRoleConstraints) : Decidable c.Legal := by
  unfold PatchRoleConstraints.Legal
  infer_instance

/-- Every parameter of the operator lies in its legal range. -/
def FMOperator.Legal (op : FMOperator) : Prop :=
  op.tl ≤ 127 ∧ op.ar ≤ 31 ∧ op.dr ≤ 31 ∧ op.sl ≤ 15 ∧ op.rr ≤ 15 ∧ op.mult ≤ 15 ∧
  op.dt ≤ 7 ∧ op.d2r ≤ 31 ∧ op.rs ≤ 3 ∧ op.am ≤ 1

/-- The run `x` returns a value that satisfies `P`. -/
def Returns {α : Type} (x : Except Fault α) (P : α → Prop) : Prop := ∃ a, x = .ok a ∧ P a

/-- A note of a motif for a bar of 16 rows, in the words of the specification: its row
offset lies in `[0,15]`, its velocity offset in `[-20,20]`, and it is not a rest. -/
def MotifNote.WellFormed (n : MotifNote) : Prop :=
  0 ≤ n.rowOffset ∧ n.rowOffset ≤ 15 ∧ -20 ≤ n.velOffset ∧ n.velOffset ≤ 20 ∧ n.isRest = false

instance (n : MotifNote) : Decidable n.WellFormed := by
  unfold MotifNote.WellFormed
  infer_instance

/-- A motif for a bar of 16 rows, in the words of the specification: it uses between 1 and
8 of the 8 slots of its array and every used note is well formed. -/
def Motif.WellFormed (m : Motif) : Prop :=
  1 ≤ m.noteCount ∧ m.noteCount ≤ 8 ∧ m.notes.length = 8 ∧
  ∀ (i : Nat) (n : MotifNote), (i : Int) < m.noteCount → m.notes[i]? = some n → n.WellFormed

/-- Every slot of the array of the motif, used or not, holds a well-formed note. -/
def Motif.AllWF (m : Motif) : Prop :=
  m.notes.length = 8 ∧ ∀ n ∈ m.notes, n.WellFormed

instance (m : Motif) : Decidable m.AllWF := by
  unfold Motif.AllWF
  infer_instance

/-- The complexity band of the specification: low for `0..33`, mid for `34..66`, high from
67 on. -/
def specBand (c : Int) : Int := if c ≤ 33 then 0 else if c ≤ 66 then 1 else 2

/-- The request of the bass scenario with effects enabled and `rowsPerBar` rows per bar. -/
def effectsBassParams (rowsPerBar : Int) : GenPatternParams :=
  { bassParams with allowEffects := true, rowsPerBar := rowsPerBar }

/-- The frame of the effects pass over the region `[startRow, endRow)` between a grid
`pat0` and a later grid `pat`, in the words of the specification: no note, instrument or
volume cell differs; the effect command and the effect value of a row differ only if the row
lies in the region and holds a note in `[0,179]`, and then the command is one of `0x02`,
`0x03`, `0x04`, `0x0A`. -/
def DivPattern.EffectFrame (startRow endRow : Int) (pat0 pat : DivPattern) : Prop :=
  ∀ row : Int,
    (pat.newData row).note = (pat0.newData row).note ∧
    (pat.newData row).ins = (pat0.newData row).ins ∧
    (pat.newData row).vol = (pat0.newData row).vol ∧
    (((pat.newData row).fx = (pat0.newData row).fx ∧
        (pat.newData row).fxVal = (pat0.newData row).fxVal) ∨
      (startRow ≤ row ∧ row < endRow ∧ 0 ≤ (pat0.newData row).note ∧
        (pat0.newData row).note ≤ 179 ∧
        ((pat.newData row).fx = 0x02 ∨ (pat.newData row).fx = 0x03 ∨
          (pat.newData row).fx = 0x04 ∨ (pat.newData row).fx = 0x0A)))

/-- The grids `pat0` and `pat` have the same effect commands and effect values. -/
def DivPattern.FxSame (pat0 pat : DivPattern) : Prop :=
  ∀ row : Int, (pat.newData row).fx = (pat0.newData row).fx ∧
    (pat.newData row).fxVal = (pat0.newData row).fxVal

/-- The default articulation gap of a role in the words of the specification: Bass 1, Slap
Bass 2, Lead 0, Pad 0, Rhythm 2, SFX 3, Distorted Guitar 1, any other role 1. -/
def specDefaultGap (role : Int) : Int :=
  if role = 1 then 1
  else if role = 5 then 2
  else if role = 0 then 0
  else if role = 2 then 0
  else if role = 3 then 2
  else if role = 4 then 3
  else if role = 6 then 1
  else 1

/-- The cell holds a note, a value in `[0,179]`. -/
def PatRow.IsNote (c : PatRow) : Prop := 0 ≤ c.note ∧ c.note ≤ 179

/-- Row `n` is the next non-empty row after row `r` in the region that ends at `endRow`, and
`n = endRow` if no row of the region after `r` holds an event. -/
def DivPattern.NextEvent (pat : DivPattern) (endRow r n : Int) : Prop :=
  r < n ∧ n ≤ endRow ∧ (∀ y : Int, r < y → y < n → (pat.newData y).note = -1) ∧
    (n = endRow ∨ (pat.newData n).note ≠ -1)

/-- Invariant of the loop of `applyNoteOffs` over the grid `pat` before the iteration at
`row`, for the grid `p` reached: a row of `p` is the row of `pat`, or an empty row of `pat`
with the note-off sentinel in its note cell; a changed row at or after `row` has only empty
rows of `pat` between `row` and itself; and every note before `row` whose next event lies
more than `gap` rows later has its note-off. -/
def NoteOffInv (pat : DivPattern) (startRow endRow gap row : Int) (p : DivPattern) : Prop :=
  startRow ≤ row ∧ row ≤ endRow ∧
  (∀ x : Int, p.newData x = pat.newData x ∨
    ((pat.newData x).note = -1 ∧ p.newData x = { pat.newData x with note := 253 })) ∧
  (∀ x : Int, row ≤ x → p.newData x ≠ pat.newData x →
    ∀ y : Int, row ≤ y → y ≤ x → (pat.newData y).note = -1) ∧
  (∀ r n : Int, startRow ≤ r → r < row → (pat.newData r).IsNote → pat.NextEvent endRow r n →
    r < n - gap → (p.newData (n - gap)).note = 253)

/-- Rows `a < x < b` of which `a` and `b` hold notes and no row strictly between them does:
`a` holds the nearest previous note and `b` the nearest next note of row `x`. -/
def DivPattern.Nearest (pat : DivPattern) (a x b : Int) : Prop :=
  a < x ∧ x < b ∧ (pat.newData a).IsNote ∧ (pat.newData b).IsNote ∧
    ∀ z : Int, a < z → z < b → ¬ (pat.newData z).IsNote

/-- The cell `c` is a passing tone on row `x` of the grid `pat` for the region
`[startRow, endRow)`, in the words of the specification: the row was empty, its region offset
`i` satisfies `1 ≤ i ≤ (endRow-startRow)-2` and `i mod 4 ≠ 0`, the pitch distance of the
nearest previous and the nearest next note of the row is in `2..6`, the note of `c` differs
from the next note by one semitone and lies strictly between the two pitches, its instrument
is `insIndex`, its volume lies in `[0x30,0x50]`, and its effect cells are those of the row. -/
def DivPattern.PassingTone (pat : DivPattern) (startRow endRow insIndex x : Int)
    (c : PatRow) : Prop :=
  (pat.newData x).note = -1 ∧
  (∃ i : Int, x = startRow + i ∧ 1 ≤ i ∧ i ≤ endRow - startRow - 2 ∧ Int.tmod i 4 ≠ 0) ∧
  ∃ a b : Int, startRow ≤ a ∧ b < endRow ∧ pat.Nearest a x b ∧
    2 ≤ ((pat.newData b).note - (pat.newData a).note).natAbs ∧
    ((pat.newData b).note - (pat.newData a).note).natAbs ≤ 6 ∧
    (c.note - (pat.newData b).note).natAbs = 1 ∧
    (((pat.newData a).note < c.note ∧ c.note < (pat.newData b).note) ∨
      ((pat.newData b).note < c.note ∧ c.note < (pat.newData a).note)) ∧
    c.ins = toI16 insIndex ∧ 0x30 ≤ c.vol ∧ c.vol ≤ 0x50 ∧
    c.fx = (pat.newData x).fx ∧ c.fxVal = (pat.newData x).fxVal

/-- Invariant of the loop of `applyChromaticPassing` over the grid `pat` before the iteration
at offset `i`, for the grid `p` reached: a row of `p` is the row of `pat` or a passing tone;
the rows from `startRow + i` on are those of `pat`; and between two changed rows lies a note
of `pat`. -/
def ChromaticInv (pat : DivPattern) (startRow endRow insIndex i : Int) (p : DivPattern) :
    Prop :=
  1 ≤ i ∧
  (∀ x : Int, p.newData x = pat.newData x ∨
    pat.PassingTone startRow endRow insIndex x (p.newData x)) ∧
  (∀ x : Int, startRow + i ≤ x → p.newData x = pat.newData x) ∧
  (∀ x y : Int, x < y → p.newData x ≠ pat.newData x → p.newData y ≠ pat.newData y →
    ∃ z : Int, x < z ∧ z < y ∧ (pat.newData z).IsNote)

/-- The statements of `generateFill` before the test `style.chromaticism>0.0f`
(patternGen.cpp 763-824): the grid and the generator when the articulation pass has
returned. -/
def generateFillArticulated (maxRows : Int) (sinf : F32 → F32) (g : GenRNG) (pat : DivPattern)
    (params : GenPatternParams) (style : StylePreset) (startRow endRow : Int) :
    Except Fault (DivPattern × GenRNG) := do
  let len := isub endRow startRow
  if len ≤ 0 ∨ len > maxRows then pure (pat, g)
  else
    let rowsPerBar := if params.rowsPerBar ≤ 0 then 16 else params.rowsPerBar
    let rowsPerBeat := if params.rowsPerBeat ≤ 0 then 4 else params.rowsPerBeat
    let barCount := computeBarCount len rowsPerBar
    let sd := genScaleIntervals params.scaleType
    let scaleLen := sd.len
    let intervals := sd.intervals
    let cg ← generateChordProgression g (List.replicate 16 {}) barCount params.scaleType
      params.complexity
    let groove := buildGrooveTemplate params.grooveType
    let ma ← generateRoleMotif cg.2 params.role params.density params.complexity
      style.syncopation rowsPerBar params.motifLengthHint scaleLen
    let mb ← generateRoleMotif ma.2 params.role params.density params.complexity
      style.syncopation rowsPerBar params.motifLengthHint scaleLen
    let ca ← (if params.contourHint = 5 then randIntE mb.2 0 4
      else pure (params.contourHint, mb.2))
    let cb ← (if params.contourHint = 5 then randIntE ca.2 0 4
      else pure (params.contourHint, ca.2))
    let motifA ← applyMelodicContour sinf cb.2 ma.1 ca.1 params.complexity scaleLen
    let motifB ← applyMelodicContour sinf motifA.2 mb.1 cb.1 params.complexity scaleLen
    let motifPool := [motifA.1, motifB.1]
    let phrase ← buildPhrase motifB.2 params.phraseForm barCount 2
    let octMin := genClamp params.octaveMin 0 9
    let octMax := genClamp params.octaveMax 0 9
    let octMax := if octMax < octMin then octMin else octMax
    let degreeRange := imul (iadd (isub octMax octMin) 1) scaleLen
    let degreeRange := if degreeRange ≤ 0 then scaleLen else degreeRange
    let degreeRangeBase := Int.tdiv degreeRange 2
    let s ← forLoop (fun p _ => decide (p < phrase.1.placementCount)) 1
      (placementStep maxRows params phrase.1 motifPool cg.1 groove scaleLen intervals barCount
        rowsPerBar rowsPerBeat startRow endRow degreeRangeBase)
      phrase.1.placementCount.toNat 0 (pat, phrase.2)
    let s ← (if params.allowEffects then
        applyEffects maxRows s.2 s.1 params style startRow endRow
      else pure s)
    let pat ← applyNoteOffs maxRows s.1 startRow endRow params.articulationGap params.role
    pure (pat, s.2)

/-- The grid that holds C-0 on row 0 and D-0 on row 2, a whole tone apart, and is empty
elsewhere. -/
def wholeTonePattern : DivPattern :=
  { newData := fun r =>
      if r = 0 then ⟨60, 0, 0x7F, -1, -1⟩
      else if r = 2 then ⟨62, 0, 0x7F, -1, -1⟩
      else ⟨-1, -1, -1, -1, -1⟩ }

/-- The all-zero state of `GenRNG`, the fixed point of `next()`. -/
def GenRNG.zero : GenRNG := { s0 := 0, s1 := 0, s2 := 0, s3 := 0 }

/-- The number of state words that are zero. -/
def GenRNG.zeroWords (g : GenRNG) : Nat :=
  (if g.s0 = 0 then 1 else 0) + (if g.s1 = 0 then 1 else 0) + (if g.s2 = 0 then 1 else 0) +
    (if g.s3 = 0 then 1 else 0)

/-! # Verified properties -/

/-! ## Machine integers -/

theorem toI32_of_InI32 {x : Int} (h : InI32 x) : toI32 x = x := by
  unfold InI32 at h
  unfold toI32
  omega

theorem toI32_InI32 (x : Int) : InI32 (toI32 x) := by
  unfold InI32 toI32
  omega

theorem toI32_add_toI32_left (a b : Int) : toI32 (toI32 a + b) = toI32 (a + b) := by
  unfold toI32
  omega

theorem toI32_add_toI32_right (a b : Int) : toI32 (a + toI32 b) = toI32 (a + b) := by
  unfold toI32
  omega

theorem toI32_toI32_mul12 (a : Int) : toI32 (toI32 a * 12) = toI32 (a * 12) := by
  unfold toI32
  omega

theorem next_fst_lt (g : GenRNG) : g.next.1 < 4294967296 := by
  unfold GenRNG.next u32
  exact Nat.mod_lt _ (by decide)

/-- The modulus of `randInt` for `min<max`: `max-min+1`, except that it is 0 when
`max-min+1 = 2^32`. -/
theorem randIntRange_eq {min max : Int} (hmin : InI32 min) (hmax : InI32 max) (h : min < max) :
    (randIntRange min max : Int) = if max - min + 1 = 4294967296 then 0 else max - min + 1 := by
  unfold InI32 at hmin hmax
  unfold randIntRange toU32 toI32
  split <;> omega

/-- The result of `randInt` on a non-degenerate range whose modulus is not zero: one draw,
reduced into `[min,max]`. -/
theorem randInt_spec (g : GenRNG) {min max : Int} (hmin : InI32 min) (hmax : InI32 max)
    (h : min < max) (hfull : max - min + 1 ≠ 4294967296) :
    ∃ r : Int, g.randInt min max = some (r, g.next.2) ∧ min ≤ r ∧ r ≤ max ∧
      r = min + ((g.next.1 % (max - min + 1).toNat : Nat) : Int) := by
  have hr := randIntRange_eq hmin hmax h
  rw [if_neg hfull] at hr
  have hrn : randIntRange min max = (max - min + 1).toNat := by omega
  have hpos : 0 < (max - min + 1).toNat := by omega
  have hmod := Nat.mod_lt g.next.1 hpos
  refine ⟨min + ((g.next.1 % (max - min + 1).toNat : Nat) : Int), ?_, by omega, by omega, rfl⟩
  unfold GenRNG.randInt
  rw [if_neg (by omega)]
  simp only [hrn]
  rw [if_neg (by omega)]
  unfold InI32 at hmin hmax
  have e2 : toI32 (min + toI32 ((g.next.1 % (max - min + 1).toNat : Nat) : Int))
      = min + ((g.next.1 % (max - min + 1).toNat : Nat) : Int) := by
    generalize g.next.1 % (max - min + 1).toNat = y at *
    unfold toI32
    omega
  rw [e2]

/-- A degenerate range: `randInt` returns `min` and leaves the generator alone. -/
theorem randInt_degenerate (g : GenRNG) {min max : Int} (h : max ≤ min) :
    g.randInt min max = some (min, g) := by
  unfold GenRNG.randInt
  rw [if_pos h]

/-! ## GenRNG: seeding and bounded integers -/

/-- The state written by `seed(s)`: four splitmix32 outputs of the seed, whatever the
prior state. -/
theorem seed_eq (g : GenRNG) (s : Nat) :
    g.seed s =
      { s0 := seedMix (u32 (u32 s + 0x9e3779b9)),
        s1 := seedMix (u32 (u32 (u32 s + 0x9e3779b9) + 0x9e3779b9)),
        s2 := seedMix (u32 (u32 (u32 (u32 s + 0x9e3779b9) + 0x9e3779b9) + 0x9e3779b9)),
        s3 := seedMix (u32 (u32 (u32 (u32 (u32 s + 0x9e3779b9) + 0x9e3779b9) + 0x9e3779b9)
                + 0x9e3779b9)) } := by
  simp [GenRNG.seed, seedLoop, GenRNG.setWord]

/-- C1. Seeding is a pure function of the seed: for every seed `s` and every two prior
states, `seed(s)` leaves the same four state words; hence the two generators return the
same `next()` value at every later step, and `PatchGenerator::generate`,
`PatternGenerator::generateFill` and `PatternGenerator::generate` run after `setSeed(s)` on
the same grid and with the same arguments give the same result: the same patch or grid and
the same final state of the generator (or the same fault). -/
theorem seed_deterministic (s : Nat) (g1 g2 : GenRNG) :
    g1.seed s = g2.seed s ∧
    (∀ n : Nat, (g1.seed s).nth n = (g2.seed s).nth n) ∧
    (∀ (ins0 : DivInstrument) (role : Int) (c : PatchRoleConstraints),
      PatchGenerator.generate (setSeed g1 s) ins0 role c =
        PatchGenerator.generate (setSeed g2 s) ins0 role c) ∧
    (∀ (maxRows : Int) (sinf : F32 → F32) (pat : DivPattern) (params : GenPatternParams)
        (style : StylePreset) (startRow endRow : Int),
      generateFill maxRows sinf (setSeed g1 s) pat params style startRow endRow =
        generateFill maxRows sinf (setSeed g2 s) pat params style startRow endRow) ∧
    (∀ (maxRows : Int) (sinf : F32 → F32) (pat : DivPattern) (params : GenPatternParams)
        (style : StylePreset),
      PatternGenerator.generate maxRows sinf (setSeed g1 s) pat params style =
        PatternGenerator.generate maxRows sinf (setSeed g2 s) pat params style) := by
  have h : g1.seed s = g2.seed s := by rw [seed_eq g1 s, seed_eq g2 s]
  refine ⟨h, ?_, ?_, ?_, ?_⟩
  · intro n
    rw [h]
  · intro ins0 role c
    unfold setSeed
    rw [h]
  · intro maxRows sinf pat params style startRow endRow
    unfold setSeed
    rw [h]
  · intro maxRows sinf pat params style
    unfold setSeed
    rw [h]

/-- C2. At `min = INT_MIN`, `max = INT_MAX` the call `randInt(min,max)` returns no value in
`[min,max]`: for every state, `next()%range` is evaluated with `range = 0`. -/
theorem randInt_full_range_undefined (g : GenRNG) :
    g.randInt (-2147483648) 2147483647 = none := by
  unfold GenRNG.randInt
  rw [if_neg (by decide)]
  have h : randIntRange (-2147483648) 2147483647 = 0 := by decide
  simp only [h]
  rfl

/-- C3. At `min = INT_MIN`, `max = INT_MAX` the modulus `(uint32_t)(max-min+1)` of
`randInt` is zero, although `min<max`. -/
theorem randIntRange_full_range_zero :
    (-2147483648 : Int) < 2147483647 ∧ randIntRange (-2147483648) 2147483647 = 0 := by
  decide

/-- For every other pair `min<max` of `int` values the modulus of `randInt` is not zero. -/
theorem randIntRange_ne_zero {min max : Int} (hmin : InI32 min) (hmax : InI32 max)
    (h : min < max) (hfull : ¬ (min = -2147483648 ∧ max = 2147483647)) :
    randIntRange min max ≠ 0 := by
  have hr := randIntRange_eq hmin hmax h
  unfold InI32 at hmin hmax
  split at hr <;> omega

/-! ## Scale tables -/

theorem genScaleIntervals_mem (scale : Int) : genScaleIntervals scale ∈ scaleTable := by
  unfold genScaleIntervals
  split
  · decide
  · rename_i h
    simp only [GEN_SCALE_MAX, not_or, not_lt, ge_iff_le, not_le] at h
    obtain ⟨n, rfl⟩ := Int.eq_ofNat_of_zero_le h.1
    have hn : n < 13 := by omega
    simp only [Int.toNat_ofNat]
    interval_cases n <;> decide

theorem scaleTable_wf : ∀ sd ∈ scaleTable,
    5 ≤ sd.len ∧ sd.len ≤ 12 ∧ (sd.intervals.length : Int) = sd.len ∧
    sd.intervals.head? = some 0 ∧ sd.intervals.Pairwise (fun a b => a < b) ∧
    ∀ x ∈ sd.intervals, 0 ≤ x ∧ x < 12 := by
  decide

/-- C10. For every scale identifier the table returned by `genScaleIntervals` has a length
between 5 and 12 (equal to the returned `outLen`), starts with 0, is strictly increasing and
has every element below 12; an identifier outside the 13 known scales gives the
natural-minor table `0,2,3,5,7,8,10` with length 7. -/
theorem genScaleIntervals_wf (scale : Int) :
    5 ≤ (genScaleIntervals scale).len ∧ (genScaleIntervals scale).len ≤ 12 ∧
    ((genScaleIntervals scale).intervals.length : Int) = (genScaleIntervals scale).len ∧
    (genScaleIntervals scale).intervals.head? = some 0 ∧
    (genScaleIntervals scale).intervals.Pairwise (fun a b => a < b) ∧
    (∀ x ∈ (genScaleIntervals scale).intervals, x < 12) ∧
    ((scale < 0 ∨ 13 ≤ scale) →
      genScaleIntervals scale = { intervals := [0, 2, 3, 5, 7, 8, 10], len := 7 }) := by
  obtain ⟨h1, h2, h3, h4, h5, h6⟩ := scaleTable_wf _ (genScaleIntervals_mem scale)
  refine ⟨h1, h2, h3, h4, h5, fun x hx => (h6 x hx).2, ?_⟩
  intro h
  unfold genScaleIntervals
  rw [if_pos (by simpa [GEN_SCALE_MAX] using h)]
  rfl

/-! ## Scale degrees -/

/-- The wrap loop on a negative degree ends at the Euclidean remainder and has counted
down by the (negated) floor quotient. -/
theorem wrapDegree_neg (scale : Int) (d o : Int) (hd : d < 0) :
    wrapDegree scale d o =
      (d % (genScaleIntervals scale).len, o + d / (genScaleIntervals scale).len) := by
  obtain ⟨h1, h2, -⟩ := scaleTable_wf _ (genScaleIntervals_mem scale)
  generalize hL : (genScaleIntervals scale).len = L at h1 h2
  induction d, o using wrapDegree.induct scale with
  | case1 d o hneg ih =>
    rw [wrapDegree, if_pos hneg]
    rw [hL] at ih ⊢
    by_cases hlt : d + L < 0
    · rw [ih hlt]
      have e1 : (d + L) % L = d % L := Int.add_emod_self
      have e2 : (d + L) / L = d / L + 1 := Int.add_ediv_of_dvd_right (dvd_refl L) |>.trans (by
        rw [Int.ediv_self (by omega)])
      rw [e1, e2]
      congr 1
      omega
    · rw [wrapDegree, if_neg hlt]
      have e1 : d % L = d + L := by
        have := Int.add_emod_self (a := d) (b := L)
        rw [← this]
        exact Int.emod_eq_of_lt (by omega) (by omega)
      have e2 : d / L = -1 := by
        have h3 := Int.emod_add_ediv d L
        rw [e1] at h3
        have : L * (d / L) = L * (-1) := by omega
        exact Int.eq_of_mul_eq_mul_left (by omega) this
      rw [e1, e2]
      congr 1
  | case2 d o hneg => exact absurd hd hneg

/-- The wrap loop leaves a non-negative degree alone. -/
theorem wrapDegree_nonneg (scale : Int) (d o : Int) (hd : 0 ≤ d) :
    wrapDegree scale d o = (d, o) := by
  rw [wrapDegree, if_neg (by omega)]

/-- After the wrap loop, `degree%scaleLen` is the Euclidean remainder of the original
degree, a valid index of the interval table. -/
theorem wrapDegree_index (scale : Int) (d : Int) :
    Int.tmod (wrapDegree scale d 0).1 (genScaleIntervals scale).len
      = d % (genScaleIntervals scale).len ∧
    0 ≤ d % (genScaleIntervals scale).len ∧
    d % (genScaleIntervals scale).len < (genScaleIntervals scale).len := by
  obtain ⟨h1, h2, -⟩ := scaleTable_wf _ (genScaleIntervals_mem scale)
  have hpos : 0 < (genScaleIntervals scale).len := by omega
  have hne : (genScaleIntervals scale).len ≠ 0 := by omega
  refine ⟨?_, Int.emod_nonneg _ hne, Int.emod_lt_of_pos _ hpos⟩
  by_cases hd : d < 0
  · rw [wrapDegree_neg scale d 0 hd]
    simp only
    rw [Int.tmod_eq_emod (Int.emod_nonneg _ hne) (by omega)]
    exact Int.emod_emod_of_dvd _ (dvd_refl _)
  · rw [wrapDegree_nonneg scale d 0 (by omega)]
    simp only
    exact Int.tmod_eq_emod (by omega) (by omega)

/-- After the wrap loop, `octOffset+degree/scaleLen` is the floor quotient of the original
degree. -/
theorem wrapDegree_octave (scale : Int) (d : Int) (hd : InI32 d) :
    toI32 ((wrapDegree scale d 0).2 +
        Int.tdiv (wrapDegree scale d 0).1 (genScaleIntervals scale).len)
      = d / (genScaleIntervals scale).len := by
  obtain ⟨h1, h2, -⟩ := scaleTable_wf _ (genScaleIntervals_mem scale)
  have hne : (genScaleIntervals scale).len ≠ 0 := by omega
  have key : (wrapDegree scale d 0).2 +
      Int.tdiv (wrapDegree scale d 0).1 (genScaleIntervals scale).len
        = d / (genScaleIntervals scale).len := by
    by_cases hneg : d < 0
    · rw [wrapDegree_neg scale d 0 hneg]
      simp only
      rw [Int.tdiv_eq_ediv (Int.emod_nonneg _ hne) (by omega),
        Int.ediv_eq_zero_of_lt (Int.emod_nonneg _ hne) (Int.emod_lt_of_pos _ (by omega))]
      omega
    · rw [wrapDegree_nonneg scale d 0 (by omega)]
      simp only
      rw [Int.tdiv_eq_ediv (by omega) (by omega)]
      omega
  rw [key]
  apply toI32_of_InI32
  unfold InI32 at hd ⊢
  generalize (genScaleIntervals scale).len = L at h1 h2
  interval_cases L <;> omega

/-- Closed form of `genDegreesToSemitones` in machine arithmetic: the table entry at the
Euclidean remainder plus twelve times the floor quotient, both operations wrapping. -/
theorem genDegreesToSemitones_eq (scale : Int) (d : Int) (hd : InI32 d) :
    ∃ t : Int,
      (genScaleIntervals scale).intervals[(d % (genScaleIntervals scale).len).toNat]? = some t ∧
      0 ≤ t ∧ t < 12 ∧
      genDegreesToSemitones d scale
        = some (toI32 (t + toI32 (d / (genScaleIntervals scale).len * 12))) := by
  obtain ⟨h1, h2, h3, -, -, h6⟩ := scaleTable_wf _ (genScaleIntervals_mem scale)
  obtain ⟨hi1, hi2, hi3⟩ := wrapDegree_index scale d
  have hlt : (d % (genScaleIntervals scale).len).toNat < (genScaleIntervals scale).intervals.length := by
    omega
  refine ⟨(genScaleIntervals scale).intervals[(d % (genScaleIntervals scale).len).toNat], ?_, ?_, ?_, ?_⟩
  · exact List.getElem?_eq_getElem hlt
  · exact (h6 _ (List.getElem_mem _)).1
  · exact (h6 _ (List.getElem_mem _)).2
  · unfold genDegreesToSemitones
    simp only
    rw [if_neg (by omega), hi1, if_neg (by omega), wrapDegree_octave scale d hd,
      List.getElem?_eq_getElem hlt]

/-- C7. Scale wrap law: for every scale identifier, with `L` its scale length, and every
degree `d` such that `d` and `d+L` are `int` values, `genDegreesToSemitones(d+L,scale)` is
`genDegreesToSemitones(d,scale)+12` evaluated in `int`, and it is exactly that sum whenever
the sum does not overflow. -/
theorem degrees_wrap_law (scale : Int) (d : Int) (hd : InI32 d)
    (hdL : InI32 (d + (genScaleIntervals scale).len)) :
    ∃ v : Int, genDegreesToSemitones d scale = some v ∧
      genDegreesToSemitones (d + (genScaleIntervals scale).len) scale = some (toI32 (v + 12)) ∧
      (InI32 (v + 12) →
        genDegreesToSemitones (d + (genScaleIntervals scale).len) scale = some (v + 12)) := by
  obtain ⟨h1, h2, -⟩ := scaleTable_wf _ (genScaleIntervals_mem scale)
  obtain ⟨t, ht, -, -, hv⟩ := genDegreesToSemitones_eq scale d hd
  obtain ⟨t', ht', -, -, hv'⟩ := genDegreesToSemitones_eq scale _ hdL
  have e1 : (d + (genScaleIntervals scale).len) % (genScaleIntervals scale).len
      = d % (genScaleIntervals scale).len := Int.add_emod_self
  have e2 : (d + (genScaleIntervals scale).len) / (genScaleIntervals scale).len
      = d / (genScaleIntervals scale).len + 1 := by
    rw [Int.add_ediv_of_dvd_right (dvd_refl _), Int.ediv_self (by omega)]
  rw [e1, ht] at ht'
  cases ht'
  rw [e2] at hv'
  have key : toI32 (t + toI32 ((d / (genScaleIntervals scale).len + 1) * 12))
      = toI32 (toI32 (t + toI32 (d / (genScaleIntervals scale).len * 12)) + 12) := by
    generalize d / (genScaleIntervals scale).len = q
    unfold toI32
    omega
  refine ⟨_, hv, ?_, ?_⟩
  · rw [hv', key]
  · intro hfit
    rw [hv', key, toI32_of_InI32 hfit]

/-- C7, instance: the major scale (length 7) at degree -3. -/
theorem degrees_wrap_law_witness :
    ∃ v : Int, genDegreesToSemitones (-3) 7 = some v ∧
      genDegreesToSemitones (-3 + (genScaleIntervals 7).len) 7 = some (toI32 (v + 12)) ∧
      (InI32 (v + 12) → genDegreesToSemitones (-3 + (genScaleIntervals 7).len) 7 = some (v + 12)) :=
  degrees_wrap_law 7 (-3) (by decide) (by decide)

/-- C8, counterexample: for the pentatonic minor scale (length 5, table 0,3,5,7,10) and
degree 1000000000 the formula gives `0 + 12*200000000 = 2400000000`, which no `int` holds;
the function returns -1894967296. -/
theorem genDegreesToSemitones_overflow :
    (genScaleIntervals 8).len = 5 ∧
    (genScaleIntervals 8).intervals[((1000000000 : Int) % 5).toNat]? = some 0 ∧
    genDegreesToSemitones 1000000000 8 = some (-1894967296) ∧
    genDegreesToSemitones 1000000000 8 ≠ some (0 + 12 * (1000000000 / 5)) := by
  have h : genDegreesToSemitones 1000000000 8 = some (-1894967296) := by
    obtain ⟨t, ht, -, -, hv⟩ := genDegreesToSemitones_eq 8 1000000000 (by decide)
    have hL : (genScaleIntervals 8).len = 5 := by decide
    rw [hL] at ht hv
    have ht0 : (genScaleIntervals 8).intervals[((1000000000 : Int) % 5).toNat]? = some 0 := by
      decide
    rw [ht0] at ht
    cases ht
    rw [hv]
    decide
  refine ⟨by decide, by decide, h, ?_⟩
  rw [h]
  decide

/-- C8, amended. For every scale with interval table `T` of length `L` and every `int`
degree `d`, `genDegreesToSemitones` returns (the loop terminates) `T[d mod L] + 12*floor(d/L)`
with floor division and non-negative remainder, evaluated in wrap-around `int` arithmetic;
the result is the exact value whenever that value is an `int`. Degree -1 gives `T[L-1]-12`
and a degree in `[0,L)` gives `T[d]`. -/
theorem genDegreesToSemitones_floor (scale : Int) (d : Int) (hd : InI32 d) :
    (∃ t : Int,
      (genScaleIntervals scale).intervals[(d % (genScaleIntervals scale).len).toNat]? = some t ∧
      genDegreesToSemitones d scale
        = some (toI32 (t + toI32 (d / (genScaleIntervals scale).len * 12))) ∧
      (InI32 (t + 12 * (d / (genScaleIntervals scale).len)) →
        genDegreesToSemitones d scale = some (t + 12 * (d / (genScaleIntervals scale).len)))) ∧
    (∃ t : Int,
      (genScaleIntervals scale).intervals[((genScaleIntervals scale).len - 1).toNat]? = some t ∧
      genDegreesToSemitones (-1) scale = some (t - 12)) ∧
    (0 ≤ d → d < (genScaleIntervals scale).len →
      genDegreesToSemitones d scale = (genScaleIntervals scale).intervals[d.toNat]?) := by
  obtain ⟨h1, h2, -⟩ := scaleTable_wf _ (genScaleIntervals_mem scale)
  refine ⟨?_, ?_, ?_⟩
  · obtain ⟨t, ht, -, -, hv⟩ := genDegreesToSemitones_eq scale d hd
    refine ⟨t, ht, hv, ?_⟩
    intro hfit
    rw [hv]
    congr 1
    unfold InI32 at hfit
    generalize d / (genScaleIntervals scale).len = q at *
    unfold toI32
    omega
  · obtain ⟨t, ht, ht0, ht12, hv⟩ := genDegreesToSemitones_eq scale (-1) (by decide)
    have e1 : (-1 : Int) % (genScaleIntervals scale).len = (genScaleIntervals scale).len - 1 := by
      generalize (genScaleIntervals scale).len = L at h1 h2
      interval_cases L <;> decide
    have e2 : (-1 : Int) / (genScaleIntervals scale).len = -1 := by
      generalize (genScaleIntervals scale).len = L at h1 h2
      interval_cases L <;> decide
    rw [e1] at ht
    rw [e2] at hv
    refine ⟨t, ht, ?_⟩
    rw [hv]
    congr 1
    unfold toI32
    omega
  · intro h0 hL
    obtain ⟨t, ht, ht0, ht12, hv⟩ := genDegreesToSemitones_eq scale d hd
    rw [Int.emod_eq_of_lt h0 hL] at ht
    rw [Int.ediv_eq_zero_of_lt h0 hL] at hv
    rw [hv, ht]
    congr 1
    unfold toI32
    omega

/-- C8, amended, instance: the blues scale (length 6) at degree -8. -/
theorem genDegreesToSemitones_floor_witness :
    (∃ t : Int,
      (genScaleIntervals 12).intervals[((-8 : Int) % (genScaleIntervals 12).len).toNat]? = some t ∧
      genDegreesToSemitones (-8) 12
        = some (toI32 (t + toI32 (-8 / (genScaleIntervals 12).len * 12))) ∧
      (InI32 (t + 12 * (-8 / (genScaleIntervals 12).len)) →
        genDegreesToSemitones (-8) 12 = some (t + 12 * (-8 / (genScaleIntervals 12).len)))) ∧
    (∃ t : Int,
      (genScaleIntervals 12).intervals[((genScaleIntervals 12).len - 1).toNat]? = some t ∧
      genDegreesToSemitones (-1) 12 = some (t - 12)) ∧
    (0 ≤ (-8 : Int) → (-8 : Int) < (genScaleIntervals 12).len →
      genDegreesToSemitones (-8) 12 = (genScaleIntervals 12).intervals[(-8 : Int).toNat]?) :=
  genDegreesToSemitones_floor 12 (-8) (by decide)

theorem genClamp_range (v lo hi : Int) (h : lo ≤ hi) :
    lo ≤ genClamp v lo hi ∧ genClamp v lo hi ≤ hi := by
  unfold genClamp
  split_ifs <;> omega

/-- C9, as amended. For every root, scale, degree and octave, `genScaleNoteToFurnace` returns
`genClamp(n, 0, 179)` where `n` is the sum
`root + genDegreesToSemitones(degree,scale) + (octave+5)*12` evaluated in `int`; the result
lies in `[0,179]`, is 0 when `n` is negative, 179 when `n` exceeds 179, and `n` itself
otherwise; and whenever the exact sum is an `int`, the result is the clamp of the exact sum.
When the exact sum leaves the `int` range the clamp is applied to the wrapped sum. -/
theorem genScaleNoteToFurnace_eq (root scale degree octave : Int) :
    ∃ s v : Int,
      genDegreesToSemitones degree scale = some s ∧
      genScaleNoteToFurnace root scale degree octave = some v ∧
      v = genClamp (toI32 (toI32 (root + s) + toI32 (toI32 (octave + 5) * 12))) 0 179 ∧
      0 ≤ v ∧ v ≤ 179 ∧
      (toI32 (toI32 (root + s) + toI32 (toI32 (octave + 5) * 12)) < 0 → v = 0) ∧
      (179 < toI32 (toI32 (root + s) + toI32 (toI32 (octave + 5) * 12)) → v = 179) ∧
      (0 ≤ toI32 (toI32 (root + s) + toI32 (toI32 (octave + 5) * 12)) →
        toI32 (toI32 (root + s) + toI32 (toI32 (octave + 5) * 12)) ≤ 179 →
        v = toI32 (toI32 (root + s) + toI32 (toI32 (octave + 5) * 12))) ∧
      (InI32 (root + s + (octave + 5) * 12) →
        v = genClamp (root + s + (octave + 5) * 12) 0 179) := by
  obtain ⟨h1, h2, h3, -⟩ := scaleTable_wf _ (genScaleIntervals_mem scale)
  obtain ⟨hi1, hi2, hi3⟩ := wrapDegree_index scale degree
  have hlt : (degree % (genScaleIntervals scale).len).toNat
      < (genScaleIntervals scale).intervals.length := by omega
  generalize ho : toI32 ((wrapDegree scale degree 0).2 +
      Int.tdiv (wrapDegree scale degree 0).1 (genScaleIntervals scale).len) = o
  generalize ht : (genScaleIntervals scale).intervals[(degree % (genScaleIntervals scale).len).toNat] = t
  have hs : genDegreesToSemitones degree scale = some (toI32 (t + toI32 (o * 12))) := by
    unfold genDegreesToSemitones
    simp only
    rw [if_neg (by omega), hi1, if_neg (by omega), ho, List.getElem?_eq_getElem hlt, ht]
  have hn : genScaleNoteToFurnace root scale degree octave
      = some (genClamp (toI32 (toI32 (root + t) + toI32 (toI32 (toI32 (octave + o) + 5) * 12))) 0 179) := by
    unfold genScaleNoteToFurnace
    simp only
    rw [if_neg (by omega), hi1, if_neg (by omega), ho, List.getElem?_eq_getElem hlt, ht]
  have key : toI32 (toI32 (root + t) + toI32 (toI32 (toI32 (octave + o) + 5) * 12))
      = toI32 (toI32 (root + toI32 (t + toI32 (o * 12))) + toI32 (toI32 (octave + 5) * 12)) := by
    simp only [toI32_add_toI32_left, toI32_add_toI32_right, toI32_toI32_mul12]
    congr 1
    ring
  rw [key] at hn
  obtain ⟨n, hnote⟩ : ∃ n : Int,
      n = toI32 (toI32 (root + toI32 (t + toI32 (o * 12))) + toI32 (toI32 (octave + 5) * 12)) :=
    ⟨_, rfl⟩
  rw [← hnote] at hn
  refine ⟨_, _, hs, hn, ?_, (genClamp_range n 0 179 (by decide)).1,
    (genClamp_range n 0 179 (by decide)).2, ?_, ?_, ?_, ?_⟩
  · rw [hnote]
  · rw [← hnote]
    intro h
    unfold genClamp
    rw [if_pos h]
  · rw [← hnote]
    intro h
    unfold genClamp
    rw [if_neg (by omega), if_pos h]
  · rw [← hnote]
    intro h h'
    unfold genClamp
    rw [if_neg (by omega), if_neg (by omega)]
  · intro hfit
    rw [hnote]
    generalize toI32 (t + toI32 (o * 12)) = s at hfit ⊢
    have e : toI32 (toI32 (root + s) + toI32 (toI32 (octave + 5) * 12))
        = root + s + (octave + 5) * 12 := by
      simp only [toI32_add_toI32_left, toI32_add_toI32_right, toI32_toI32_mul12]
      exact toI32_of_InI32 hfit
    rw [e]

/-! ## genShuffle -/

/-- Exchanging two entries of a list gives a permutation of it. -/
theorem swap_perm (arr : List Int) (i j : Nat) (hi : i < arr.length) (hj : j < arr.length) :
    ((arr.set i arr[j]).set j arr[i]).Perm arr := by
  rw [List.perm_iff_count]
  intro a
  have hj' : j < (arr.set i arr[j]).length := by simpa using hj
  rw [List.count_set _ _ _ _ hj', List.count_set _ _ _ _ hi]
  have hc := List.count_pos_iff.mpr (List.getElem_mem hi : arr[i] ∈ arr)
  have hc' := List.count_pos_iff.mpr (List.getElem_mem hj : arr[j] ∈ arr)
  by_cases hij : i = j
  · subst hij
    simp only [List.getElem_set_self]
    by_cases h1 : arr[i] = a
    · subst h1
      simp
    · simp [h1]
  · rw [List.getElem_set_ne hij]
    by_cases h1 : arr[i] = a <;> by_cases h2 : arr[j] = a
    · rw [h1] at hc
      simp [h1, h2]
      omega
    · rw [h1] at hc
      simp [h1, h2]
      omega
    · simp [h1, h2]
    · simp [h1, h2]

/-- One iteration of the shuffle at a counter inside the array: it exchanges two entries
at positions up to `i` and spends one draw. -/
theorem shuffleStep_spec (i : Nat) (g : GenRNG) (arr : List Int)
    (h0 : 0 < i) (hi : i < arr.length) (hI : (i : Int) ≤ 2147483647) :
    ∃ arr1, shuffleStep i g arr = some (arr1, g.next.2) ∧ arr1.Perm arr ∧
      arr1.drop (i + 1) = arr.drop (i + 1) := by
  obtain ⟨r, hr, hr0, hr1, -⟩ := @randInt_spec g 0 (i : Int)
    (by decide) (by unfold InI32; omega) (by omega) (by omega)
  have hjlt : r.toNat < arr.length := by omega
  refine ⟨(arr.set i arr[r.toNat]).set r.toNat arr[i], ?_, swap_perm arr i r.toNat hi hjlt, ?_⟩
  · unfold shuffleStep
    rw [hr]
    simp only
    rw [if_neg (by omega), List.getElem?_eq_getElem hi, List.getElem?_eq_getElem hjlt]
  · rw [List.drop_set_of_lt _ _ (by omega), List.drop_set_of_lt _ _ (by omega)]

/-- The shuffle loop entered with a counter inside the array: it runs to the end, permutes
the array, leaves every entry above the counter where it was and spends one draw per
iteration. -/
theorem shuffleLoop_spec (i : Nat) (g : GenRNG) (arr : List Int)
    (hi : i < arr.length ∨ i = 0) (hI : (i : Int) ≤ 2147483647) :
    ∃ arr1, shuffleLoop i g arr = some (arr1, GenRNG.advance i g) ∧ arr1.Perm arr ∧
      arr1.drop (i + 1) = arr.drop (i + 1) := by
  induction i generalizing g arr with
  | zero => exact ⟨arr, rfl, List.Perm.refl _, rfl⟩
  | succ i ih =>
    have hlen : i + 1 < arr.length := by omega
    obtain ⟨arr1, hs1, hp1, hd1⟩ := shuffleStep_spec (i + 1) g arr (by omega) hlen hI
    obtain ⟨arr2, hs2, hp2, hd2⟩ := ih g.next.2 arr1
      (Or.inl (by rw [hp1.length_eq]; omega)) (by omega)
    refine ⟨arr2, ?_, hp2.trans hp1, ?_⟩
    · rw [shuffleLoop, hs1]
      exact hs2
    · have hd3 := congrArg (List.drop 1) hd2
      rw [List.drop_drop, List.drop_drop] at hd3
      rw [hd3, hd1]

/-- C6. For every `int` array holding at least `count >= 0` elements and every generator
state, `genShuffle` returns, and the first `count` elements afterwards are a permutation of
the first `count` elements before, the remaining elements and the length are unchanged, and
the generator has made `count-1` draws (none for `count <= 1`); for `count <= 1` the array
and the generator state are unchanged. -/
theorem genShuffle_perm (arr : List Int) (count : Int) (g : GenRNG)
    (h0 : 0 ≤ count) (hc : count ≤ arr.length) (hI : InI32 count) :
    ∃ arr1 g1, genShuffle arr count g = some (arr1, g1) ∧
      (arr1.take count.toNat).Perm (arr.take count.toNat) ∧
      arr1.drop count.toNat = arr.drop count.toNat ∧
      arr1.length = arr.length ∧
      g1 = GenRNG.advance (count - 1).toNat g ∧
      (count ≤ 1 → arr1 = arr ∧ g1 = g) := by
  unfold InI32 at hI
  have e : toI32 (count - 1) = count - 1 := toI32_of_InI32 (by unfold InI32; omega)
  obtain ⟨arr1, hs, hp, hd⟩ := shuffleLoop_spec (count - 1).toNat g arr (by omega) (by omega)
  have hd' : arr1.drop count.toNat = arr.drop count.toNat := by
    by_cases hz : count = 0
    · subst hz
      have hz : ((0 : Int) - 1).toNat = 0 := by decide
      rw [hz] at hs
      simp only [shuffleLoop, GenRNG.advance, Option.some.injEq, Prod.mk.injEq] at hs
      rw [hs.1]
    · have e2 : (count - 1).toNat + 1 = count.toNat := by omega
      rw [e2] at hd
      exact hd
  refine ⟨arr1, GenRNG.advance (count - 1).toNat g, ?_, ?_, hd', hp.length_eq, rfl, ?_⟩
  · unfold genShuffle
    rw [e]
    exact hs
  · have h1 : (arr1.take count.toNat ++ arr1.drop count.toNat).Perm
        (arr.take count.toNat ++ arr.drop count.toNat) := by
      rw [List.take_append_drop, List.take_append_drop]
      exact hp
    rw [hd'] at h1
    exact (List.perm_append_right_iff _).mp h1
  · intro h1
    have hz : (count - 1).toNat = 0 := by omega
    rw [hz] at hs
    simp only [shuffleLoop, GenRNG.advance, Option.some.injEq, Prod.mk.injEq] at hs
    rw [hz]
    exact ⟨hs.1.symm, rfl⟩

/-- C6, instance: five elements shuffled with the default-seeded generator. -/
theorem genShuffle_perm_witness :
    ∃ arr1 g1, genShuffle [10, 20, 30, 40, 50] 5 GenRNG.init = some (arr1, g1) ∧
      (arr1.take (5 : Int).toNat).Perm ([10, 20, 30, 40, 50].take (5 : Int).toNat) ∧
      arr1.drop (5 : Int).toNat = [10, 20, 30, 40, 50].drop (5 : Int).toNat ∧
      arr1.length = [10, 20, 30, 40, 50].length ∧
      g1 = GenRNG.advance ((5 : Int) - 1).toNat GenRNG.init ∧
      ((5 : Int) ≤ 1 → arr1 = [10, 20, 30, 40, 50] ∧ g1 = GenRNG.init) :=
  genShuffle_perm [10, 20, 30, 40, 50] 5 GenRNG.init (by decide) (by decide) (by decide)

/-! ## binary32 rounding -/

namespace F32

theorem roundHalfEven_intCast (z : Int) : roundHalfEven (z : ℚ) = z := by
  unfold roundHalfEven
  simp

theorem ulpExp_le_of_lt {q : ℚ} {e : Int} (hq : q ≠ 0) (h : |q| < 2 ^ (e + 24)) (he : -149 ≤ e) :
    ulpExp q ≤ e := by
  unfold ulpExp
  have hpos : 0 < |q| := abs_pos.mpr hq
  have h2 : Int.log 2 |q| < e + 24 := by
    have := (Int.lt_zpow_iff_log_lt (b := 2) (by norm_num) hpos (x := e + 24)).mp (by exact_mod_cast h)
    exact this
  omega

/-- A rational `m * 2^e` with a 24-bit significand and an exponent in the binary32 range is
left unchanged by rounding. -/
theorem round_exact (m e : Int) (hm : |m| < 16777216) (he : -149 ≤ e) (he2 : e ≤ 104) :
    round ((m : ℚ) * 2 ^ e) = fin ((m : ℚ) * 2 ^ e) := by
  by_cases hm0 : m = 0
  · subst hm0
    simp [round]
  have h2pos : ∀ z : Int, (0 : ℚ) < 2 ^ z := fun z => zpow_pos (by norm_num) z
  have hq : (m : ℚ) * 2 ^ e ≠ 0 := mul_ne_zero (by exact_mod_cast hm0) (h2pos e).ne'
  have habs : |(m : ℚ) * 2 ^ e| = (|m| : Int) * 2 ^ e := by
    rw [abs_mul, abs_of_pos (h2pos e)]
    push_cast
    rfl
  have hlt : |(m : ℚ) * 2 ^ e| < 2 ^ (e + 24) := by
    rw [habs, zpow_add₀ (by norm_num : (2 : ℚ) ≠ 0), mul_comm]
    apply mul_lt_mul_of_pos_left _ (h2pos e)
    have : ((|m| : Int) : ℚ) < (16777216 : Int) := by exact_mod_cast hm
    norm_num at this ⊢
    exact this
  have hu := ulpExp_le_of_lt hq hlt he
  unfold round
  rw [if_neg hq]
  simp only
  generalize ulpExp ((m : ℚ) * 2 ^ e) = u at hu
  obtain ⟨k, hk⟩ := Int.eq_ofNat_of_zero_le (by omega : 0 ≤ e - u)
  have he' : e = u + k := by omega
  have hdiv : (m : ℚ) * 2 ^ e / 2 ^ u = ((m * 2 ^ k : Int) : ℚ) := by
    rw [he', zpow_add₀ (by norm_num : (2 : ℚ) ≠ 0), zpow_natCast]
    push_cast
    field_simp
    ring
  have hv : ((m * 2 ^ k : Int) : ℚ) * 2 ^ u = (m : ℚ) * 2 ^ e := by
    rw [he', zpow_add₀ (by norm_num : (2 : ℚ) ≠ 0), zpow_natCast]
    push_cast
    ring
  rw [hdiv, roundHalfEven_intCast, hv]
  have hmax : ¬ maxFinite < |(m : ℚ) * 2 ^ e| := by
    rw [habs, not_lt]
    have h1 : ((|m| : Int) : ℚ) ≤ 16777215 := by
      have : |m| ≤ 16777215 := by omega
      exact_mod_cast this
    have h3 : (2 : ℚ) ^ e ≤ 2 ^ (104 : Int) := zpow_le_zpow_right₀ (by norm_num) he2
    calc ((|m| : Int) : ℚ) * 2 ^ e ≤ 16777215 * 2 ^ (104 : Int) :=
          mul_le_mul h1 h3 (h2pos e).le (by norm_num)
      _ = maxFinite := by
          unfold maxFinite
          norm_num
  rw [if_neg hmax]

theorem floor_le_roundHalfEven (x : ℚ) : ⌊x⌋ ≤ roundHalfEven x := by
  unfold roundHalfEven
  simp only
  split_ifs <;> omega

theorem roundHalfEven_le_floor_add_one (x : ℚ) : roundHalfEven x ≤ ⌊x⌋ + 1 := by
  unfold roundHalfEven
  simp only
  split_ifs <;> omega

theorem le_roundHalfEven {x : ℚ} {n : Int} (h : (n : ℚ) ≤ x) : n ≤ roundHalfEven x :=
  le_trans (Int.le_floor.mpr h) (floor_le_roundHalfEven x)

theorem roundHalfEven_le {x : ℚ} {n : Int} (h : x ≤ (n : ℚ)) : roundHalfEven x ≤ n := by
  by_cases hx : x = n
  · rw [hx, roundHalfEven_intCast]
  · have hlt : x < n := lt_of_le_of_ne h hx
    have : ⌊x⌋ < n := Int.floor_lt.mpr hlt
    have := roundHalfEven_le_floor_add_one x
    omega

theorem two_zpow_pos (z : Int) : (0 : ℚ) < 2 ^ z := zpow_pos (by norm_num) z

theorem ulpExp_ge (q : ℚ) : -149 ≤ ulpExp q := by
  unfold ulpExp
  omega

/-- The scaled magnitude `|q| / 2^ulpExp q` is below `2^24`. -/
theorem abs_div_ulp_lt {q : ℚ} (hq : q ≠ 0) : |q| / 2 ^ ulpExp q < 16777216 := by
  have hpos : 0 < |q| := abs_pos.mpr hq
  have h1 : |q| < 2 ^ (Int.log 2 |q| + 1) := by
    have := Int.lt_zpow_succ_log_self (b := 2) (by norm_num) |q|
    exact_mod_cast this
  have h2 : Int.log 2 |q| + 1 ≤ ulpExp q + 24 := by
    unfold ulpExp
    omega
  have h3 : (2 : ℚ) ^ (Int.log 2 |q| + 1) ≤ 2 ^ (ulpExp q + 24) :=
    zpow_le_zpow_right₀ (by norm_num) h2
  rw [div_lt_iff₀ (two_zpow_pos _)]
  calc |q| < 2 ^ (ulpExp q + 24) := lt_of_lt_of_le h1 h3
    _ = 16777216 * 2 ^ ulpExp q := by
        rw [zpow_add₀ (by norm_num : (2 : ℚ) ≠ 0)]
        norm_num
        ring

/-- Above the subnormal range the scaled magnitude `|q| / 2^ulpExp q` is at least `2^23`. -/
theorem le_abs_div_ulp {q : ℚ} (hq : q ≠ 0) (hu : -149 < ulpExp q) :
    8388608 ≤ |q| / 2 ^ ulpExp q := by
  have hpos : 0 < |q| := abs_pos.mpr hq
  have h1 : (2 : ℚ) ^ Int.log 2 |q| ≤ |q| := by
    have := Int.zpow_log_le_self (b := 2) (by norm_num) hpos
    exact_mod_cast this
  have h2 : Int.log 2 |q| = ulpExp q + 23 := by
    unfold ulpExp at hu ⊢
    omega
  rw [le_div_iff₀ (two_zpow_pos _)]
  calc (8388608 : ℚ) * 2 ^ ulpExp q = 2 ^ (ulpExp q + 23) := by
        rw [zpow_add₀ (by norm_num : (2 : ℚ) ≠ 0)]
        norm_num
        ring
    _ = 2 ^ Int.log 2 |q| := by rw [h2]
    _ ≤ |q| := h1

/-- The integer significand chosen by `round` has magnitude at most `2^24`. -/
theorem abs_roundHalfEven_div_ulp_le {q : ℚ} (hq : q ≠ 0) :
    |roundHalfEven (q / 2 ^ ulpExp q)| ≤ 16777216 := by
  have h := abs_div_ulp_lt hq
  have habs : |q / 2 ^ ulpExp q| < 16777216 := by
    rw [abs_div, abs_of_pos (two_zpow_pos _)]
    exact h
  rw [abs_lt] at habs
  rw [abs_le]
  constructor
  · apply le_roundHalfEven
    push_cast
    linarith [habs.1]
  · apply roundHalfEven_le
    push_cast
    linarith [habs.2]

/-- Above the subnormal range the integer significand chosen by `round` has magnitude at
least `2^23`. -/
theorem le_abs_roundHalfEven_div_ulp {q : ℚ} (hq : q ≠ 0) (hu : -149 < ulpExp q) :
    8388608 ≤ |roundHalfEven (q / 2 ^ ulpExp q)| := by
  have h := le_abs_div_ulp hq hu
  rcases lt_or_gt_of_ne hq with hneg | hpos
  · have h1 : q / 2 ^ ulpExp q ≤ ((-8388608 : Int) : ℚ) := by
      rw [abs_of_neg hneg, neg_div] at h
      push_cast
      linarith
    have := roundHalfEven_le h1
    rw [abs_of_nonpos (by omega)]
    omega
  · have h1 : ((8388608 : Int) : ℚ) ≤ q / 2 ^ ulpExp q := by
      rw [abs_of_pos hpos] at h
      push_cast
      linarith
    have := le_roundHalfEven h1
    rw [abs_of_nonneg (by omega)]
    omega

theorem maxFinite_lt : maxFinite < 2 ^ (128 : Int) := by
  unfold maxFinite
  norm_num

/-- Rounding is idempotent: every result of `round` is a `float`. -/
theorem round_isFloat (q : ℚ) : IsFloat (round q) := by
  by_cases hq : q = 0
  · subst hq
    simp [round, IsFloat]
  unfold round
  rw [if_neg hq]
  simp only
  split_ifs with hmax
  · trivial
  unfold IsFloat
  simp only
  rw [not_lt, abs_mul, abs_of_pos (two_zpow_pos _)] at hmax
  have hz := abs_roundHalfEven_div_ulp_le hq
  have hu0 := ulpExp_ge q
  generalize hzdef : roundHalfEven (q / 2 ^ ulpExp q) = z at hz hmax
  have hzabs : |(z : ℚ)| = ((|z| : Int) : ℚ) := by push_cast; rfl
  rw [hzabs] at hmax
  by_cases hfull : |z| = 16777216
  · -- the significand was rounded up to `2^24`: renormalise as `2^23 * 2^(u+1)`
    have hu : ulpExp q + 1 ≤ 104 := by
      by_contra hc
      have h104 : (104 : Int) ≤ ulpExp q := by omega
      have h3 : (2 : ℚ) ^ (104 : Int) ≤ 2 ^ ulpExp q := zpow_le_zpow_right₀ (by norm_num) h104
      have h4 := maxFinite_lt
      rw [hfull] at hmax
      have : (2 : ℚ) ^ (128 : Int) ≤ ((16777216 : Int) : ℚ) * 2 ^ ulpExp q := by
        calc (2 : ℚ) ^ (128 : Int) = 16777216 * 2 ^ (104 : Int) := by norm_num
          _ ≤ 16777216 * 2 ^ ulpExp q := by linarith
          _ = ((16777216 : Int) : ℚ) * 2 ^ ulpExp q := by norm_num
      linarith
    have hre : (z : ℚ) * 2 ^ ulpExp q = ((z / 2 : Int) : ℚ) * 2 ^ (ulpExp q + 1) := by
      have hz2 : z = 2 * (z / 2) := by
        rcases abs_eq (by norm_num : (0 : Int) ≤ 16777216) |>.mp hfull with h | h <;>
          rw [h] <;> decide
      rw [zpow_add₀ (by norm_num : (2 : ℚ) ≠ 0)]
      conv_lhs => rw [hz2]
      push_cast
      ring
    rw [hre]
    apply round_exact _ _ _ (by omega) hu
    rcases abs_eq (by norm_num : (0 : Int) ≤ 16777216) |>.mp hfull with h | h <;>
      rw [h] <;> decide
  · have hlt : |z| < 16777216 := lt_of_le_of_ne hz hfull
    by_cases hu : ulpExp q ≤ 104
    · exact round_exact z _ hlt hu0 hu
    · exfalso
      have hz23 := le_abs_roundHalfEven_div_ulp hq (by omega)
      rw [hzdef] at hz23
      have h105 : (105 : Int) ≤ ulpExp q := by omega
      have h3 : (2 : ℚ) ^ (105 : Int) ≤ 2 ^ ulpExp q := zpow_le_zpow_right₀ (by norm_num) h105
      have h4 := maxFinite_lt
      have h5 : ((8388608 : Int) : ℚ) ≤ ((|z| : Int) : ℚ) := by exact_mod_cast hz23
      have : (2 : ℚ) ^ (128 : Int) ≤ ((|z| : Int) : ℚ) * 2 ^ ulpExp q := by
        calc (2 : ℚ) ^ (128 : Int) = ((8388608 : Int) : ℚ) * 2 ^ (105 : Int) := by norm_num
          _ ≤ ((|z| : Int) : ℚ) * 2 ^ ulpExp q :=
            mul_le_mul h5 h3 (two_zpow_pos _).le (by positivity)
      linarith

/-- A positive `float` value is its significand times its unit in the last place. -/
theorem eq_of_round_eq {p : ℚ} (hp0 : p ≠ 0) (hp : round p = fin p) :
    ((roundHalfEven (p / 2 ^ ulpExp p) : Int) : ℚ) * 2 ^ ulpExp p = p := by
  unfold round at hp
  rw [if_neg hp0] at hp
  simp only at hp
  split_ifs at hp with h
  exact F32.fin.inj hp

/-- The significand chosen by `round` for a non-negative rational is non-negative. -/
theorem roundHalfEven_div_ulp_nonneg {q : ℚ} (hq : 0 ≤ q) :
    0 ≤ roundHalfEven (q / 2 ^ ulpExp q) := by
  apply le_roundHalfEven
  push_cast
  exact div_nonneg hq (two_zpow_pos _).le

/-- Rounding is monotone against a `float` lower bound: if `p` is a `float` and
`0 <= p <= q` then the rounding of `q` (possibly `+inf`) is not below `p`. -/
theorem le_round_of_le {p q : ℚ} (hp : round p = fin p) (h0 : 0 ≤ p) (hpq : p ≤ q) :
    le (fin p) (round q) = true := by
  by_cases hq0 : q = 0
  · subst hq0
    have : p = 0 := le_antisymm hpq h0
    subst this
    simp [round, le]
  have hqpos : 0 < q := lt_of_le_of_ne (le_trans h0 hpq) (Ne.symm hq0)
  have hzq := roundHalfEven_div_ulp_nonneg hqpos.le
  unfold round
  rw [if_neg hq0]
  simp only
  split_ifs with hmax
  · simp [le, not_lt.mpr hqpos.le]
  simp only [le, decide_eq_true_eq]
  by_cases hp0 : p = 0
  · subst hp0
    exact mul_nonneg (by exact_mod_cast hzq) (two_zpow_pos _).le
  have hppos : 0 < p := lt_of_le_of_ne h0 (Ne.symm hp0)
  have hpe := eq_of_round_eq hp0 hp
  have hlog : Int.log 2 p ≤ Int.log 2 q := Int.log_mono_right hppos hpq
  by_cases hu : ulpExp p = ulpExp q
  · -- same grid: compare the significands
    rw [hu] at hpe
    have e : ((roundHalfEven (p / 2 ^ ulpExp q) : Int) : ℚ) = p / 2 ^ ulpExp q := by
      rw [eq_div_iff (two_zpow_pos _).ne']
      exact hpe
    have hzz : roundHalfEven (p / 2 ^ ulpExp q) ≤ roundHalfEven (q / 2 ^ ulpExp q) := by
      apply le_roundHalfEven
      rw [e]
      exact div_le_div_of_nonneg_right hpq (two_zpow_pos _).le
    calc p = ((roundHalfEven (p / 2 ^ ulpExp q) : Int) : ℚ) * 2 ^ ulpExp q := hpe.symm
      _ ≤ ((roundHalfEven (q / 2 ^ ulpExp q) : Int) : ℚ) * 2 ^ ulpExp q :=
        mul_le_mul_of_nonneg_right (by exact_mod_cast hzz) (two_zpow_pos _).le
  · -- `q` lies in a higher binade: its rounding is at least the binade's lower end
    have hul : -149 < ulpExp q ∧ Int.log 2 p + 1 ≤ ulpExp q + 23 := by
      unfold ulpExp at hu ⊢
      rw [abs_of_pos hppos, abs_of_pos hqpos] at hu
      rw [abs_of_pos hqpos]
      omega
    have hz23 := le_abs_roundHalfEven_div_ulp hq0 hul.1
    rw [abs_of_nonneg hzq] at hz23
    have h1 : p < 2 ^ (Int.log 2 p + 1) := by
      have := Int.lt_zpow_succ_log_self (b := 2) (by norm_num) p
      exact_mod_cast this
    have h2 : (2 : ℚ) ^ (Int.log 2 p + 1) ≤ 2 ^ (ulpExp q + 23) :=
      zpow_le_zpow_right₀ (by norm_num) hul.2
    have h3 : (2 : ℚ) ^ (ulpExp q + 23) = 8388608 * 2 ^ ulpExp q := by
      rw [zpow_add₀ (by norm_num : (2 : ℚ) ≠ 0)]
      norm_num
      ring
    have h4 : (8388608 : ℚ) * 2 ^ ulpExp q
        ≤ ((roundHalfEven (q / 2 ^ ulpExp q) : Int) : ℚ) * 2 ^ ulpExp q := by
      apply mul_le_mul_of_nonneg_right _ (two_zpow_pos _).le
      exact_mod_cast hz23
    linarith

end F32

/-- An integer below `2^24` converts to `float` exactly. -/
theorem F32.ofInt_exact (k : Nat) (hk : k < 16777216) : F32.ofInt (k : Int) = F32.fin (k : ℚ) := by
  have h := F32.round_exact (k : Int) 0 (by rw [abs_of_nonneg (by omega)]; omega) (by decide)
    (by decide)
  simpa [F32.ofInt] using h

/-- The constant `1<<24` converts to `float` exactly. -/
theorem F32.ofInt_two_pow_24 : F32.ofInt ((1 <<< 24 : Nat) : Int) = F32.fin 16777216 := by
  have h := F32.round_exact 1 24 (by decide) (by decide) (by decide)
  have e : ((1 : Int) : ℚ) * 2 ^ (24 : Int) = 16777216 := by norm_num
  rw [e] at h
  have e3 : (1 <<< 24 : Nat) = 16777216 := by decide
  have e2 : (((1 <<< 24 : Nat) : Int) : ℚ) = 16777216 := by
    rw [e3]
    norm_num
  unfold F32.ofInt
  rw [e2]
  exact h

/-- The quotient of an integer below `2^24` by `2^24` is a `float`. -/
theorem F32.round_div_two_pow_24 (k : Nat) (hk : k < 16777216) :
    F32.round ((k : ℚ) / 16777216) = F32.fin ((k : ℚ) / 16777216) := by
  have h := F32.round_exact (k : Int) (-24) (by rw [abs_of_nonneg (by omega)]; omega)
    (by decide) (by decide)
  have e : (((k : Int) : ℚ)) * 2 ^ (-24 : Int) = (k : ℚ) / 16777216 := by
    rw [zpow_neg]
    norm_num
    ring
  rw [e] at h
  exact h

/-! ## GenRNG: unit floats and weighted picks -/

/-- The value and the state returned by `randFloat`: both conversions and the division are
exact in binary32. -/
theorem randFloat_eq (g : GenRNG) :
    g.next.1 >>> 8 < 16777216 ∧
    g.randFloat = (F32.fin (((g.next.1 >>> 8 : Nat) : ℚ) / 16777216), g.next.2) ∧
    (0 : ℚ) ≤ ((g.next.1 >>> 8 : Nat) : ℚ) / 16777216 ∧
    ((g.next.1 >>> 8 : Nat) : ℚ) / 16777216 < 1 := by
  have hk : g.next.1 >>> 8 < 16777216 := by
    have := next_fst_lt g
    rw [Nat.shiftRight_eq_div_pow]
    omega
  refine ⟨hk, ?_, by positivity, ?_⟩
  · unfold GenRNG.randFloat
    simp only
    rw [F32.ofInt_exact _ hk, F32.ofInt_two_pow_24]
    unfold F32.div
    simp only
    rw [if_neg (by norm_num), F32.round_div_two_pow_24 _ hk]
  · rw [div_lt_one (by norm_num)]
    exact_mod_cast hk

/-- C4. For every state, `randFloat` returns exactly `k / 2^24` with `k = next() >> 8`, an
integer with `0 <= k < 2^24` (both conversions and the division are exact in binary32, so
the result is a `float`); hence the value `r` satisfies `0 <= r < 1`, and the state
advances by exactly one `next()` step. -/
theorem randFloat_exact (g : GenRNG) :
    g.next.1 >>> 8 < 16777216 ∧
    g.randFloat = (F32.fin (((g.next.1 >>> 8 : Nat) : ℚ) / 16777216), g.next.2) ∧
    F32.IsFloat g.randFloat.1 ∧
    (0 : ℚ) ≤ ((g.next.1 >>> 8 : Nat) : ℚ) / 16777216 ∧
    ((g.next.1 >>> 8 : Nat) : ℚ) / 16777216 < 1 ∧
    g.randFloat.2 = GenRNG.advance 1 g := by
  obtain ⟨hk, hr, h0, h1⟩ := randFloat_eq g
  refine ⟨hk, hr, ?_, h0, h1, rfl⟩
  rw [hr]
  exact F32.round_div_two_pow_24 _ hk

namespace F32

theorem round_zero : round 0 = fin 0 := by
  simp [round]

theorem isFloat_zero : IsFloat (fin 0) := round_zero

/-- A non-negative `float` is a non-negative rational or `+inf`. -/
theorem nonneg_cases {x : F32} (h : le (fin 0) x = true) :
    (∃ a : ℚ, x = fin a ∧ 0 ≤ a) ∨ x = inf false := by
  cases x with
  | fin a => exact Or.inl ⟨a, rfl, by simpa [le] using h⟩
  | inf s => cases s <;> simp_all [le]
  | nan => simp [le] at h

theorem le_of_le_of_le {a b c : F32} (h1 : le a b = true) (h2 : le b c = true) :
    le a c = true := by
  cases a <;> cases b <;> cases c <;> simp_all [le]
  · exact le_trans h1 h2
  all_goals (rename_i s t; cases s <;> cases t <;> simp_all)

theorem lt_le_trans {x a b : F32} (h1 : lt x a = true) (h2 : le a b = true) :
    lt x b = true := by
  cases x <;> cases a <;> cases b <;> simp_all [le, lt]
  · exact lt_of_lt_of_le h1 h2

theorem le_false_of_lt {a b : F32} (h : lt a b = true) : le b a = false := by
  cases a <;> cases b <;> simp_all [le, lt]

theorem lt_of_nonneg_of_ne {w : F32} (h : le (fin 0) w = true) (hne : w ≠ fin 0) :
    lt (fin 0) w = true := by
  rcases nonneg_cases h with ⟨a, rfl, ha⟩ | rfl
  · have : a ≠ 0 := fun h0 => hne (by rw [h0])
    simpa [lt] using lt_of_le_of_ne ha (Ne.symm this)
  · rfl

theorem nonneg_split {w : F32} (h : le (fin 0) w = true) :
    le w (fin 0) = true ∨ lt (fin 0) w = true := by
  rcases nonneg_cases h with ⟨a, rfl, ha⟩ | rfl
  · rcases ha.eq_or_lt with h0 | h0
    · left
      simp [le, ← h0]
    · right
      simpa [lt] using h0
  · right
    rfl

/-- Adding the float zero changes nothing. -/
theorem add_zero_right {a : F32} (ha : IsFloat a) : add a (fin 0) = a := by
  cases a with
  | fin p =>
    show round (p + 0) = fin p
    rw [add_zero]
    exact ha
  | inf s => rfl
  | nan => rfl

/-- Adding two non-negative floats gives a non-negative float that is not below the first
summand. -/
theorem add_nonneg_float {a b : F32} (ha : IsFloat a) (ha0 : le (fin 0) a = true)
    (hb0 : le (fin 0) b = true) :
    IsFloat (add a b) ∧ le (fin 0) (add a b) = true ∧ le a (add a b) = true := by
  rcases nonneg_cases ha0 with ⟨p, rfl, hp⟩ | rfl <;>
    rcases nonneg_cases hb0 with ⟨c, rfl, hc⟩ | rfl
  · refine ⟨round_isFloat _, le_round_of_le round_zero (le_refl 0) (add_nonneg hp hc), ?_⟩
    exact le_round_of_le ha hp (by linarith)
  · exact ⟨trivial, rfl, rfl⟩
  · exact ⟨trivial, rfl, rfl⟩
  · exact ⟨trivial, rfl, rfl⟩

end F32

/-! ## weightedPick -/

theorem sumWeights_append (l1 l2 : List F32) (acc : F32) :
    sumWeights (l1 ++ l2) acc = sumWeights l2 (sumWeights l1 acc) := by
  induction l1 generalizing acc with
  | nil => rfl
  | cons w l ih => exact ih _

/-- The partial sum up to index `j` is the previous partial sum plus `weights[j]`. -/
theorem sumWeights_take_succ (ws : List F32) (acc : F32) (j : Nat) (hj : j < ws.length) :
    sumWeights (ws.take (j + 1)) acc = F32.add (sumWeights (ws.take j) acc) ws[j] := by
  rw [List.take_succ, List.getElem?_eq_getElem hj, sumWeights_append]
  rfl

/-- Sums of non-negative floats are non-negative floats, not below the initial value. -/
theorem sumWeights_nonneg (ws : List F32) (acc : F32)
    (hnn : ∀ w ∈ ws, F32.le (F32.fin 0) w = true)
    (hacc : F32.IsFloat acc) (hacc0 : F32.le (F32.fin 0) acc = true) :
    F32.IsFloat (sumWeights ws acc) ∧ F32.le (F32.fin 0) (sumWeights ws acc) = true ∧
      F32.le acc (sumWeights ws acc) = true := by
  induction ws generalizing acc with
  | nil =>
    refine ⟨hacc, hacc0, ?_⟩
    rcases F32.nonneg_cases hacc0 with ⟨a, rfl, -⟩ | rfl
    · simp [sumWeights, F32.le]
    · rfl
  | cons w l ih =>
    obtain ⟨h1, h2, h3⟩ := F32.add_nonneg_float hacc hacc0 (hnn w (List.mem_cons_self _ _))
    obtain ⟨k1, k2, k3⟩ := ih (F32.add acc w)
      (fun x hx => hnn x (List.mem_cons_of_mem _ hx)) h1 h2
    exact ⟨k1, k2, F32.le_of_le_of_le h3 k3⟩

/-- The scan of `weightedPick` returns the first index whose partial sum exceeds `r`. -/
theorem pickLoop_some (ws : List F32) (r accum : F32) (i : Int) (j : Nat)
    (hj : j < ws.length)
    (hlt : F32.lt r (sumWeights (ws.take (j + 1)) accum) = true)
    (hmin : ∀ k < j, F32.lt r (sumWeights (ws.take (k + 1)) accum) = false) :
    pickLoop ws r accum i = some (i + j) := by
  induction ws generalizing accum i j with
  | nil => simp at hj
  | cons w l ih =>
    unfold pickLoop
    simp only
    cases j with
    | zero =>
      have : F32.lt r (F32.add accum w) = true := by simpa [sumWeights] using hlt
      rw [if_pos this]
      simp
    | succ j =>
      have h0 : F32.lt r (F32.add accum w) = false := by
        simpa [sumWeights] using hmin 0 (by omega)
      rw [if_neg (by simp [h0])]
      rw [ih (F32.add accum w) (i + 1) j (by simpa using hj)
        (by simpa [sumWeights] using hlt)
        (fun k hk => by simpa [sumWeights] using hmin (k + 1) (by omega))]
      congr 1
      push_cast
      ring

/-- The scan of `weightedPick` falls through when no partial sum exceeds `r`. -/
theorem pickLoop_none (ws : List F32) (r accum : F32) (i : Int)
    (h : ∀ k < ws.length, F32.lt r (sumWeights (ws.take (k + 1)) accum) = false) :
    pickLoop ws r accum i = none := by
  induction ws generalizing accum i with
  | nil => rfl
  | cons w l ih =>
    unfold pickLoop
    simp only
    have h0 : F32.lt r (F32.add accum w) = false := by
      simpa [sumWeights] using h 0 (by simp)
    rw [if_neg (by simp [h0])]
    exact ih _ _ (fun k hk => by simpa [sumWeights] using h (k + 1) (by simpa using hk))

/-- The rounded product of a draw of `randFloat` with a positive total is never negative. -/
theorem draw_mul_not_neg (g : GenRNG) (W : F32) (hW : F32.lt (F32.fin 0) W = true) :
    F32.lt (F32.mul g.randFloat.1 W) (F32.fin 0) = false := by
  obtain ⟨-, hr, h0, -⟩ := randFloat_eq g
  rw [hr]
  simp only
  cases W with
  | fin a =>
    have ha : 0 < a := by simpa [F32.lt] using hW
    have hle := F32.le_round_of_le F32.round_zero (le_refl 0) (mul_nonneg h0 ha.le)
    show F32.lt (F32.round _) (F32.fin 0) = false
    generalize F32.round _ = x at hle
    cases x <;> simp_all [F32.le, F32.lt]
  | inf s =>
    cases s
    · unfold F32.mul
      simp only
      split_ifs <;> simp [F32.lt, not_lt.mpr h0]
    · simp [F32.lt] at hW
  | nan => simp [F32.lt] at hW

/-- A rational of at least `2^128` rounds to `+inf`. -/
theorem F32.round_overflow {q : ℚ} (h : 340282366920938463463374607431768211456 ≤ q) :
    F32.round q = F32.inf false := by
  have hqpos : 0 < q := lt_of_lt_of_le (by norm_num) h
  have hq0 : q ≠ 0 := hqpos.ne'
  have hlog : (128 : Int) ≤ Int.log 2 |q| := by
    rw [abs_of_pos hqpos]
    apply (Int.zpow_le_iff_le_log (b := 2) (by norm_num) hqpos).mp
    norm_num
    exact h
  have hu : (105 : Int) ≤ F32.ulpExp q := by
    unfold F32.ulpExp
    omega
  have hz := F32.le_abs_roundHalfEven_div_ulp hq0 (by omega)
  unfold F32.round
  rw [if_neg hq0]
  simp only
  have hbig : F32.maxFinite < |((F32.roundHalfEven (q / 2 ^ F32.ulpExp q) : Int) : ℚ) * 2 ^ F32.ulpExp q| := by
    rw [abs_mul, abs_of_pos (F32.two_zpow_pos _)]
    have h3 : (2 : ℚ) ^ (105 : Int) ≤ 2 ^ F32.ulpExp q := zpow_le_zpow_right₀ (by norm_num) hu
    have h5 : ((8388608 : Int) : ℚ) ≤ |((F32.roundHalfEven (q / 2 ^ F32.ulpExp q) : Int) : ℚ)| := by
      exact_mod_cast hz
    calc F32.maxFinite < 2 ^ (128 : Int) := F32.maxFinite_lt
      _ = ((8388608 : Int) : ℚ) * 2 ^ (105 : Int) := by norm_num
      _ ≤ _ := mul_le_mul h5 h3 (F32.two_zpow_pos _).le (abs_nonneg _)
  rw [if_pos hbig]
  simp [not_lt.mpr hqpos.le]

theorem F32.isFloat_one : F32.IsFloat (F32.fin 1) := by
  have h := F32.round_exact 1 0 (by decide) (by decide) (by decide)
  simpa [F32.IsFloat] using h

theorem F32.isFloat_two_pow_127 :
    F32.IsFloat (F32.fin 170141183460469231731687303715884105728) := by
  have h := F32.round_exact 8388608 104 (by decide) (by decide) (by decide)
  have e : ((8388608 : Int) : ℚ) * 2 ^ (104 : Int) = 170141183460469231731687303715884105728 := by
    norm_num
  rw [e] at h
  exact h

/-- With weights `1,0,0` the pick is index 0 for every generator state. -/
theorem weightedPick_one_zero_zero (g : GenRNG) :
    g.weightedPick [F32.fin 1, F32.fin 0, F32.fin 0] = (0, g.next.2) := by
  obtain ⟨hk, hr, h0, h1⟩ := randFloat_eq g
  have e1 : F32.add (F32.fin 0) (F32.fin 1) = F32.fin 1 := by
    show F32.round (0 + 1) = F32.fin 1
    rw [zero_add]
    exact F32.isFloat_one
  have hW : sumWeights [F32.fin 1, F32.fin 0, F32.fin 0] (F32.fin 0) = F32.fin 1 := by
    simp only [sumWeights, e1, F32.add_zero_right F32.isFloat_one]
  unfold GenRNG.weightedPick
  simp only [hW]
  rw [if_neg (by simp [F32.le])]
  rw [hr]
  simp only
  have hx : F32.mul (F32.fin (((g.next.1 >>> 8 : Nat) : ℚ) / 16777216)) (F32.fin 1)
      = F32.fin (((g.next.1 >>> 8 : Nat) : ℚ) / 16777216) := by
    show F32.round (_ * 1) = _
    rw [mul_one]
    exact F32.round_div_two_pow_24 _ hk
  rw [hx]
  simp only [pickLoop, e1, F32.lt, decide_eq_true_eq]
  rw [if_pos h1]

/-- With weights `2^127, 2^127, 0` the total overflows to `+inf`, no partial sum exceeds the
scaled draw, and the pick falls through to the last index for every generator state. -/
theorem weightedPick_overflow (g : GenRNG) :
    g.weightedPick [F32.fin 170141183460469231731687303715884105728,
      F32.fin 170141183460469231731687303715884105728, F32.fin 0] = (2, g.next.2) := by
  obtain ⟨hk, hr, h0, h1⟩ := randFloat_eq g
  have e1 : F32.add (F32.fin 0) (F32.fin 170141183460469231731687303715884105728)
      = F32.fin 170141183460469231731687303715884105728 := by
    show F32.round (0 + _) = _
    rw [zero_add]
    exact F32.isFloat_two_pow_127
  have e2 : F32.add (F32.fin 170141183460469231731687303715884105728)
      (F32.fin 170141183460469231731687303715884105728) = F32.inf false := by
    show F32.round (_ + _) = _
    exact F32.round_overflow (by norm_num)
  have e3 : F32.add (F32.inf false) (F32.fin 0) = F32.inf false := rfl
  have hW : sumWeights [F32.fin 170141183460469231731687303715884105728,
      F32.fin 170141183460469231731687303715884105728, F32.fin 0] (F32.fin 0)
        = F32.inf false := by
    simp only [sumWeights, e1, e2, e3]
  unfold GenRNG.weightedPick
  simp only [hW]
  rw [if_neg (by simp [F32.le])]
  rw [hr]
  simp only
  have hx : ∀ y : F32, F32.lt (F32.mul (F32.fin (((g.next.1 >>> 8 : Nat) : ℚ) / 16777216))
      (F32.inf false)) y = false := by
    intro y
    unfold F32.mul
    simp only
    split_ifs <;> cases y <;> simp [F32.lt, not_lt.mpr h0]
  simp only [pickLoop, e1, e2, e3, hx]
  have e5 : toI32 2 = 2 := by decide
  simp [e5]

theorem F32.roundHalfEven_lt_of_lt_sub_half {x : ℚ} {n : Int} (h : x < (n : ℚ) - 1 / 2) :
    F32.roundHalfEven x ≤ n - 1 := by
  have hfl : ⌊x⌋ ≤ n - 1 := by
    have : ⌊x⌋ < n := Int.floor_lt.mpr (by linarith)
    omega
  rcases hfl.eq_or_lt with he | hlt
  · unfold F32.roundHalfEven
    simp only
    have : x - (⌊x⌋ : ℚ) < 1 / 2 := by
      rw [he]
      push_cast
      linarith
    rw [if_pos this]
    exact he.le
  · have := F32.roundHalfEven_le_floor_add_one x
    omega

/-- A draw `r <= 1 - 2^-24` scaled by a `float` `a >= 2^-125` rounds strictly below `a`. -/
theorem F32.round_mul_lt {a r : ℚ} (ha : F32.round a = F32.fin a)
    (ha125 : (2 : ℚ) ^ (-125 : Int) ≤ a) (hr0 : 0 ≤ r) (hr : r ≤ 1 - 1 / 16777216) :
    F32.lt (F32.round (r * a)) (F32.fin a) = true := by
  have hapos : 0 < a := lt_of_lt_of_le (F32.two_zpow_pos _) ha125
  have ha0 : a ≠ 0 := hapos.ne'
  by_cases hq0 : r * a = 0
  · rw [hq0, F32.round_zero]
    simpa [F32.lt] using hapos
  have hqpos : 0 < r * a := lt_of_le_of_ne (mul_nonneg hr0 hapos.le) (Ne.symm hq0)
  have hqle : r * a ≤ a - a / 16777216 := by
    have := mul_le_mul_of_nonneg_right hr hapos.le
    linarith
  have hqlt : r * a < a := by
    have : 0 < a / 16777216 := by positivity
    linarith
  -- the grid of `a`
  have hpe := F32.eq_of_round_eq ha0 ha
  have hloga : (-125 : Int) ≤ Int.log 2 a :=
    (Int.zpow_le_iff_le_log (b := 2) (by norm_num) hapos).mp (by exact_mod_cast ha125)
  have hua : F32.ulpExp a = Int.log 2 a - 23 := by
    unfold F32.ulpExp
    rw [abs_of_pos hapos]
    omega
  have hza0 := F32.roundHalfEven_div_ulp_nonneg hapos.le
  have hza := F32.le_abs_roundHalfEven_div_ulp ha0 (by omega)
  rw [abs_of_nonneg hza0] at hza
  have hamax : a ≤ F32.maxFinite := by
    unfold F32.round at ha
    rw [if_neg ha0] at ha
    simp only at ha
    split_ifs at ha with h
    rw [hpe, abs_of_pos hapos] at h
    exact not_lt.mp h
  -- the grid of the product
  have hlog : Int.log 2 (r * a) ≤ Int.log 2 a := Int.log_mono_right hqpos hqlt.le
  have huq : F32.ulpExp (r * a) ≤ F32.ulpExp a := by
    unfold F32.ulpExp
    rw [abs_of_pos hapos, abs_of_pos hqpos]
    omega
  obtain ⟨k, hk⟩ := Int.eq_ofNat_of_zero_le (by omega : 0 ≤ F32.ulpExp a - F32.ulpExp (r * a))
  have hua' : F32.ulpExp a = F32.ulpExp (r * a) + k := by omega
  generalize hzdef : F32.roundHalfEven (a / 2 ^ F32.ulpExp a) = za at hpe hza hza0
  have haP : a = ((za * 2 ^ k : Int) : ℚ) * 2 ^ F32.ulpExp (r * a) := by
    have e2 : (2 : ℚ) ^ F32.ulpExp a = 2 ^ F32.ulpExp (r * a) * 2 ^ k := by
      rw [hua', zpow_add₀ (by norm_num : (2 : ℚ) ≠ 0), zpow_natCast]
    calc a = (za : ℚ) * 2 ^ F32.ulpExp a := hpe.symm
      _ = ((za * 2 ^ k : Int) : ℚ) * 2 ^ F32.ulpExp (r * a) := by
        rw [e2]
        push_cast
        ring
  have hP : 8388608 < za * 2 ^ k := by
    rcases Nat.eq_zero_or_pos k with hk0 | hkpos
    · -- same grid: `a` is not a power of two, else the product lies in a lower binade
      subst hk0
      simp only [pow_zero, mul_one]
      rcases hza.eq_or_lt with heq | hlt
      · exfalso
        have ha2 : a = 2 ^ Int.log 2 a := by
          have e3 : (2 : ℚ) ^ (Int.log 2 a) = 2 ^ (Int.log 2 a - 23) * 2 ^ (23 : Int) := by
            rw [← zpow_add₀ (by norm_num : (2 : ℚ) ≠ 0)]
            congr 1
            omega
          calc a = (za : ℚ) * 2 ^ F32.ulpExp a := hpe.symm
            _ = 2 ^ Int.log 2 a := by
              rw [e3, ← heq, hua]
              norm_num
              ring
        have h1 : r * a < 2 ^ Int.log 2 a := by
          rw [← ha2]
          exact hqlt
        have h2 : Int.log 2 (r * a) < Int.log 2 a :=
          (Int.lt_zpow_iff_log_lt (b := 2) (by norm_num) hqpos).mp (by exact_mod_cast h1)
        have h3 : F32.ulpExp (r * a) < F32.ulpExp a := by
          rw [hua]
          unfold F32.ulpExp
          rw [abs_of_pos hqpos]
          omega
        omega
      · exact hlt
    · have h2k : 2 ≤ 2 ^ k := by
        calc 2 = 2 ^ 1 := by norm_num
          _ ≤ 2 ^ k := Nat.pow_le_pow_right (by norm_num) hkpos
      have h2k' : (2 : Int) ≤ 2 ^ k := by exact_mod_cast h2k
      nlinarith
  -- the significand of the product is below that of `a`
  have hx : r * a / 2 ^ F32.ulpExp (r * a) < ((za * 2 ^ k : Int) : ℚ) - 1 / 2 := by
    rw [div_lt_iff₀ (F32.two_zpow_pos _)]
    have hPq : (8388608 : ℚ) < ((za * 2 ^ k : Int) : ℚ) := by exact_mod_cast hP
    have h2 := F32.two_zpow_pos (F32.ulpExp (r * a))
    have e : a / 16777216 = ((za * 2 ^ k : Int) : ℚ) / 16777216 * 2 ^ F32.ulpExp (r * a) := by
      conv_lhs => rw [haP]
      ring
    have : (1 : ℚ) / 2 * 2 ^ F32.ulpExp (r * a)
        < ((za * 2 ^ k : Int) : ℚ) / 16777216 * 2 ^ F32.ulpExp (r * a) := by
      apply mul_lt_mul_of_pos_right _ h2
      linarith
    calc r * a ≤ a - a / 16777216 := hqle
      _ < (((za * 2 ^ k : Int) : ℚ) - 1 / 2) * 2 ^ F32.ulpExp (r * a) := by
        rw [sub_mul, ← haP]
        linarith
  have hz := F32.roundHalfEven_lt_of_lt_sub_half hx
  have hz0 := F32.roundHalfEven_div_ulp_nonneg hqpos.le
  have hv : ((F32.roundHalfEven (r * a / 2 ^ F32.ulpExp (r * a)) : Int) : ℚ)
      * 2 ^ F32.ulpExp (r * a) < a := by
    have h2 := F32.two_zpow_pos (F32.ulpExp (r * a))
    have hzq : ((F32.roundHalfEven (r * a / 2 ^ F32.ulpExp (r * a)) : Int) : ℚ)
        ≤ ((za * 2 ^ k : Int) : ℚ) - 1 := by exact_mod_cast hz
    calc _ ≤ (((za * 2 ^ k : Int) : ℚ) - 1) * 2 ^ F32.ulpExp (r * a) :=
          mul_le_mul_of_nonneg_right hzq h2.le
      _ < ((za * 2 ^ k : Int) : ℚ) * 2 ^ F32.ulpExp (r * a) := by linarith
      _ = a := haP.symm
  have hv0 : 0 ≤ ((F32.roundHalfEven (r * a / 2 ^ F32.ulpExp (r * a)) : Int) : ℚ)
      * 2 ^ F32.ulpExp (r * a) :=
    mul_nonneg (by exact_mod_cast hz0) (F32.two_zpow_pos _).le
  unfold F32.round
  rw [if_neg hq0]
  simp only
  rw [if_neg (by rw [abs_of_nonneg hv0]; linarith)]
  simpa [F32.lt] using hv

/-- Every partial sum of non-negative weights is a non-negative float not above the total. -/
theorem partial_le_total (ws : List F32) (k : Nat)
    (hnn : ∀ w ∈ ws, F32.le (F32.fin 0) w = true) :
    F32.IsFloat (sumWeights (ws.take k) (F32.fin 0)) ∧
    F32.le (sumWeights (ws.take k) (F32.fin 0)) (sumWeights ws (F32.fin 0)) = true := by
  obtain ⟨h1, h2, -⟩ := sumWeights_nonneg (ws.take k) (F32.fin 0)
    (fun w hw => hnn w (List.mem_of_mem_take hw)) F32.isFloat_zero rfl
  obtain ⟨-, -, h3⟩ := sumWeights_nonneg (ws.drop k) (sumWeights (ws.take k) (F32.fin 0))
    (fun w hw => hnn w (List.mem_of_mem_drop hw)) h1 h2
  rw [← sumWeights_append, List.take_append_drop] at h3
  exact ⟨h1, h3⟩

/-- C5, amended. For every array of `count >= 1` non-negative weights with binary32 sum `W`
(which is either `<= 0` or `> 0`): if `W <= 0`, `weightedPick` returns 0 without a draw; if
`W > 0`, it makes one `randFloat` draw `r` and, with `x` the rounded product `r*W`: when
`x < W` it returns the least index `i` whose rounded partial sum `w[0]+...+w[i]` exceeds
`x`, this index lies in `[0,count)` and `w[i] > 0`; when `x < W` fails it returns
`count-1`. `x < W` holds whenever `W` is finite and at least `2^-125`. With weights `1,0,0`
it returns 0 for every state. -/
theorem weightedPick_spec (g : GenRNG) (ws : List F32)
    (hcount : 1 ≤ ws.length) (hint : (ws.length : Int) ≤ 2147483647)
    (hnn : ∀ w ∈ ws, F32.le (F32.fin 0) w = true) :
    (F32.le (sumWeights ws (F32.fin 0)) (F32.fin 0) = true ∨
      F32.lt (F32.fin 0) (sumWeights ws (F32.fin 0)) = true) ∧
    (F32.le (sumWeights ws (F32.fin 0)) (F32.fin 0) = true → g.weightedPick ws = (0, g)) ∧
    (F32.lt (F32.fin 0) (sumWeights ws (F32.fin 0)) = true →
      F32.lt (F32.mul g.randFloat.1 (sumWeights ws (F32.fin 0))) (sumWeights ws (F32.fin 0)) = true →
      ∃ i : Nat, i < ws.length ∧ g.weightedPick ws = ((i : Int), g.next.2) ∧
        F32.lt (F32.mul g.randFloat.1 (sumWeights ws (F32.fin 0)))
          (sumWeights (ws.take (i + 1)) (F32.fin 0)) = true ∧
        (∀ k < i, F32.lt (F32.mul g.randFloat.1 (sumWeights ws (F32.fin 0)))
          (sumWeights (ws.take (k + 1)) (F32.fin 0)) = false) ∧
        ∃ w, ws[i]? = some w ∧ F32.lt (F32.fin 0) w = true) ∧
    (F32.lt (F32.fin 0) (sumWeights ws (F32.fin 0)) = true →
      F32.lt (F32.mul g.randFloat.1 (sumWeights ws (F32.fin 0))) (sumWeights ws (F32.fin 0)) = false →
      g.weightedPick ws = ((ws.length : Int) - 1, g.next.2)) ∧
    (∀ a : ℚ, sumWeights ws (F32.fin 0) = F32.fin a → (2 : ℚ) ^ (-125 : Int) ≤ a →
      F32.lt (F32.mul g.randFloat.1 (sumWeights ws (F32.fin 0))) (sumWeights ws (F32.fin 0)) = true) ∧
    g.weightedPick [F32.fin 1, F32.fin 0, F32.fin 0] = (0, g.next.2) := by
  have hWnn := (sumWeights_nonneg ws (F32.fin 0) hnn F32.isFloat_zero rfl).2.1
  refine ⟨F32.nonneg_split hWnn, ?_, ?_, ?_, ?_, weightedPick_one_zero_zero g⟩
  · intro h
    unfold GenRNG.weightedPick
    simp only
    rw [if_pos h]
  · intro hpos hx
    have hle := F32.le_false_of_lt hpos
    have hex : ∃ j, j < ws.length ∧ F32.lt (F32.mul g.randFloat.1 (sumWeights ws (F32.fin 0)))
        (sumWeights (ws.take (j + 1)) (F32.fin 0)) = true := by
      refine ⟨ws.length - 1, by omega, ?_⟩
      rw [show ws.length - 1 + 1 = ws.length by omega, List.take_length]
      exact hx
    obtain ⟨hj, hlt⟩ := Nat.find_spec hex
    have hmin : ∀ k < Nat.find hex, F32.lt (F32.mul g.randFloat.1 (sumWeights ws (F32.fin 0)))
        (sumWeights (ws.take (k + 1)) (F32.fin 0)) = false := by
      intro k hk
      have := Nat.find_min hex hk
      rw [not_and] at this
      simpa using this (by omega)
    generalize Nat.find hex = j at hj hlt hmin
    have hp := pickLoop_some ws _ (F32.fin 0) 0 j hj hlt hmin
    refine ⟨j, hj, ?_, hlt, hmin, ws[j], List.getElem?_eq_getElem hj, ?_⟩
    · unfold GenRNG.weightedPick
      simp only
      rw [if_neg (by simp [hle]), hp]
      simp only [zero_add]
      rfl
    · apply F32.lt_of_nonneg_of_ne (hnn _ (List.getElem_mem hj))
      intro hz
      rw [sumWeights_take_succ ws _ j hj, hz,
        F32.add_zero_right (partial_le_total ws j hnn).1] at hlt
      cases j with
      | zero =>
        have := draw_mul_not_neg g _ hpos
        simp only [List.take_zero, sumWeights] at hlt
        rw [this] at hlt
        exact Bool.false_ne_true hlt
      | succ k =>
        have := hmin k (by omega)
        rw [this] at hlt
        exact Bool.false_ne_true hlt
  · intro hpos hx
    have hle := F32.le_false_of_lt hpos
    have hall : ∀ k < ws.length, F32.lt (F32.mul g.randFloat.1 (sumWeights ws (F32.fin 0)))
        (sumWeights (ws.take (k + 1)) (F32.fin 0)) = false := by
      intro k _
      by_contra hc
      rw [Bool.not_eq_false] at hc
      have := F32.lt_le_trans hc (partial_le_total ws (k + 1) hnn).2
      rw [hx] at this
      exact Bool.false_ne_true this
    have hp := pickLoop_none ws _ (F32.fin 0) 0 hall
    unfold GenRNG.weightedPick
    simp only
    rw [if_neg (by simp [hle]), hp]
    simp only
    rw [toI32_of_InI32 (by unfold InI32; omega)]
    rfl
  · intro a hWa ha
    have hfl := (sumWeights_nonneg ws (F32.fin 0) hnn F32.isFloat_zero rfl).1
    rw [hWa] at hfl ⊢
    obtain ⟨hk, hr, h0, -⟩ := randFloat_eq g
    rw [hr]
    show F32.lt (F32.round (_ * a)) (F32.fin a) = true
    apply F32.round_mul_lt hfl ha h0
    rw [div_le_iff₀ (by norm_num)]
    have : ((g.next.1 >>> 8 : Nat) : ℚ) ≤ 16777215 := by
      have : g.next.1 >>> 8 ≤ 16777215 := by omega
      exact_mod_cast this
    linarith

/-- C5, instance: the weights `1,0,0` with the default-seeded generator. -/
theorem weightedPick_spec_witness :
    (F32.le (sumWeights [F32.fin 1, F32.fin 0, F32.fin 0] (F32.fin 0)) (F32.fin 0) = true ∨
      F32.lt (F32.fin 0) (sumWeights [F32.fin 1, F32.fin 0, F32.fin 0] (F32.fin 0)) = true) ∧
    (F32.le (sumWeights [F32.fin 1, F32.fin 0, F32.fin 0] (F32.fin 0)) (F32.fin 0) = true →
      GenRNG.init.weightedPick [F32.fin 1, F32.fin 0, F32.fin 0] = (0, GenRNG.init)) ∧
    (F32.lt (F32.fin 0) (sumWeights [F32.fin 1, F32.fin 0, F32.fin 0] (F32.fin 0)) = true →
      F32.lt (F32.mul GenRNG.init.randFloat.1
          (sumWeights [F32.fin 1, F32.fin 0, F32.fin 0] (F32.fin 0)))
        (sumWeights [F32.fin 1, F32.fin 0, F32.fin 0] (F32.fin 0)) = true →
      ∃ i : Nat, i < [F32.fin 1, F32.fin 0, F32.fin 0].length ∧
        GenRNG.init.weightedPick [F32.fin 1, F32.fin 0, F32.fin 0]
          = ((i : Int), GenRNG.init.next.2) ∧
        F32.lt (F32.mul GenRNG.init.randFloat.1
            (sumWeights [F32.fin 1, F32.fin 0, F32.fin 0] (F32.fin 0)))
          (sumWeights ([F32.fin 1, F32.fin 0, F32.fin 0].take (i + 1)) (F32.fin 0)) = true ∧
        (∀ k < i, F32.lt (F32.mul GenRNG.init.randFloat.1
            (sumWeights [F32.fin 1, F32.fin 0, F32.fin 0] (F32.fin 0)))
          (sumWeights ([F32.fin 1, F32.fin 0, F32.fin 0].take (k + 1)) (F32.fin 0)) = false) ∧
        ∃ w, [F32.fin 1, F32.fin 0, F32.fin 0][i]? = some w ∧ F32.lt (F32.fin 0) w = true) ∧
    (F32.lt (F32.fin 0) (sumWeights [F32.fin 1, F32.fin 0, F32.fin 0] (F32.fin 0)) = true →
      F32.lt (F32.mul GenRNG.init.randFloat.1
          (sumWeights [F32.fin 1, F32.fin 0, F32.fin 0] (F32.fin 0)))
        (sumWeights [F32.fin 1, F32.fin 0, F32.fin 0] (F32.fin 0)) = false →
      GenRNG.init.weightedPick [F32.fin 1, F32.fin 0, F32.fin 0]
        = ((([F32.fin 1, F32.fin 0, F32.fin 0] : List F32).length : Int) - 1,
            GenRNG.init.next.2)) ∧
    (∀ a : ℚ, sumWeights [F32.fin 1, F32.fin 0, F32.fin 0] (F32.fin 0) = F32.fin a →
      (2 : ℚ) ^ (-125 : Int) ≤ a →
      F32.lt (F32.mul GenRNG.init.randFloat.1
          (sumWeights [F32.fin 1, F32.fin 0, F32.fin 0] (F32.fin 0)))
        (sumWeights [F32.fin 1, F32.fin 0, F32.fin 0] (F32.fin 0)) = true) ∧
    GenRNG.init.weightedPick [F32.fin 1, F32.fin 0, F32.fin 0] = (0, GenRNG.init.next.2) :=
  weightedPick_spec GenRNG.init [F32.fin 1, F32.fin 0, F32.fin 0] (by decide) (by decide)
    (by
      intro w hw
      simp only [List.mem_cons, List.mem_singleton, List.not_mem_nil, or_false] at hw
      rcases hw with rfl | rfl | rfl <;> simp [F32.le])

/-- C5, counterexample: the non-negative floats `2^127, 2^127, 0` have a positive sum
(it overflows to `+inf`), yet `weightedPick` returns index 2, whose weight is zero. -/
theorem weightedPick_zero_weight_returned :
    F32.IsFloat (F32.fin 170141183460469231731687303715884105728) ∧
    F32.le (F32.fin 0) (F32.fin 170141183460469231731687303715884105728) = true ∧
    F32.IsFloat (F32.fin 0) ∧ F32.le (F32.fin 0) (F32.fin 0) = true ∧
    F32.lt (F32.fin 0) (sumWeights [F32.fin 170141183460469231731687303715884105728,
      F32.fin 170141183460469231731687303715884105728, F32.fin 0] (F32.fin 0)) = true ∧
    GenRNG.init.weightedPick [F32.fin 170141183460469231731687303715884105728,
      F32.fin 170141183460469231731687303715884105728, F32.fin 0]
        = (2, GenRNG.init.next.2) ∧
    [F32.fin 170141183460469231731687303715884105728,
      F32.fin 170141183460469231731687303715884105728, F32.fin 0][2]? = some (F32.fin 0) ∧
    F32.lt (F32.fin 0) (F32.fin 0) = false := by
  refine ⟨F32.isFloat_two_pow_127, by simp [F32.le], F32.isFloat_zero, by simp [F32.le], ?_,
    weightedPick_overflow GenRNG.init, rfl, by simp [F32.lt]⟩
  have e1 : F32.add (F32.fin 0) (F32.fin 170141183460469231731687303715884105728)
      = F32.fin 170141183460469231731687303715884105728 := by
    show F32.round (0 + _) = _
    rw [zero_add]
    exact F32.isFloat_two_pow_127
  have e2 : F32.add (F32.fin 170141183460469231731687303715884105728)
      (F32.fin 170141183460469231731687303715884105728) = F32.inf false := by
    show F32.round (_ + _) = _
    exact F32.round_overflow (by norm_num)
  have e3 : F32.add (F32.inf false) (F32.fin 0) = F32.inf false := rfl
  simp only [sumWeights, e1, e2, e3]
  rfl

/-! ## Patch generator -/

/-- A draw of `randInt` over a range `min <= max` of small `int` values succeeds and lies in
the range. -/
theorem randInt_within (g : GenRNG) {min max : Int} (h0 : -1073741824 ≤ min)
    (h : min ≤ max) (h1 : max ≤ 1073741823) :
    ∃ r g1, g.randInt min max = some (r, g1) ∧ min ≤ r ∧ r ≤ max ∧
      (g1 = g ∨ g1 = g.next.2) := by
  rcases h.eq_or_lt with he | hlt
  · subst he
    exact ⟨min, g, randInt_degenerate g (le_refl _), le_refl _, le_refl _, Or.inl rfl⟩
  · obtain ⟨r, hr, hr0, hr1, -⟩ := @randInt_spec g min max (by unfold InI32; omega)
      (by unfold InI32; omega) hlt (by omega)
    exact ⟨r, _, hr, hr0, hr1, Or.inr rfl⟩

theorem toU8_of_range {x : Int} (h0 : 0 ≤ x) (h1 : x ≤ 255) : (toU8 x : Int) = x := by
  unfold toU8
  omega

/-- `pick` on a non-empty vector whose size is an `int` returns one of its elements. -/
theorem pick_mem (g : GenRNG) (v : List Int) (hne : v ≠ [])
    (hlen : (v.length : Int) ≤ 2147483647) :
    ∃ a g1, g.pick v = some (a, g1) ∧ a ∈ v := by
  have hpos : 0 < v.length := List.length_pos.mpr hne
  have e : toI32 ((v.length : Int) - 1) = (v.length : Int) - 1 :=
    toI32_of_InI32 (by unfold InI32; omega)
  unfold GenRNG.pick
  have hemp : v.isEmpty = false := by
    cases v with
    | nil => exact absurd rfl hne
    | cons a l => rfl
  rw [hemp, e]
  simp only [Bool.false_eq_true, if_false]
  rcases (show (0 : Int) ≤ (v.length : Int) - 1 by omega).eq_or_lt with he | hlt
  · rw [← he, randInt_degenerate g (le_refl _)]
    simp only [lt_self_iff_false, if_false, Int.toNat_zero]
    rw [List.getElem?_eq_getElem hpos]
    exact ⟨_, _, rfl, List.getElem_mem _⟩
  · obtain ⟨r, hr, hr0, hr1, -⟩ := @randInt_spec g 0 ((v.length : Int) - 1) (by decide)
      (by unfold InI32; omega) hlt (by omega)
    rw [hr]
    simp only
    rw [if_neg (by omega)]
    have hrl : r.toNat < v.length := by omega
    rw [List.getElem?_eq_getElem hrl]
    exact ⟨_, _, rfl, List.getElem_mem _⟩

/-- `applyOperatorConstraints` with ordered pairs succeeds, puts every parameter in its
range and enables the operator. -/
theorem applyOperatorConstraints_within (g : GenRNG) (op : FMOperator)
    (c : OperatorConstraints) (hc : c.Ordered) :
    ∃ op1 g1, applyOperatorConstraints g op c = some (op1, g1) ∧ op1.Within c ∧
      op1.enable = true := by
  obtain ⟨h1, h2, h3, h4, h5, h6, h7, h8, h9, h10⟩ := hc
  obtain ⟨r1, g1, e1, a1, b1, -⟩ := randInt_within g (by omega) h1.2.1 (by omega)
  obtain ⟨r2, g2, e2, a2, b2, -⟩ := randInt_within g1 (by omega) h2.2.1 (by omega)
  obtain ⟨r3, g3, e3, a3, b3, -⟩ := randInt_within g2 (by omega) h3.2.1 (by omega)
  obtain ⟨r4, g4, e4, a4, b4, -⟩ := randInt_within g3 (by omega) h4.2.1 (by omega)
  obtain ⟨r5, g5, e5, a5, b5, -⟩ := randInt_within g4 (by omega) h5.2.1 (by omega)
  obtain ⟨r6, g6, e6, a6, b6, -⟩ := randInt_within g5 (by omega) h6.2.1 (by omega)
  obtain ⟨r7, g7, e7, a7, b7, -⟩ := randInt_within g6 (by omega) h7.2.1 (by omega)
  obtain ⟨r8, g8, e8, a8, b8, -⟩ := randInt_within g7 (by omega) h8.2.1 (by omega)
  obtain ⟨r9, g9, e9, a9, b9, -⟩ := randInt_within g8 (by omega) h9.2.1 (by omega)
  obtain ⟨r10, g10, e10, a10, b10, -⟩ := randInt_within g9 (by omega) h10.2.1 (by omega)
  refine ⟨{ op with tl := toU8 r1, ar := toU8 r2, dr := toU8 r3, sl := toU8 r4, rr := toU8 r5,
                      mult := toU8 r6, dt := toU8 r7, d2r := toU8 r8, rs := toU8 r9,
                      am := toU8 r10, enable := true }, g10, ?_, ?_, rfl⟩
  · simp only [applyOperatorConstraints, e1, e2, e3, e4, e5, e6, e7, e8, e9, e10,
      Option.bind_eq_bind, Option.some_bind, Option.pure_def]
  · unfold FMOperator.Within
    simp only
    rw [toU8_of_range (by omega) (by omega), toU8_of_range (by omega) (by omega),
      toU8_of_range (by omega) (by omega), toU8_of_range (by omega) (by omega),
      toU8_of_range (by omega) (by omega), toU8_of_range (by omega) (by omega),
      toU8_of_range (by omega) (by omega), toU8_of_range (by omega) (by omega),
      toU8_of_range (by omega) (by omega), toU8_of_range (by omega) (by omega)]
    exact ⟨⟨a1, b1⟩, ⟨a2, b2⟩, ⟨a3, b3⟩, ⟨a4, b4⟩, ⟨a5, b5⟩, ⟨a6, b6⟩, ⟨a7, b7⟩, ⟨a8, b8⟩,
      ⟨a9, b9⟩, ⟨a10, b10⟩⟩

/-- The operator loop of `generate` over `n` slots from slot `i`: it succeeds, keeps the
slots below `i` and puts every operator of the slots `i..i+n-1` in its range, enabled. -/
theorem generateOps_spec (n i : Nat) (g : GenRNG) (ops : List FMOperator)
    (cs : List OperatorConstraints) (hlen : i + n ≤ ops.length) (hcl : i + n ≤ cs.length)
    (hcs : ∀ oc ∈ cs, oc.Ordered) :
    ∃ ops1 g1, generateOps n i g ops cs = some (ops1, g1) ∧ ops1.length = ops.length ∧
      (∀ j, j < i → ops1[j]? = ops[j]?) ∧
      (∀ j op oc, i ≤ j → j < i + n → ops1[j]? = some op → cs[j]? = some oc →
        op.Within oc ∧ op.enable = true) := by
  induction n generalizing i g ops with
  | zero =>
    exact ⟨ops, g, rfl, rfl, fun _ _ => rfl, fun j _ _ h1 h2 => absurd h2 (by omega)⟩
  | succ n ih =>
    have hi : i < ops.length := by omega
    have hci : i < cs.length := by omega
    obtain ⟨op1, g1, hap, hw, hen⟩ :=
      applyOperatorConstraints_within g ops[i] cs[i] (hcs _ (List.getElem_mem _))
    obtain ⟨ops1, g2, hgo, hl, hlow, hhigh⟩ := ih (i + 1) g1 (ops.set i op1)
      (by rw [List.length_set]; omega) (by omega)
    refine ⟨ops1, g2, ?_, ?_, ?_, ?_⟩
    · rw [generateOps, List.getElem?_eq_getElem hi, List.getElem?_eq_getElem hci]
      simp only [hap, Option.some_bind]
      exact hgo
    · rw [hl, List.length_set]
    · intro j hj
      rw [hlow j (by omega), List.getElem?_set_ne (by omega)]
    · intro j op oc h1 h2 hop hoc
      rcases Nat.eq_or_lt_of_le h1 with he | hlt
      · subst he
        rw [hlow i (by omega), List.getElem?_set_self hi] at hop
        rw [List.getElem?_eq_getElem hci] at hoc
        cases hop
        cases hoc
        exact ⟨hw, hen⟩
      · exact hhigh j op oc (by omega) (by omega) hop hoc

/-- What `generate` returns for ordered constraints: a 4-operator FM patch with every
operator parameter in its range and enabled, the feedback in its range, and the algorithm an
entry of the allowed list converted to `unsigned char`, or a value up to 7 when the list is
empty. -/
theorem generate_spec (g : GenRNG) (ins0 : DivInstrument) (role : Int)
    (c : PatchRoleConstraints) (hc : c.Ordered) (hins : ins0.op.length = 4) :
    ∃ ins g1, PatchGenerator.generate g ins0 role c = some (ins, g1) ∧
      ins.ops = 4 ∧ ins.isFM = true ∧ ins.op.length = 4 ∧
      (∀ (i : Nat) (op : FMOperator) (oc : OperatorConstraints),
        ins.op[i]? = some op → c.ops[i]? = some oc → op.Within oc ∧ op.enable = true) ∧
      (c.feedbackMin ≤ ins.fb ∧ (ins.fb : Int) ≤ c.feedbackMax) ∧
      (c.algorithms ≠ [] → ∃ a ∈ c.algorithms, ins.alg = toU8 a) ∧
      (c.algorithms = [] → ins.alg ≤ 7) := by
  obtain ⟨hfb, hol, hal, hops⟩ := hc
  have halg : ∃ a g1, (c.algorithms ≠ [] → a ∈ c.algorithms) ∧
      (c.algorithms = [] → 0 ≤ a ∧ a ≤ 7) ∧
      ∀ k : Int × GenRNG → Option (DivInstrument × GenRNG),
        (if !c.algorithms.isEmpty then (g.pick c.algorithms).bind k
          else (g.randInt 0 7).bind k) = k (a, g1) := by
    by_cases hne : c.algorithms = []
    · rw [hne]
      obtain ⟨r, g1, hr, h0, h1, -⟩ := @randInt_within g 0 7 (by decide) (by decide) (by decide)
      refine ⟨r, g1, fun h => absurd rfl h, fun _ => ⟨h0, h1⟩, fun k => ?_⟩
      simp [hr]
    · obtain ⟨a, g1, ha, hmem⟩ := pick_mem g c.algorithms hne hal
      have hemp : c.algorithms.isEmpty = false := by
        cases hcase : c.algorithms with
        | nil => exact absurd hcase hne
        | cons a l => rfl
      refine ⟨a, g1, fun _ => hmem, fun h => absurd h hne, fun k => ?_⟩
      rw [hemp]
      simp [ha]
  obtain ⟨a, g1, ham, hae, ha⟩ := halg
  obtain ⟨fb, g2, hfbr, hfb0, hfb1, -⟩ := randInt_within g1 (by omega) hfb.2.1 (by omega)
  obtain ⟨ops1, g3, hgo, hl, -, hhigh⟩ := generateOps_spec 4 0 g2 ins0.op c.ops
    (by omega) (by omega) hops
  refine ⟨{ isFM := true, name := "Gen " ++ patchRoleName role, alg := toU8 a, fb := toU8 fb,
            ops := 4, op := ops1 }, g3, ?_, rfl, rfl, by simpa [hins] using hl, ?_, ?_, ?_, ?_⟩
  · simp only [PatchGenerator.generate, Option.bind_eq_bind, Option.pure_def]
    rw [ha]
    simp only [hfbr, hgo, Option.some_bind]
  · intro i op oc hop hoc
    have hi : i < 4 := by
      have := (List.getElem?_eq_some_iff.mp hop).1
      simp only at this
      omega
    exact hhigh i op oc (by omega) (by omega) hop hoc
  · simp only
    rw [toU8_of_range (by omega) (by omega)]
    exact ⟨hfb0, hfb1⟩
  · intro hne
    exact ⟨a, ham hne, rfl⟩
  · intro he
    have := hae he
    unfold toU8
    simp only
    omega

/-- Replacing one operator by one that is `MutatedFrom` the source operator keeps the patch
`MutatedFrom` the source. -/
theorem DivInstrument.MutatedFrom.set_op {ins src : DivInstrument} {c : PatchRoleConstraints}
    (h : ins.MutatedFrom src c) (k : Nat) (op1 : FMOperator)
    (hop : ∀ (sop : FMOperator) (oc : OperatorConstraints),
      src.op[k]? = some sop → c.ops[k]? = some oc → op1.MutatedFrom sop oc) :
    DivInstrument.MutatedFrom { ins with op := ins.op.set k op1 } src c := by
  obtain ⟨h1, h2, h3, h4, h5, h6, h7⟩ := h
  refine ⟨h1, h2, h3, h4, h5, by simpa using h6, ?_⟩
  intro i op sop oc hi hs hc
  simp only at hi
  by_cases hik : k = i
  · subst hik
    have hlt : k < ins.op.length := by
      have := (List.getElem?_eq_some_iff.mp hs).1
      omega
    rw [List.getElem?_set_self hlt] at hi
    cases hi
    exact hop sop oc hs hc
  · rw [List.getElem?_set_ne hik] at hi
    exact h7 i op sop oc hi hs hc

theorem FMOperator.MutatedFrom.set_tl {op sop : FMOperator} {oc : OperatorConstraints}
    (h : op.MutatedFrom sop oc) {v : Int} (hv0 : 0 ≤ v) (hv1 : v ≤ 255)
    (ha : oc.tlMin ≤ v) (hb : v ≤ oc.tlMax) :
    FMOperator.MutatedFrom { op with tl := toU8 v } sop oc := by
  obtain ⟨h1, h2, h3, h4, h5, h6, h7, h8, h9, h10, h11⟩ := h
  refine ⟨?_, h2, h3, h4, h5, h6, h7, h8, h9, h10, h11⟩
  right
  simp only
  rw [toU8_of_range hv0 hv1]
  exact ⟨ha, hb⟩

theorem FMOperator.MutatedFrom.set_ar {op sop : FMOperator} {oc : OperatorConstraints}
    (h : op.MutatedFrom sop oc) {v : Int} (hv0 : 0 ≤ v) (hv1 : v ≤ 255)
    (ha : oc.arMin ≤ v) (hb : v ≤ oc.arMax) :
    FMOperator.MutatedFrom { op with ar := toU8 v } sop oc := by
  obtain ⟨h1, h2, h3, h4, h5, h6, h7, h8, h9, h10, h11⟩ := h
  refine ⟨h1, ?_, h3, h4, h5, h6, h7, h8, h9, h10, h11⟩
  right
  simp only
  rw [toU8_of_range hv0 hv1]
  exact ⟨ha, hb⟩

theorem FMOperator.MutatedFrom.set_dr {op sop : FMOperator} {oc : OperatorConstraints}
    (h : op.MutatedFrom sop oc) {v : Int} (hv0 : 0 ≤ v) (hv1 : v ≤ 255)
    (ha : oc.drMin ≤ v) (hb : v ≤ oc.drMax) :
    FMOperator.MutatedFrom { op with dr := toU8 v } sop oc := by
  obtain ⟨h1, h2, h3, h4, h5, h6, h7, h8, h9, h10, h11⟩ := h
  refine ⟨h1, h2, ?_, h4, h5, h6, h7, h8, h9, h10, h11⟩
  right
  simp only
  rw [toU8_of_range hv0 hv1]
  exact ⟨ha, hb⟩

theorem FMOperator.MutatedFrom.set_sl {op sop : FMOperator} {oc : OperatorConstraints}
    (h : op.MutatedFrom sop oc) {v : Int} (hv0 : 0 ≤ v) (hv1 : v ≤ 255)
    (ha : oc.slMin ≤ v) (hb : v ≤ oc.slMax) :
    FMOperator.MutatedFrom { op with sl := toU8 v } sop oc := by
  obtain ⟨h1, h2, h3, h4, h5, h6, h7, h8, h9, h10, h11⟩ := h
  refine ⟨h1, h2, h3, ?_, h5, h6, h7, h8, h9, h10, h11⟩
  right
  simp only
  rw [toU8_of_range hv0 hv1]
  exact ⟨ha, hb⟩

theorem FMOperator.MutatedFrom.set_rr {op sop : FMOperator} {oc : OperatorConstraints}
    (h : op.MutatedFrom sop oc) {v : Int} (hv0 : 0 ≤ v) (hv1 : v ≤ 255)
    (ha : oc.rrMin ≤ v) (hb : v ≤ oc.rrMax) :
    FMOperator.MutatedFrom { op with rr := toU8 v } sop oc := by
  obtain ⟨h1, h2, h3, h4, h5, h6, h7, h8, h9, h10, h11⟩ := h
  refine ⟨h1, h2, h3, h4, ?_, h6, h7, h8, h9, h10, h11⟩
  right
  simp only
  rw [toU8_of_range hv0 hv1]
  exact ⟨ha, hb⟩

theorem FMOperator.MutatedFrom.set_mult {op sop : FMOperator} {oc : OperatorConstraints}
    (h : op.MutatedFrom sop oc) {v : Int} (hv0 : 0 ≤ v) (hv1 : v ≤ 255)
    (ha : oc.multMin ≤ v) (hb : v ≤ oc.multMax) :
    FMOperator.MutatedFrom { op with mult := toU8 v } sop oc := by
  obtain ⟨h1, h2, h3, h4, h5, h6, h7, h8, h9, h10, h11⟩ := h
  refine ⟨h1, h2, h3, h4, h5, ?_, h7, h8, h9, h10, h11⟩
  right
  simp only
  rw [toU8_of_range hv0 hv1]
  exact ⟨ha, hb⟩

theorem FMOperator.MutatedFrom.set_dt {op sop : FMOperator} {oc : OperatorConstraints}
    (h : op.MutatedFrom sop oc) {v : Int} (hv0 : 0 ≤ v) (hv1 : v ≤ 255)
    (ha : oc.dtMin ≤ v) (hb : v ≤ oc.dtMax) :
    FMOperator.MutatedFrom { op with dt := toU8 v } sop oc := by
  obtain ⟨h1, h2, h3, h4, h5, h6, h7, h8, h9, h10, h11⟩ := h
  refine ⟨h1, h2, h3, h4, h5, h6, ?_, h8, h9, h10, h11⟩
  right
  simp only
  rw [toU8_of_range hv0 hv1]
  exact ⟨ha, hb⟩

theorem FMOperator.MutatedFrom.set_d2r {op sop : FMOperator} {oc : OperatorConstraints}
    (h : op.MutatedFrom sop oc) {v : Int} (hv0 : 0 ≤ v) (hv1 : v ≤ 255)
    (ha : oc.d2rMin ≤ v) (hb : v ≤ oc.d2rMax) :
    FMOperator.MutatedFrom { op with d2r := toU8 v } sop oc := by
  obtain ⟨h1, h2, h3, h4, h5, h6, h7, h8, h9, h10, h11⟩ := h
  refine ⟨h1, h2, h3, h4, h5, h6, h7, ?_, h9, h10, h11⟩
  right
  simp only
  rw [toU8_of_range hv0 hv1]
  exact ⟨ha, hb⟩

/-- Every patch is `MutatedFrom` itself. -/
theorem DivInstrument.MutatedFrom.refl (src : DivInstrument) (c : PatchRoleConstraints) :
    src.MutatedFrom src c := by
  refine ⟨rfl, rfl, rfl, Or.inl rfl, Or.inl rfl, rfl, ?_⟩
  intro i op sop oc hi hs _
  rw [hi] at hs
  cases hs
  exact ⟨Or.inl rfl, Or.inl rfl, Or.inl rfl, Or.inl rfl, Or.inl rfl, Or.inl rfl, Or.inl rfl,
    Or.inl rfl, rfl, rfl, rfl⟩

/-- One pass of `mutate` succeeds and keeps the patch `MutatedFrom` the source; with an
empty allowed list it leaves the algorithm as it was. -/
theorem mutateStep_spec (c : PatchRoleConstraints) (g : GenRNG) (ins src : DivInstrument)
    (hc : c.Ordered) (hsrc : src.op.length = 4) (h : ins.MutatedFrom src c) :
    ∃ ins1 g1, mutateStep c g ins = some (ins1, g1) ∧ ins1.MutatedFrom src c ∧
      (c.algorithms = [] → ins1.alg = ins.alg) := by
  obtain ⟨hfb, hol, hal, hops⟩ := hc
  obtain ⟨t, g1, ht, ht0, ht1, -⟩ := @randInt_within g 0 5 (by decide) (by decide) (by decide)
  unfold mutateStep
  simp only [ht, Option.bind_eq_bind, Option.some_bind, Option.pure_def]
  by_cases h0 : t = 0
  · rw [if_pos h0]
    by_cases hne : c.algorithms = []
    · rw [hne]
      exact ⟨ins, g1, by simp, h, fun _ => rfl⟩
    · obtain ⟨a, g2, ha, hmem⟩ := pick_mem g1 c.algorithms hne hal
      have hemp : c.algorithms.isEmpty = false := by
        cases hcase : c.algorithms with
        | nil => exact absurd hcase hne
        | cons a l => rfl
      refine ⟨{ ins with alg := toU8 a }, g2, by simp [hemp, ha], ?_, fun he => absurd he hne⟩
      obtain ⟨k1, k2, k3, k4, k5, k6, k7⟩ := h
      exact ⟨k1, k2, k3, k4, Or.inr ⟨a, hmem, rfl⟩, k6, k7⟩
  rw [if_neg h0]
  by_cases h1 : t = 1
  · rw [if_pos h1]
    obtain ⟨fb, g2, hf, hf0, hf1, -⟩ := randInt_within g1 (by omega) hfb.2.1 (by omega)
    refine ⟨{ ins with fb := toU8 fb }, g2, by simp [hf], ?_, fun _ => rfl⟩
    obtain ⟨k1, k2, k3, k4, k5, k6, k7⟩ := h
    refine ⟨k1, k2, k3, Or.inr ?_, k5, k6, k7⟩
    simp only
    rw [toU8_of_range (by omega) (by omega)]
    exact ⟨hf0, hf1⟩
  rw [if_neg h1]
  obtain ⟨oi, g2, hoi, hoi0, hoi1, -⟩ := @randInt_within g1 0 3 (by decide) (by decide) (by decide)
  have hlen : ins.op.length = 4 := by rw [h.2.2.2.2.2.1, hsrc]
  have hci : oi.toNat < c.ops.length := by omega
  have hii : oi.toNat < ins.op.length := by omega
  have hsi : oi.toNat < src.op.length := by omega
  obtain ⟨p, g3, hp, hp0, hp1, -⟩ := @randInt_within g2 0 7 (by decide) (by decide) (by decide)
  simp only [hoi, Option.some_bind, if_neg (by omega : ¬ oi < 0),
    List.getElem?_eq_getElem hci, List.getElem?_eq_getElem hii, hp]
  have hoc := hops _ (List.getElem_mem hci)
  have hrel := h.2.2.2.2.2.2 _ _ _ _ (List.getElem?_eq_getElem hii)
    (List.getElem?_eq_getElem hsi) (List.getElem?_eq_getElem hci)
  have hkey : ∀ (op1 : FMOperator), op1.MutatedFrom src.op[oi.toNat] c.ops[oi.toNat] →
      DivInstrument.MutatedFrom { ins with op := ins.op.set oi.toNat op1 } src c := by
    intro op1 hop1
    apply DivInstrument.MutatedFrom.set_op h
    intro sop oc hs hcc
    rw [List.getElem?_eq_getElem hsi] at hs
    rw [List.getElem?_eq_getElem hci] at hcc
    cases hs
    cases hcc
    exact hop1
  obtain ⟨q1, q2, q3, q4, q5, q6, q7, q8, -, -⟩ := hoc
  have hp' : p = 0 ∨ p = 1 ∨ p = 2 ∨ p = 3 ∨ p = 4 ∨ p = 5 ∨ p = 6 ∨ p = 7 := by omega
  rcases hp' with rfl | rfl | rfl | rfl | rfl | rfl | rfl | rfl
  · obtain ⟨v, g4, hv, hv0, hv1, -⟩ := randInt_within g3 (by omega) q1.2.1 (by omega)
    exact ⟨_, g4, by simp [hv], hkey _ (hrel.set_tl (by omega) (by omega) hv0 hv1),
      fun _ => rfl⟩
  · obtain ⟨v, g4, hv, hv0, hv1, -⟩ := randInt_within g3 (by omega) q2.2.1 (by omega)
    exact ⟨_, g4, by simp [hv], hkey _ (hrel.set_ar (by omega) (by omega) hv0 hv1),
      fun _ => rfl⟩
  · obtain ⟨v, g4, hv, hv0, hv1, -⟩ := randInt_within g3 (by omega) q3.2.1 (by omega)
    exact ⟨_, g4, by simp [hv], hkey _ (hrel.set_dr (by omega) (by omega) hv0 hv1),
      fun _ => rfl⟩
  · obtain ⟨v, g4, hv, hv0, hv1, -⟩ := randInt_within g3 (by omega) q4.2.1 (by omega)
    exact ⟨_, g4, by simp [hv], hkey _ (hrel.set_sl (by omega) (by omega) hv0 hv1),
      fun _ => rfl⟩
  · obtain ⟨v, g4, hv, hv0, hv1, -⟩ := randInt_within g3 (by omega) q5.2.1 (by omega)
    exact ⟨_, g4, by simp [hv], hkey _ (hrel.set_rr (by omega) (by omega) hv0 hv1),
      fun _ => rfl⟩
  · obtain ⟨v, g4, hv, hv0, hv1, -⟩ := randInt_within g3 (by omega) q6.2.1 (by omega)
    exact ⟨_, g4, by simp [hv], hkey _ (hrel.set_mult (by omega) (by omega) hv0 hv1),
      fun _ => rfl⟩
  · obtain ⟨v, g4, hv, hv0, hv1, -⟩ := randInt_within g3 (by omega) q7.2.1 (by omega)
    exact ⟨_, g4, by simp [hv], hkey _ (hrel.set_dt (by omega) (by omega) hv0 hv1),
      fun _ => rfl⟩
  · obtain ⟨v, g4, hv, hv0, hv1, -⟩ := randInt_within g3 (by omega) q8.2.1 (by omega)
    exact ⟨_, g4, by simp [hv], hkey _ (hrel.set_d2r (by omega) (by omega) hv0 hv1),
      fun _ => rfl⟩

/-- The loop of `mutate` succeeds for every pass count and keeps the patch `MutatedFrom`
the source; with an empty allowed list the algorithm is never touched. -/
theorem mutateLoop_spec (c : PatchRoleConstraints) (n : Nat) (g : GenRNG)
    (ins src : DivInstrument) (hc : c.Ordered) (hsrc : src.op.length = 4)
    (h : ins.MutatedFrom src c) :
    ∃ ins1 g1, mutateLoop c n g ins = some (ins1, g1) ∧ ins1.MutatedFrom src c ∧
      (c.algorithms = [] → ins1.alg = ins.alg) := by
  induction n generalizing g ins with
  | zero => exact ⟨ins, g, rfl, h, fun _ => rfl⟩
  | succ n ih =>
    obtain ⟨ins1, g1, hs, hm, ha⟩ := mutateStep_spec c g ins src hc hsrc h
    obtain ⟨ins2, g2, hl, hm2, ha2⟩ := ih g1 ins1 hm
    refine ⟨ins2, g2, ?_, hm2, fun he => (ha2 he).trans (ha he)⟩
    rw [mutateLoop, hs]
    exact hl

/-- An `unsigned char` conversion of a list entry in `0..255` is that entry. -/
theorem toU8_mem {l : List Int} (hl : ∀ a ∈ l, 0 ≤ a ∧ a ≤ 255) {n : Nat}
    (h : ∃ a ∈ l, n = toU8 a) : (n : Int) ∈ l := by
  obtain ⟨a, ha, rfl⟩ := h
  rw [toU8_of_range (hl a ha).1 (hl a ha).2]
  exact ha

/-- C11, amended. For every RNG state and every `PatchRoleConstraints` in which each pair
satisfies `0 <= min <= max <= 255`, `generate` returns a 4-operator FM patch in which every
operator has each of `tl, ar, dr, sl, rr, mult, dt, d2r, rs, am` in the `[min,max]` of its
`constraints.ops[i]` and is enabled; the feedback lies in its range; the algorithm is an
entry of the allowed list converted to `unsigned char` when the list is non-empty (hence a
member of the list when its entries lie in `0..255`) and lies in `[0,7]` when it is empty. -/
theorem generate_within_constraints (g : GenRNG) (ins0 : DivInstrument) (role : Int)
    (c : PatchRoleConstraints) (hc : c.Ordered) (hins : ins0.op.length = 4) :
    ∃ ins g1, PatchGenerator.generate g ins0 role c = some (ins, g1) ∧
      ins.ops = 4 ∧ ins.op.length = 4 ∧
      (∀ (i : Nat) (op : FMOperator) (oc : OperatorConstraints),
        ins.op[i]? = some op → c.ops[i]? = some oc → op.Within oc ∧ op.enable = true) ∧
      (c.feedbackMin ≤ ins.fb ∧ (ins.fb : Int) ≤ c.feedbackMax) ∧
      (c.algorithms ≠ [] → ∃ a ∈ c.algorithms, ins.alg = toU8 a) ∧
      (c.algorithms ≠ [] → (∀ a ∈ c.algorithms, 0 ≤ a ∧ a ≤ 255) →
        (ins.alg : Int) ∈ c.algorithms) ∧
      (c.algorithms = [] → ins.alg ≤ 7) := by
  obtain ⟨ins, g1, h1, h2, -, h3, h4, h5, h6, h7⟩ := generate_spec g ins0 role c hc hins
  exact ⟨ins, g1, h1, h2, h3, h4, h5, h6, fun hne hl => toU8_mem hl (h6 hne), h7⟩

/-- C11, amended, instance: the default constraints with the allowed algorithms 0, 4, 7. -/
theorem generate_within_constraints_witness :
    ∃ ins g1, PatchGenerator.generate GenRNG.init
        { isFM := false, name := "", alg := 0, fb := 0, ops := 0,
          op := List.replicate 4 ⟨0, 0, 0, 0, 0, 0, 0, 0, 0, 0, false⟩ } 0
        { algorithms := [0, 4, 7] } = some (ins, g1) ∧
      ins.ops = 4 ∧ ins.op.length = 4 ∧
      (∀ (i : Nat) (op : FMOperator) (oc : OperatorConstraints),
        ins.op[i]? = some op →
        ({ algorithms := [0, 4, 7] } : PatchRoleConstraints).ops[i]? = some oc →
        op.Within oc ∧ op.enable = true) ∧
      (({ algorithms := [0, 4, 7] } : PatchRoleConstraints).feedbackMin ≤ ins.fb ∧
        (ins.fb : Int) ≤ ({ algorithms := [0, 4, 7] } : PatchRoleConstraints).feedbackMax) ∧
      (({ algorithms := [0, 4, 7] } : PatchRoleConstraints).algorithms ≠ [] →
        ∃ a ∈ ({ algorithms := [0, 4, 7] } : PatchRoleConstraints).algorithms,
          ins.alg = toU8 a) ∧
      (({ algorithms := [0, 4, 7] } : PatchRoleConstraints).algorithms ≠ [] →
        (∀ a ∈ ({ algorithms := [0, 4, 7] } : PatchRoleConstraints).algorithms,
          0 ≤ a ∧ a ≤ 255) →
        (ins.alg : Int) ∈ ({ algorithms := [0, 4, 7] } : PatchRoleConstraints).algorithms) ∧
      (({ algorithms := [0, 4, 7] } : PatchRoleConstraints).algorithms = [] → ins.alg ≤ 7) :=
  generate_within_constraints GenRNG.init _ 0 { algorithms := [0, 4, 7] } (by decide)
    (by decide)

/-- C11, counterexample: with the allowed list `{256}` (every pair at its default, ordered
and within `0..255`) `generate` returns algorithm 0, the `unsigned char` conversion of 256,
which is not a member of the list. -/
theorem generate_algorithm_not_member :
    ({ algorithms := [256] } : PatchRoleConstraints).Ordered ∧
    (PatchGenerator.generate GenRNG.init
        { isFM := false, name := "", alg := 0, fb := 0, ops := 0,
          op := List.replicate 4 ⟨0, 0, 0, 0, 0, 0, 0, 0, 0, 0, false⟩ } 0
        { algorithms := [256] }).map (fun p => p.1.alg) = some 0 ∧
    ((0 : Nat) : Int) ∉ ({ algorithms := [256] } : PatchRoleConstraints).algorithms := by
  decide

/-- C12, amended. For every source patch, constraints in which each pair satisfies
`0 <= min <= max <= 255`, RNG state and mutation count, `mutate` returns a patch that is
`MutatedFrom` the source: the feedback and each of `tl, ar, dr, sl, rr, mult, dt, d2r` of
each operator equals the source's value or lies in its `[min,max]`; the algorithm equals
the source's or is an entry of the allowed list converted to `unsigned char` (hence a member
of the list when its entries lie in `0..255`); `rs`, `am`, `enable` of every operator and the
operator count equal the source's. For a count `<= 0` the result is the source and the
generator state is unchanged. -/
theorem mutate_frame (g : GenRNG) (source : DivInstrument) (role : Int)
    (c : PatchRoleConstraints) (mutations : Int) (hc : c.Ordered)
    (hsrc : source.op.length = 4) :
    (∃ ins g1, PatchGenerator.mutate g source role c mutations = some (ins, g1) ∧
      ins.MutatedFrom source c ∧
      ((∀ a ∈ c.algorithms, 0 ≤ a ∧ a ≤ 255) →
        ins.alg = source.alg ∨ (ins.alg : Int) ∈ c.algorithms)) ∧
    (mutations ≤ 0 → PatchGenerator.mutate g source role c mutations = some (source, g)) := by
  constructor
  · obtain ⟨ins, g1, h1, h2, -⟩ := mutateLoop_spec c mutations.toNat g source source hc hsrc
      (DivInstrument.MutatedFrom.refl source c)
    refine ⟨ins, g1, h1, h2, fun hl => ?_⟩
    rcases h2.2.2.2.2.1 with he | hm
    · exact Or.inl he
    · exact Or.inr (toU8_mem hl hm)
  · intro h0
    unfold PatchGenerator.mutate
    rw [Int.toNat_of_nonpos h0]
    rfl

/-- C12, amended, instance: three mutations of a zeroed patch under the default constraints
with the allowed algorithms 0, 4, 7. -/
theorem mutate_frame_witness :
    (∃ ins g1, PatchGenerator.mutate GenRNG.init
        { isFM := true, name := "", alg := 0, fb := 0, ops := 4,
          op := List.replicate 4 ⟨0, 0, 0, 0, 0, 0, 0, 0, 0, 0, true⟩ } 0
        { algorithms := [0, 4, 7] } 3 = some (ins, g1) ∧
      ins.MutatedFrom
        { isFM := true, name := "", alg := 0, fb := 0, ops := 4,
          op := List.replicate 4 ⟨0, 0, 0, 0, 0, 0, 0, 0, 0, 0, true⟩ }
        { algorithms := [0, 4, 7] } ∧
      ((∀ a ∈ ({ algorithms := [0, 4, 7] } : PatchRoleConstraints).algorithms,
          0 ≤ a ∧ a ≤ 255) →
        ins.alg = (0 : Nat) ∨
          (ins.alg : Int) ∈ ({ algorithms := [0, 4, 7] } : PatchRoleConstraints).algorithms)) ∧
    ((3 : Int) ≤ 0 → PatchGenerator.mutate GenRNG.init
        { isFM := true, name := "", alg := 0, fb := 0, ops := 4,
          op := List.replicate 4 ⟨0, 0, 0, 0, 0, 0, 0, 0, 0, 0, true⟩ } 0
        { algorithms := [0, 4, 7] } 3
      = some ({ isFM := true, name := "", alg := 0, fb := 0, ops := 4,
                op := List.replicate 4 ⟨0, 0, 0, 0, 0, 0, 0, 0, 0, 0, true⟩ }, GenRNG.init)) :=
  mutate_frame GenRNG.init _ 0 { algorithms := [0, 4, 7] } 3 (by decide) (by decide)

/-- C12, counterexample: one mutation of a patch with algorithm 5 under the allowed list
`{256}`, from the state after `seed(0)` (whose first draw selects the algorithm): the
result has algorithm 0, neither the source's nor a member of the list. -/
theorem mutate_algorithm_not_member :
    ({ algorithms := [256] } : PatchRoleConstraints).Ordered ∧
    (PatchGenerator.mutate (GenRNG.seed ⟨0, 0, 0, 0⟩ 0)
        { isFM := true, name := "", alg := 5, fb := 0, ops := 4,
          op := List.replicate 4 ⟨0, 0, 0, 0, 0, 0, 0, 0, 0, 0, true⟩ } 0
        { algorithms := [256] } 1).map (fun p => p.1.alg) = some 0 ∧
    (0 : Nat) ≠ 5 ∧
    ((0 : Nat) : Int) ∉ ({ algorithms := [256] } : PatchRoleConstraints).algorithms := by
  decide

/-- C13. With an empty allowed-algorithm list `mutate` never changes the algorithm: for
every RNG state, source patch and mutation count the result has the source's algorithm (a
pass that targets the algorithm does nothing), unlike `generate`, which draws from `0..7`. -/
theorem mutate_empty_list_keeps_algorithm (g : GenRNG) (source : DivInstrument) (role : Int)
    (c : PatchRoleConstraints) (mutations : Int) (hc : c.Ordered)
    (hsrc : source.op.length = 4) (hemp : c.algorithms = []) :
    ∃ ins g1, PatchGenerator.mutate g source role c mutations = some (ins, g1) ∧
      ins.alg = source.alg := by
  obtain ⟨ins, g1, h1, -, h3⟩ := mutateLoop_spec c mutations.toNat g source source hc hsrc
    (DivInstrument.MutatedFrom.refl source c)
  exact ⟨ins, g1, h1, h3 hemp⟩

/-- C13, instance: the default constraints (empty allowed list), a patch with algorithm 5,
16 mutations from the state after `seed(0)`, whose first draw targets the algorithm. -/
theorem mutate_empty_list_keeps_algorithm_witness :
    ∃ ins g1, PatchGenerator.mutate (GenRNG.seed ⟨0, 0, 0, 0⟩ 0)
        { isFM := true, name := "", alg := 5, fb := 0, ops := 4,
          op := List.replicate 4 ⟨0, 0, 0, 0, 0, 0, 0, 0, 0, 0, true⟩ } 0 {} 16
        = some (ins, g1) ∧
      ins.alg = (5 : Nat) :=
  mutate_empty_list_keeps_algorithm (GenRNG.seed ⟨0, 0, 0, 0⟩ 0) _ 0 {} 16 (by decide)
    (by decide) rfl

/-! ## Bar count -/

/-- C14. Bar count law: for all `len` and `rowsPerBar`, `computeBarCount(len,rowsPerBar)` is
`clamp(len / r, 1, 16)` with `r = rowsPerBar` if `rowsPerBar > 0` and `r = 16` otherwise,
both for the quotient truncated as in C and for the floor quotient (they differ only where
both are `<= 0`); the result lies in `[1,16]`, is 1 whenever `len < r` and 16 whenever
`len >= 16*r`. -/
theorem computeBarCount_law (len rowsPerBar : Int) :
    computeBarCount len rowsPerBar
      = genClamp (Int.tdiv len (if rowsPerBar > 0 then rowsPerBar else 16)) 1 16 ∧
    computeBarCount len rowsPerBar
      = genClamp (len / (if rowsPerBar > 0 then rowsPerBar else 16)) 1 16 ∧
    1 ≤ computeBarCount len rowsPerBar ∧ computeBarCount len rowsPerBar ≤ 16 ∧
    (len < (if rowsPerBar > 0 then rowsPerBar else 16) → computeBarCount len rowsPerBar = 1) ∧
    (len ≥ 16 * (if rowsPerBar > 0 then rowsPerBar else 16) →
      computeBarCount len rowsPerBar = 16) := by
  have hr : (if rowsPerBar ≤ 0 then (16 : Int) else rowsPerBar)
      = (if rowsPerBar > 0 then rowsPerBar else 16) := by
    split_ifs <;> omega
  have hpos : 0 < (if rowsPerBar > 0 then rowsPerBar else 16) := by
    split_ifs <;> omega
  unfold computeBarCount
  simp only [hr]
  generalize (if rowsPerBar > 0 then rowsPerBar else 16) = r at hpos
  have hneg : len < 0 → Int.tdiv len r ≤ 0 := by
    intro h0
    have h1 : Int.tdiv len r = -(Int.tdiv (-len) r) := by
      rw [Int.neg_tdiv, neg_neg]
    rw [h1, Int.tdiv_eq_ediv (by omega) hpos.le]
    have := Int.ediv_nonneg (show 0 ≤ -len by omega) hpos.le
    omega
  refine ⟨trivial, ?_, (genClamp_range _ 1 16 (by decide)).1, (genClamp_range _ 1 16 (by decide)).2,
    ?_, ?_⟩
  · rcases le_or_lt 0 len with h0 | h0
    · rw [Int.tdiv_eq_ediv h0 hpos.le]
    · have h1 := hneg h0
      have h2 : len / r < 0 := Int.ediv_neg' h0 hpos
      unfold genClamp
      rw [if_pos (by omega), if_pos (by omega)]
  · intro hlt
    have : Int.tdiv len r ≤ 0 := by
      rcases le_or_lt 0 len with h0 | h0
      · rw [Int.tdiv_eq_ediv h0 hpos.le, Int.ediv_eq_zero_of_lt h0 hlt]
      · exact hneg h0
    unfold genClamp
    rw [if_pos (by omega)]
  · intro hge
    have h0 : 0 ≤ len := by nlinarith
    have : 16 ≤ Int.tdiv len r := by
      rw [Int.tdiv_eq_ediv h0 hpos.le]
      exact (Int.le_ediv_iff_mul_le hpos).mpr (by linarith)
    unfold genClamp
    rw [if_neg (by omega)]
    split_ifs <;> omega

/-! ## Pattern generator: runs and loops -/

/-- A bind that returns has a first part that returns. -/
theorem bind_ok {α β : Type} {x : Except Fault α} {f : α → Except Fault β} {b : β}
    (h : x >>= f = .ok b) : ∃ a, x = .ok a ∧ f a = .ok b := by
  cases x with
  | error e => cases h
  | ok a => exact ⟨a, rfl, h⟩

/-- The same for `Except.bind`. -/
theorem bind_ok2 {α β : Type} {x : Except Fault α} {f : α → Except Fault β} {b : β}
    (h : x.bind f = .ok b) : ∃ a, x = .ok a ∧ f a = .ok b := by
  cases x with
  | error e => cases h
  | ok a => exact ⟨a, rfl, h⟩

/-- A map that returns has an argument that returns. -/
theorem map_ok {α β : Type} {x : Except Fault α} {f : α → β} {b : β}
    (h : x.map f = .ok b) : ∃ a, x = .ok a ∧ f a = b := by
  cases x with
  | error e => cases h
  | ok a => exact ⟨a, rfl, by cases h; rfl⟩

/-- The same for the functor notation. -/
theorem fmap_ok {α β : Type} {x : Except Fault α} {f : α → β} {b : β}
    (h : f <$> x = .ok b) : ∃ a, x = .ok a ∧ f a = b := by
  cases x with
  | error e => cases h
  | ok a => exact ⟨a, rfl, by cases h; rfl⟩

/-- A property kept by the body of a loop is kept by the loop. -/
theorem forLoop_inv {σ : Type} (P : σ → Prop) (cond : Int → σ → Bool) (step : Int)
    (body : Int → σ → Except Fault σ)
    (hbody : ∀ i s s1, P s → body i s = .ok s1 → P s1) :
    ∀ (n : Nat) (i : Int) (s s1 : σ), P s → forLoop cond step body n i s = .ok s1 → P s1 := by
  intro n
  induction n with
  | zero =>
    intro i s s1 hP h
    rw [forLoop] at h
    split at h
    · cases h
    · cases h; exact hP
  | succ n ih =>
    intro i s s1 hP h
    rw [forLoop] at h
    split at h
    · obtain ⟨s2, h1, h2⟩ := bind_ok2 h
      exact ih _ _ _ (hbody i s s2 hP h1) h2
    · cases h; exact hP

/-- The range relation is reflexive. -/
theorem DivPattern.RangeInv.rangeInv_refl (pat : DivPattern) : pat.RangeInv pat :=
  fun _ => ⟨Or.inl rfl, Or.inl rfl⟩

/-- The range relation is transitive. -/
theorem DivPattern.RangeInv.trans {p0 p1 p2 : DivPattern} (h1 : p0.RangeInv p1)
    (h2 : p1.RangeInv p2) : p0.RangeInv p2 := by
  intro row
  obtain ⟨a1, b1⟩ := h1 row
  obtain ⟨a2, b2⟩ := h2 row
  constructor
  · rcases a2 with a2 | a2
    · rw [a2]; exact a1
    · exact Or.inr a2
  · rcases b2 with b2 | b2
    · rw [b2]; exact b1
    · exact Or.inr b2

/-- A row assignment whose new note and volume are unchanged or in range gives a grid in
the range relation. -/
theorem modifyRow_rangeInv {maxRows : Int} {pat pat1 : DivPattern} {row : Int}
    {f : PatRow → PatRow} (h : pat.modifyRow maxRows row f = .ok pat1)
    (hf : ∀ c : PatRow,
      ((f c).note = c.note ∨ (0 ≤ (f c).note ∧ (f c).note ≤ 179) ∨ (f c).note = 253) ∧
      ((f c).vol = c.vol ∨ (0x10 ≤ (f c).vol ∧ (f c).vol ≤ 0x7F))) :
    pat.RangeInv pat1 := by
  unfold DivPattern.modifyRow at h
  split at h
  · cases h
    intro r
    by_cases hr : r = row
    · subst hr
      simp only [if_true]
      exact hf _
    · simp [hr]
  · cases h

/-- A `short` holds every value in `[-32768, 32767]`. -/
theorem toI16_of_range {x : Int} (h0 : -32768 ≤ x) (h1 : x ≤ 32767) : toI16 x = x := by
  unfold toI16
  omega

/-- A clamped value stored in a `short` lies between the bounds. -/
theorem toI16_genClamp (v lo hi : Int) (h : lo ≤ hi) (h0 : -32768 ≤ lo) (h1 : hi ≤ 32767) :
    lo ≤ toI16 (genClamp v lo hi) ∧ toI16 (genClamp v lo hi) ≤ hi := by
  have hc := genClamp_range v lo hi h
  rw [toI16_of_range (by omega) (by omega)]
  exact hc

/-- A conditional with an early return that returns. -/
theorem ite_pure_ok {c : Prop} [Decidable c] {α : Type} {a b : α} {X : Except Fault α}
    (h : (if c then pure a else X) = .ok b) : (c ∧ b = a) ∨ (¬c ∧ X = .ok b) := by
  split at h
  · cases h; exact Or.inl ⟨‹c›, rfl⟩
  · exact Or.inr ⟨‹¬c›, h⟩

/-- A conditional that returns. -/
theorem ite_ok {c : Prop} [Decidable c] {α : Type} {b : α} {X Y : Except Fault α}
    (h : (if c then X else Y) = .ok b) : (c ∧ X = .ok b) ∨ (¬c ∧ Y = .ok b) := by
  split at h
  · exact Or.inl ⟨‹c›, h⟩
  · exact Or.inr ⟨‹¬c›, h⟩

/-- A conditional with a faulting branch that returns. -/
theorem ite_error_ok {c : Prop} [Decidable c] {α : Type} {e : Fault} {b : α}
    {X : Except Fault α} (h : (if c then .error e else X) = .ok b) : ¬c ∧ X = .ok b := by
  split at h
  · cases h
  · exact ⟨‹¬c›, h⟩

/-- The body of the loop of `writeMotifToPattern` keeps the range relation. -/
theorem writeNoteStep_rangeInv {maxRows : Int} {motif : Motif} {placement : MotifPlacement}
    {chord : BarChord} {groove : GrooveTemplate} {params : GenPatternParams}
    {scaleLen : Int} {intervals : List Int} {barStartRow degreeRangeBase octMin degreeRange : Int}
    {i : Int} {pat pat1 : DivPattern}
    (h : writeNoteStep maxRows motif placement chord groove params scaleLen intervals
      barStartRow degreeRangeBase octMin degreeRange i pat = .ok pat1) :
    pat.RangeInv pat1 := by
  unfold writeNoteStep at h
  obtain ⟨mn, -, h⟩ := bind_ok h
  rcases ite_pure_ok h with ⟨-, rfl⟩ | ⟨-, h⟩
  · exact DivPattern.RangeInv.rangeInv_refl _
  rcases ite_pure_ok h with ⟨-, rfl⟩ | ⟨-, h⟩
  · exact DivPattern.RangeInv.rangeInv_refl _
  obtain ⟨d1, -, h⟩ := bind_ok h
  obtain ⟨d2, -, h⟩ := bind_ok h
  obtain ⟨q, -, h⟩ := bind_ok h
  obtain ⟨r, -, h⟩ := bind_ok h
  obtain ⟨dis, -, h⟩ := bind_ok h
  obtain ⟨-, h⟩ := ite_error_ok h
  obtain ⟨iv, -, h⟩ := bind_ok h
  obtain ⟨p1, hw1, h⟩ := bind_ok h
  obtain ⟨-, h⟩ := ite_error_ok h
  obtain ⟨gv, -, h⟩ := bind_ok h
  refine DivPattern.RangeInv.trans (modifyRow_rangeInv hw1 ?_) (modifyRow_rangeInv h ?_)
  · intro c
    refine ⟨Or.inr (Or.inl ?_), Or.inl rfl⟩
    exact toI16_genClamp _ 0 179 (by decide) (by decide) (by decide)
  · intro c
    refine ⟨Or.inl rfl, Or.inr ?_⟩
    exact toI16_genClamp _ 0x10 0x7F (by decide) (by decide) (by decide)

/-- `writeMotifToPattern` keeps the range relation. -/
theorem writeMotifToPattern_rangeInv {maxRows : Int} {pat pat1 : DivPattern} {motif : Motif}
    {placement : MotifPlacement} {chord : BarChord} {groove : GrooveTemplate}
    {params : GenPatternParams} {scaleLen : Int} {intervals : List Int}
    {barStartRow degreeRangeBase : Int}
    (h : writeMotifToPattern maxRows pat motif placement chord groove params scaleLen
      intervals barStartRow degreeRangeBase = .ok pat1) :
    pat.RangeInv pat1 := by
  unfold writeMotifToPattern at h
  exact forLoop_inv (fun p => pat.RangeInv p) _ _ _
    (fun i s s1 hs hb => hs.trans (writeNoteStep_rangeInv hb)) _ _ _ _
    (DivPattern.RangeInv.rangeInv_refl pat) h

/-- A row assignment that keeps the note and the volume keeps the range relation. -/
theorem modifyRow_frame_rangeInv {maxRows : Int} {pat pat1 : DivPattern} {row : Int}
    {f : PatRow → PatRow} (h : pat.modifyRow maxRows row f = .ok pat1)
    (hn : ∀ c : PatRow, (f c).note = c.note) (hv : ∀ c : PatRow, (f c).vol = c.vol) :
    pat.RangeInv pat1 :=
  modifyRow_rangeInv h (fun c => ⟨Or.inl (hn c), Or.inl (hv c)⟩)

/-- Two row assignments that keep the note and the volume keep the range relation. -/
theorem modifyRow_frame2 {maxRows : Int} {pat p1 p2 : DivPattern} {row : Int}
    {f1 f2 : PatRow → PatRow} (h1 : pat.modifyRow maxRows row f1 = .ok p1)
    (h2 : p1.modifyRow maxRows row f2 = .ok p2)
    (hn1 : ∀ c : PatRow, (f1 c).note = c.note) (hv1 : ∀ c : PatRow, (f1 c).vol = c.vol)
    (hn2 : ∀ c : PatRow, (f2 c).note = c.note) (hv2 : ∀ c : PatRow, (f2 c).vol = c.vol) :
    pat.RangeInv p2 :=
  (modifyRow_frame_rangeInv h1 hn1 hv1).trans (modifyRow_frame_rangeInv h2 hn2 hv2)

/-- The effect chosen for a role keeps the range relation. -/
theorem effectForRole_rangeInv {maxRows : Int} {params : GenPatternParams} {cf : F32}
    {startRow row : Int} {largeInterval longNote : Bool} {s s1 : DivPattern × GenRNG}
    (h : effectForRole maxRows params cf startRow row largeInterval longNote s = .ok s1) :
    s.1.RangeInv s1.1 := by
  unfold effectForRole at h
  dsimp only at h
  rcases ite_ok h with ⟨-, h⟩ | ⟨-, h⟩
  · rcases ite_ok h with ⟨-, h⟩ | ⟨-, h⟩
    · obtain ⟨p1, h1, h⟩ := bind_ok h
      obtain ⟨p, -, h⟩ := bind_ok h
      obtain ⟨p2, h2, h⟩ := bind_ok h
      cases h
      exact modifyRow_frame2 h1 h2 (fun _ => rfl) (fun _ => rfl) (fun _ => rfl) (fun _ => rfl)
    · rcases ite_ok h with ⟨-, h⟩ | ⟨-, h⟩
      · obtain ⟨p1, h1, h⟩ := bind_ok h
        obtain ⟨sp, -, h⟩ := bind_ok h
        obtain ⟨dp, -, h⟩ := bind_ok h
        obtain ⟨p2, h2, h⟩ := bind_ok h
        cases h
        exact modifyRow_frame2 h1 h2 (fun _ => rfl) (fun _ => rfl) (fun _ => rfl)
          (fun _ => rfl)
      · cases h
        exact DivPattern.RangeInv.rangeInv_refl _
  rcases ite_ok h with ⟨-, h⟩ | ⟨-, h⟩
  · obtain ⟨r, -, h⟩ := bind_ok h
    rcases ite_ok h with ⟨-, h⟩ | ⟨-, h⟩
    · obtain ⟨p1, h1, h⟩ := bind_ok h
      obtain ⟨p, -, h⟩ := bind_ok h
      obtain ⟨p2, h2, h⟩ := bind_ok h
      cases h
      exact modifyRow_frame2 h1 h2 (fun _ => rfl) (fun _ => rfl) (fun _ => rfl) (fun _ => rfl)
    · cases h
      exact DivPattern.RangeInv.rangeInv_refl _
  rcases ite_ok h with ⟨-, h⟩ | ⟨-, h⟩
  · rcases ite_ok h with ⟨-, h⟩ | ⟨-, h⟩
    · obtain ⟨p1, h1, h⟩ := bind_ok h
      obtain ⟨sp, -, h⟩ := bind_ok h
      obtain ⟨dp, -, h⟩ := bind_ok h
      obtain ⟨p2, h2, h⟩ := bind_ok h
      cases h
      exact modifyRow_frame2 h1 h2 (fun _ => rfl) (fun _ => rfl) (fun _ => rfl) (fun _ => rfl)
    · cases h
      exact DivPattern.RangeInv.rangeInv_refl _
  rcases ite_ok h with ⟨-, h⟩ | ⟨-, h⟩
  · obtain ⟨r, -, h⟩ := bind_ok h
    rcases ite_ok h with ⟨-, h⟩ | ⟨-, h⟩
    · obtain ⟨p1, h1, h⟩ := bind_ok h
      obtain ⟨p2, h2, h⟩ := bind_ok h
      cases h
      exact modifyRow_frame2 h1 h2 (fun _ => rfl) (fun _ => rfl) (fun _ => rfl) (fun _ => rfl)
    · cases h
      exact DivPattern.RangeInv.rangeInv_refl _
  rcases ite_ok h with ⟨-, h⟩ | ⟨-, h⟩
  · obtain ⟨p1, h1, h⟩ := bind_ok h
    obtain ⟨p, -, h⟩ := bind_ok h
    obtain ⟨p2, h2, h⟩ := bind_ok h
    cases h
    exact modifyRow_frame2 h1 h2 (fun _ => rfl) (fun _ => rfl) (fun _ => rfl) (fun _ => rfl)
  · cases h
    exact DivPattern.RangeInv.rangeInv_refl _

/-- The body of the loop of `applyEffects` keeps the range relation. -/
theorem effectStep_rangeInv {maxRows : Int} {params : GenPatternParams} {cf : F32}
    {startRow endRow row : Int} {s s1 : DivPattern × GenRNG}
    (h : effectStep maxRows params cf startRow endRow row s = .ok s1) :
    s.1.RangeInv s1.1 := by
  unfold effectStep at h
  rcases ite_pure_ok h with ⟨-, rfl⟩ | ⟨-, h⟩
  · exact DivPattern.RangeInv.rangeInv_refl _
  obtain ⟨note, -, h⟩ := bind_ok h
  rcases ite_pure_ok h with ⟨-, rfl⟩ | ⟨-, h⟩
  · exact DivPattern.RangeInv.rangeInv_refl _
  obtain ⟨prevRow, -, h⟩ := bind_ok h
  obtain ⟨li, -, h⟩ := bind_ok h
  obtain ⟨ln, -, h⟩ := bind_ok h
  exact effectForRole_rangeInv h

/-- `applyEffects` keeps the range relation. -/
theorem applyEffects_rangeInv {maxRows : Int} {g : GenRNG} {pat : DivPattern}
    {params : GenPatternParams} {style : StylePreset} {startRow endRow : Int}
    {s1 : DivPattern × GenRNG}
    (h : applyEffects maxRows g pat params style startRow endRow = .ok s1) :
    pat.RangeInv s1.1 := by
  unfold applyEffects at h
  exact forLoop_inv (fun s => pat.RangeInv s.1) _ _ _
    (fun i s s1 hs hb => hs.trans (effectStep_rangeInv hb)) _ _ _ _
    (DivPattern.RangeInv.rangeInv_refl pat) h

/-- The body of the loop of `applyNoteOffs` keeps the range relation. -/
theorem noteOffStep_rangeInv {maxRows endRow gap row : Int} {pat pat1 : DivPattern}
    (h : noteOffStep maxRows endRow gap row pat = .ok pat1) : pat.RangeInv pat1 := by
  unfold noteOffStep at h
  rcases ite_pure_ok h with ⟨-, rfl⟩ | ⟨-, h⟩
  · exact DivPattern.RangeInv.rangeInv_refl _
  obtain ⟨note, -, h⟩ := bind_ok h
  rcases ite_pure_ok h with ⟨-, rfl⟩ | ⟨-, h⟩
  · exact DivPattern.RangeInv.rangeInv_refl _
  obtain ⟨nn, -, h⟩ := bind_ok h
  rcases ite_pure_ok h with ⟨-, rfl⟩ | ⟨-, h⟩
  · exact DivPattern.RangeInv.rangeInv_refl _
  rcases ite_pure_ok h with ⟨-, rfl⟩ | ⟨-, h⟩
  · exact DivPattern.RangeInv.rangeInv_refl _
  obtain ⟨v, -, h⟩ := bind_ok h
  rcases ite_ok h with ⟨-, h⟩ | ⟨-, h⟩
  · exact modifyRow_rangeInv h (fun c => ⟨Or.inr (Or.inr rfl), Or.inl rfl⟩)
  · cases h
    exact DivPattern.RangeInv.rangeInv_refl _

/-- `applyNoteOffs` keeps the range relation. -/
theorem applyNoteOffs_rangeInv {maxRows : Int} {pat pat1 : DivPattern}
    {startRow endRow articulationGap role : Int}
    (h : applyNoteOffs maxRows pat startRow endRow articulationGap role = .ok pat1) :
    pat.RangeInv pat1 := by
  unfold applyNoteOffs at h
  dsimp only at h
  rcases ite_ok h with ⟨-, h⟩ | ⟨-, h⟩
  · cases h
    exact DivPattern.RangeInv.rangeInv_refl _
  · exact forLoop_inv (fun p => pat.RangeInv p) _ _ _
      (fun i s s1 hs hb => hs.trans (noteOffStep_rangeInv hb)) _ _ _ _
      (DivPattern.RangeInv.rangeInv_refl pat) h

/-- A draw of `randIntE` over a range of small values returns a value in the range. -/
theorem randIntE_ok {g : GenRNG} {min max : Int} {p : Int × GenRNG}
    (h : randIntE g min max = .ok p) (h0 : -1073741824 ≤ min) (hle : min ≤ max)
    (h1 : max ≤ 1073741823) : min ≤ p.1 ∧ p.1 ≤ max := by
  obtain ⟨r, g1, hr, ha, hb, -⟩ := randInt_within g h0 hle h1
  unfold randIntE at h
  rw [hr] at h
  cases h
  exact ⟨ha, hb⟩

/-- The body of the loop of `applyChromaticPassing` keeps the range relation. -/
theorem chromaticStep_rangeInv {maxRows : Int} {params : GenPatternParams}
    {chromaticism : F32} {startRow endRow i : Int} {s s1 : DivPattern × GenRNG}
    (h : chromaticStep maxRows params chromaticism startRow endRow i s = .ok s1) :
    s.1.RangeInv s1.1 := by
  unfold chromaticStep at h
  rcases ite_pure_ok h with ⟨-, rfl⟩ | ⟨-, h⟩
  · exact DivPattern.RangeInv.rangeInv_refl _
  obtain ⟨note, -, h⟩ := bind_ok h
  rcases ite_pure_ok h with ⟨-, rfl⟩ | ⟨-, h⟩
  · exact DivPattern.RangeInv.rangeInv_refl _
  rcases ite_pure_ok h with ⟨-, rfl⟩ | ⟨-, h⟩
  · exact DivPattern.RangeInv.rangeInv_refl _
  obtain ⟨prevRow, -, h⟩ := bind_ok h
  obtain ⟨nextRow, -, h⟩ := bind_ok h
  rcases ite_pure_ok h with ⟨-, rfl⟩ | ⟨-, h⟩
  · exact DivPattern.RangeInv.rangeInv_refl _
  dsimp only at h
  rcases ite_ok h with ⟨-, h⟩ | ⟨-, h⟩
  · obtain ⟨prevNote, -, h⟩ := bind_ok h
    obtain ⟨nextNote, -, h⟩ := bind_ok h
    rcases ite_pure_ok h with ⟨-, rfl⟩ | ⟨-, h⟩
    · exact DivPattern.RangeInv.rangeInv_refl _
    obtain ⟨p1, h1, h⟩ := bind_ok h
    obtain ⟨p, hp, h⟩ := bind_ok h
    obtain ⟨p2, h2, h⟩ := bind_ok h
    cases h
    have hr := randIntE_ok hp (by decide) (by decide) (by decide)
    refine (modifyRow_rangeInv h1 (fun c => ⟨Or.inr (Or.inl ?_), Or.inl rfl⟩)).trans
      (modifyRow_rangeInv h2 (fun c => ⟨Or.inl rfl, Or.inr ?_⟩))
    · exact toI16_genClamp _ 0 179 (by decide) (by decide) (by decide)
    · show 0x10 ≤ toI16 p.1 ∧ toI16 p.1 ≤ 0x7F
      rw [toI16_of_range (by omega) (by omega)]
      omega
  · cases h
    exact DivPattern.RangeInv.rangeInv_refl _

/-- `applyChromaticPassing` keeps the range relation. -/
theorem applyChromaticPassing_rangeInv {maxRows : Int} {g : GenRNG} {pat : DivPattern}
    {params : GenPatternParams} {chromaticism : F32} {startRow endRow : Int}
    {s1 : DivPattern × GenRNG}
    (h : applyChromaticPassing maxRows g pat params chromaticism startRow endRow = .ok s1) :
    pat.RangeInv s1.1 := by
  unfold applyChromaticPassing at h
  exact forLoop_inv (fun s => pat.RangeInv s.1) _ _ _
    (fun i s s1 hs hb => hs.trans (chromaticStep_rangeInv hb)) _ _ _ _
    (DivPattern.RangeInv.rangeInv_refl pat) h

/-- The body of the loop over the placements of `generateFill` keeps the range relation. -/
theorem placementStep_rangeInv {maxRows : Int} {params : GenPatternParams} {phrase : Phrase}
    {motifPool : List Motif} {chords : List BarChord} {groove : GrooveTemplate}
    {scaleLen : Int} {intervals : List Int}
    {barCount rowsPerBar rowsPerBeat startRow endRow degreeRangeBase p : Int}
    {s s1 : DivPattern × GenRNG}
    (h : placementStep maxRows params phrase motifPool chords groove scaleLen intervals
      barCount rowsPerBar rowsPerBeat startRow endRow degreeRangeBase p s = .ok s1) :
    s.1.RangeInv s1.1 := by
  unfold placementStep at h
  obtain ⟨-, h⟩ := ite_error_ok h
  obtain ⟨mp, -, h⟩ := bind_ok h
  rcases ite_pure_ok h with ⟨-, rfl⟩ | ⟨-, h⟩
  · exact DivPattern.RangeInv.rangeInv_refl _
  rcases ite_pure_ok h with ⟨-, rfl⟩ | ⟨-, h⟩
  · exact DivPattern.RangeInv.rangeInv_refl _
  obtain ⟨-, h⟩ := ite_error_ok h
  obtain ⟨m, -, h⟩ := bind_ok h
  obtain ⟨chord, -, h⟩ := bind_ok h
  obtain ⟨mg, -, h⟩ := bind_ok h
  obtain ⟨pat1, hw, h⟩ := bind_ok h
  cases h
  exact writeMotifToPattern_rangeInv hw

/-- Every run of `generateFill` that returns gives a grid in the range relation with the
grid it started from. -/
theorem generateFill_rangeInv {maxRows : Int} {sinf : F32 → F32} {g : GenRNG}
    {pat : DivPattern} {params : GenPatternParams} {style : StylePreset}
    {startRow endRow : Int} {s1 : DivPattern × GenRNG}
    (h : generateFill maxRows sinf g pat params style startRow endRow = .ok s1) :
    pat.RangeInv s1.1 := by
  unfold generateFill at h
  rcases ite_pure_ok h with ⟨-, rfl⟩ | ⟨-, h⟩
  · exact DivPattern.RangeInv.rangeInv_refl _
  obtain ⟨cg, -, h⟩ := bind_ok h
  obtain ⟨ma, -, h⟩ := bind_ok h
  obtain ⟨mb, -, h⟩ := bind_ok h
  obtain ⟨ca, -, h⟩ := bind_ok h
  obtain ⟨cb, -, h⟩ := bind_ok h
  obtain ⟨motifA, -, h⟩ := bind_ok h
  obtain ⟨motifB, -, h⟩ := bind_ok h
  obtain ⟨phrase, -, h⟩ := bind_ok h
  obtain ⟨s, hs, h⟩ := bind_ok h
  obtain ⟨s2, hs2, h⟩ := bind_ok h
  obtain ⟨pat3, hs3, h⟩ := bind_ok h
  have h1 : pat.RangeInv s.1 :=
    forLoop_inv (fun s => pat.RangeInv s.1) _ _ _
      (fun i s s1 hs hb => hs.trans (placementStep_rangeInv hb)) _ _ _ _
      (DivPattern.RangeInv.rangeInv_refl pat) hs
  have h2 : s.1.RangeInv s2.1 := by
    rcases ite_ok hs2 with ⟨-, hs2⟩ | ⟨-, hs2⟩
    · exact applyEffects_rangeInv hs2
    · cases hs2
      exact DivPattern.RangeInv.rangeInv_refl _
  have h3 : s2.1.RangeInv pat3 := applyNoteOffs_rangeInv hs3
  rcases ite_ok h with ⟨-, h⟩ | ⟨-, h⟩
  · exact ((h1.trans h2).trans h3).trans (applyChromaticPassing_rangeInv h)
  · cases h
    exact (h1.trans h2).trans h3

/-! ## binary32 facts used by the scenario runs -/

/-- A natural number below `2^24` is a `float`. -/
theorem F32.round_nat (k : Nat) (hk : k < 16777216) : F32.round (k : ℚ) = F32.fin (k : ℚ) := by
  have h := F32.round_exact (k : Int) 0 (by rw [abs_of_nonneg (by omega)]; omega) (by decide)
    (by decide)
  simpa using h

/-- The quotient `(float)0/100.0f` is zero. -/
theorem F32.div_zero_hundred : F32.div (F32.ofInt 0) (F32.fin 100) = F32.fin 0 := by
  simp [F32.div, F32.ofInt, F32.round_zero]

/-- A `float` literal of a non-negative rational is not below zero. -/
theorem F32.round_not_lt_zero {q : ℚ} (hq : 0 ≤ q) : F32.lt (F32.round q) (F32.fin 0) = false := by
  have h := F32.le_round_of_le F32.round_zero le_rfl hq
  cases hr : F32.round q with
  | fin a =>
    rw [hr] at h
    have : (0 : ℚ) ≤ a := by simpa [F32.le] using h
    simpa [F32.lt] using this
  | inf s =>
    rw [hr] at h
    cases s <;> simp_all [F32.le, F32.lt]
  | nan => rfl

/-- A `float` literal of a rational that is at least `1/4` is above zero. -/
theorem F32.zero_lt_round {q : ℚ} (hq : 1 / 4 ≤ q) : F32.lt (F32.fin 0) (F32.round q) = true := by
  have hquarter : F32.round (1 / 4) = F32.fin (1 / 4) := by
    have h := F32.round_exact 1 (-2) (by decide) (by decide) (by decide)
    norm_num at h
    norm_num
    exact h
  have h := F32.le_round_of_le hquarter (by norm_num) hq
  cases hr : F32.round q with
  | fin a =>
    rw [hr] at h
    have : (1 / 4 : ℚ) ≤ a := by simpa [F32.le] using h
    have : (0 : ℚ) < a := by linarith
    simpa [F32.lt] using this
  | inf s =>
    rw [hr] at h
    cases s <;> simp_all [F32.le, F32.lt]
  | nan => rw [hr] at h; simp [F32.le] at h

/-- No draw of `randFloat` is below zero. -/
theorem randFloat_not_lt_zero (g : GenRNG) : F32.lt g.randFloat.1 (F32.fin 0) = false := by
  obtain ⟨-, hr, h0, -⟩ := randFloat_eq g
  rw [hr]
  simpa [F32.lt] using h0

/-! ## Scenario runs: the stages before grid writing -/

/-- The scan of `weightedPick` returns an index of the scanned part of the array. -/
theorem pickLoop_bounds (ws : List F32) (r accum : F32) (i k : Int)
    (h : pickLoop ws r accum i = some k) : i ≤ k ∧ k < i + ws.length := by
  induction ws generalizing accum i with
  | nil => simp [pickLoop] at h
  | cons w l ih =>
    unfold pickLoop at h
    simp only at h
    split at h
    · cases h
      simp only [List.length_cons]
      push_cast
      omega
    · have := ih _ _ h
      simp only [List.length_cons]
      push_cast
      omega

/-- For every array of at least one and fewer than `2^31` weights, whatever their values,
`weightedPick` returns an index of the array. -/
theorem weightedPick_index (g : GenRNG) (ws : List F32) (hne : ws ≠ [])
    (hlen : ws.length < 2147483648) :
    0 ≤ (g.weightedPick ws).1 ∧ (g.weightedPick ws).1 < ws.length := by
  have hpos : 0 < ws.length := List.length_pos.mpr hne
  unfold GenRNG.weightedPick
  simp only
  split
  · simp only
    omega
  · split
    · rename_i i hi
      have := pickLoop_bounds _ _ _ _ _ hi
      simp only
      omega
    · simp only
      rw [toI32_of_InI32 (by unfold InI32; omega)]
      omega

/-- Every row of both progression tables starts on degree 0. -/
theorem progAt_first (scaleType : Int) (idx : Int) (h0 : 0 ≤ idx) (h1 : idx < 5) :
    progAt (if genIsMinorFamily scaleType then minorProgs else majorProgs) idx 0 = .ok 0 := by
  have h : idx = 0 ∨ idx = 1 ∨ idx = 2 ∨ idx = 3 ∨ idx = 4 := by omega
  split <;> rcases h with rfl | rfl | rfl | rfl | rfl <;> rfl

/-- For one bar and complexity 0 `generateChordProgression` roots the bar on degree 0 with
three chord tones, for every generator state and scale. -/
theorem generateChordProgression_one_bar (g : GenRNG) (scaleType : Int) :
    ∃ g1, generateChordProgression g (List.replicate 16 {}) 1 scaleType 0
      = .ok (List.replicate 16 {}, g1) := by
  unfold generateChordProgression
  simp only [F32.div_zero_hundred]
  have hne : (List.range 5).map (fun i : Nat => progWeight (F32.fin 0) (i : Int)) ≠ [] := by
    intro h
    have := congrArg List.length h
    simp at this
  have hlen : ((List.range 5).map (fun i : Nat => progWeight (F32.fin 0) (i : Int))).length
      = 5 := by simp
  obtain ⟨h0, h1⟩ := weightedPick_index g _ hne (by rw [hlen]; decide)
  rw [hlen] at h1
  generalize g.weightedPick ((List.range 5).map (fun i : Nat => progWeight (F32.fin 0) (i : Int)))
    = wp at h0 h1
  refine ⟨wp.2, ?_⟩
  have hstep : chordStep (if genIsMinorFamily scaleType then minorProgs else majorProgs) wp.1
      (F32.fin 0) 0 (List.replicate 16 {}, wp.2) = .ok (List.replicate 16 {}, wp.2) := by
    unfold chordStep
    have hp := progAt_first scaleType wp.1 h0 (by exact_mod_cast h1)
    simp only [Int.tmod_zero, Int.zero_tmod] at hp ⊢
    rw [hp]
    simp only [F32.round_not_lt_zero (show (0 : ℚ) ≤ 6 / 10 by norm_num)]
    rfl
  show forLoop _ 1 _ 1 0 _ = _
  rw [forLoop]
  simp only [show decide ((0 : Int) < 1) = true by decide, if_true]
  rw [hstep]
  rfl

/-- Without syncopation and at complexity 0 `generateBassMotif` returns the root-fifth
ostinato and draws nothing. -/
theorem generateBassMotif_ostinato (g : GenRNG) (density rowsPerBar scaleLen : Int) :
    generateBassMotif g density 0 (F32.fin 0) rowsPerBar scaleLen
      = .ok (ostinato rowsPerBar, g) := by
  unfold generateBassMotif
  simp only [F32.div_zero_hundred, F32.zero_lt_round (show (1 / 4 : ℚ) ≤ 34 / 100 by norm_num),
    F32.round_not_lt_zero (show (0 : ℚ) ≤ 3 / 10 by norm_num)]
  have h2 : F32.lt (F32.fin (1 / 2)) (F32.fin 0) = false := by simp [F32.lt]
  simp only [h2]
  rfl

/-- The conversions and products of the ascending contour on a two-note motif. -/
theorem contourOffset_ascending (sinf : F32 → F32) (g : GenRNG) :
    contourOffset sinf g 2 2 2 0 = .ok (0, g) ∧ contourOffset sinf g 2 2 2 1 = .ok (2, g) := by
  have h0 : F32.ofInt 0 = F32.fin 0 := by simpa using F32.ofInt_exact 0 (by decide)
  have h1 : F32.ofInt 1 = F32.fin 1 := by simpa using F32.ofInt_exact 1 (by decide)
  have h2 : F32.ofInt 2 = F32.fin 2 := by simpa using F32.ofInt_exact 2 (by decide)
  have r1 : F32.round 1 = F32.fin 1 := by simpa using F32.round_nat 1 (by decide)
  have r2 : F32.round 2 = F32.fin 2 := by simpa using F32.round_nat 2 (by decide)
  have hs : isub 2 1 = 1 := by decide
  constructor
  · unfold contourOffset
    simp [hs, h0, h1, h2, F32.div, F32.mul, F32.round_zero, F32.toInt, orFault, InI32,
      Except.map]
  · unfold contourOffset
    simp [hs, h1, h2, r1, r2, F32.div, F32.mul, F32.toInt, orFault, InI32, Except.map]

/-- One iteration of a loop whose condition holds. -/
theorem forLoop_step {σ : Type} {cond : Int → σ → Bool} {step : Int}
    {body : Int → σ → Except Fault σ} {n : Nat} {i j : Int} {s s1 : σ}
    (hc : cond i s = true) (hb : body i s = .ok s1) (hj : i + step = j) :
    forLoop cond step body (n + 1) i s = forLoop cond step body n j s1 := by
  rw [forLoop, if_pos hc, hb, ← hj]
  rfl

/-- A loop whose condition fails returns its state. -/
theorem forLoop_stop {σ : Type} {cond : Int → σ → Bool} {step : Int}
    {body : Int → σ → Except Fault σ} {n : Nat} {i : Int} {s : σ}
    (hc : cond i s = false) : forLoop cond step body n i s = .ok s := by
  cases n with
  | zero => rw [forLoop, if_neg (by simp [hc])]
  | succ n => rw [forLoop, if_neg (by simp [hc])]

/-- A loop whose body faults while its condition holds faults. -/
theorem forLoop_fault {σ : Type} {cond : Int → σ → Bool} {step : Int}
    {body : Int → σ → Except Fault σ} {n : Nat} {i : Int} {s : σ} {f : Fault}
    (hc : cond i s = true) (hb : body i s = .error f) :
    forLoop cond step body (n + 1) i s = .error f := by
  rw [forLoop, if_pos hc, hb]
  rfl


/-- A bind whose first part returns. -/
theorem ok_bind {α β : Type} (a : α) (f : α → Except Fault β) :
    (Except.ok a >>= f) = f a := rfl

/-- The same for `Except.bind`. -/
theorem ok_bind2 {α β : Type} (a : α) (f : α → Except Fault β) :
    (Except.ok a : Except Fault α).bind f = f a := rfl

/-- A map whose argument returns. -/
theorem ok_map {α β : Type} (a : α) (f : α → β) :
    (Except.ok a : Except Fault α).map f = .ok (f a) := rfl


/-- At complexity 0 the ascending contour raises the fifth of the ostinato by 2 and draws
nothing. -/
theorem applyMelodicContour_ostinato (sinf : F32 → F32) (g : GenRNG)
    (rowsPerBar scaleLen : Int) :
    applyMelodicContour sinf g (ostinato rowsPerBar) 2 0 scaleLen
      = .ok (ostinatoAscending rowsPerBar, g) := by
  have ha : F32.toInt (F32.mul (F32.fin 0) (F32.fin 5)) = some 0 := by
    simp [F32.mul, F32.round_zero, F32.toInt, InI32]
  obtain ⟨c0, c1⟩ := contourOffset_ascending sinf g
  have e0 : contourStep sinf 2 2 0 (ostinato rowsPerBar, g) = .ok (ostinato rowsPerBar, g) := by
    unfold contourStep
    dsimp only [ostinato]
    rw [c0]
    rfl
  have e1 : contourStep sinf 2 2 1 (ostinato rowsPerBar, g)
      = .ok (ostinatoAscending rowsPerBar, g) := by
    unfold contourStep
    dsimp only [ostinato]
    rw [c1]
    rfl
  have hloop : forLoop (fun i (s : Motif × GenRNG) => decide (i < s.1.noteCount)) 1
      (contourStep sinf 2 2) 2 0 (ostinato rowsPerBar, g)
      = .ok (ostinatoAscending rowsPerBar, g) := by
    rw [forLoop_step (j := 1) rfl e0 rfl, forLoop_step (j := 2) rfl e1 rfl, forLoop_stop rfl]
  unfold applyMelodicContour
  have hn : (ostinato rowsPerBar).noteCount = 2 := rfl
  have h2 : iadd 2 0 = 2 := by decide
  simp only [F32.div_zero_hundred, ha, hn, orFault]
  rw [ok_bind2, h2, if_neg (by decide)]
  exact hloop

/-- With emphasis 0 `applyChordToneGravity` leaves the ostinato as it is and draws once for
each of its two notes, both of which fall on a beat. -/
theorem applyChordToneGravity_ostinato (g : GenRNG) (chord : BarChord) (scaleLen : Int) :
    applyChordToneGravity g (ostinatoAscending 16) chord scaleLen 4 (F32.fin 0)
      = .ok (ostinatoAscending 16, g.randFloat.2.randFloat.2) := by
  have e : ∀ (sl i : Int) (g1 : GenRNG), (i = 0 ∨ i = 1) →
      gravityStep chord sl 4 (F32.fin 0) i (ostinatoAscending 16, g1)
        = .ok (ostinatoAscending 16, g1.randFloat.2) := by
    intro sl i g1 hi
    unfold gravityStep
    rcases hi with rfl | rfl
    · dsimp only [ostinatoAscending]
      simp only [randFloat_not_lt_zero]
      rfl
    · dsimp only [ostinatoAscending]
      simp only [randFloat_not_lt_zero]
      rfl
  unfold applyChordToneGravity
  have hn : (ostinatoAscending 16).noteCount.toNat = 2 := rfl
  simp only [hn]
  rw [forLoop_step (j := 1) rfl (e _ 0 g (Or.inl rfl)) rfl,
    forLoop_step (j := 2) rfl (e _ 1 _ (Or.inr rfl)) rfl, forLoop_stop rfl]

/-! ## Scenario runs: the bass ostinato through `generateFill` -/

/-- A bind whose first part is a `pure`. -/
theorem pure_bind_ok {α β : Type} (a : α) (f : α → Except Fault β) :
    ((pure a : Except Fault α) >>= f) = f a := rfl

/-- A loop of at most one iteration whose condition fails after it is its body. -/
theorem forLoop_single {σ : Type} {cond : Int → σ → Bool} {step : Int}
    {body : Int → σ → Except Fault σ} {i : Int} {s : σ}
    (hc : cond i s = true) (hstop : ∀ s1, cond (i + step) s1 = false) :
    forLoop cond step body 1 i s = body i s := by
  rw [forLoop, if_pos hc]
  cases hb : body i s with
  | error e => rfl
  | ok s1 =>
    show forLoop cond step body 0 (i + step) s1 = _
    rw [forLoop, if_neg (by simp [hstop s1])]

/-- The role Bass selects `generateBassMotif`. -/
theorem generateRoleMotif_bass (g : GenRNG) (density complexity : Int) (syncopation : F32)
    (rowsPerBar motifLengthHint scaleLen : Int) :
    generateRoleMotif g 1 density complexity syncopation rowsPerBar motifLengthHint scaleLen
      = generateBassMotif g density complexity syncopation rowsPerBar scaleLen := by
  unfold generateRoleMotif
  rw [if_pos rfl]

/-- The phrase of one bar in the form AABA: one placement of motif A, no draw. -/
theorem buildPhrase_one_bar (g : GenRNG) :
    buildPhrase g 0 1 2 = .ok ({ placementCount := 1, totalBars := 1 }, g) := rfl

/-- The placement of the ostinato in bar 0: two draws of harmonic gravity, then the grid
writing at the start row. -/
theorem placementStep_ostinato (maxRows : Int) (params : GenPatternParams)
    (groove : GrooveTemplate) (startRow endRow : Int) (pat : DivPattern) (g : GenRNG)
    (hemph : params.chordToneEmphasis = F32.fin 0)
    (hstart : iadd startRow (imul 0 16) < endRow) :
    placementStep maxRows params { placementCount := 1, totalBars := 1 }
      [ostinatoAscending 16, ostinatoAscending 16] (List.replicate 16 {}) groove 7 scaleMinor
      1 16 4 startRow endRow 10 0 (pat, g)
    = (writeMotifToPattern maxRows pat (ostinatoAscending 16) {} {} groove params 7 scaleMinor
        (iadd startRow (imul 0 16)) 10) >>= fun W => pure (W, g.randFloat.2.randFloat.2) := by
  unfold placementStep
  rw [if_neg (by decide)]
  have hmp : orFault Fault.arrayIndex
      ({ placementCount := 1, totalBars := 1 } : Phrase).placements[(0 : Int).toNat]?
      = .ok {} := rfl
  rw [hmp, ok_bind]
  dsimp only
  rw [if_neg (by decide), if_neg (not_le.mpr hstart), if_neg (by decide)]
  have hm : orFault Fault.arrayIndex
      [ostinatoAscending 16, ostinatoAscending 16][(Int.tmod 0 2).toNat]?
      = .ok (ostinatoAscending 16) := rfl
  have hch : orFault Fault.arrayIndex (List.replicate 16 ({} : BarChord))[(0 : Int).toNat]?
      = .ok {} := rfl
  rw [hm, ok_bind, hch, ok_bind, hemph, applyChordToneGravity_ostinato, ok_bind]

/-- The run of `generateFill` for a bass request at complexity 0 without syncopation, in the
form AABA with the ascending contour and chord-tone emphasis 0, on a region of one bar of 16
rows in A minor over octaves 3 to 5: for every generator state the stages up to harmonic
gravity return the ostinato, and the call is the grid writing of that motif at the start
row followed by the three passes. -/
theorem generateFill_bass (maxRows : Int) (sinf : F32 → F32) (g : GenRNG) (pat : DivPattern)
    (params : GenPatternParams) (style : StylePreset) (startRow endRow : Int)
    (hrole : params.role = 1) (hcx : params.complexity = 0) (hform : params.phraseForm = 0)
    (hcont : params.contourHint = 2) (hemph : params.chordToneEmphasis = F32.fin 0)
    (hbar : params.rowsPerBar = 16) (hbeat : params.rowsPerBeat = 4)
    (hscale : params.scaleType = 0) (homin : params.octaveMin = 3)
    (homax : params.octaveMax = 5) (hsync : style.syncopation = F32.fin 0)
    (hlen : ¬(isub endRow startRow ≤ 0 ∨ isub endRow startRow > maxRows))
    (hbars : computeBarCount (isub endRow startRow) 16 = 1)
    (hstart : iadd startRow (imul 0 16) < endRow) :
    ∃ g2, generateFill maxRows sinf g pat params style startRow endRow
      = (writeMotifToPattern maxRows pat (ostinatoAscending 16) {} {}
          (buildGrooveTemplate params.grooveType) params 7 scaleMinor
          (iadd startRow (imul 0 16)) 10) >>= fun W =>
        (if params.allowEffects then applyEffects maxRows g2 W params style startRow endRow
          else pure (W, g2)) >>= fun s =>
        applyNoteOffs maxRows s.1 startRow endRow params.articulationGap 1 >>= fun pat2 =>
        if F32.lt (F32.fin 0) style.chromaticism then
          applyChromaticPassing maxRows s.2 pat2 params style.chromaticism startRow endRow
        else pure (pat2, s.2) := by
  obtain ⟨g1, hcg⟩ := generateChordProgression_one_bar g 0
  refine ⟨g1.randFloat.2.randFloat.2, ?_⟩
  unfold generateFill
  have h4 : genScaleIntervals 0 = ⟨scaleMinor, 7⟩ := by decide
  have hbase : Int.tdiv (if imul (iadd (isub (if genClamp 5 0 9 < genClamp 3 0 9
      then genClamp 3 0 9 else genClamp 5 0 9) (genClamp 3 0 9)) 1) 7 ≤ 0 then 7
      else imul (iadd (isub (if genClamp 5 0 9 < genClamp 3 0 9
      then genClamp 3 0 9 else genClamp 5 0 9) (genClamp 3 0 9)) 1) 7) 2 = 10 := by decide
  simp only [if_neg hlen, hrole, hcx, hform, hcont, hbar, hbeat, hscale, homin, homax, hsync,
    show ¬((16 : Int) ≤ 0) by decide, show ¬((4 : Int) ≤ 0) by decide, if_false, hbars, h4,
    hcg, hbase]
  rw [ok_bind]
  dsimp only
  rw [generateRoleMotif_bass, generateBassMotif_ostinato, ok_bind]
  dsimp only
  rw [generateRoleMotif_bass, generateBassMotif_ostinato, ok_bind]
  rw [if_neg (by decide), pure_bind_ok]
  dsimp only
  rw [if_neg (by decide), pure_bind_ok]
  dsimp only
  rw [applyMelodicContour_ostinato, ok_bind]
  dsimp only
  rw [applyMelodicContour_ostinato, ok_bind]
  dsimp only
  rw [buildPhrase_one_bar, ok_bind]
  dsimp only
  rw [show (1 : Int).toNat = 1 from rfl, forLoop_single rfl (fun _ => rfl),
    placementStep_ostinato maxRows params _ startRow endRow pat g1 hemph hstart]
  generalize writeMotifToPattern maxRows pat (ostinatoAscending 16) {} {}
    (buildGrooveTemplate params.grooveType) params 7 scaleMinor
    (iadd startRow (imul 0 16)) 10 = x
  cases x <;> rfl

/-- The bass scenario on one full bar `[0,16)` of an empty grid of 256 rows: for every
generator state the call returns, the ostinato is written at rows 0 and 8, and the
articulation pass puts the note-off value at rows 7 and 15. -/
theorem generateFill_bass_bar (sinf : F32 → F32) (g : GenRNG) :
    ∃ pat1 g1, generateFill 256 sinf g emptyPattern bassParams plainStyle 0 16 = .ok (pat1, g1) ∧
      (pat1.newData 0).note = 122 ∧ (pat1.newData 0).vol = 127 ∧
      (pat1.newData 8).note = 132 ∧ (pat1.newData 8).vol = 116 ∧
      (pat1.newData 7).note = 253 ∧ (pat1.newData 15).note = 253 := by
  obtain ⟨g2, h⟩ := generateFill_bass 256 sinf g emptyPattern bassParams plainStyle 0 16
    rfl rfl rfl rfl rfl rfl rfl rfl rfl rfl rfl (by decide) (by decide) (by decide)
  rw [h]
  exact ⟨_, g2, rfl, rfl, rfl, rfl, rfl, rfl, rfl⟩

/-- With one row per bar the first branch of `generateDistGuitarMotif` evaluates
`r%(rowsPerBar/2)` with a zero divisor at its first note. -/
theorem generateDistGuitarMotif_one_row (g : GenRNG) (density : Int) (syncopation : F32)
    (scaleLen : Int) :
    generateDistGuitarMotif g density 0 syncopation 1 scaleLen = .error .divByZero := by
  unfold generateDistGuitarMotif
  have h : F32.lt (F32.fin 0) (F32.fin (1 / 2)) = true := by simp [F32.lt]
  simp only [F32.div_zero_hundred, h]
  rfl

/-- The role Distorted Guitar selects `generateDistGuitarMotif`. -/
theorem generateRoleMotif_dist_guitar (g : GenRNG) (density complexity : Int)
    (syncopation : F32) (rowsPerBar motifLengthHint scaleLen : Int) :
    generateRoleMotif g 6 density complexity syncopation rowsPerBar motifLengthHint scaleLen
      = generateDistGuitarMotif g density complexity syncopation rowsPerBar scaleLen := by
  unfold generateRoleMotif
  rw [if_neg (by decide), if_neg (by decide), if_neg (by decide), if_neg (by decide),
    if_neg (by decide), if_neg (by decide), if_pos rfl]

/-! ## Claims on `generateFill` -/

/-- C15. Range invariant of the pattern pipeline: for every parameter set, style, RNG state,
region and initial grid, in every run of `generateFill` that returns, every note cell whose
value differs from its initial value holds a note in `[0,179]` or the note-off value 253,
and every volume cell whose value differs from its initial value holds a value in
`[0x10,0x7F]`. -/
theorem generateFill_range_invariant (maxRows : Int) (sinf : F32 → F32) (g : GenRNG)
    (pat : DivPattern) (params : GenPatternParams) (style : StylePreset)
    (startRow endRow : Int) (pat1 : DivPattern) (g1 : GenRNG)
    (h : generateFill maxRows sinf g pat params style startRow endRow = .ok (pat1, g1)) :
    ∀ row : Int,
      ((pat1.newData row).note ≠ (pat.newData row).note →
        (0 ≤ (pat1.newData row).note ∧ (pat1.newData row).note ≤ 179) ∨
          (pat1.newData row).note = 253) ∧
      ((pat1.newData row).vol ≠ (pat.newData row).vol →
        0x10 ≤ (pat1.newData row).vol ∧ (pat1.newData row).vol ≤ 0x7F) := by
  intro row
  obtain ⟨hn, hv⟩ := generateFill_rangeInv h row
  exact ⟨fun hne => hn.resolve_left hne, fun hne => hv.resolve_left hne⟩

/-- C15, instance: the bass scenario on the bar `[0,16)` of an empty grid of 256 rows, from
the default-seeded generator; the run returns and changes the note cells of rows 0, 7, 8
and 15. -/
theorem generateFill_range_invariant_witness :
    ∃ pat1 g1,
      generateFill 256 (fun x => x) GenRNG.init emptyPattern bassParams plainStyle 0 16
        = .ok (pat1, g1) ∧
      (pat1.newData 0).note = 122 ∧ (pat1.newData 7).note = 253 ∧
      ∀ row : Int,
        ((pat1.newData row).note ≠ (emptyPattern.newData row).note →
          (0 ≤ (pat1.newData row).note ∧ (pat1.newData row).note ≤ 179) ∨
            (pat1.newData row).note = 253) ∧
        ((pat1.newData row).vol ≠ (emptyPattern.newData row).vol →
          0x10 ≤ (pat1.newData row).vol ∧ (pat1.newData row).vol ≤ 0x7F) := by
  obtain ⟨pat1, g1, h, h0, -, -, -, h7, -⟩ := generateFill_bass_bar (fun x => x) GenRNG.init
  exact ⟨pat1, g1, h, h0, h7,
    generateFill_range_invariant 256 (fun x => x) GenRNG.init emptyPattern bassParams
      plainStyle 0 16 pat1 g1 h⟩

/-- C16. For every parameter set, style, grid and RNG state: if `endRow - startRow`, as the
`int` the code computes, is `<= 0` or `> DIV_MAX_ROWS`, `generateFill` returns with the grid
and the RNG state unchanged; in particular when the exact difference is an `int` and is
`<= 0` or `> DIV_MAX_ROWS`. -/
theorem generateFill_empty_range (maxRows : Int) (sinf : F32 → F32) (g : GenRNG)
    (pat : DivPattern) (params : GenPatternParams) (style : StylePreset)
    (startRow endRow : Int) :
    (isub endRow startRow ≤ 0 ∨ isub endRow startRow > maxRows →
      generateFill maxRows sinf g pat params style startRow endRow = .ok (pat, g)) ∧
    (InI32 (endRow - startRow) → endRow - startRow ≤ 0 ∨ endRow - startRow > maxRows →
      generateFill maxRows sinf g pat params style startRow endRow = .ok (pat, g)) := by
  have key : isub endRow startRow ≤ 0 ∨ isub endRow startRow > maxRows →
      generateFill maxRows sinf g pat params style startRow endRow = .ok (pat, g) := by
    intro h
    unfold generateFill
    simp only [if_pos h]
    rfl
  refine ⟨key, fun hfit h => key ?_⟩
  unfold isub
  rw [toI32_of_InI32 hfit]
  exact h

/-- C16, instance: the empty range `[5,5)` and the range `[0,300)` of a grid of 256 rows. -/
theorem generateFill_empty_range_witness :
    ((isub 5 5 ≤ 0 ∨ isub 5 5 > 256 →
      generateFill 256 (fun x => x) GenRNG.init emptyPattern {} {} 5 5
        = .ok (emptyPattern, GenRNG.init)) ∧
    (InI32 (5 - 5) → (5 : Int) - 5 ≤ 0 ∨ (5 : Int) - 5 > 256 →
      generateFill 256 (fun x => x) GenRNG.init emptyPattern {} {} 5 5
        = .ok (emptyPattern, GenRNG.init))) ∧
    generateFill 256 (fun x => x) GenRNG.init emptyPattern {} {} 5 5
      = .ok (emptyPattern, GenRNG.init) ∧
    generateFill 256 (fun x => x) GenRNG.init emptyPattern {} {} 0 300
      = .ok (emptyPattern, GenRNG.init) :=
  ⟨generateFill_empty_range 256 (fun x => x) GenRNG.init emptyPattern {} {} 5 5,
    (generateFill_empty_range 256 (fun x => x) GenRNG.init emptyPattern {} {} 5 5).1
      (by decide),
    (generateFill_empty_range 256 (fun x => x) GenRNG.init emptyPattern {} {} 0 300).1
      (by decide)⟩

/-- C17. `generateFill` writes outside its region: for the bass scenario on the half bar
`[0,8)` of an empty grid of 256 rows (`0 <= 0 < 8 <= 256`, 16 rows per bar) and every RNG
state, the call returns and the note cell of row 8, which lies outside `[0,8)`, has changed
from empty (-1) to the note 132 with volume 116. -/
theorem generateFill_writes_past_endRow (sinf : F32 → F32) (g : GenRNG) :
    ∃ pat1 g1,
      generateFill 256 sinf g emptyPattern bassParams plainStyle 0 8 = .ok (pat1, g1) ∧
      ¬((0 : Int) ≤ 8 ∧ (8 : Int) < 8) ∧
      (emptyPattern.newData 8).note = -1 ∧ (pat1.newData 8).note = 132 ∧
      (emptyPattern.newData 8).vol = -1 ∧ (pat1.newData 8).vol = 116 := by
  obtain ⟨g2, h⟩ := generateFill_bass 256 sinf g emptyPattern bassParams plainStyle 0 8
    rfl rfl rfl rfl rfl rfl rfl rfl rfl rfl rfl (by decide) (by decide) (by decide)
  rw [h]
  exact ⟨_, g2, rfl, by decide, rfl, rfl, rfl, rfl⟩

/-- C18. `generateFill` reads the grid at a negative row: for the bass scenario with effects
enabled on the region `[-8,8)` (`0 < 8 - (-8) <= 256`) of an empty grid of 256 rows and
every RNG state, the note of the bar is written at row 0 and the backward search of the
effects pass for the previous note reads `newData[-1]`. -/
theorem generateFill_reads_negative_row (sinf : F32 → F32) (g : GenRNG) :
    (0 : Int) < 8 - (-8) ∧ (8 : Int) - (-8) ≤ 256 ∧
    generateFill 256 sinf g emptyPattern { bassParams with allowEffects := true } plainStyle
      (-8) 8 = .error (.gridIndex (-1)) := by
  obtain ⟨g2, h⟩ := generateFill_bass 256 sinf g emptyPattern
    { bassParams with allowEffects := true } plainStyle (-8) 8
    rfl rfl rfl rfl rfl rfl rfl rfl rfl rfl rfl (by decide) (by decide) (by decide)
  rw [h]
  exact ⟨by decide, by decide, rfl⟩

/-- C19. `generateFill` evaluates a modulo by zero on a positive metric grid: for the role
Distorted Guitar at complexity 0 with `rowsPerBar = 1` and `rowsPerBeat = 4` (every other
field at its constructor's value), every style, grid, RNG state and grid capacity of at
least one row, the call on the region `[0,1)` stops in `generateDistGuitarMotif` at
`r%(rowsPerBar/2)` with `rowsPerBar/2 = 0`. -/
theorem generateFill_modulo_by_zero (maxRows : Int) (hmax : 1 ≤ maxRows) (sinf : F32 → F32)
    (g : GenRNG) (pat : DivPattern) (style : StylePreset) :
    generateFill maxRows sinf g pat { role := 6, complexity := 0, rowsPerBar := 1 } style 0 1
      = .error .divByZero := by
  obtain ⟨g1, hcg⟩ := generateChordProgression_one_bar g 0
  unfold generateFill
  have h1 : isub 1 0 = 1 := by decide
  have hlen : ¬((1 : Int) ≤ 0 ∨ (1 : Int) > maxRows) := by omega
  have h3 : computeBarCount 1 1 = 1 := by decide
  have h4 : genScaleIntervals 0 = ⟨scaleMinor, 7⟩ := by decide
  simp only [h1]
  rw [if_neg hlen]
  simp only [show ¬((1 : Int) ≤ 0) by decide, show ¬((4 : Int) ≤ 0) by decide,
    if_false, h3, h4, hcg]
  rw [ok_bind]
  dsimp only
  rw [generateRoleMotif_dist_guitar, generateDistGuitarMotif_one_row]
  rfl

/-- C19, instance: a grid of 256 rows. -/
theorem generateFill_modulo_by_zero_witness :
    generateFill 256 (fun x => x) GenRNG.init emptyPattern
      { role := 6, complexity := 0, rowsPerBar := 1 } plainStyle 0 1 = .error .divByZero :=
  generateFill_modulo_by_zero 256 (by decide) (fun x => x) GenRNG.init emptyPattern plainStyle

/-- C20. With `articulationGap = 0` the articulation pass inserts note-offs: for the bass
scenario (effects off, chromaticism 0, articulation gap 0) on the bar `[0,16)` of an empty
grid of 256 rows and every RNG state, the call returns with the notes 122 and 132 at rows 0
and 8 and the note-off value 253 in the note cells of rows 7 and 15, which is not a note in
`[0,179]`. -/
theorem generateFill_gap_zero_inserts_note_off (sinf : F32 → F32) (g : GenRNG) :
    bassParams.allowEffects = false ∧ bassParams.articulationGap = 0 ∧
    plainStyle.chromaticism = F32.fin 0 ∧
    (∀ row : Int, emptyPattern.newData row = ⟨-1, -1, -1, -1, -1⟩) ∧
    ∃ pat1 g1,
      generateFill 256 sinf g emptyPattern bassParams plainStyle 0 16 = .ok (pat1, g1) ∧
      (pat1.newData 0).note = 122 ∧ (pat1.newData 8).note = 132 ∧
      (pat1.newData 7).note = 253 ∧ (pat1.newData 15).note = 253 ∧
      ¬(0 ≤ (pat1.newData 7).note ∧ (pat1.newData 7).note ≤ 179) := by
  obtain ⟨pat1, g1, h, h0, -, h8, -, h7, h15⟩ := generateFill_bass_bar sinf g
  refine ⟨rfl, rfl, rfl, fun _ => rfl, pat1, g1, h, h0, h8, h7, h15, ?_⟩
  rw [h7]
  decide

/-! ## Float comparisons against literals -/

/-- A dyadic rational `m / 2^k` with a 24-bit numerator is a `float`. -/
theorem F32.round_dyadic (m : Int) (k : Nat) (hm : |m| < 16777216) (hk : k ≤ 149) :
    F32.round ((m : ℚ) / 2 ^ k) = F32.fin ((m : ℚ) / 2 ^ k) := by
  have h := F32.round_exact m (-(k : Int)) hm (by omega) (by omega)
  rw [zpow_neg, zpow_natCast] at h
  rw [div_eq_mul_inv]
  exact h

/-- A positive `float` is at most `maxFinite`. -/
theorem F32.le_maxFinite {p : ℚ} (hp0 : 0 < p) (hp : F32.round p = F32.fin p) :
    p ≤ F32.maxFinite := by
  have hpe := F32.eq_of_round_eq hp0.ne' hp
  have h := hp
  unfold F32.round at h
  rw [if_neg hp0.ne'] at h
  simp only at h
  split_ifs at h with hm
  rw [not_lt, hpe, abs_of_pos hp0] at hm
  exact hm

/-- Rounding is monotone against a `float` upper bound: if `p` is a `float` and
`0 <= q <= p` then the rounding of `q` is not above `p`. -/
theorem F32.round_le_of_le {p q : ℚ} (hp : F32.round p = F32.fin p) (h0 : 0 ≤ q)
    (hqp : q ≤ p) : F32.le (F32.round q) (F32.fin p) = true := by
  by_cases hq0 : q = 0
  · subst hq0
    rw [F32.round_zero]
    simpa [F32.le] using hqp
  have hqpos : 0 < q := lt_of_le_of_ne h0 (Ne.symm hq0)
  have hppos : 0 < p := lt_of_lt_of_le hqpos hqp
  have hp0 : p ≠ 0 := hppos.ne'
  have hpe := F32.eq_of_round_eq hp0 hp
  have hpmax := F32.le_maxFinite hppos hp
  have hzq := F32.roundHalfEven_div_ulp_nonneg hqpos.le
  have key : ((F32.roundHalfEven (q / 2 ^ F32.ulpExp q) : Int) : ℚ) * 2 ^ F32.ulpExp q ≤ p := by
    by_cases hu : F32.ulpExp p = F32.ulpExp q
    · rw [hu] at hpe
      have e : ((F32.roundHalfEven (p / 2 ^ F32.ulpExp q) : Int) : ℚ) = p / 2 ^ F32.ulpExp q := by
        rw [eq_div_iff (F32.two_zpow_pos _).ne']
        exact hpe
      have hzz : F32.roundHalfEven (q / 2 ^ F32.ulpExp q)
          ≤ F32.roundHalfEven (p / 2 ^ F32.ulpExp q) := by
        apply F32.roundHalfEven_le
        rw [e]
        exact div_le_div_of_nonneg_right hqp (F32.two_zpow_pos _).le
      calc ((F32.roundHalfEven (q / 2 ^ F32.ulpExp q) : Int) : ℚ) * 2 ^ F32.ulpExp q
          ≤ ((F32.roundHalfEven (p / 2 ^ F32.ulpExp q) : Int) : ℚ) * 2 ^ F32.ulpExp q :=
            mul_le_mul_of_nonneg_right (by exact_mod_cast hzz) (F32.two_zpow_pos _).le
        _ = p := hpe
    · have hlog : Int.log 2 q ≤ Int.log 2 p := Int.log_mono_right hqpos hqp
      have hul : F32.ulpExp q + 24 ≤ Int.log 2 p := by
        unfold F32.ulpExp at hu ⊢
        rw [abs_of_pos hppos, abs_of_pos hqpos] at hu
        rw [abs_of_pos hqpos]
        omega
      have hz := F32.abs_roundHalfEven_div_ulp_le hq0
      rw [abs_of_nonneg hzq] at hz
      have h1 : (2 : ℚ) ^ Int.log 2 p ≤ p := by
        have := Int.zpow_log_le_self (b := 2) (by norm_num) hppos
        exact_mod_cast this
      have h2 : (2 : ℚ) ^ (F32.ulpExp q + 24) ≤ 2 ^ Int.log 2 p :=
        zpow_le_zpow_right₀ (by norm_num) hul
      have h3 : (2 : ℚ) ^ (F32.ulpExp q + 24) = 16777216 * 2 ^ F32.ulpExp q := by
        rw [zpow_add₀ (by norm_num : (2 : ℚ) ≠ 0)]
        norm_num
        ring
      have h4 : ((F32.roundHalfEven (q / 2 ^ F32.ulpExp q) : Int) : ℚ) * 2 ^ F32.ulpExp q
          ≤ (16777216 : ℚ) * 2 ^ F32.ulpExp q := by
        apply mul_le_mul_of_nonneg_right _ (F32.two_zpow_pos _).le
        exact_mod_cast hz
      linarith
  have hv0 : (0 : ℚ) ≤ ((F32.roundHalfEven (q / 2 ^ F32.ulpExp q) : Int) : ℚ)
      * 2 ^ F32.ulpExp q :=
    mul_nonneg (by exact_mod_cast hzq) (F32.two_zpow_pos _).le
  unfold F32.round
  rw [if_neg hq0]
  simp only
  rw [if_neg (by rw [abs_of_nonneg hv0]; exact not_lt.mpr (le_trans key hpmax))]
  simpa [F32.le] using key

/-- Two roundings separated by two `float` values compare strictly. -/
theorem F32.round_lt_round {q1 q2 a b : ℚ} (ha : F32.round a = F32.fin a)
    (hb : F32.round b = F32.fin b) (h0 : 0 ≤ q1) (h1 : q1 ≤ a) (hab : a < b) (h2 : b ≤ q2) :
    F32.lt (F32.round q1) (F32.round q2) = true := by
  have l1 := F32.round_le_of_le ha h0 h1
  have l2 := F32.le_round_of_le hb (by linarith) h2
  generalize F32.round q1 = x at l1
  generalize F32.round q2 = y at l2
  cases x <;> cases y <;> simp_all [F32.le, F32.lt]
  · linarith

/-- A rounding that is not above another one is not strictly above it. -/
theorem F32.round_not_lt_round {q1 q2 a : ℚ} (ha : F32.round a = F32.fin a)
    (h0 : 0 ≤ q1) (h1 : q1 ≤ a) (h2 : a ≤ q2) :
    F32.lt (F32.round q2) (F32.round q1) = false := by
  have l1 := F32.round_le_of_le ha h0 h1
  have l2 := F32.le_round_of_le ha (by linarith) h2
  generalize F32.round q1 = x at l1
  generalize F32.round q2 = y at l2
  cases x <;> cases y <;> simp_all [F32.le, F32.lt]
  · linarith

/-- The quotient `(float)c/100.0f` of an `int` in `0..16777215` is the rounding of
`c/100`. -/
theorem F32.div_hundred {c : Int} (h0 : 0 ≤ c) (h1 : c < 16777216) :
    F32.div (F32.ofInt c) (F32.fin 100) = F32.round ((c : ℚ) / 100) := by
  obtain ⟨k, rfl⟩ := Int.eq_ofNat_of_zero_le h0
  rw [F32.ofInt_exact k (by omega)]
  simp [F32.div]

/-- For `complexity` in `0..33` the test `cf<0.34f` holds. -/
theorem F32.cf_lt_034 {c : Int} (h0 : 0 ≤ c) (h1 : c ≤ 33) :
    F32.lt (F32.div (F32.ofInt c) (F32.fin 100)) (F32.round (34 / 100)) = true := by
  rw [F32.div_hundred h0 (by omega)]
  have ha := F32.round_dyadic 85 8 (by decide) (by decide)
  have hb := F32.round_dyadic 86 8 (by decide) (by decide)
  have hc : (c : ℚ) ≤ 33 := by exact_mod_cast h1
  have hc0 : (0 : ℚ) ≤ c := by exact_mod_cast h0
  exact F32.round_lt_round ha hb (by positivity) (by norm_num; linarith) (by norm_num)
    (by norm_num)

/-- For `complexity` in `0..60` the test `cf>0.6f` fails. -/
theorem F32.cf_not_gt_06 {c : Int} (h0 : 0 ≤ c) (h1 : c ≤ 60) :
    F32.lt (F32.round (6 / 10)) (F32.div (F32.ofInt c) (F32.fin 100)) = false := by
  rw [F32.div_hundred h0 (by omega)]
  rcases (show c = 60 ∨ c ≤ 59 by omega) with rfl | h59
  · have e : ((60 : Int) : ℚ) / 100 = 6 / 10 := by norm_num
    rw [e]
    cases F32.round (6 / 10) <;> simp [F32.lt]
  · have ha := F32.round_dyadic 605 10 (by decide) (by decide)
    have hc : (c : ℚ) ≤ 59 := by exact_mod_cast h59
    have hc0 : (0 : ℚ) ≤ c := by exact_mod_cast h0
    exact F32.round_not_lt_round ha (by positivity) (by norm_num; linarith) (by norm_num)

/-! ## Loops that run to completion -/

/-- A counting loop whose body returns and keeps an invariant `I`, indexed by the number of
completed iterations, returns after `n` iterations when its condition is `i < n` on the
states of the invariant and the fuel suffices. -/
theorem forLoop_total {σ : Type} (cond : Int → σ → Bool) (body : Int → σ → Except Fault σ)
    (I : Nat → σ → Prop) (n : Nat)
    (hcond : ∀ (i : Nat) (s : σ), I i s → cond (i : Int) s = decide (i < n))
    (hstep : ∀ (i : Nat) (s : σ), i < n → I i s →
      ∃ s1, body (i : Int) s = .ok s1 ∧ I (i + 1) s1) :
    ∀ (k i fuel : Nat) (s : σ), i + k = n → k ≤ fuel → I i s →
      ∃ s1, forLoop cond 1 body fuel (i : Int) s = .ok s1 ∧ I n s1 := by
  intro k
  induction k with
  | zero =>
    intro i fuel s hik _ hI
    have hin : i = n := by omega
    subst hin
    have hc : cond (i : Int) s = false := by
      rw [hcond i s hI]
      simp
    exact ⟨s, forLoop_stop hc, hI⟩
  | succ k ih =>
    intro i fuel s hik hfuel hI
    obtain ⟨f, rfl⟩ : ∃ f, fuel = f + 1 := ⟨fuel - 1, by omega⟩
    have hc : cond (i : Int) s = true := by
      rw [hcond i s hI]
      simp
      omega
    obtain ⟨s1, hb, hI1⟩ := hstep i s (by omega) hI
    obtain ⟨s2, h2, hI2⟩ := ih (i + 1) f s1 (by omega) (by omega) hI1
    refine ⟨s2, ?_, hI2⟩
    rw [forLoop_step (j := ((i + 1 : Nat) : Int)) hc hb (by push_cast; rfl)]
    exact h2

/-! ## The bass motif at low complexity -/

/-- For every complexity in `0..33` `generateBassMotif` returns the root-fifth ostinato. -/
theorem generateBassMotif_low (g : GenRNG) (density complexity : Int) (syncopation : F32)
    (rowsPerBar scaleLen : Int) (h0 : 0 ≤ complexity) (h1 : complexity ≤ 33) :
    ∃ m g1, generateBassMotif g density complexity syncopation rowsPerBar scaleLen
        = .ok (m, g1) ∧
      (m.noteCount = 2 ∨ m.noteCount = 3) ∧
      (∃ n0, m.notes[0]? = some n0 ∧ n0.rowOffset = 0 ∧ n0.relativeDegree = 0 ∧
        n0.velOffset = 10 ∧ n0.isRest = false) ∧
      (∃ n1, m.notes[1]? = some n1 ∧ n1.relativeDegree = 4 ∧ n1.velOffset = 0 ∧
        n1.isRest = false ∧
        (n1.rowOffset = Int.tdiv rowsPerBar 2 ∨
          n1.rowOffset = iadd (Int.tdiv rowsPerBar 2) (-1) ∨
          n1.rowOffset = iadd (Int.tdiv rowsPerBar 2) 1)) ∧
      (m.noteCount = 3 → F32.lt (F32.fin (1 / 2)) syncopation = true ∧
        ∃ n2, m.notes[2]? = some n2 ∧ n2.relativeDegree = scaleLen ∧ n2.velOffset = -5 ∧
          n2.rowOffset = Int.tdiv (imul rowsPerBar 3) 4 ∧ n2.isRest = false) ∧
      m.lengthInRows = rowsPerBar := by
  unfold generateBassMotif
  simp only [F32.cf_lt_034 h0 h1, if_true]
  simp only [coin]
  split_ifs <;>
    refine ⟨_, _, rfl, ?_, ⟨_, rfl, rfl, rfl, rfl, rfl⟩, ⟨_, rfl, rfl, rfl, rfl, ?_⟩, ?_, rfl⟩ <;>
    simp_all

/-- C21. For every complexity in `0..33`, density, syncopation, `rowsPerBar`, `scaleLen` and
generator state, `generateBassMotif` returns a motif of 2 or 3 notes whose first note has
`rowOffset` 0, `relativeDegree` 0 and `velOffset` 10, whose second note has `relativeDegree`
4, `velOffset` 0 and sits on `rowsPerBar/2` or one row beside it, and which has a third note
(on `relativeDegree` `scaleLen`, `velOffset` -5) only if `syncopation>0.5f`. -/
theorem generateBassMotif_root_fifth (g : GenRNG) (density complexity : Int)
    (syncopation : F32) (rowsPerBar scaleLen : Int) (h0 : 0 ≤ complexity)
    (h1 : complexity ≤ 33) :
    ∃ m g1, generateBassMotif g density complexity syncopation rowsPerBar scaleLen
        = .ok (m, g1) ∧
      (m.noteCount = 2 ∨ m.noteCount = 3) ∧
      (∃ n0, m.notes[0]? = some n0 ∧ n0.rowOffset = 0 ∧ n0.relativeDegree = 0 ∧
        n0.velOffset = 10 ∧ n0.isRest = false) ∧
      (∃ n1, m.notes[1]? = some n1 ∧ n1.relativeDegree = 4 ∧ n1.velOffset = 0 ∧
        n1.isRest = false ∧
        (n1.rowOffset = Int.tdiv rowsPerBar 2 ∨
          n1.rowOffset = iadd (Int.tdiv rowsPerBar 2) (-1) ∨
          n1.rowOffset = iadd (Int.tdiv rowsPerBar 2) 1)) ∧
      (m.noteCount = 3 → F32.lt (F32.fin (1 / 2)) syncopation = true ∧
        ∃ n2, m.notes[2]? = some n2 ∧ n2.relativeDegree = scaleLen ∧ n2.velOffset = -5 ∧
          n2.rowOffset = Int.tdiv (imul rowsPerBar 3) 4 ∧ n2.isRest = false) ∧
      m.lengthInRows = rowsPerBar :=
  generateBassMotif_low g density complexity syncopation rowsPerBar scaleLen h0 h1

/-- The run of C21 from seed 12345 with complexity 20, density 60 and 16 rows per bar. -/
theorem generateBassMotif_root_fifth_witness :
    (0 : Int) ≤ 20 ∧ (20 : Int) ≤ 33 ∧
    ∃ m g1, generateBassMotif GenRNG.init 60 20 (F32.round (3 / 10)) 16 7 = .ok (m, g1) ∧
      (m.noteCount = 2 ∨ m.noteCount = 3) ∧
      (∃ n0, m.notes[0]? = some n0 ∧ n0.rowOffset = 0 ∧ n0.relativeDegree = 0 ∧
        n0.velOffset = 10 ∧ n0.isRest = false) ∧
      (∃ n1, m.notes[1]? = some n1 ∧ n1.relativeDegree = 4 ∧ n1.velOffset = 0 ∧
        n1.isRest = false ∧
        (n1.rowOffset = Int.tdiv 16 2 ∨ n1.rowOffset = iadd (Int.tdiv 16 2) (-1) ∨
          n1.rowOffset = iadd (Int.tdiv 16 2) 1)) ∧
      (m.noteCount = 3 → F32.lt (F32.fin (1 / 2)) (F32.round (3 / 10)) = true ∧
        ∃ n2, m.notes[2]? = some n2 ∧ n2.relativeDegree = 7 ∧ n2.velOffset = -5 ∧
          n2.rowOffset = Int.tdiv (imul 16 3) 4 ∧ n2.isRest = false) ∧
      m.lengthInRows = 16 :=
  ⟨by decide, by decide,
    generateBassMotif_root_fifth GenRNG.init 60 20 (F32.round (3 / 10)) 16 7 (by decide)
      (by decide)⟩

/-! ## The chord progression -/

/-- Every index of a progression table selects a row of four roots, read by `progAt`. -/
theorem progAt_row (scaleType : Int) (idx : Int) (h0 : 0 ≤ idx) (h1 : idx < 5) :
    ∃ p, p ∈ (if genIsMinorFamily scaleType then minorProgs else majorProgs) ∧
      ∀ k : Nat, ∃ r, p[k % 4]? = some r ∧ 0 ≤ r ∧ r ≤ 6 ∧
        progAt (if genIsMinorFamily scaleType then minorProgs else majorProgs) idx
          (Int.tmod (k : Int) 4) = .ok r := by
  have h : idx = 0 ∨ idx = 1 ∨ idx = 2 ∨ idx = 3 ∨ idx = 4 := by omega
  have hk : ∀ k : Nat, Int.tmod (k : Int) 4 = ((k % 4 : Nat) : Int) := by
    intro k
    rw [Int.tmod_eq_emod (by omega) (by decide)]
    rfl
  refine ⟨(if genIsMinorFamily scaleType then minorProgs else majorProgs).getD idx.toNat [],
    ?_, fun k => ?_⟩
  · split <;> rcases h with rfl | rfl | rfl | rfl | rfl <;> decide
  · rw [hk]
    have hlt : k % 4 < 4 := Nat.mod_lt _ (by decide)
    generalize k % 4 = m at hlt
    split <;> rcases h with rfl | rfl | rfl | rfl | rfl <;> interval_cases m <;>
      exact ⟨_, rfl, by decide, by decide, rfl⟩

/-- `generateChordProgression` returns for every bar count in `1..16`: the bars below
`barCount` are rooted on one row of the table of the scale's family, the others are kept. -/
theorem generateChordProgression_total (g : GenRNG) (chords : List BarChord)
    (barCount scaleType complexity : Int) (hlen : chords.length = 16) (hb1 : 1 ≤ barCount)
    (hb2 : barCount ≤ 16) :
    ∃ out g1 p, generateChordProgression g chords barCount scaleType complexity = .ok (out, g1) ∧
      out.length = 16 ∧
      p ∈ (if genIsMinorFamily scaleType then minorProgs else majorProgs) ∧
      (∀ b : Nat, (b : Int) < barCount → ∃ c r, out[b]? = some c ∧ p[b % 4]? = some r ∧
        c.rootDegree = r ∧ 0 ≤ r ∧ r ≤ 6 ∧ c.chordTones = [0, 2, 4, 6] ∧
        (c.chordToneCount = 3 ∨ c.chordToneCount = 4) ∧
        (0 ≤ complexity → complexity ≤ 60 → c.chordToneCount = 3)) ∧
      (∀ b : Nat, barCount ≤ (b : Int) → out[b]? = chords[b]?) := by
  unfold generateChordProgression
  simp only
  have hne : (List.range 5).map
      (fun i : Nat => progWeight (F32.div (F32.ofInt complexity) (F32.fin 100)) (i : Int)) ≠ [] := by
    intro h
    have := congrArg List.length h
    simp at this
  have hl5 : ((List.range 5).map
      (fun i : Nat => progWeight (F32.div (F32.ofInt complexity) (F32.fin 100)) (i : Int))).length
      = 5 := by simp
  obtain ⟨h0, h1⟩ := weightedPick_index g _ hne (by rw [hl5]; decide)
  rw [hl5] at h1
  generalize g.weightedPick ((List.range 5).map
      (fun i : Nat => progWeight (F32.div (F32.ofInt complexity) (F32.fin 100)) (i : Int)))
    = wp at h0 h1
  obtain ⟨p, hp, hrow⟩ := progAt_row scaleType wp.1 h0 (by exact_mod_cast h1)
  obtain ⟨n, rfl⟩ := Int.eq_ofNat_of_zero_le (show 0 ≤ barCount by omega)
  have hn16 : n ≤ 16 := by omega
  simp only [Int.toNat_ofNat]
  obtain ⟨s1, hrun, hlen1, hlow, hhigh⟩ := forLoop_total
    (fun b (_ : List BarChord × GenRNG) => decide (b < (n : Int)))
    (chordStep (if genIsMinorFamily scaleType then minorProgs else majorProgs) wp.1
      (F32.div (F32.ofInt complexity) (F32.fin 100)))
    (fun i s => s.1.length = 16 ∧
      (∀ b : Nat, b < i → ∃ c r, s.1[b]? = some c ∧ p[b % 4]? = some r ∧
        c.rootDegree = r ∧ 0 ≤ r ∧ r ≤ 6 ∧ c.chordTones = [0, 2, 4, 6] ∧
        (c.chordToneCount = 3 ∨ c.chordToneCount = 4) ∧
        (0 ≤ complexity → complexity ≤ 60 → c.chordToneCount = 3)) ∧
      (∀ b : Nat, i ≤ b → s.1[b]? = chords[b]?))
    n
    (fun i s _ => by simp)
    (fun i s hi hI => by
      obtain ⟨hl, hlo, hhi⟩ := hI
      obtain ⟨r, hr, hr0, hr6, hpa⟩ := hrow i
      unfold chordStep
      rw [hpa, ok_bind2]
      rw [if_neg (by simp only [Int.toNat_ofNat]; omega)]
      simp only [Int.toNat_ofNat]
      refine ⟨_, rfl, by simpa using hl, ?_, ?_⟩
      · intro b hb
        rcases Nat.lt_succ_iff_lt_or_eq.mp hb with hlt | rfl
        · obtain ⟨c, r', hc, hrest⟩ := hlo b hlt
          refine ⟨c, r', ?_, hrest⟩
          simp only
          rw [List.getElem?_set_ne (by omega)]
          exact hc
        · refine ⟨_, r, List.getElem?_set_self (by omega), hr, rfl, hr0, hr6, rfl, ?_, ?_⟩
          · simp only
            split <;> simp
          · intro hc0 hc60
            simp only [F32.cf_not_gt_06 hc0 hc60, Bool.false_and]
            rfl
      · intro b hb
        simp only
        rw [List.getElem?_set_ne (by omega)]
        exact hhi b (by omega))
    n 0 n (chords, wp.2) (by omega) le_rfl
    ⟨hlen, fun b hb => absurd hb (by omega), fun b _ => rfl⟩
  refine ⟨s1.1, s1.2, p, ?_, hlen1, hp, ?_, ?_⟩
  · exact hrun
  · intro b hb
    exact hlow b (by exact_mod_cast hb)
  · intro b hb
    exact hhigh b (by exact_mod_cast hb)

/-! ## Small `int` arithmetic -/

theorem iadd_eq {a b : Int} (h : InI32 (a + b)) : iadd a b = a + b := toI32_of_InI32 h

theorem isub_eq {a b : Int} (h : InI32 (a - b)) : isub a b = a - b := toI32_of_InI32 h

theorem imul_eq {a b : Int} (h : InI32 (a * b)) : imul a b = a * b := toI32_of_InI32 h

/-- A draw of `randInt` over a range of fewer than `2^31` values returns a value of the
range. -/
theorem randIntE_total (g : GenRNG) (min max : Int) (h0 : -1073741824 ≤ min)
    (h : min ≤ max) (h1 : max ≤ 1073741823) :
    ∃ r g1, randIntE g min max = .ok (r, g1) ∧ min ≤ r ∧ r ≤ max ∧
      (g1 = g ∨ g1 = g.next.2) := by
  obtain ⟨r, g1, hr, ha, hb, hg⟩ := randInt_within g h0 h h1
  refine ⟨r, g1, ?_, ha, hb, hg⟩
  unfold randIntE
  rw [hr]
  rfl

/-! ## Phrase assembly -/

/-- The entries of `formMap` against the templates of the specification. -/
theorem formMap_row (f : Int) (h0 : 0 ≤ f) (h1 : f ≤ 3) (k : Nat) :
    ∃ v, progAt formMap f (Int.tmod (k : Int) 4) = .ok v ∧
      (specPhraseTemplate f)[k % 4]? = some (if v = -1 then 0 else Int.tmod v 2) ∧
      specPhraseBase f (k % 4) = (if v = -1 then 2 else 0) := by
  have h : f = 0 ∨ f = 1 ∨ f = 2 ∨ f = 3 := by omega
  have hk : Int.tmod (k : Int) 4 = ((k % 4 : Nat) : Int) := by
    rw [Int.tmod_eq_emod (by omega) (by decide)]
    rfl
  rw [hk]
  have hlt : k % 4 < 4 := Nat.mod_lt _ (by decide)
  generalize k % 4 = m at hlt
  rcases h with rfl | rfl | rfl | rfl <;> interval_cases m <;>
    exact ⟨_, rfl, by decide, by decide⟩

/-- `buildPhrase` returns for every form and bar count in `1..16` with two motifs: one
placement per bar, following the template of the resolved form. -/
theorem buildPhrase_total (g : GenRNG) (form barCount : Int) (hb1 : 1 ≤ barCount)
    (hb2 : barCount ≤ 16) :
    ∃ ph g1 f, buildPhrase g form barCount 2 = .ok (ph, g1) ∧
      ph.placementCount = barCount ∧ ph.totalBars = barCount ∧ ph.placements.length = 16 ∧
      0 ≤ f ∧ f ≤ 3 ∧ (0 ≤ form ∧ form ≤ 3 → f = form) ∧ (form < 0 ∨ 4 < form → f = 0) ∧
      (form ≠ 4 → g1 = g ∨ 4 < barCount) ∧
      ∀ b : Nat, (b : Int) < barCount → ∃ mp, ph.placements[b]? = some mp ∧
        mp.barIndex = b ∧ mp.invertContour = false ∧
        (specPhraseTemplate f)[b % 4]? = some mp.motifIndex ∧
        ∃ k : Int, -1 ≤ k ∧ k ≤ 2 ∧
          mp.transposeDegrees
            = specPhraseBase f (b % 4) + (if b < 4 then 0 else k * ((b / 4 : Nat) : Int)) := by
  unfold buildPhrase
  obtain ⟨fg, hfg, hf0, hf3, hfa, hfb, hfc⟩ : ∃ fg : Int × GenRNG,
      (if form = 4 then randIntE g 0 3 else pure (form, g)) = .ok fg ∧
      0 ≤ (if fg.1 < 0 ∨ fg.1 > 3 then 0 else fg.1) ∧
      (if fg.1 < 0 ∨ fg.1 > 3 then 0 else fg.1) ≤ 3 ∧
      (0 ≤ form ∧ form ≤ 3 → (if fg.1 < 0 ∨ fg.1 > 3 then 0 else fg.1) = form) ∧
      (form < 0 ∨ 4 < form → (if fg.1 < 0 ∨ fg.1 > 3 then 0 else fg.1) = 0) ∧
      (form ≠ 4 → fg.2 = g) := by
    by_cases h4 : form = 4
    · obtain ⟨r, g1, hr, ha, hb, -⟩ := randIntE_total g 0 3 (by decide)
        (by decide) (by decide)
      refine ⟨(r, g1), by rw [if_pos h4]; exact hr, ?_, ?_, ?_, ?_, ?_⟩
      · simp only; split <;> omega
      · simp only; split <;> omega
      · intro h; omega
      · intro h; omega
      · intro h; exact absurd h4 h
    · refine ⟨(form, g), by rw [if_neg h4]; rfl, ?_, ?_, ?_, ?_, ?_⟩
      · simp only; split <;> omega
      · simp only; split <;> omega
      · intro h; simp only; rw [if_neg (by omega)]
      · intro h; simp only; rw [if_pos (by omega)]
      · intro _; rfl
  rw [hfg, ok_bind]
  simp only
  generalize (if fg.1 < 0 ∨ fg.1 > 3 then 0 else fg.1) = f at hf0 hf3 hfa hfb
  obtain ⟨n, rfl⟩ := Int.eq_ofNat_of_zero_le (show 0 ≤ barCount by omega)
  have hn16 : n ≤ 16 := by omega
  obtain ⟨s1, hrun, hcnt, hlen1, htot, hgs, hlow⟩ := forLoop_total
    (fun b (s : Phrase × GenRNG) =>
      decide (b < (n : Int)) && decide (s.1.placementCount < 16))
    (phraseStep f 2)
    (fun i s => s.1.placementCount = i ∧ s.1.placements.length = 16 ∧
      s.1.totalBars = (n : Int) ∧ (s.2 = fg.2 ∨ 4 < i) ∧
      ∀ b : Nat, b < i → ∃ mp, s.1.placements[b]? = some mp ∧
        mp.barIndex = b ∧ mp.invertContour = false ∧
        (specPhraseTemplate f)[b % 4]? = some mp.motifIndex ∧
        ∃ k : Int, -1 ≤ k ∧ k ≤ 2 ∧
          mp.transposeDegrees
            = specPhraseBase f (b % 4) + (if b < 4 then 0 else k * ((b / 4 : Nat) : Int)))
    n
    (fun i s hI => by
      obtain ⟨hc, -⟩ := hI
      simp only [hc]
      by_cases hin : i < n
      · have : (i : Int) < 16 := by omega
        simp [hin, this]
      · simp [hin])
    (fun i s hi hI => by
      obtain ⟨hc, hl, ht, hg, hlo⟩ := hI
      obtain ⟨v, hv, htem, hbase⟩ := formMap_row f hf0 hf3 i
      have hmi : (if v = -1 then (pure 0 : Except Fault Int) else imod v 2)
          = .ok (if v = -1 then 0 else Int.tmod v 2) := by
        split
        · rfl
        · rfl
      obtain ⟨tg, htg, k, hk0, hk2, htr, htg2⟩ : ∃ tg : Int × GenRNG,
          (if (i : Int) ≥ 4 then
            (randIntE s.2 (-1) 2).map
              (fun p => (iadd (if v = -1 then 2 else 0) (imul (Int.tdiv (i : Int) 4) p.1), p.2))
          else pure ((if v = -1 then 2 else 0), s.2)) = .ok tg ∧
          ∃ k : Int, -1 ≤ k ∧ k ≤ 2 ∧
            tg.1 = specPhraseBase f (i % 4) + (if i < 4 then 0 else k * ((i / 4 : Nat) : Int)) ∧
            (tg.2 = s.2 ∨ 4 ≤ i) := by
        by_cases h4 : (i : Int) ≥ 4
        · obtain ⟨r, g1, hr, ha, hb, -⟩ := randIntE_total s.2 (-1) 2
            (by decide) (by decide) (by decide)
          rw [if_pos h4, hr, ok_map]
          refine ⟨_, rfl, r, ha, hb, ?_, Or.inr (by omega)⟩
          simp only
          have hdiv : Int.tdiv (i : Int) 4 = ((i / 4 : Nat) : Int) := by
            rw [Int.tdiv_eq_ediv (by omega) (by decide)]
            rfl
          have hq : ((i / 4 : Nat) : Int) ≤ 3 := by omega
          have hq0 : (0 : Int) ≤ ((i / 4 : Nat) : Int) := by omega
          rw [hdiv, hbase, if_neg (show ¬ (i < 4) by omega)]
          have hprod : -3 ≤ ((i / 4 : Nat) : Int) * r ∧ ((i / 4 : Nat) : Int) * r ≤ 6 := by
            constructor <;> nlinarith
          have hbd : (if v = -1 then (2 : Int) else 0) = 0 ∨ (if v = -1 then (2 : Int) else 0) = 2 := by
            split <;> simp
          generalize (if v = -1 then (2 : Int) else 0) = base at hbd
          have e1 : imul ((i / 4 : Nat) : Int) r = ((i / 4 : Nat) : Int) * r :=
            imul_eq (by unfold InI32; omega)
          rw [e1]
          have e2 : iadd base (((i / 4 : Nat) : Int) * r) = base + ((i / 4 : Nat) : Int) * r :=
            iadd_eq (by unfold InI32; omega)
          rw [e2]
          ring
        · rw [if_neg h4]
          refine ⟨_, rfl, 0, by decide, by decide, ?_, Or.inl rfl⟩
          simp only
          rw [hbase, if_pos (show i < 4 by omega)]
          simp
      unfold phraseStep
      rw [hv, ok_bind, hmi, ok_bind]
      simp only
      rw [htg, ok_bind]
      rw [if_neg (by rw [hc, hl]; simp only [Int.toNat_ofNat]; omega)]
      refine ⟨_, rfl, ?_, ?_, ht, ?_, ?_⟩
      · simp only
        rw [hc, iadd_eq (by unfold InI32; omega)]
        push_cast
        rfl
      · simpa using hl
      · simp only
        rcases htg2 with h | h
        · rcases hg with h2 | h2
          · left; rw [h, h2]
          · right; omega
        · rcases hg with h2 | h2
          · right; omega
          · right; omega
      · intro b hb
        simp only [hc, Int.toNat_ofNat]
        rcases Nat.lt_succ_iff_lt_or_eq.mp hb with hlt | rfl
        · obtain ⟨mp, hmp, hrest⟩ := hlo b hlt
          refine ⟨mp, ?_, hrest⟩
          rw [List.getElem?_set_ne (by omega)]
          exact hmp
        · exact ⟨_, List.getElem?_set_self (by omega), rfl, rfl, htem, k, hk0, hk2, htr⟩)
    n 0 16 ({ totalBars := (n : Int), placementCount := 0 }, fg.2) (by omega) hn16
    ⟨rfl, rfl, rfl, Or.inl rfl, fun b hb => absurd hb (by omega)⟩
  refine ⟨s1.1, s1.2, f, hrun, hcnt, htot, hlen1, hf0, hf3, hfa, hfb, ?_, ?_⟩
  · intro h4
    rcases hgs with h | h
    · left
      rw [h, hfc h4]
    · right
      exact_mod_cast h
  · intro b hb
    exact hlow b (by exact_mod_cast hb)

/-- Every row of both progression tables has four roots and starts on degree 0. -/
theorem prog_row_shape (scaleType : Int) (p : List Int)
    (hp : p ∈ (if genIsMinorFamily scaleType then minorProgs else majorProgs)) :
    p.length = 4 ∧ p[0]? = some 0 := by
  split at hp
  · simp only [minorProgs, List.mem_cons, List.mem_singleton, List.not_mem_nil, or_false] at hp
    rcases hp with rfl | rfl | rfl | rfl | rfl <;> decide
  · simp only [majorProgs, List.mem_cons, List.mem_singleton, List.not_mem_nil, or_false] at hp
    rcases hp with rfl | rfl | rfl | rfl | rfl <;> decide

/-! ## Claims on the chord progression and the phrase -/

/-- C27. For every generator state, scale, array of 16 chords, complexity of at least 0 and
bar count in `1..16`, `generateChordProgression` returns, and there is one row `p` of the
five-row progression table of the scale's family (`minorProgs` iff `genIsMinorFamily`), of
four roots starting with 0, such that every bar `b < barCount` is rooted on `p[b mod 4]`,
has the chord tones `(0,2,4,6)` and a `chordToneCount` of 3 or 4, which is 3 whenever
`complexity <= 60`; the chords from `barCount` on are not assigned. -/
theorem generateChordProgression_postcondition (g : GenRNG) (chords : List BarChord)
    (barCount scaleType complexity : Int) (hlen : chords.length = 16) (hb1 : 1 ≤ barCount)
    (hb2 : barCount ≤ 16) (hc0 : 0 ≤ complexity) :
    ∃ out g1 p, generateChordProgression g chords barCount scaleType complexity = .ok (out, g1) ∧
      out.length = 16 ∧
      p ∈ (if genIsMinorFamily scaleType then minorProgs else majorProgs) ∧
      p.length = 4 ∧ p[0]? = some 0 ∧
      (∀ b : Nat, (b : Int) < barCount → ∃ c r, out[b]? = some c ∧ p[b % 4]? = some r ∧
        c.rootDegree = r ∧ 0 ≤ r ∧ r ≤ 6 ∧ c.chordTones = [0, 2, 4, 6] ∧
        (c.chordToneCount = 3 ∨ c.chordToneCount = 4) ∧
        (complexity ≤ 60 → c.chordToneCount = 3)) ∧
      (∀ b : Nat, barCount ≤ (b : Int) → out[b]? = chords[b]?) := by
  obtain ⟨out, g1, p, h1, h2, h3, h4, h5⟩ :=
    generateChordProgression_total g chords barCount scaleType complexity hlen hb1 hb2
  obtain ⟨s1, s2⟩ := prog_row_shape scaleType p h3
  refine ⟨out, g1, p, h1, h2, h3, s1, s2, ?_, h5⟩
  intro b hb
  obtain ⟨c, r, a1, a2, a3, a4, a5, a6, a7, a8⟩ := h4 b hb
  exact ⟨c, r, a1, a2, a3, a4, a5, a6, a7, a8 hc0⟩

/-- C27, instance: four bars in natural minor at complexity 50 from seed 12345. -/
theorem generateChordProgression_postcondition_witness :
    ∃ out g1 p, generateChordProgression GenRNG.init (List.replicate 16 {}) 4 0 50
        = .ok (out, g1) ∧
      out.length = 16 ∧
      p ∈ (if genIsMinorFamily 0 then minorProgs else majorProgs) ∧
      p.length = 4 ∧ p[0]? = some 0 ∧
      (∀ b : Nat, (b : Int) < 4 → ∃ c r, out[b]? = some c ∧ p[b % 4]? = some r ∧
        c.rootDegree = r ∧ 0 ≤ r ∧ r ≤ 6 ∧ c.chordTones = [0, 2, 4, 6] ∧
        (c.chordToneCount = 3 ∨ c.chordToneCount = 4) ∧
        ((50 : Int) ≤ 60 → c.chordToneCount = 3)) ∧
      (∀ b : Nat, (4 : Int) ≤ (b : Int) → out[b]? = (List.replicate 16 ({} : BarChord))[b]?) :=
  generateChordProgression_postcondition GenRNG.init (List.replicate 16 {}) 4 0 50 rfl
    (by decide) (by decide) (by decide)

/-- C28. For every form, generator state and bar count in `1..16` with two motifs,
`buildPhrase` returns exactly `barCount` placements; there is one resolved form `f` in
`0..3` (the form itself when it is one of AABA, ABAB, AAAB, ABAC; AABA for a form outside
the enumeration; one of the four for RANDOM) such that placement `b` has `barIndex` `b`, no
inversion and the motif index of the template of `f` at `b mod 4`; its transposition is the
base value of that slot (0, or 2 for the fourth slot of ABAC) for `b < 4`, and the base
value plus `k * (b/4)` for some `k` in `[-1,2]` for `b >= 4`. -/
theorem buildPhrase_structure (g : GenRNG) (form barCount : Int) (hb1 : 1 ≤ barCount)
    (hb2 : barCount ≤ 16) :
    ∃ ph g1 f, buildPhrase g form barCount 2 = .ok (ph, g1) ∧
      ph.placementCount = barCount ∧ ph.totalBars = barCount ∧ ph.placements.length = 16 ∧
      0 ≤ f ∧ f ≤ 3 ∧ (0 ≤ form ∧ form ≤ 3 → f = form) ∧ (form < 0 ∨ 4 < form → f = 0) ∧
      ∀ b : Nat, (b : Int) < barCount → ∃ mp, ph.placements[b]? = some mp ∧
        mp.barIndex = b ∧ mp.invertContour = false ∧
        (specPhraseTemplate f)[b % 4]? = some mp.motifIndex ∧
        ∃ k : Int, -1 ≤ k ∧ k ≤ 2 ∧
          mp.transposeDegrees
            = specPhraseBase f (b % 4) + (if b < 4 then 0 else k * ((b / 4 : Nat) : Int)) := by
  obtain ⟨ph, g1, f, h1, h2, h3, h4, h5, h6, h7, h8, -, h10⟩ :=
    buildPhrase_total g form barCount hb1 hb2
  exact ⟨ph, g1, f, h1, h2, h3, h4, h5, h6, h7, h8, h10⟩

/-- C28, instance: eight bars with the form RANDOM from seed 12345. -/
theorem buildPhrase_structure_witness :
    ∃ ph g1 f, buildPhrase GenRNG.init 4 8 2 = .ok (ph, g1) ∧
      ph.placementCount = 8 ∧ ph.totalBars = 8 ∧ ph.placements.length = 16 ∧
      0 ≤ f ∧ f ≤ 3 ∧ ((0 : Int) ≤ 4 ∧ (4 : Int) ≤ 3 → f = 4) ∧
      ((4 : Int) < 0 ∨ (4 : Int) < 4 → f = 0) ∧
      ∀ b : Nat, (b : Int) < 8 → ∃ mp, ph.placements[b]? = some mp ∧
        mp.barIndex = b ∧ mp.invertContour = false ∧
        (specPhraseTemplate f)[b % 4]? = some mp.motifIndex ∧
        ∃ k : Int, -1 ≤ k ∧ k ≤ 2 ∧
          mp.transposeDegrees
            = specPhraseBase f (b % 4) + (if b < 4 then 0 else k * ((b / 4 : Nat) : Int)) :=
  buildPhrase_structure GenRNG.init 4 8 (by decide) (by decide)

/-! ## The style registry -/

/-- Every sequence of `setActivePreset` calls on a constructed engine keeps the five
built-in presets and an active index inside them. -/
theorem setActivePreset_foldl (idxs : List Int) (e : StyleEngine)
    (hp : e.presets = StyleEngine.init.presets)
    (h0 : 0 ≤ e.activePresetIdx) (h1 : e.activePresetIdx < 5) :
    (idxs.foldl StyleEngine.setActivePreset e).presets = StyleEngine.init.presets ∧
    0 ≤ (idxs.foldl StyleEngine.setActivePreset e).activePresetIdx ∧
    (idxs.foldl StyleEngine.setActivePreset e).activePresetIdx < 5 := by
  induction idxs generalizing e with
  | nil => exact ⟨hp, h0, h1⟩
  | cons i l ih =>
    simp only [List.foldl_cons]
    have hlen : toI32 (e.presets.length : Int) = 5 := by rw [hp]; rfl
    apply ih
    · unfold StyleEngine.setActivePreset
      split
      · exact hp
      · exact hp
    · unfold StyleEngine.setActivePreset
      split
      · rename_i h; exact h.1
      · exact h0
    · unfold StyleEngine.setActivePreset
      split
      · rename_i h
        rw [hlen] at h
        exact h.2
      · exact h1

/-- Every built-in preset has constraints for the Lead role. -/
theorem builtin_lead (e : StyleEngine) (hp : e.presets = StyleEngine.init.presets)
    (h0 : 0 ≤ e.activePresetIdx) (h1 : e.activePresetIdx < 5) :
    ∃ p lead, e.getActivePreset = some p ∧ p.roles[0]? = some lead := by
  unfold StyleEngine.getActivePreset StyleEngine.getPreset
  have hlen : toI32 (e.presets.length : Int) = 5 := by rw [hp]; rfl
  rw [hlen, if_neg (by omega), hp]
  have h : e.activePresetIdx = 0 ∨ e.activePresetIdx = 1 ∨ e.activePresetIdx = 2 ∨
      e.activePresetIdx = 3 ∨ e.activePresetIdx = 4 := by omega
  rcases h with h | h | h | h | h <;> rw [h] <;> exact ⟨_, _, rfl, rfl⟩

/-- The preset a constructed engine returns for an index inside the registry is the entry
of the vector at that index. -/
theorem getPreset_in_range (e : StyleEngine) (hp : e.presets = StyleEngine.init.presets)
    (idx : Int) (h0 : 0 ≤ idx) (h1 : idx < 5) :
    e.getPreset idx = e.presets[idx.toNat]? ∧ ∃ p, e.presets[idx.toNat]? = some p := by
  have hlen : toI32 (e.presets.length : Int) = 5 := by rw [hp]; rfl
  constructor
  · unfold StyleEngine.getPreset
    rw [hlen, if_neg (by omega)]
  · rw [hp]
    have h : idx = 0 ∨ idx = 1 ∨ idx = 2 ∨ idx = 3 ∨ idx = 4 := by omega
    rcases h with h | h | h | h | h <;> rw [h] <;> exact ⟨_, rfl⟩

/-- The names of the five built-in presets are pairwise distinct. -/
theorem builtin_names_nodup : (StyleEngine.init.presets.map (fun p => p.name)).Nodup := by
  decide

/-- C22. After construction and any sequence of `setActivePreset` calls with arbitrary
`int` arguments, the engine holds the five built-in presets, whose names are pairwise
distinct, and an active index in `[0, 5)`; a further `setActivePreset(idx)` makes `idx`
active when `0 <= idx < 5` and otherwise keeps the active index, and keeps the presets;
`getPreset(idx)` returns the entry `presets[idx]` for an index in `[0, 5)`, which is then also
the active preset after `setActivePreset(idx)`, and preset 0 (Thunder Force) for an index
outside `[0, 5)`; the active preset is the entry `presets[activePresetIdx]`; and
`getRoleConstraints(role)` returns the entry `roles[role]` of that preset for one of the
seven roles, and its Lead constraints `roles[ROLE_LEAD]` for a role outside them. -/
theorem styleEngine_registry (idxs : List Int) (idx role : Int) :
    (idxs.foldl StyleEngine.setActivePreset StyleEngine.init).getPresetCount = 5 ∧
    0 ≤ (idxs.foldl StyleEngine.setActivePreset StyleEngine.init).getActivePresetIdx ∧
    (idxs.foldl StyleEngine.setActivePreset StyleEngine.init).getActivePresetIdx
      < (idxs.foldl StyleEngine.setActivePreset StyleEngine.init).getPresetCount ∧
    ((idxs.foldl StyleEngine.setActivePreset StyleEngine.init).setActivePreset idx).getActivePresetIdx
      = (if 0 ≤ idx ∧ idx < 5 then idx
         else (idxs.foldl StyleEngine.setActivePreset StyleEngine.init).getActivePresetIdx) ∧
    ((idxs.foldl StyleEngine.setActivePreset StyleEngine.init).setActivePreset idx).presets
      = (idxs.foldl StyleEngine.setActivePreset StyleEngine.init).presets ∧
    (idx < 0 ∨ 5 ≤ idx →
      (idxs.foldl StyleEngine.setActivePreset StyleEngine.init).getPreset idx
        = some genPresetThunderForce) ∧
    (idxs.foldl StyleEngine.setActivePreset StyleEngine.init).getPreset 0
      = some genPresetThunderForce ∧
    (role < 0 ∨ 7 ≤ role → ∃ p lead,
      (idxs.foldl StyleEngine.setActivePreset StyleEngine.init).getActivePreset = some p ∧
      p.roles[0]? = some lead ∧
      (idxs.foldl StyleEngine.setActivePreset StyleEngine.init).getRoleConstraints role
        = some lead) ∧
    (idxs.foldl StyleEngine.setActivePreset StyleEngine.init).presets
      = [genPresetThunderForce, genPresetStreetsOfRage, genPresetSonic, genPresetMUSHA,
         genPresetCustom] ∧
    ((idxs.foldl StyleEngine.setActivePreset StyleEngine.init).presets.map
      (fun p => p.name)).Nodup ∧
    (0 ≤ idx ∧ idx < 5 → ∃ p,
      (idxs.foldl StyleEngine.setActivePreset StyleEngine.init).presets[idx.toNat]? = some p ∧
      (idxs.foldl StyleEngine.setActivePreset StyleEngine.init).getPreset idx = some p ∧
      ((idxs.foldl StyleEngine.setActivePreset StyleEngine.init).setActivePreset
        idx).getActivePreset = some p) ∧
    (∃ p,
      (idxs.foldl StyleEngine.setActivePreset StyleEngine.init).presets[
        (idxs.foldl StyleEngine.setActivePreset StyleEngine.init).getActivePresetIdx.toNat]?
        = some p ∧
      (idxs.foldl StyleEngine.setActivePreset StyleEngine.init).getActivePreset = some p ∧
      (role < 0 ∨ 7 ≤ role →
        (idxs.foldl StyleEngine.setActivePreset StyleEngine.init).getRoleConstraints role
          = p.roles[0]?) ∧
      (0 ≤ role ∧ role < 7 →
        (idxs.foldl StyleEngine.setActivePreset StyleEngine.init).getRoleConstraints role
          = p.roles[role.toNat]?)) := by
  obtain ⟨hp, h0, h1⟩ := setActivePreset_foldl idxs StyleEngine.init rfl (by decide) (by decide)
  generalize idxs.foldl StyleEngine.setActivePreset StyleEngine.init = e at hp h0 h1
  have hlen : toI32 (e.presets.length : Int) = 5 := by rw [hp]; rfl
  refine ⟨hlen, h0, ?_, ?_, ?_, ?_, ?_, ?_, ?_, ?_, ?_, ?_⟩
  · unfold StyleEngine.getActivePresetIdx StyleEngine.getPresetCount
    rw [hlen]
    exact h1
  · unfold StyleEngine.setActivePreset StyleEngine.getActivePresetIdx
    rw [hlen]
    by_cases h : 0 ≤ idx ∧ idx < 5
    · rw [if_pos (by omega), if_pos h]
    · rw [if_neg (by omega), if_neg h]
  · unfold StyleEngine.setActivePreset
    split <;> rfl
  · intro h
    unfold StyleEngine.getPreset
    rw [hlen, if_pos (by omega), hp]
    rfl
  · unfold StyleEngine.getPreset
    rw [hlen, if_neg (by omega), hp]
    rfl
  · intro h
    obtain ⟨p, lead, hpa, hl⟩ := builtin_lead e hp h0 h1
    refine ⟨p, lead, hpa, hl, ?_⟩
    unfold StyleEngine.getRoleConstraints
    rw [hpa]
    show (if role < 0 ∨ role ≥ 7 then p.roles[0]? else p.roles[role.toNat]?) = some lead
    rw [if_pos (by omega)]
    exact hl
  · rw [hp]
    rfl
  · rw [hp]
    exact builtin_names_nodup
  · rintro ⟨i0, i1⟩
    obtain ⟨hg, p, hpp⟩ := getPreset_in_range e hp idx i0 i1
    refine ⟨p, hpp, by rw [hg, hpp], ?_⟩
    have hset : e.setActivePreset idx = { e with activePresetIdx := idx } := by
      unfold StyleEngine.setActivePreset
      rw [hlen, if_pos (by omega)]
    rw [hset]
    unfold StyleEngine.getActivePreset
    obtain ⟨hg2, -⟩ := getPreset_in_range { e with activePresetIdx := idx } hp idx i0 i1
    rw [hg2]
    exact hpp
  · obtain ⟨hg, p, hpp⟩ := getPreset_in_range e hp e.activePresetIdx h0 h1
    have hact : e.getActivePreset = some p := by
      unfold StyleEngine.getActivePreset
      rw [hg, hpp]
    refine ⟨p, hpp, hact, ?_, ?_⟩
    · intro h
      unfold StyleEngine.getRoleConstraints
      rw [hact]
      show (if role < 0 ∨ role ≥ 7 then p.roles[0]? else p.roles[role.toNat]?) = _
      rw [if_pos (by omega)]
    · intro h
      unfold StyleEngine.getRoleConstraints
      rw [hact]
      show (if role < 0 ∨ role ≥ 7 then p.roles[0]? else p.roles[role.toNat]?) = _
      rw [if_neg (by omega)]

/-! ## `genScaleNoteToFurnace` against its header comment -/

/-- Degree 0 of every scale is the interval 0. -/
theorem genScaleIntervals_first (scale : Int) :
    (genScaleIntervals scale).intervals[0]? = some 0 ∧ (genScaleIntervals scale).len ≠ 0 := by
  have h := scaleTable_wf _ (genScaleIntervals_mem scale)
  obtain ⟨h1, -, -, h4, -⟩ := h
  refine ⟨?_, by omega⟩
  rw [← List.head?_eq_getElem?]
  exact h4

/-- With root C, degree 0 and octave 0 every scale gives note 60. -/
theorem genScaleNoteToFurnace_root (scale : Int) :
    genScaleNoteToFurnace 0 scale 0 0 = some 60 := by
  obtain ⟨h1, h2⟩ := genScaleIntervals_first scale
  unfold genScaleNoteToFurnace
  simp only
  rw [wrapDegree_nonneg scale 0 0 le_rfl, if_neg h2]
  simp only [Int.zero_tmod, Int.zero_tdiv]
  rw [if_neg (by decide)]
  simp only [Int.toNat_zero, h1]
  rfl

/-- With degree 0 and octave 0 the note is the clamp of `root + intervals[0] + 60`, the sum
evaluated in `int`. -/
theorem genScaleNoteToFurnace_degree_zero (root scale : Int) :
    genDegreesToSemitones 0 scale = some 0 ∧
    genScaleNoteToFurnace root scale 0 0 = some (genClamp (toI32 (toI32 root + 60)) 0 179) := by
  obtain ⟨h1, h2⟩ := genScaleIntervals_first scale
  constructor
  · unfold genDegreesToSemitones
    simp only
    rw [wrapDegree_nonneg scale 0 0 le_rfl, if_neg h2]
    simp only [Int.zero_tmod, Int.zero_tdiv]
    rw [if_neg (by decide)]
    simp only [Int.toNat_zero, h1]
    rfl
  · unfold genScaleNoteToFurnace
    simp only
    rw [wrapDegree_nonneg scale 0 0 le_rfl, if_neg h2]
    simp only [Int.zero_tmod, Int.zero_tdiv]
    rw [if_neg (by decide)]
    simp only [Int.toNat_zero, h1, add_zero]
    rfl

/-- C9, counterexample: with root `INT_MAX`, degree 0 and octave 0 of the natural minor
scale the exact sum `INT_MAX + 0 + 60` is above 179 and is not an `int`; the function
returns 0, the clamp of the wrapped sum, not 179. -/
theorem genScaleNoteToFurnace_root_wraps :
    genDegreesToSemitones 0 0 = some 0 ∧
    genScaleNoteToFurnace 2147483647 0 0 0 = some 0 ∧
    genClamp (2147483647 + 0 + (0 + 5) * 12) 0 179 = 179 ∧
    ¬ InI32 (2147483647 + 0 + (0 + 5) * 12) := by
  obtain ⟨h1, h2⟩ := genScaleNoteToFurnace_degree_zero 2147483647 0
  refine ⟨h1, ?_, by decide, by decide⟩
  rw [h2]
  decide

/-- On the chromatic scale with root C, degree `d` in `0..11` at octave `o` in `0..9` is the
note `60 + 12*o + d`. -/
theorem genScaleNoteToFurnace_chromatic (d o : Int) (hd0 : 0 ≤ d) (hd1 : d ≤ 11)
    (ho0 : 0 ≤ o) (ho1 : o ≤ 9) :
    genScaleNoteToFurnace 0 10 d o = some (60 + 12 * o + d) := by
  have hd : d = 0 ∨ d = 1 ∨ d = 2 ∨ d = 3 ∨ d = 4 ∨ d = 5 ∨ d = 6 ∨ d = 7 ∨ d = 8 ∨ d = 9 ∨
      d = 10 ∨ d = 11 := by omega
  have ho : o = 0 ∨ o = 1 ∨ o = 2 ∨ o = 3 ∨ o = 4 ∨ o = 5 ∨ o = 6 ∨ o = 7 ∨ o = 8 ∨
      o = 9 := by omega
  unfold genScaleNoteToFurnace
  simp only
  rw [wrapDegree_nonneg 10 d 0 hd0]
  rcases hd with rfl | rfl | rfl | rfl | rfl | rfl | rfl | rfl | rfl | rfl | rfl | rfl <;>
    rcases ho with rfl | rfl | rfl | rfl | rfl | rfl | rfl | rfl | rfl | rfl <;> rfl

/-- C23, amended. With root C (0), degree 0 at octave 0 of every scale maps to note 60, and
on the chromatic scale degree `d` in `0..11` at octave `o` in `0..9` maps to
`60 + 12*o + d`: C-0 is 60 and B-9 is 179, as the comment in the function body says
(`0=C-(-5), 60=C-0, 179=B-9`). -/
theorem genScaleNoteToFurnace_encoding (scale d o : Int) (hd0 : 0 ≤ d) (hd1 : d ≤ 11)
    (ho0 : 0 ≤ o) (ho1 : o ≤ 9) :
    genScaleNoteToFurnace 0 scale 0 0 = some 60 ∧
    genScaleNoteToFurnace 0 10 d o = some (60 + 12 * o + d) :=
  ⟨genScaleNoteToFurnace_root scale, genScaleNoteToFurnace_chromatic d o hd0 hd1 ho0 ho1⟩

/-- C23, amended, instance: the major scale, and B at octave 9 of the chromatic scale. -/
theorem genScaleNoteToFurnace_encoding_witness :
    (0 : Int) ≤ 11 ∧ (11 : Int) ≤ 11 ∧ (0 : Int) ≤ 9 ∧ (9 : Int) ≤ 9 ∧
    genScaleNoteToFurnace 0 7 0 0 = some 60 ∧
    genScaleNoteToFurnace 0 10 11 9 = some (60 + 12 * 9 + 11) :=
  ⟨by decide, by decide, by decide, by decide,
    genScaleNoteToFurnace_encoding 7 11 9 (by decide) (by decide) (by decide) (by decide)⟩

/-- C23, counterexample: with root C, degree 0 at octave 0 of the natural minor scale is
note 60, not 0, and B at octave 9 of the chromatic scale is note 179, not 119. -/
theorem genScaleNoteToFurnace_header_mismatch :
    genScaleNoteToFurnace 0 0 0 0 = some 60 ∧ genScaleNoteToFurnace 0 0 0 0 ≠ some 0 ∧
    genScaleNoteToFurnace 0 10 11 9 = some 179 ∧ genScaleNoteToFurnace 0 10 11 9 ≠ some 119 := by
  have h1 := genScaleNoteToFurnace_root 0
  have h2 := genScaleNoteToFurnace_chromatic 11 9 (by decide) (by decide) (by decide)
    (by decide)
  refine ⟨h1, ?_, h2, ?_⟩
  · rw [h1]
    decide
  · rw [h2]
    decide

/-! ## Grid writing: the note written for one motif note -/

/-- The loop `while (degree<0) degree+=scaleLen;` ends on a non-negative degree of the same
residue. -/
theorem wrapUp_ok {L : Int} (hL0 : 0 < L) (hL1 : L ≤ 12) :
    ∀ (n : Nat) (d d1 : Int), InI32 d → wrapUp L n d = .ok d1 →
      0 ≤ d1 ∧ d1 % L = d % L ∧ InI32 d1 := by
  intro n
  induction n with
  | zero =>
    intro d d1 hd h
    rw [wrapUp] at h
    split at h
    · cases h
    · cases h
      exact ⟨by omega, rfl, hd⟩
  | succ n ih =>
    intro d d1 hd h
    rw [wrapUp] at h
    split at h
    · rename_i hneg
      have e : iadd d L = d + L := iadd_eq (by unfold InI32 at hd ⊢; omega)
      rw [e] at h
      obtain ⟨a, b, c⟩ := ih (d + L) d1 (by unfold InI32 at hd ⊢; omega) h
      refine ⟨a, ?_, c⟩
      rw [b]
      exact Int.add_emod_self
    · cases h
      exact ⟨by omega, rfl, hd⟩

/-- The loop `while (degree>=degreeRange) degree-=scaleLen;` ends on a degree of the same
residue in `[0, degreeRange)`. -/
theorem wrapDown_ok {L R : Int} (hL0 : 0 < L) (hLR : L ≤ R) :
    ∀ (n : Nat) (d d2 : Int), 0 ≤ d → InI32 d → wrapDown L R n d = .ok d2 →
      0 ≤ d2 ∧ d2 < R ∧ d2 % L = d % L := by
  intro n
  induction n with
  | zero =>
    intro d d2 hd0 hd h
    rw [wrapDown] at h
    split at h
    · cases h
    · cases h
      exact ⟨hd0, by omega, rfl⟩
  | succ n ih =>
    intro d d2 hd0 hd h
    rw [wrapDown] at h
    split at h
    · rename_i hge
      have e : isub d L = d - L := isub_eq (by unfold InI32 at hd ⊢; omega)
      rw [e] at h
      obtain ⟨a, b, c⟩ := ih (d - L) d2 (by omega) (by unfold InI32 at hd ⊢; omega) h
      refine ⟨a, b, ?_⟩
      rw [c]
      have hh : d = (d - L) + L := by ring
      conv_rhs => rw [hh]
      exact (Int.add_emod_self).symm
    · cases h
      exact ⟨hd0, by omega, rfl⟩

/-- The loop `while (semitone>=12)` does nothing below 12. -/
theorem semitoneDown_stop (n : Nat) (s o : Int) (hs : s < 12) :
    semitoneDown n (s, o) = (s, o) := by
  cases n with
  | zero => rfl
  | succ n => rw [semitoneDown, if_neg (by simp only; omega)]

/-- The two semitone loops carry a semitone in `[0, 24)` into the octave. -/
theorem semitone_norm (s o : Int) (hs0 : 0 ≤ s) (hs1 : s < 24) (ho0 : -1000 ≤ o)
    (ho1 : o ≤ 1000) :
    semitoneUp (-(semitoneDown s.toNat (s, o)).1).toNat (semitoneDown s.toNat (s, o))
      = (s % 12, o + s / 12) := by
  have hdown : semitoneDown s.toNat (s, o) = (s % 12, o + s / 12) := by
    by_cases h12 : s < 12
    · rw [semitoneDown_stop _ _ _ h12]
      congr 1 <;> omega
    · obtain ⟨n, hn⟩ : ∃ n, s.toNat = n + 1 := ⟨s.toNat - 1, by omega⟩
      rw [hn, semitoneDown, if_pos (by simp only; omega)]
      simp only
      rw [isub_eq (by unfold InI32; omega), iadd_eq (by unfold InI32; omega),
        semitoneDown_stop _ _ _ (by omega)]
      congr 1 <;> omega
  rw [hdown]
  simp only
  have h0 : (-(s % 12)).toNat = 0 := by omega
  rw [h0]
  rfl

/-- A row assignment changes the assigned row only. -/
theorem modifyRow_eq {maxRows : Int} {pat pat1 : DivPattern} {row : Int}
    {f : PatRow → PatRow} (h : pat.modifyRow maxRows row f = .ok pat1) :
    (∀ r, r ≠ row → pat1.newData r = pat.newData r) ∧
      pat1.newData row = f (pat.newData row) := by
  unfold DivPattern.modifyRow at h
  split at h
  · cases h
    constructor
    · intro r hr
      simp [hr]
    · simp
  · cases h

/-- The note that the body of the loop of `writeMotifToPattern` writes for a note of the
motif, for a scale of the table, an octave range of `k` octaves from `octMin` inside `0..9`
and a scale root in `0..11`: its pitch class is that of the scale degree `D mod scaleLen`,
with `D` the folded sum of the degrees, and it lies between the lowest note of octave
`octMin` and the highest note of the last octave raised by the scale root. -/
theorem writeNoteStep_note {maxRows : Int} {motif : Motif} {placement : MotifPlacement}
    {chord : BarChord} {groove : GrooveTemplate} {params : GenPatternParams} (scale : Int)
    {barStartRow degreeRangeBase octMin k : Int} {i : Int} {pat pat1 : DivPattern}
    (ho0 : 0 ≤ octMin) (hk : 1 ≤ k) (ho1 : octMin + k - 1 ≤ 9)
    (hr0 : 0 ≤ params.scaleRoot) (hr1 : params.scaleRoot ≤ 11)
    (h : writeNoteStep maxRows motif placement chord groove params
      (genScaleIntervals scale).len (genScaleIntervals scale).intervals barStartRow
      degreeRangeBase octMin (k * (genScaleIntervals scale).len) i pat = .ok pat1) :
    pat1 = pat ∨ ∃ mn iv,
      motif.getNote i = .ok mn ∧ mn.isRest = false ∧
      (genScaleIntervals scale).intervals[((iadd
        (if placement.invertContour then
          iadd (isub degreeRangeBase (iadd mn.relativeDegree placement.transposeDegrees))
            degreeRangeBase
        else iadd (iadd degreeRangeBase mn.relativeDegree) placement.transposeDegrees)
        chord.rootDegree) % (genScaleIntervals scale).len).toNat]? = some iv ∧
      (∀ r, r ≠ iadd barStartRow mn.rowOffset → (pat1.newData r).note = (pat.newData r).note) ∧
      (pat1.newData (iadd barStartRow mn.rowOffset)).note % 12 = (params.scaleRoot + iv) % 12 ∧
      (octMin + 5) * 12 ≤ (pat1.newData (iadd barStartRow mn.rowOffset)).note ∧
      (pat1.newData (iadd barStartRow mn.rowOffset)).note
        ≤ (octMin + k - 1 + 5) * 12 + 11 + params.scaleRoot ∧
      (pat1.newData (iadd barStartRow mn.rowOffset)).note ≤ 179 := by
  obtain ⟨hL5, hL12, hlen, -, -, hiv⟩ := scaleTable_wf _ (genScaleIntervals_mem scale)
  generalize (genScaleIntervals scale).len = L at h hL5 hL12 hlen ⊢
  generalize (genScaleIntervals scale).intervals = T at h hlen hiv ⊢
  unfold writeNoteStep at h
  obtain ⟨mn, hmn, h⟩ := bind_ok h
  rcases ite_pure_ok h with ⟨-, rfl⟩ | ⟨hrest, h⟩
  · exact Or.inl rfl
  rcases ite_pure_ok h with ⟨-, rfl⟩ | ⟨-, h⟩
  · exact Or.inl rfl
  right
  dsimp only at h
  generalize hD : iadd
    (if placement.invertContour then
      iadd (isub degreeRangeBase (iadd mn.relativeDegree placement.transposeDegrees))
        degreeRangeBase
    else iadd (iadd degreeRangeBase mn.relativeDegree) placement.transposeDegrees)
    chord.rootDegree = D at h ⊢
  have hDin : InI32 D := by
    rw [← hD]
    unfold iadd toI32 InI32
    omega
  obtain ⟨d1, hd1, h⟩ := bind_ok h
  obtain ⟨d2, hd2, h⟩ := bind_ok h
  obtain ⟨q, hq, h⟩ := bind_ok h
  obtain ⟨r, hr, h⟩ := bind_ok h
  obtain ⟨dis, hdis, h⟩ := bind_ok h
  obtain ⟨hdis0, h⟩ := ite_error_ok h
  obtain ⟨iv, hivv, h⟩ := bind_ok h
  obtain ⟨p1, hw1, h⟩ := bind_ok h
  obtain ⟨-, h⟩ := ite_error_ok h
  obtain ⟨gv, -, h⟩ := bind_ok h
  obtain ⟨a1, a2, a3⟩ := wrapUp_ok (by omega) hL12 _ _ _ hDin hd1
  have hkL : L ≤ k * L := by nlinarith
  obtain ⟨b1, b2, b3⟩ := wrapDown_ok (L := L) (R := k * L) (by omega) hkL _ _ _ a1 a3 hd2
  have hq' : q = d2 / L := by
    unfold idiv at hq
    rw [if_neg (by omega)] at hq
    cases hq
    rw [Int.tdiv_eq_ediv b1 (by omega)]
    apply toI32_of_InI32
    have : d2 / L ≤ d2 := Int.ediv_le_self _ b1
    have : 0 ≤ d2 / L := Int.ediv_nonneg b1 (by omega)
    have hkL120 : k * L ≤ 120 := by nlinarith
    unfold InI32
    omega
  have hq0 : 0 ≤ q := by rw [hq']; exact Int.ediv_nonneg b1 (by omega)
  have hqk : q ≤ k - 1 := by
    rw [hq']
    have : d2 / L < k := Int.ediv_lt_of_lt_mul (by omega) b2
    omega
  have hr' : r = d2 % L := by
    unfold imod at hr
    rw [if_neg (by omega)] at hr
    cases hr
    exact Int.tmod_eq_emod b1 (by omega)
  have hrL : 0 ≤ r ∧ r < L := by
    rw [hr']
    exact ⟨Int.emod_nonneg _ (by omega), Int.emod_lt_of_pos _ (by omega)⟩
  have hdis' : dis = D % L := by
    unfold imod at hdis
    rw [if_neg (by omega)] at hdis
    cases hdis
    rw [iadd_eq (by unfold InI32; omega), Int.tmod_eq_emod (by omega) (by omega),
      Int.add_emod_self, Int.emod_eq_of_lt hrL.1 hrL.2, hr', b3, a2]
  have hivT : T[(D % L).toNat]? = some iv := by
    rw [← hdis']
    cases hg : T[dis.toNat]? with
    | none => rw [hg] at hivv; cases hivv
    | some x => rw [hg] at hivv; cases hivv; rfl
  have hivr : 0 ≤ iv ∧ iv < 12 := hiv iv (List.getElem?_mem hivT)
  have hst : iadd params.scaleRoot iv = params.scaleRoot + iv :=
    iadd_eq (by unfold InI32; omega)
  have hoq : iadd octMin q = octMin + q := iadd_eq (by unfold InI32; omega)
  rw [hst, hoq] at hw1
  rw [semitone_norm (params.scaleRoot + iv) (octMin + q) (by omega) (by omega) (by omega)
    (by omega)] at hw1
  simp only at hw1
  obtain ⟨f1, f2⟩ := modifyRow_eq hw1
  obtain ⟨e1, e2⟩ := modifyRow_eq h
  have hsm : 0 ≤ (params.scaleRoot + iv) % 12 ∧ (params.scaleRoot + iv) % 12 < 12 :=
    ⟨Int.emod_nonneg _ (by decide), Int.emod_lt_of_pos _ (by decide)⟩
  have hc01 : (params.scaleRoot + iv) / 12 = 0 ∨ (params.scaleRoot + iv) / 12 = 1 := by omega
  have hcl := genClamp_range (octMin + q + (params.scaleRoot + iv) / 12) 0 9 (by decide)
  have hcl2 : octMin ≤ genClamp (octMin + q + (params.scaleRoot + iv) / 12) 0 9 ∧
      genClamp (octMin + q + (params.scaleRoot + iv) / 12) 0 9
        ≤ octMin + q + (params.scaleRoot + iv) / 12 := by
    unfold genClamp
    split_ifs <;> omega
  generalize genClamp (octMin + q + (params.scaleRoot + iv) / 12) 0 9 = oc at hcl hcl2 f2
  have hnote : toI16 (genClamp (iadd (imul (iadd oc 5) 12) ((params.scaleRoot + iv) % 12)) 0 179)
      = (oc + 5) * 12 + (params.scaleRoot + iv) % 12 := by
    have e5 : iadd oc 5 = oc + 5 := iadd_eq (by unfold InI32; omega)
    rw [e5]
    have e6 : imul (oc + 5) 12 = (oc + 5) * 12 := imul_eq (by unfold InI32; omega)
    rw [e6]
    have e7 : iadd ((oc + 5) * 12) ((params.scaleRoot + iv) % 12)
        = (oc + 5) * 12 + (params.scaleRoot + iv) % 12 := iadd_eq (by unfold InI32; omega)
    rw [e7]
    unfold genClamp
    rw [if_neg (by omega), if_neg (by omega)]
    exact toI16_of_range (by omega) (by omega)
  rw [hnote] at f2
  have hN : (pat1.newData (iadd barStartRow mn.rowOffset)).note
      = (oc + 5) * 12 + (params.scaleRoot + iv) % 12 := by
    rw [e2, f2]
  refine ⟨mn, iv, hmn, by simpa using hrest, by rw [hD]; exact hivT, ?_, ?_, ?_, ?_, ?_⟩
  · intro r hr
    rw [e1 r hr, f1 r hr]
  · rw [hN]
    omega
  · rw [hN]
    omega
  · rw [hN]
    omega
  · rw [hN]
    omega

/-- The octave relation is reflexive. -/
theorem DivPattern.NotesWithin.notesWithin_refl (lo hi : Int) (pat : DivPattern) :
    DivPattern.NotesWithin lo hi pat pat :=
  fun _ => Or.inl rfl

/-- The octave relation is transitive. -/
theorem DivPattern.NotesWithin.notesWithin_trans {lo hi : Int} {p0 p1 p2 : DivPattern}
    (h1 : DivPattern.NotesWithin lo hi p0 p1) (h2 : DivPattern.NotesWithin lo hi p1 p2) :
    DivPattern.NotesWithin lo hi p0 p2 := by
  intro row
  rcases h2 row with a | a
  · rw [a]
    exact h1 row
  · exact Or.inr a

/-- Grid writing for a scale of the table, an octave range inside `0..9` and a scale root
in `0..11` writes notes between the lowest note of `octaveMin` and the highest note of
`octaveMax` raised by the scale root, and never above 179. -/
theorem writeMotifToPattern_notesWithin {maxRows : Int} {pat pat1 : DivPattern}
    {motif : Motif} {placement : MotifPlacement} {chord : BarChord} {groove : GrooveTemplate}
    {params : GenPatternParams} (scale : Int) {barStartRow degreeRangeBase : Int}
    (ho0 : 0 ≤ params.octaveMin) (ho1 : params.octaveMin ≤ params.octaveMax)
    (ho2 : params.octaveMax ≤ 9) (hr0 : 0 ≤ params.scaleRoot) (hr1 : params.scaleRoot ≤ 11)
    (h : writeMotifToPattern maxRows pat motif placement chord groove params
      (genScaleIntervals scale).len (genScaleIntervals scale).intervals barStartRow
      degreeRangeBase = .ok pat1) :
    DivPattern.NotesWithin ((params.octaveMin + 5) * 12)
      (min ((params.octaveMax + 5) * 12 + 11 + params.scaleRoot) 179) pat pat1 := by
  obtain ⟨hL5, hL12, -⟩ := scaleTable_wf _ (genScaleIntervals_mem scale)
  unfold writeMotifToPattern at h
  have c1 : genClamp params.octaveMin 0 9 = params.octaveMin := by
    unfold genClamp
    rw [if_neg (by omega), if_neg (by omega)]
  have c2 : genClamp params.octaveMax 0 9 = params.octaveMax := by
    unfold genClamp
    rw [if_neg (by omega), if_neg (by omega)]
  have hk : imul (iadd (isub params.octaveMax params.octaveMin) 1) (genScaleIntervals scale).len
      = (params.octaveMax - params.octaveMin + 1) * (genScaleIntervals scale).len := by
    rw [isub_eq (by unfold InI32; omega), iadd_eq (by unfold InI32; omega)]
    apply imul_eq
    have : (params.octaveMax - params.octaveMin + 1) * (genScaleIntervals scale).len ≤ 120 := by
      nlinarith
    have : 0 ≤ (params.octaveMax - params.octaveMin + 1) * (genScaleIntervals scale).len := by
      nlinarith
    unfold InI32
    omega
  have hpos : ¬ ((params.octaveMax - params.octaveMin + 1) * (genScaleIntervals scale).len ≤ 0) := by
    have : 0 < (params.octaveMax - params.octaveMin + 1) * (genScaleIntervals scale).len := by
      nlinarith
    omega
  simp only [c1, c2, hk, if_neg hpos] at h
  refine forLoop_inv (fun p => DivPattern.NotesWithin ((params.octaveMin + 5) * 12)
      (min ((params.octaveMax + 5) * 12 + 11 + params.scaleRoot) 179) pat p) _ _ _
    (fun i s s1 hs hb => hs.notesWithin_trans ?_) _ _ _ _
    (DivPattern.NotesWithin.notesWithin_refl _ _ pat) h
  rcases writeNoteStep_note scale ho0 (by omega) (by omega) hr0 hr1 hb with rfl | hw
  · exact DivPattern.NotesWithin.notesWithin_refl _ _ _
  · obtain ⟨mn, iv, -, -, -, hfr, -, hlo, hhi, h179⟩ := hw
    intro row
    by_cases hrow : row = iadd barStartRow mn.rowOffset
    · subst hrow
      right
      refine ⟨hlo, le_min ?_ h179⟩
      have e : params.octaveMin + (params.octaveMax - params.octaveMin + 1) - 1 + 5
          = params.octaveMax + 5 := by ring
      rw [e] at hhi
      exact hhi
    · exact Or.inl (hfr row hrow)

/-! ## Claims on the style registry, the note encoding and grid writing -/

/-- The grid writing of the bass scenario: the ascending ostinato in bar 0 on the tonic
chord, root A, natural minor, octaves 3 to 5, with the base degree 10 that `generateFill`
computes for three octaves of a seven-note scale. -/
theorem writeMotifToPattern_bass :
    ∃ pat1, writeMotifToPattern 256 emptyPattern (ostinatoAscending 16) {} {}
        (buildGrooveTemplate 0) bassParams 7 scaleMinor 0 10 = .ok pat1 ∧
      (pat1.newData 0).note = 122 ∧ (pat1.newData 8).note = 132 :=
  ⟨_, rfl, rfl, rfl⟩

/-- C24. In the bass scenario (root A, natural minor, octaves 3 to 5, for every generator
state) the note of relative degree 0, placed without transposition in bar 0 on the tonic
chord, is written as 122: its pitch class is 2 (D), while the scale root, the pitch class of
scale degree `0+0+0`, is 9 (A). The grid writing adds the base degree 10 that `generateFill`
computes as half of the degree range `3*7`, and 10 is not a multiple of the scale length
7. -/
theorem generateFill_tonic_degree_shifted (sinf : F32 → F32) (g : GenRNG) :
    (∃ pat1 g1, generateFill 256 sinf g emptyPattern bassParams plainStyle 0 16
        = .ok (pat1, g1) ∧ (pat1.newData 0).note = 122) ∧
    (∃ pat2, writeMotifToPattern 256 emptyPattern (ostinatoAscending 16) {} {}
        (buildGrooveTemplate 0) bassParams 7 scaleMinor 0 10 = .ok pat2 ∧
      (pat2.newData 0).note = 122) ∧
    ((ostinatoAscending 16).notes[0]?.map (fun n => (n.relativeDegree, n.isRest))
      = some (0, false)) ∧
    (122 : Int) % 12 = 2 ∧
    (bassParams.scaleRoot
      + (genScaleIntervals bassParams.scaleType).intervals.getD (((0 : Int) + 0 + 0) % 7).toNat 0)
        % 12 = 9 ∧
    Int.tdiv (imul (iadd (isub 5 3) 1) 7) 2 = 10 ∧ (10 : Int) % 7 = 3 := by
  obtain ⟨pat1, g1, h, h0, -⟩ := generateFill_bass_bar sinf g
  obtain ⟨pat2, hw, hw0, -⟩ := writeMotifToPattern_bass
  exact ⟨⟨pat1, g1, h, h0⟩, ⟨pat2, hw, hw0⟩, rfl, by decide, by decide, by decide, by decide⟩

/-- C25, amended. For every parameter set with `0 <= octaveMin <= octaveMax <= 9` and
`scaleRoot` in `0..11`, every scale, motif, placement, chord and grid, every note cell that
`writeMotifToPattern` changes holds a note `n` with
`(octaveMin+5)*12 <= n <= (octaveMax+5)*12 + 11 + scaleRoot` and `n <= 179`: the octave of
a note counts from the scale root, so the notes of the last octave reach up to `scaleRoot`
semitones into the octave above `octaveMax`. -/
theorem writeMotifToPattern_octave_range (maxRows : Int) (pat pat1 : DivPattern)
    (motif : Motif) (placement : MotifPlacement) (chord : BarChord) (groove : GrooveTemplate)
    (params : GenPatternParams) (scale : Int) (barStartRow degreeRangeBase : Int)
    (ho0 : 0 ≤ params.octaveMin) (ho1 : params.octaveMin ≤ params.octaveMax)
    (ho2 : params.octaveMax ≤ 9) (hr0 : 0 ≤ params.scaleRoot) (hr1 : params.scaleRoot ≤ 11)
    (h : writeMotifToPattern maxRows pat motif placement chord groove params
      (genScaleIntervals scale).len (genScaleIntervals scale).intervals barStartRow
      degreeRangeBase = .ok pat1) :
    DivPattern.NotesWithin ((params.octaveMin + 5) * 12)
      (min ((params.octaveMax + 5) * 12 + 11 + params.scaleRoot) 179) pat pat1 :=
  writeMotifToPattern_notesWithin scale ho0 ho1 ho2 hr0 hr1 h

/-- C25, amended, instance: the grid writing of the bass scenario. -/
theorem writeMotifToPattern_octave_range_witness :
    ∃ pat1, writeMotifToPattern 256 emptyPattern (ostinatoAscending 16) {} {}
        (buildGrooveTemplate 0) bassParams (genScaleIntervals 0).len
        (genScaleIntervals 0).intervals 0 10 = .ok pat1 ∧
      DivPattern.NotesWithin ((bassParams.octaveMin + 5) * 12)
        (min ((bassParams.octaveMax + 5) * 12 + 11 + bassParams.scaleRoot) 179)
        emptyPattern pat1 := by
  obtain ⟨pat1, h⟩ : ∃ pat1, writeMotifToPattern 256 emptyPattern (ostinatoAscending 16) {} {}
      (buildGrooveTemplate 0) bassParams (genScaleIntervals 0).len
      (genScaleIntervals 0).intervals 0 10 = .ok pat1 := ⟨_, rfl⟩
  exact ⟨pat1, h, writeMotifToPattern_octave_range 256 emptyPattern pat1 (ostinatoAscending 16)
    {} {} (buildGrooveTemplate 0) bassParams 0 0 10 (by decide) (by decide) (by decide)
    (by decide) (by decide) h⟩

/-- C25, counterexample: with octaves 3 to 5 and root A (9) the grid writing of the bass
scenario puts note 132 (C of octave 6) at row 8, above `(5+5)*12+11 = 131`: scale degree 2
of A minor in the last octave is `9+3 = 12` semitones above the C of octave 5. -/
theorem writeMotifToPattern_above_octaveMax :
    (0 ≤ bassParams.octaveMin ∧ bassParams.octaveMin ≤ bassParams.octaveMax ∧
      bassParams.octaveMax ≤ 9 ∧ 0 ≤ bassParams.scaleRoot ∧ bassParams.scaleRoot ≤ 11) ∧
    ∃ pat1, writeMotifToPattern 256 emptyPattern (ostinatoAscending 16) {} {}
        (buildGrooveTemplate 0) bassParams 7 scaleMinor 0 10 = .ok pat1 ∧
      (emptyPattern.newData 8).note = -1 ∧ (pat1.newData 8).note = 132 ∧
      ¬ ((pat1.newData 8).note ≤ (bassParams.octaveMax + 5) * 12 + 11) := by
  refine ⟨by decide, ?_⟩
  obtain ⟨pat1, hw, -, hw8⟩ := writeMotifToPattern_bass
  refine ⟨pat1, hw, rfl, hw8, ?_⟩
  rw [hw8]
  decide

/-! ## Harmonic gravity -/

/-- The truncated remainder by a positive divisor lies strictly between the divisor and its
negation and is congruent to the dividend. -/
theorem tmod_bounds (a L : Int) (hL : 0 < L) :
    -L < Int.tmod a L ∧ Int.tmod a L < L ∧ (Int.tmod a L) % L = a % L := by
  refine ⟨?_, Int.tmod_lt_of_pos a hL, ?_⟩
  · rcases le_or_lt 0 a with h | h
    · have := Int.tmod_nonneg L h
      omega
    · have h1 : Int.tmod a L = -Int.tmod (-a) L := by
        rw [Int.tmod_def, Int.tmod_def, Int.neg_tdiv]
        ring
      have h2 := Int.tmod_lt_of_pos (-a) hL
      omega
  · have h := Int.tmod_add_tdiv a L
    conv_rhs => rw [← h]
    rw [Int.add_mul_emod_self_left]

/-- The expression `((x%scaleLen)+scaleLen)%scaleLen` is the Euclidean remainder. -/
theorem posMod_eq (a L : Int) (hL0 : 0 < L) (hL : L ≤ 12) :
    Int.tmod (iadd (Int.tmod a L) L) L = a % L := by
  obtain ⟨h1, h2, h3⟩ := tmod_bounds a L hL0
  rw [iadd_eq (by unfold InI32; omega), Int.tmod_eq_emod (by omega) (by omega),
    Int.add_emod_self, h3]

/-- The state after one more call of `next()`. -/
theorem advance_succ (k : Nat) (g : GenRNG) :
    GenRNG.advance (k + 1) g = (GenRNG.advance k g).next.2 := by
  induction k generalizing g with
  | zero => rfl
  | succ k ih =>
    show GenRNG.advance (k + 1) g.next.2 = _
    rw [ih]
    rfl

/-- One pass of the inner loop of `applyChordToneGravity` is one update, when the values
are small. -/
theorem gravityOct_eq (cd L d o : Int) (best : Int × Int) (hcd : -100 ≤ cd ∧ cd ≤ 100)
    (hL : 0 < L ∧ L ≤ 12) (ho : -1 ≤ o ∧ o ≤ 1) (hd : -1000000 ≤ d ∧ d ≤ 1000000) :
    gravityOct cd L d o best = .ok (gravityUpdate d best (cd + o * L)) := by
  have hoL : -12 ≤ o * L ∧ o * L ≤ 12 := by
    constructor <;> nlinarith
  unfold gravityOct gravityUpdate
  simp only
  rw [imul_eq (by unfold InI32; omega), iadd_eq (by unfold InI32; omega),
    isub_eq (by unfold InI32; omega)]
  have habs : iabs (cd + o * L - d) = |cd + o * L - d| := by
    unfold iabs
    apply toI32_of_InI32
    unfold InI32
    rcases abs_cases (cd + o * L - d) with ⟨h, -⟩ | ⟨h, -⟩ <;> omega
  rw [habs]
  split <;> rfl

/-- The loop over the three octaves for one chord tone. -/
theorem gravityTone_eq (chord : BarChord) (L d : Int) (k : Nat) (t : Int) (best : Int × Int)
    (ht : chord.chordTones[k]? = some t)
    (hcd : -100 ≤ chord.rootDegree + t ∧ chord.rootDegree + t ≤ 100)
    (hL : 0 < L ∧ L ≤ 12) (hd : -1000000 ≤ d ∧ d ≤ 1000000) :
    gravityTone chord L d (k : Int) best
      = .ok ([-1, 0, 1].foldl (fun b (o : Int) => gravityUpdate d b (chord.rootDegree + t + o * L))
          best) := by
  unfold gravityTone
  rw [if_neg (by omega)]
  simp only [Int.toNat_ofNat, ht, orFault]
  rw [ok_bind2]
  have e : iadd chord.rootDegree t = chord.rootDegree + t := iadd_eq (by unfold InI32; omega)
  rw [e]
  rw [forLoop_step (j := 0) (by decide)
      (gravityOct_eq _ L d (-1) best hcd hL (by decide) hd) (by decide),
    forLoop_step (j := 1) (by decide)
      (gravityOct_eq _ L d 0 _ hcd hL (by decide) hd) (by decide),
    forLoop_step (j := 2) (by decide)
      (gravityOct_eq _ L d 1 _ hcd hL (by decide) hd) (by decide),
    forLoop_stop (by decide)]
  rfl

/-- The scan over a list of candidates keeps the first candidate at the least distance,
provided some candidate is nearer than the initial distance. -/
theorem gravityUpdate_foldl (d B b0 : Int) (l : List Int) :
    ((l.foldl (gravityUpdate d) (B, b0)) = (B, b0) ∧ ∀ x ∈ l, B ≤ |x - d|) ∨
    ((l.foldl (gravityUpdate d) (B, b0)).1 = |(l.foldl (gravityUpdate d) (B, b0)).2 - d| ∧
      (l.foldl (gravityUpdate d) (B, b0)).1 < B ∧
      IsFirstNearest d l (l.foldl (gravityUpdate d) (B, b0)).2) := by
  induction l using List.reverseRecOn with
  | nil =>
    left
    exact ⟨rfl, fun x hx => absurd hx (List.not_mem_nil x)⟩
  | append_singleton l x ih =>
    rw [List.foldl_append]
    simp only [List.foldl_cons, List.foldl_nil]
    generalize l.foldl (gravityUpdate d) (B, b0) = res at ih
    unfold gravityUpdate
    by_cases hx : |x - d| < res.1
    · rw [if_pos hx]
      right
      simp only
      have hB : |x - d| < B := by
        rcases ih with ⟨h, -⟩ | ⟨-, h, -⟩
        · rw [h] at hx; exact hx
        · omega
      refine ⟨trivial, hB, l.length, by simp, by simp, ?_, ?_⟩
      · intro y hy
        rcases List.mem_append.mp hy with hy | hy
        · rcases ih with ⟨h, h2⟩ | ⟨h1, -, -, -, -, h4, -⟩
          · have := h2 y hy
            omega
          · have := h4 y hy
            omega
        · simp only [List.mem_singleton] at hy
          rw [hy]
      · intro j1 hj1
        rw [List.getD_append _ _ _ _ hj1]
        have hmem : l.getD j1 0 ∈ l := by
          rw [List.getD_eq_getElem _ _ hj1]
          exact List.getElem_mem hj1
        rcases ih with ⟨h, h2⟩ | ⟨h1, -, -, -, -, h4, -⟩
        · have := h2 _ hmem
          rw [h] at hx
          omega
        · have := h4 _ hmem
          omega
    · rw [if_neg hx]
      rcases ih with ⟨h, h2⟩ | ⟨h1, h2, j, hj, hjc, h4, h5⟩
      · left
        refine ⟨h, ?_⟩
        intro y hy
        rcases List.mem_append.mp hy with hy | hy
        · exact h2 y hy
        · simp only [List.mem_singleton] at hy
          rw [hy]
          rw [h] at hx
          simpa using hx
      · right
        refine ⟨h1, h2, j, by simp; omega, ?_, ?_, ?_⟩
        · rw [List.getD_append _ _ _ _ hj]
          exact hjc
        · intro y hy
          rcases List.mem_append.mp hy with hy | hy
          · exact h4 y hy
          · simp only [List.mem_singleton] at hy
            rw [hy]
            omega
        · intro j1 hj1
          rw [List.getD_append _ _ _ _ (by omega)]
          exact h5 j1 hj1

/-- Assigning to an entry of a list the value it holds leaves the list as it is. -/
theorem set_same {α : Type} (l : List α) (i : Nat) (a : α) (h : l[i]? = some a) :
    l.set i a = l := by
  apply List.ext_getElem?
  intro j
  by_cases hj : i = j
  · subst hj
    rw [List.getElem?_set_self'] 
    rw [h]
    simp
  · rw [List.getElem?_set_ne hj]

/-- A chord as `generateChordProgression` produces it: a root in `0..6`, the chord tones
`(0,2,4,6)` and 3 or 4 of them counted. The loop over its chord tones is the scan of the
candidates of the specification. -/
theorem gravityLoop_eq (chord : BarChord) (L d : Int) (best : Int × Int)
    (hroot : 0 ≤ chord.rootDegree ∧ chord.rootDegree ≤ 6)
    (htones : chord.chordTones = [0, 2, 4, 6])
    (hcount : chord.chordToneCount = 3 ∨ chord.chordToneCount = 4)
    (hL : 0 < L ∧ L ≤ 12) (hd : -1000000 ≤ d ∧ d ≤ 1000000) :
    forLoop (fun ct (_ : Int × Int) => decide (ct < chord.chordToneCount)) 1
      (gravityTone chord L d) chord.chordToneCount.toNat 0 best
      = .ok ((specGravityCandidates chord L).foldl (gravityUpdate d) best) := by
  have hcn : (chord.chordToneCount.toNat : Int) = chord.chordToneCount := by
    rcases hcount with h | h <;> rw [h] <;> rfl
  have hn4 : chord.chordToneCount.toNat ≤ 4 := by
    rcases hcount with h | h <;> rw [h] <;> decide
  obtain ⟨s1, hrun, hI⟩ := forLoop_total
    (fun ct (_ : Int × Int) => decide (ct < chord.chordToneCount))
    (gravityTone chord L d)
    (fun k s => s = ((List.range k).flatMap (fun k =>
      [-1, 0, 1].map (fun o : Int => chord.rootDegree + chord.chordTones.getD k 0 + o * L))).foldl
        (gravityUpdate d) best)
    chord.chordToneCount.toNat
    (fun i s _ => by
      simp only [decide_eq_decide]
      omega)
    (fun i s hi hI => by
      have hi4 : i < 4 := by omega
      obtain ⟨t, ht, ht6⟩ : ∃ t, chord.chordTones[i]? = some t ∧ 0 ≤ t ∧ t ≤ 6 := by
        rw [htones]
        interval_cases i
        · exact ⟨0, rfl, by decide, by decide⟩
        · exact ⟨2, rfl, by decide, by decide⟩
        · exact ⟨4, rfl, by decide, by decide⟩
        · exact ⟨6, rfl, by decide, by decide⟩
      refine ⟨_, gravityTone_eq chord L d i t s ht (by omega) hL hd, ?_⟩
      dsimp only at hI ⊢
      rw [List.range_succ, List.flatMap_append, List.foldl_append, ← hI]
      have hg : chord.chordTones.getD i 0 = t := by
        rw [List.getD_eq_getElem?_getD, ht]
        rfl
      simp only [List.flatMap_cons, List.flatMap_nil, List.append_nil, hg]
      rfl)
    chord.chordToneCount.toNat 0 chord.chordToneCount.toNat best (by omega) le_rfl rfl
  rw [show ((0 : Nat) : Int) = 0 from rfl] at hrun
  rw [hrun, hI]
  rfl

/-- The loop over the chord tones returns for every degree. -/
theorem gravityLoop_total (chord : BarChord) (L d : Int) (best : Int × Int)
    (htones : chord.chordTones = [0, 2, 4, 6])
    (hcount : chord.chordToneCount = 3 ∨ chord.chordToneCount = 4) :
    ∃ r, forLoop (fun ct (_ : Int × Int) => decide (ct < chord.chordToneCount)) 1
      (gravityTone chord L d) chord.chordToneCount.toNat 0 best = .ok r := by
  have hcn : (chord.chordToneCount.toNat : Int) = chord.chordToneCount := by
    rcases hcount with h | h <;> rw [h] <;> rfl
  have hn4 : chord.chordToneCount.toNat ≤ 4 := by
    rcases hcount with h | h <;> rw [h] <;> decide
  have hoct : ∀ cd o b, ∃ r, gravityOct cd L d o b = .ok r := by
    intro cd o b
    unfold gravityOct
    simp only
    split
    · exact ⟨_, rfl⟩
    · exact ⟨_, rfl⟩
  obtain ⟨s1, hrun, -⟩ := forLoop_total
    (fun ct (_ : Int × Int) => decide (ct < chord.chordToneCount))
    (gravityTone chord L d)
    (fun _ _ => True)
    chord.chordToneCount.toNat
    (fun i s _ => by
      simp only [decide_eq_decide]
      omega)
    (fun i s hi _ => by
      have hi4 : i < 4 := by omega
      obtain ⟨t, ht⟩ : ∃ t, chord.chordTones[i]? = some t := by
        rw [htones]
        interval_cases i
        · exact ⟨0, rfl⟩
        · exact ⟨2, rfl⟩
        · exact ⟨4, rfl⟩
        · exact ⟨6, rfl⟩
      unfold gravityTone
      rw [if_neg (by omega)]
      simp only [Int.toNat_ofNat, ht, orFault]
      rw [ok_bind2]
      obtain ⟨r1, h1⟩ := hoct (iadd chord.rootDegree t) (-1) s
      obtain ⟨r2, h2⟩ := hoct (iadd chord.rootDegree t) 0 r1
      obtain ⟨r3, h3⟩ := hoct (iadd chord.rootDegree t) 1 r2
      refine ⟨r3, ?_, trivial⟩
      rw [forLoop_step (j := 0) (by decide) h1 (by decide),
        forLoop_step (j := 1) (by decide) h2 (by decide),
        forLoop_step (j := 2) (by decide) h3 (by decide), forLoop_stop (by decide)])
    chord.chordToneCount.toNat 0 chord.chordToneCount.toNat best (by omega) le_rfl trivial
  exact ⟨s1, hrun⟩

/-- One pass of the loop of `isChordTone`. -/
theorem isChordToneLoop_step (chord : BarChord) (sd L : Int) (n i : Nat) (t : Int)
    (hi : (i : Int) < chord.chordToneCount) (ht : chord.chordTones[i]? = some t) :
    isChordToneLoop chord sd L (n + 1) i
      = if sd = Int.tmod (iadd (Int.tmod (iadd chord.rootDegree t) L) L) L then .ok true
        else isChordToneLoop chord sd L n (i + 1) := by
  rw [isChordToneLoop, if_pos hi, ht]
  rfl

/-- The loop of `isChordTone` after the last chord tone. -/
theorem isChordToneLoop_stop (chord : BarChord) (sd L : Int) (n i : Nat)
    (hi : ¬ (i : Int) < chord.chordToneCount) :
    isChordToneLoop chord sd L n i = .ok false := by
  cases n with
  | zero => rw [isChordToneLoop, if_neg hi]
  | succ n => rw [isChordToneLoop, if_neg hi]

/-- `isChordTone` on a chord of the progression compares Euclidean remainders. -/
theorem isChordTone_eq (chord : BarChord) (x L : Int)
    (hroot : 0 ≤ chord.rootDegree ∧ chord.rootDegree ≤ 6)
    (htones : chord.chordTones = [0, 2, 4, 6])
    (hcount : chord.chordToneCount = 3 ∨ chord.chordToneCount = 4)
    (hL0 : 0 < L) (hL : L ≤ 12) :
    chord.isChordTone x L
      = .ok (decide (x % L = chord.rootDegree % L ∨ x % L = (chord.rootDegree + 2) % L ∨
          x % L = (chord.rootDegree + 4) % L ∨
          (chord.chordToneCount = 4 ∧ x % L = (chord.rootDegree + 6) % L))) := by
  unfold BarChord.isChordTone
  simp only [if_neg (not_le.mpr hL0)]
  rw [posMod_eq x L hL0 hL]
  have e : ∀ t : Int, 0 ≤ t → t ≤ 6 →
      Int.tmod (iadd (Int.tmod (iadd chord.rootDegree t) L) L) L = (chord.rootDegree + t) % L := by
    intro t h0 h6
    rw [posMod_eq _ L hL0 hL, iadd_eq (by unfold InI32; omega)]
  have t0 : chord.chordTones[0]? = some 0 := by rw [htones]; rfl
  have t1 : chord.chordTones[1]? = some 2 := by rw [htones]; rfl
  have t2 : chord.chordTones[2]? = some 4 := by rw [htones]; rfl
  have t3 : chord.chordTones[3]? = some 6 := by rw [htones]; rfl
  rcases hcount with h | h
  · rw [h]
    show isChordToneLoop chord (x % L) L 3 0 = _
    rw [isChordToneLoop_step chord _ L 2 0 0 (by rw [h]; decide) t0,
      isChordToneLoop_step chord _ L 1 1 2 (by rw [h]; decide) t1,
      isChordToneLoop_step chord _ L 0 2 4 (by rw [h]; decide) t2,
      isChordToneLoop_stop chord _ L 0 3 (by rw [h]; decide),
      e 0 (by decide) (by decide), e 2 (by decide) (by decide), e 4 (by decide) (by decide)]
    simp only [add_zero]
    split_ifs <;> simp_all
  · rw [h]
    show isChordToneLoop chord (x % L) L 4 0 = _
    rw [isChordToneLoop_step chord _ L 3 0 0 (by rw [h]; decide) t0,
      isChordToneLoop_step chord _ L 2 1 2 (by rw [h]; decide) t1,
      isChordToneLoop_step chord _ L 1 2 4 (by rw [h]; decide) t2,
      isChordToneLoop_step chord _ L 0 3 6 (by rw [h]; decide) t3,
      isChordToneLoop_stop chord _ L 0 4 (by rw [h]; decide),
      e 0 (by decide) (by decide), e 2 (by decide) (by decide), e 4 (by decide) (by decide),
      e 6 (by decide) (by decide)]
    simp only [add_zero]
    split_ifs <;> simp_all

/-- The candidates of a chord of the progression, listed. -/
theorem specGravityCandidates_eq (chord : BarChord) (L : Int)
    (htones : chord.chordTones = [0, 2, 4, 6])
    (hcount : chord.chordToneCount = 3 ∨ chord.chordToneCount = 4) :
    specGravityCandidates chord L
      = [chord.rootDegree + 0 + -1 * L, chord.rootDegree + 0 + 0 * L,
         chord.rootDegree + 0 + 1 * L, chord.rootDegree + 2 + -1 * L,
         chord.rootDegree + 2 + 0 * L, chord.rootDegree + 2 + 1 * L,
         chord.rootDegree + 4 + -1 * L, chord.rootDegree + 4 + 0 * L,
         chord.rootDegree + 4 + 1 * L] ++
        (if chord.chordToneCount = 4 then
          [chord.rootDegree + 6 + -1 * L, chord.rootDegree + 6 + 0 * L,
           chord.rootDegree + 6 + 1 * L]
         else []) := by
  unfold specGravityCandidates
  rcases hcount with h | h
  · rw [h, htones, if_neg (by decide)]
    rfl
  · rw [h, htones, if_pos rfl]
    rfl

/-- Every candidate of a chord of the progression is a chord tone. -/
theorem isChordTone_candidate (chord : BarChord) (L c : Int)
    (hroot : 0 ≤ chord.rootDegree ∧ chord.rootDegree ≤ 6)
    (htones : chord.chordTones = [0, 2, 4, 6])
    (hcount : chord.chordToneCount = 3 ∨ chord.chordToneCount = 4)
    (hL0 : 0 < L) (hL : L ≤ 12) (hc : c ∈ specGravityCandidates chord L) :
    chord.isChordTone c L = .ok true := by
  rw [isChordTone_eq chord c L hroot htones hcount hL0 hL]
  rw [specGravityCandidates_eq chord L htones hcount] at hc
  have e : ∀ a o : Int, (a + o * L) % L = a % L := fun a o => Int.add_mul_emod_self
  congr 1
  rw [decide_eq_true_eq]
  rcases List.mem_append.mp hc with hc | hc
  · simp only [List.mem_cons, List.mem_singleton, List.not_mem_nil, or_false] at hc
    rcases hc with rfl | rfl | rfl | rfl | rfl | rfl | rfl | rfl | rfl <;> rw [e] <;> simp
  · split at hc
    · rename_i h4
      simp only [List.mem_cons, List.mem_singleton, List.not_mem_nil, or_false] at hc
      rcases hc with rfl | rfl | rfl <;> rw [e] <;> simp [h4]
    · simp at hc

/-- For a degree of magnitude below 900 the scan started from `(999, degree)` ends on the
first nearest candidate, which is a chord tone. -/
theorem gravityBest (chord : BarChord) (L d : Int)
    (hroot : 0 ≤ chord.rootDegree ∧ chord.rootDegree ≤ 6)
    (htones : chord.chordTones = [0, 2, 4, 6])
    (hcount : chord.chordToneCount = 3 ∨ chord.chordToneCount = 4)
    (hL0 : 0 < L) (hL : L ≤ 12) (hd : |d| < 900) :
    IsFirstNearest d (specGravityCandidates chord L)
      ((specGravityCandidates chord L).foldl (gravityUpdate d) (999, d)).2 ∧
    chord.isChordTone ((specGravityCandidates chord L).foldl (gravityUpdate d) (999, d)).2 L
      = .ok true := by
  have hd' := abs_lt.mp hd
  have hfirst : chord.rootDegree + 0 + -1 * L ∈ specGravityCandidates chord L := by
    rw [specGravityCandidates_eq chord L htones hcount]
    simp
  have hnear : IsFirstNearest d (specGravityCandidates chord L)
      ((specGravityCandidates chord L).foldl (gravityUpdate d) (999, d)).2 := by
    rcases gravityUpdate_foldl d 999 d (specGravityCandidates chord L) with ⟨-, h⟩ | ⟨-, -, h⟩
    · exfalso
      have h1 := h _ hfirst
      have h2 : |chord.rootDegree + 0 + -1 * L - d| < 999 := by
        rw [abs_lt]
        constructor <;> omega
      omega
    · exact h
  refine ⟨hnear, ?_⟩
  obtain ⟨j, hj, hjc, -, -⟩ := hnear
  apply isChordTone_candidate chord L _ hroot htones hcount hL0 hL
  rw [← hjc, List.getD_eq_getElem _ _ hj]
  exact List.getElem_mem hj

/-- Read of a note of a motif of eight notes. -/
theorem getNote_ok (m : Motif) (i : Nat) (n : MotifNote) (hi : i < 8)
    (hn : m.notes[i]? = some n) : m.getNote (i : Int) = .ok n := by
  unfold Motif.getNote
  rw [if_neg (by omega)]
  simp only [Int.toNat_ofNat, hn]
  rfl

/-- Assignment to a note of a motif of eight notes. -/
theorem modifyNote_ok (m : Motif) (i : Nat) (n : MotifNote) (f : MotifNote → MotifNote)
    (hi : i < 8) (hn : m.notes[i]? = some n) :
    m.modifyNote (i : Int) f = .ok { m with notes := m.notes.set i (f n) } := by
  unfold Motif.modifyNote
  rw [getNote_ok m i n hi hn]
  simp only [Int.toNat_ofNat]
  rfl

/-- The body of the loop of `applyChordToneGravity` for a chord of the progression: the note
at index `i` keeps every field but its degree; the degree is snapped to the first nearest
candidate when the note is not a rest, sits on a strong beat, the draw is below the
emphasis and the degree is not a chord tone, and kept otherwise; the generator advances by
one call when the note is not a rest and sits on a strong beat. -/
theorem gravityStep_spec (chord : BarChord) (L rowsPerBeat : Int) (emphasis : F32)
    (hroot : 0 ≤ chord.rootDegree ∧ chord.rootDegree ≤ 6)
    (htones : chord.chordTones = [0, 2, 4, 6])
    (hcount : chord.chordToneCount = 3 ∨ chord.chordToneCount = 4)
    (hL0 : 0 < L) (hL : L ≤ 12) (hbeat : rowsPerBeat ≠ 0)
    (i : Nat) (m : Motif) (g : GenRNG) (n : MotifNote) (hi : i < 8)
    (hn : m.notes[i]? = some n) :
    ∃ d1, gravityStep chord L rowsPerBeat emphasis (i : Int) (m, g)
        = .ok ({ m with notes := m.notes.set i { n with relativeDegree := d1 } },
               if strongNote rowsPerBeat n then g.next.2 else g) ∧
      ((strongNote rowsPerBeat n = true ∧ F32.lt g.randFloat.1 emphasis = true ∧
          chord.isChordTone n.relativeDegree L = .ok false) →
        |n.relativeDegree| < 900 →
        chord.isChordTone d1 L = .ok true ∧
        IsFirstNearest n.relativeDegree (specGravityCandidates chord L) d1) ∧
      (¬(strongNote rowsPerBeat n = true ∧ F32.lt g.randFloat.1 emphasis = true ∧
          chord.isChordTone n.relativeDegree L = .ok false) →
        d1 = n.relativeDegree) := by
  have hsame : ({ m with notes := m.notes.set i { n with relativeDegree := n.relativeDegree } }
      : Motif) = m := by
    have : m.notes.set i { n with relativeDegree := n.relativeDegree } = m.notes :=
      set_same m.notes i n hn
    rw [this]
  unfold gravityStep
  rw [getNote_ok m i n hi hn, ok_bind]
  by_cases hrest : n.isRest = true
  · rw [if_pos hrest]
    refine ⟨n.relativeDegree, ?_, ?_, fun _ => rfl⟩
    · rw [hsame]
      have : strongNote rowsPerBeat n = false := by simp [strongNote, hrest]
      rw [this]
      rfl
    · intro h
      simp [strongNote, hrest] at h
  rw [if_neg hrest]
  have hmod : imod n.rowOffset rowsPerBeat = .ok (Int.tmod n.rowOffset rowsPerBeat) := by
    unfold imod
    rw [if_neg hbeat]
  rw [hmod, ok_bind]
  by_cases hstrong : Int.tmod n.rowOffset rowsPerBeat = 0
  · have hs : strongNote rowsPerBeat n = true := by simp [strongNote, hrest, hstrong]
    rw [if_pos hstrong, hs]
    simp only [if_true]
    by_cases hdraw : F32.lt g.randFloat.1 emphasis = true
    · rw [if_pos hdraw]
      rw [isChordTone_eq chord n.relativeDegree L hroot htones hcount hL0 hL, ok_bind]
      by_cases htone : decide (n.relativeDegree % L = chord.rootDegree % L ∨
          n.relativeDegree % L = (chord.rootDegree + 2) % L ∨
          n.relativeDegree % L = (chord.rootDegree + 4) % L ∨
          (chord.chordToneCount = 4 ∧ n.relativeDegree % L = (chord.rootDegree + 6) % L)) = true
      · rw [if_pos htone]
        refine ⟨n.relativeDegree, ?_, ?_, fun _ => rfl⟩
        · rw [hsame]
          rfl
        · intro h
          rw [htone] at h
          exact absurd h.2.2 (by simp)
      · rw [if_neg htone]
        by_cases hd : |n.relativeDegree| < 900
        · have hd' := abs_lt.mp hd
          rw [gravityLoop_eq chord L n.relativeDegree (999, n.relativeDegree) hroot htones
            hcount ⟨hL0, hL⟩ (by omega), ok_bind]
          rw [modifyNote_ok m i n _ hi hn, ok_bind]
          obtain ⟨b1, b2⟩ := gravityBest chord L n.relativeDegree hroot htones hcount hL0 hL hd
          refine ⟨_, rfl, fun _ _ => ⟨b2, b1⟩, ?_⟩
          intro hcon
          exfalso
          apply hcon
          refine ⟨trivial, hdraw, ?_⟩
          congr 1
          simpa using htone
        · obtain ⟨r, hr⟩ := gravityLoop_total chord L n.relativeDegree (999, n.relativeDegree)
            htones hcount
          rw [hr, ok_bind, modifyNote_ok m i n _ hi hn, ok_bind]
          refine ⟨_, rfl, fun _ h900 => absurd h900 hd, ?_⟩
          intro hcon
          exfalso
          apply hcon
          refine ⟨trivial, hdraw, ?_⟩
          congr 1
          simpa using htone
    · rw [if_neg hdraw]
      refine ⟨n.relativeDegree, ?_, ?_, fun _ => rfl⟩
      · rw [hsame]
        rfl
      · intro h
        exact absurd h.2.1 hdraw
  · have hs : strongNote rowsPerBeat n = false := by simp [strongNote, hstrong]
    rw [if_neg hstrong, hs]
    refine ⟨n.relativeDegree, ?_, ?_, fun _ => rfl⟩
    · rw [hsame]
      rfl
    · intro h
      exact absurd h.1 (by simp)

/-- The draws made before the next note. -/
theorem gravityDraws_succ (motif : Motif) (rowsPerBeat : Int) (k : Nat) (n : MotifNote)
    (hn : motif.notes[k]? = some n) :
    gravityDraws motif rowsPerBeat (k + 1)
      = gravityDraws motif rowsPerBeat k + (if strongNote rowsPerBeat n then 1 else 0) := by
  unfold gravityDraws
  rw [List.take_succ, hn, List.filter_append, List.length_append]
  congr 1
  simp only [Option.toList, List.filter_cons, List.filter_nil]
  split <;> rfl

/-- `isChordTone` replaces a non-positive scale length by 7, as `applyChordToneGravity`
does. -/
theorem isChordTone_norm (chord : BarChord) (x scaleLen : Int) :
    chord.isChordTone x (if scaleLen ≤ 0 then 7 else scaleLen) = chord.isChordTone x scaleLen := by
  unfold BarChord.isChordTone
  by_cases h : scaleLen ≤ 0
  · simp only [if_pos h]
    rfl
  · simp only [if_neg h]

/-- `applyChordToneGravity` on a chord of the progression, a scale length of at most 12 and
a motif of at most 8 notes returns; it keeps every field of every note but the degree, and
snaps the degree of the notes below `noteCount` that are not rests, sit on a strong beat,
draw below the emphasis and are not chord tones. -/
theorem applyChordToneGravity_spec (g : GenRNG) (motif : Motif) (chord : BarChord)
    (scaleLen rowsPerBeat : Int) (emphasis : F32)
    (hroot : 0 ≤ chord.rootDegree ∧ chord.rootDegree ≤ 6)
    (htones : chord.chordTones = [0, 2, 4, 6])
    (hcount : chord.chordToneCount = 3 ∨ chord.chordToneCount = 4)
    (hL : scaleLen ≤ 12) (hbeat : rowsPerBeat ≠ 0)
    (hn0 : 0 ≤ motif.noteCount) (hn8 : motif.noteCount ≤ 8) (hlen : motif.notes.length = 8) :
    ∃ m1 g1, applyChordToneGravity g motif chord scaleLen rowsPerBeat emphasis = .ok (m1, g1) ∧
      m1.noteCount = motif.noteCount ∧ m1.lengthInRows = motif.lengthInRows ∧
      m1.notes.length = 8 ∧
      g1 = GenRNG.advance (gravityDraws motif rowsPerBeat motif.noteCount.toNat) g ∧
      (∀ i : Nat, motif.noteCount ≤ (i : Int) → m1.notes[i]? = motif.notes[i]?) ∧
      ∀ (i : Nat) (n : MotifNote), (i : Int) < motif.noteCount → motif.notes[i]? = some n →
        ∃ n1, m1.notes[i]? = some n1 ∧ n1.rowOffset = n.rowOffset ∧
          n1.velOffset = n.velOffset ∧ n1.duration = n.duration ∧ n1.isRest = n.isRest ∧
          ((strongNote rowsPerBeat n = true ∧
              F32.lt (GenRNG.advance (gravityDraws motif rowsPerBeat i) g).randFloat.1 emphasis
                = true ∧
              chord.isChordTone n.relativeDegree scaleLen = .ok false) →
            |n.relativeDegree| < 900 →
            chord.isChordTone n1.relativeDegree scaleLen = .ok true ∧
            IsFirstNearest n.relativeDegree
              (specGravityCandidates chord (if scaleLen ≤ 0 then 7 else scaleLen))
              n1.relativeDegree) ∧
          (¬(strongNote rowsPerBeat n = true ∧
              F32.lt (GenRNG.advance (gravityDraws motif rowsPerBeat i) g).randFloat.1 emphasis
                = true ∧
              chord.isChordTone n.relativeDegree scaleLen = .ok false) →
            n1.relativeDegree = n.relativeDegree) := by
  unfold applyChordToneGravity
  simp only
  have hL0 : 0 < (if scaleLen ≤ 0 then 7 else scaleLen) := by split <;> omega
  have hL12 : (if scaleLen ≤ 0 then 7 else scaleLen) ≤ 12 := by split <;> omega
  have hnorm : ∀ x, chord.isChordTone x (if scaleLen ≤ 0 then 7 else scaleLen)
      = chord.isChordTone x scaleLen := fun x => isChordTone_norm chord x scaleLen
  generalize (if scaleLen ≤ 0 then 7 else scaleLen) = L at hL0 hL12 hnorm ⊢
  obtain ⟨N, hN⟩ := Int.eq_ofNat_of_zero_le hn0
  have hN8 : N ≤ 8 := by omega
  have hNt : motif.noteCount.toNat = N := by rw [hN]; rfl
  rw [hNt]
  obtain ⟨s1, hrun, hg, hcnt, hrows, hlen1, hhigh, hlow⟩ := forLoop_total
    (fun i (s : Motif × GenRNG) => decide (i < s.1.noteCount))
    (gravityStep chord L rowsPerBeat emphasis)
    (fun k s => s.2 = GenRNG.advance (gravityDraws motif rowsPerBeat k) g ∧
      s.1.noteCount = motif.noteCount ∧ s.1.lengthInRows = motif.lengthInRows ∧
      s.1.notes.length = 8 ∧
      (∀ j : Nat, k ≤ j → s.1.notes[j]? = motif.notes[j]?) ∧
      ∀ (j : Nat) (n : MotifNote), j < k → motif.notes[j]? = some n →
        ∃ n1, s.1.notes[j]? = some n1 ∧ n1.rowOffset = n.rowOffset ∧
          n1.velOffset = n.velOffset ∧ n1.duration = n.duration ∧ n1.isRest = n.isRest ∧
          ((strongNote rowsPerBeat n = true ∧
              F32.lt (GenRNG.advance (gravityDraws motif rowsPerBeat j) g).randFloat.1 emphasis
                = true ∧
              chord.isChordTone n.relativeDegree scaleLen = .ok false) →
            |n.relativeDegree| < 900 →
            chord.isChordTone n1.relativeDegree scaleLen = .ok true ∧
            IsFirstNearest n.relativeDegree (specGravityCandidates chord L)
              n1.relativeDegree) ∧
          (¬(strongNote rowsPerBeat n = true ∧
              F32.lt (GenRNG.advance (gravityDraws motif rowsPerBeat j) g).randFloat.1 emphasis
                = true ∧
              chord.isChordTone n.relativeDegree scaleLen = .ok false) →
            n1.relativeDegree = n.relativeDegree))
    N
    (fun i s hI => by
      obtain ⟨-, hc, -⟩ := hI
      simp only [hc, hN, decide_eq_decide]
      omega)
    (fun k s hk hI => by
      obtain ⟨hg, hc, hr, hl, hhi, hlo⟩ := hI
      have hk8 : k < 8 := by omega
      obtain ⟨n, hn⟩ : ∃ n, motif.notes[k]? = some n :=
        ⟨motif.notes[k], List.getElem?_eq_getElem (by omega)⟩
      have hsn : s.1.notes[k]? = some n := by rw [hhi k le_rfl, hn]
      obtain ⟨d1, hstep, hsnap, hkeep⟩ := gravityStep_spec chord L rowsPerBeat emphasis hroot
        htones hcount hL0 hL12 hbeat k s.1 s.2 n hk8 hsn
      refine ⟨_, hstep, ?_, hc, hr, by simpa using hl, ?_, ?_⟩
      · simp only
        rw [gravityDraws_succ motif rowsPerBeat k n hn, hg]
        split
        · rw [advance_succ]
        · rfl
      · intro j hj
        simp only
        rw [List.getElem?_set_ne (by omega)]
        exact hhi j (by omega)
      · intro j n' hj hn'
        simp only
        rcases Nat.lt_succ_iff_lt_or_eq.mp hj with hlt | rfl
        · rw [List.getElem?_set_ne (by omega)]
          exact hlo j n' hlt hn'
        · rw [hn] at hn'
          cases hn'
          refine ⟨_, List.getElem?_set_self (by omega), rfl, rfl, rfl, rfl, ?_, ?_⟩
          · intro hc1 h900
            rw [← hg, ← hnorm] at hc1
            rw [← hnorm]
            exact hsnap hc1 h900
          · intro hc1
            rw [← hg, ← hnorm] at hc1
            exact hkeep hc1)
    N 0 N (motif, g) (by omega) le_rfl
    ⟨rfl, rfl, rfl, hlen, fun _ _ => rfl, fun j n hj => absurd hj (by omega)⟩
  refine ⟨s1.1, s1.2, hrun, hcnt, hrows, hlen1, hg, ?_, ?_⟩
  · intro i hi
    exact hhigh i (by omega)
  · intro i n hi hn
    exact hlow i n (by omega) hn

/-! ## Claim on harmonic gravity -/

/-- C26. For every chord of the progression (root in `0..6`, chord tones `(0,2,4,6)`, 3 or
4 of them counted), scale length of at most 12, non-zero `rowsPerBeat`, emphasis, generator
state and motif of at most 8 notes, `applyChordToneGravity` returns; a note below
`noteCount` that is not a rest, whose `rowOffset` is divisible by `rowsPerBeat`, whose draw
(the draw after those of the earlier such notes) is below the emphasis and whose degree `d`
with `|d| < 900` is not a chord tone gets a degree that is a chord tone and is the first
entry, in the order of the loops, of the candidates `rootDegree + chordTones[k] + o*scaleLen`
at the least distance from `d`; every other note keeps its degree, and every note keeps its
`rowOffset`, `velOffset`, duration and rest flag. -/
theorem applyChordToneGravity_postcondition (g : GenRNG) (motif : Motif) (chord : BarChord)
    (scaleLen rowsPerBeat : Int) (emphasis : F32)
    (hroot : 0 ≤ chord.rootDegree ∧ chord.rootDegree ≤ 6)
    (htones : chord.chordTones = [0, 2, 4, 6])
    (hcount : chord.chordToneCount = 3 ∨ chord.chordToneCount = 4)
    (hL : scaleLen ≤ 12) (hbeat : rowsPerBeat ≠ 0)
    (hn0 : 0 ≤ motif.noteCount) (hn8 : motif.noteCount ≤ 8) (hlen : motif.notes.length = 8) :
    ∃ m1 g1, applyChordToneGravity g motif chord scaleLen rowsPerBeat emphasis = .ok (m1, g1) ∧
      m1.noteCount = motif.noteCount ∧ m1.lengthInRows = motif.lengthInRows ∧
      m1.notes.length = 8 ∧
      g1 = GenRNG.advance (gravityDraws motif rowsPerBeat motif.noteCount.toNat) g ∧
      (∀ i : Nat, motif.noteCount ≤ (i : Int) → m1.notes[i]? = motif.notes[i]?) ∧
      ∀ (i : Nat) (n : MotifNote), (i : Int) < motif.noteCount → motif.notes[i]? = some n →
        ∃ n1, m1.notes[i]? = some n1 ∧ n1.rowOffset = n.rowOffset ∧
          n1.velOffset = n.velOffset ∧ n1.duration = n.duration ∧ n1.isRest = n.isRest ∧
          ((strongNote rowsPerBeat n = true ∧
              F32.lt (GenRNG.advance (gravityDraws motif rowsPerBeat i) g).randFloat.1 emphasis
                = true ∧
              chord.isChordTone n.relativeDegree scaleLen = .ok false) →
            |n.relativeDegree| < 900 →
            chord.isChordTone n1.relativeDegree scaleLen = .ok true ∧
            IsFirstNearest n.relativeDegree
              (specGravityCandidates chord (if scaleLen ≤ 0 then 7 else scaleLen))
              n1.relativeDegree) ∧
          (¬(strongNote rowsPerBeat n = true ∧
              F32.lt (GenRNG.advance (gravityDraws motif rowsPerBeat i) g).randFloat.1 emphasis
                = true ∧
              chord.isChordTone n.relativeDegree scaleLen = .ok false) →
            n1.relativeDegree = n.relativeDegree) :=
  applyChordToneGravity_spec g motif chord scaleLen rowsPerBeat emphasis hroot htones hcount hL
    hbeat hn0 hn8 hlen

/-- C26, instance: the ascending ostinato (degrees 0 and 6 on rows 0 and 8) over the tonic
triad of a seven-note scale with emphasis 1, from seed 12345. -/
theorem applyChordToneGravity_postcondition_witness :
    ∃ m1 g1, applyChordToneGravity GenRNG.init (ostinatoAscending 16) {} 7 4 (F32.fin 1)
        = .ok (m1, g1) ∧
      m1.noteCount = (ostinatoAscending 16).noteCount ∧ m1.lengthInRows = (ostinatoAscending 16).lengthInRows ∧
      m1.notes.length = 8 ∧
      g1 = GenRNG.advance (gravityDraws (ostinatoAscending 16) 4 (ostinatoAscending 16).noteCount.toNat) GenRNG.init ∧
      (∀ i : Nat, (ostinatoAscending 16).noteCount ≤ (i : Int) → m1.notes[i]? = (ostinatoAscending 16).notes[i]?) ∧
      ∀ (i : Nat) (n : MotifNote), (i : Int) < (ostinatoAscending 16).noteCount → (ostinatoAscending 16).notes[i]? = some n →
        ∃ n1, m1.notes[i]? = some n1 ∧ n1.rowOffset = n.rowOffset ∧
          n1.velOffset = n.velOffset ∧ n1.duration = n.duration ∧ n1.isRest = n.isRest ∧
          ((strongNote 4 n = true ∧
              F32.lt (GenRNG.advance (gravityDraws (ostinatoAscending 16) 4 i) GenRNG.init).randFloat.1 (F32.fin 1)
                = true ∧
              ({} : BarChord).isChordTone n.relativeDegree (7 : Int) = .ok false) →
            |n.relativeDegree| < 900 →
            ({} : BarChord).isChordTone n1.relativeDegree (7 : Int) = .ok true ∧
            IsFirstNearest n.relativeDegree
              (specGravityCandidates ({} : BarChord) (if (7 : Int) ≤ 0 then 7 else (7 : Int)))
              n1.relativeDegree) ∧
          (¬(strongNote 4 n = true ∧
              F32.lt (GenRNG.advance (gravityDraws (ostinatoAscending 16) 4 i) GenRNG.init).randFloat.1 (F32.fin 1)
                = true ∧
              ({} : BarChord).isChordTone n.relativeDegree (7 : Int) = .ok false) →
            n1.relativeDegree = n.relativeDegree) :=
  applyChordToneGravity_postcondition GenRNG.init (ostinatoAscending 16) {} 7 4 (F32.fin 1)
    (by decide) rfl (by decide) (by decide) (by decide) (by decide) (by decide) rfl

/-! ## The contour RANDOM in `generateFill` -/

/-- A product with the `float` zero is never above a draw of `randFloat`. -/
theorem draw_not_below_zero_product (g : GenRNG) (x : F32) :
    F32.lt g.randFloat.1 (F32.mul x (F32.fin 0)) = false := by
  obtain ⟨-, hr, h0, -⟩ := randFloat_eq g
  rw [hr]
  cases x with
  | fin a =>
    simp only [F32.mul, mul_zero, F32.round_zero, F32.lt, decide_eq_false_iff_not, not_lt]
    exact h0
  | inf s => simp [F32.mul, F32.lt]
  | nan => simp [F32.mul, F32.lt]

/-- At complexity 0 the statement `switch (params.role)` of `applyEffects` leaves the grid
as it is for every role but Pad. -/
theorem effectForRole_zero {maxRows : Int} {params : GenPatternParams} {startRow row : Int}
    {largeInterval longNote : Bool} {s s1 : DivPattern × GenRNG} (hrole : params.role ≠ 2)
    (h : effectForRole maxRows params (F32.fin 0) startRow row largeInterval longNote s
      = .ok s1) :
    s1.1 = s.1 := by
  unfold effectForRole at h
  dsimp only at h
  simp only [draw_not_below_zero_product, Bool.and_false, Bool.false_eq_true, and_false, if_false] at h
  rcases ite_ok h with ⟨-, h⟩ | ⟨-, h⟩
  · cases h
    rfl
  rcases ite_ok h with ⟨-, h⟩ | ⟨-, h⟩
  · obtain ⟨r, -, h⟩ := bind_ok h
    cases h
    rfl
  rcases ite_ok h with ⟨h2, -⟩ | ⟨-, h⟩
  · exact absurd h2 hrole
  rcases ite_ok h with ⟨-, h⟩ | ⟨-, h⟩
  · obtain ⟨r, -, h⟩ := bind_ok h
    cases h
    rfl
  · cases h
    rfl

/-- At complexity 0 the body of the loop of `applyEffects` leaves the grid as it is for
every role but Pad. -/
theorem effectStep_zero {maxRows : Int} {params : GenPatternParams} {startRow endRow row : Int}
    {s s1 : DivPattern × GenRNG} (hrole : params.role ≠ 2)
    (h : effectStep maxRows params (F32.fin 0) startRow endRow row s = .ok s1) :
    s1.1 = s.1 := by
  unfold effectStep at h
  rcases ite_pure_ok h with ⟨-, rfl⟩ | ⟨-, h⟩
  · rfl
  obtain ⟨note, -, h⟩ := bind_ok h
  rcases ite_pure_ok h with ⟨-, rfl⟩ | ⟨-, h⟩
  · rfl
  obtain ⟨prevRow, -, h⟩ := bind_ok h
  obtain ⟨li, -, h⟩ := bind_ok h
  obtain ⟨ln, -, h⟩ := bind_ok h
  exact effectForRole_zero hrole h

/-- At complexity 0 `applyEffects` changes no cell of the grid for every role but Pad. -/
theorem applyEffects_zero_other_roles {maxRows : Int} {g g1 : GenRNG} {pat pat1 : DivPattern}
    {params : GenPatternParams} {style : StylePreset} {startRow endRow : Int}
    (hrole : params.role ≠ 2) (hcx : params.complexity = 0)
    (h : applyEffects maxRows g pat params style startRow endRow = .ok (pat1, g1)) :
    pat1 = pat := by
  unfold applyEffects at h
  simp only [hcx, F32.div_zero_hundred] at h
  exact forLoop_inv (fun s => s.1 = pat) _ _ _
    (fun i s s1 hs hb => (effectStep_zero hrole hb).trans hs) _ _ _ _ rfl h

/-- The effects pass for the role Lead at complexity 0 on the grid of one note: no cell
changes and one draw is made. -/
theorem applyEffects_lead_single (g : GenRNG) (style : StylePreset) :
    applyEffects 256 g singleNotePattern leadParams style 0 1
      = .ok (singleNotePattern, g.next.2) := by
  unfold applyEffects
  have hc : leadParams.complexity = 0 := rfl
  simp only [hc, F32.div_zero_hundred]
  rw [show ((1 : Int) - 0).toNat = 1 from rfl, forLoop_single rfl (fun _ => rfl)]
  unfold effectStep
  rw [if_neg (by decide)]
  have hr : singleNotePattern.readNote 256 0 = .ok 60 := rfl
  rw [hr, ok_bind, if_neg (by decide)]
  have hp : findPrevNote 256 singleNotePattern 0 ((0 : Int) - 0).toNat (0 - 1) = .ok (-1) := rfl
  rw [hp, ok_bind, if_neg (by decide), pure_bind_ok]
  have hl : isLongNote 256 singleNotePattern 0 1 2 (0 + 1) = .ok true := rfl
  rw [hl, ok_bind]
  unfold effectForRole
  dsimp only
  simp only [draw_not_below_zero_product, Bool.and_false, Bool.false_eq_true, if_false]
  rfl

/-- A row assignment inside the grid. -/
theorem modifyRow_in (maxRows : Int) (pat : DivPattern) (row : Int) (f : PatRow → PatRow)
    (h : 0 ≤ row ∧ row < maxRows) :
    pat.modifyRow maxRows row f
      = .ok { newData := fun r => if r = row then f (pat.newData r) else pat.newData r } := by
  unfold DivPattern.modifyRow
  rw [if_pos h]

/-- The effects pass for the role Pad at complexity 0 on the grid of one note, from a state
whose first draw is below `0.5f`: the vibrato command `0x04` is written to the note. -/
theorem applyEffects_pad_single (g : GenRNG) (style : StylePreset)
    (hdraw : F32.lt g.randFloat.1 (F32.fin (1 / 2)) = true) :
    ∃ pat1 g1, applyEffects 256 g singleNotePattern padParams style 0 1 = .ok (pat1, g1) ∧
      (pat1.newData 0).fx = 4 ∧ 0x21 ≤ (pat1.newData 0).fxVal ∧
      (pat1.newData 0).fxVal ≤ 0x33 := by
  obtain ⟨sp, g2, hsp, hsp0, hsp1, -⟩ := randIntE_total g.randFloat.2 2 3
    (by decide) (by decide) (by decide)
  obtain ⟨dp, g3, hdp, hdp0, hdp1, -⟩ := randIntE_total g2 1 3
    (by decide) (by decide) (by decide)
  have hs : sp = 2 ∨ sp = 3 := by omega
  have hd : dp = 1 ∨ dp = 2 ∨ dp = 3 := by omega
  apply Exists.intro
  refine ⟨g3, ?_, ?_, ?_, ?_⟩
  · unfold applyEffects
    rw [show ((1 : Int) - 0).toNat = 1 from rfl, forLoop_single rfl (fun _ => rfl)]
    unfold effectStep
    rw [if_neg (by decide)]
    have hr : singleNotePattern.readNote 256 0 = .ok 60 := rfl
    rw [hr, ok_bind, if_neg (by decide)]
    have hp : findPrevNote 256 singleNotePattern 0 ((0 : Int) - 0).toNat (0 - 1) = .ok (-1) :=
      rfl
    rw [hp, ok_bind, if_neg (by decide), pure_bind_ok]
    have hl : isLongNote 256 singleNotePattern 0 1 2 (0 + 1) = .ok true := rfl
    rw [hl, ok_bind]
    unfold effectForRole
    dsimp only
    have hrole : padParams.role = 2 := rfl
    rw [hrole, if_neg (by decide), if_neg (by decide), if_pos rfl, if_pos hdraw]
    rw [modifyRow_in 256 _ 0 _ (by decide), ok_bind, hsp, ok_bind, hdp, ok_bind,
      modifyRow_in 256 _ 0 _ (by decide), ok_bind]
    rfl
  · rfl
  · simp only [if_true]
    rcases hs with rfl | rfl <;> rcases hd with rfl | rfl | rfl <;> decide
  · simp only [if_true]
    rcases hs with rfl | rfl <;> rcases hd with rfl | rfl | rfl <;> decide

/-- The first draw of `randFloat` after construction is below `0.5f`. -/
theorem randFloat_init_lt_half : F32.lt GenRNG.init.randFloat.1 (F32.fin (1 / 2)) = true := by
  obtain ⟨-, hr, -, -⟩ := randFloat_eq GenRNG.init
  rw [hr]
  have hk : GenRNG.init.next.1 >>> 8 = 2026044 := by decide
  rw [hk]
  simp only [F32.lt, decide_eq_true_eq]
  norm_num

/-- C30. The effects pass is not silent at complexity 0 for the role Pad: on the grid that
holds one note at row 0, for the region `[0,1)` and every state whose first draw is below
`0.5f`, `applyEffects` writes the vibrato command `0x04` and a value in `0x21..0x33` to row
0, whose effect cells were empty. The test of the Pad branch is `rng.randFloat()<0.5f`,
without the factor `cf` of every other branch. -/
theorem applyEffects_pad_ignores_complexity (g : GenRNG) (style : StylePreset)
    (hdraw : F32.lt g.randFloat.1 (F32.fin (1 / 2)) = true) :
    padParams.complexity = 0 ∧ (singleNotePattern.newData 0).fx = -1 ∧
    (singleNotePattern.newData 0).fxVal = -1 ∧
    ∃ pat1 g1, applyEffects 256 g singleNotePattern padParams style 0 1 = .ok (pat1, g1) ∧
      (pat1.newData 0).fx = 4 ∧ 0x21 ≤ (pat1.newData 0).fxVal ∧
      (pat1.newData 0).fxVal ≤ 0x33 :=
  ⟨rfl, rfl, rfl, applyEffects_pad_single g style hdraw⟩

/-- C30, instance: the generator as constructed (seed 12345) and the default style. -/
theorem applyEffects_pad_ignores_complexity_witness :
    F32.lt GenRNG.init.randFloat.1 (F32.fin (1 / 2)) = true ∧
    padParams.complexity = 0 ∧ (singleNotePattern.newData 0).fx = -1 ∧
    (singleNotePattern.newData 0).fxVal = -1 ∧
    ∃ pat1 g1, applyEffects 256 GenRNG.init singleNotePattern padParams {} 0 1
        = .ok (pat1, g1) ∧
      (pat1.newData 0).fx = 4 ∧ 0x21 ≤ (pat1.newData 0).fxVal ∧
      (pat1.newData 0).fxVal ≤ 0x33 :=
  ⟨randFloat_init_lt_half,
    applyEffects_pad_ignores_complexity GenRNG.init {} randFloat_init_lt_half⟩

/-! ## Groove lookup -/

/-- The shape of every template of `buildGrooveTemplate`: 16 velocities in `[0x30,0x7F]`
with `0x7F` at row 0, and the template of the constructor for an identifier outside the
five known values. -/
theorem buildGrooveTemplate_shape (type : Int) :
    (buildGrooveTemplate type).velocity.length = 16 ∧
    (∀ v ∈ (buildGrooveTemplate type).velocity, 0x30 ≤ v ∧ v ≤ 0x7F) ∧
    (buildGrooveTemplate type).velocity[0]? = some 0x7F ∧
    (type < 0 ∨ 4 < type →
      (buildGrooveTemplate type).velocity =
        [0x7F, 0x68, 0x68, 0x68, 0x70, 0x68, 0x68, 0x68, 0x74, 0x68, 0x68, 0x68, 0x70, 0x68,
         0x68, 0x68]) := by
  unfold buildGrooveTemplate
  split_ifs with h0 h1 h2 h3 h4
  · subst h0; decide
  · subst h1; decide
  · subst h2; decide
  · subst h3; decide
  · subst h4; decide
  · refine ⟨by decide, by decide, by decide, fun _ => rfl⟩

/-- C35, amended. `buildGrooveTemplate` is a lookup: for every groove identifier the
template has 16 velocities, each in `[0x30,0x7F]`, with `0x7F` at row 0; for an identifier
outside the five known values it is the template of the constructor `GrooveTemplate()`
(`0x7F` at row 0, `0x70` at rows 4 and 12, `0x74` at row 8 and `0x68` elsewhere), which the
`default` branch of the `switch` leaves untouched. -/
theorem buildGrooveTemplate_lookup (type : Int) :
    (buildGrooveTemplate type).velocity.length = 16 ∧
    (∀ v ∈ (buildGrooveTemplate type).velocity, 0x30 ≤ v ∧ v ≤ 0x7F) ∧
    (buildGrooveTemplate type).velocity[0]? = some 0x7F ∧
    (type < 0 ∨ 4 < type →
      (buildGrooveTemplate type).velocity =
        [0x7F, 0x68, 0x68, 0x68, 0x70, 0x68, 0x68, 0x68, 0x74, 0x68, 0x68, 0x68, 0x70, 0x68,
         0x68, 0x68]) :=
  buildGrooveTemplate_shape type

/-- C35, counterexample: for the groove identifier 5, which is none of the five known
values, the velocity of row 1 is `0x68`, while `GEN_GROOVE_STRAIGHT` has `0x50` there. -/
theorem buildGrooveTemplate_unknown_not_straight :
    (buildGrooveTemplate 5).velocity[1]? = some 0x68 ∧
    (buildGrooveTemplate 0).velocity[1]? = some 0x50 ∧
    (buildGrooveTemplate 5).velocity ≠ (buildGrooveTemplate 0).velocity := by
  decide

/-! ## Built-in presets -/

/-- Legal constraints with an allowed list of `int` size are ordered. -/
theorem PatchRoleConstraints.Legal.ordered {c : PatchRoleConstraints} (h : c.Legal)
    (hl : (c.algorithms.length : Int) ≤ 2147483647) : c.Ordered := by
  obtain ⟨hfb, hlen, halg, hops⟩ := h
  refine ⟨by omega, hlen, hl, ?_⟩
  intro oc hoc
  have := hops oc hoc
  unfold OperatorConstraints.Legal at this
  unfold OperatorConstraints.Ordered
  omega

/-- An operator within legal constraints is legal. -/
theorem FMOperator.Within.legal {op : FMOperator} {oc : OperatorConstraints}
    (h : op.Within oc) (hoc : oc.Legal) : op.Legal := by
  unfold FMOperator.Within at h
  unfold OperatorConstraints.Legal at hoc
  unfold FMOperator.Legal
  omega

set_option maxRecDepth 100000 in
/-- The five built-in presets have seven roles each, all with legal constraints and at most
eight allowed algorithms. -/
theorem builtin_presets_legal :
    ∀ p ∈ StyleEngine.init.presets,
      p.roles.length = 7 ∧ ∀ rc ∈ p.roles, rc.Legal ∧ rc.algorithms.length ≤ 8 := by
  decide

/-- C39. The presets loaded by `loadBuiltinPresets` are Thunder Force, Streets of Rage,
Sonic, M.U.S.H.A. and Custom. For each of them `p` and each of its seven roles `rc`: the
four operator slots have all ten `(min,max)` pairs ordered and within the legal FM ranges,
`0 <= feedbackMin <= feedbackMax <= 7`, and every allowed algorithm lies in `0..7`; hence
`PatchGenerator::generate` on `rc` returns, for every generator state, a patch whose
algorithm and feedback are at most 7 and whose four operators have every parameter in its
legal range. -/
theorem builtin_presets_well_formed (g : GenRNG) (ins0 : DivInstrument) (role : Int)
    (p : StylePreset) (rc : PatchRoleConstraints) (hp : p ∈ StyleEngine.init.presets)
    (hrc : rc ∈ p.roles) (hins : ins0.op.length = 4) :
    (StyleEngine.loadBuiltinPresets { presets := [], activePresetIdx := 0 }).presets.map
        (fun q => q.name)
      = ["Thunder Force", "Streets of Rage", "Sonic", "M.U.S.H.A.", "Custom"] ∧
    p.roles.length = 7 ∧ rc.Legal ∧
    ∃ ins g1, PatchGenerator.generate g ins0 role rc = some (ins, g1) ∧
      ins.alg ≤ 7 ∧ ins.fb ≤ 7 ∧ ins.op.length = 4 ∧ ∀ op ∈ ins.op, op.Legal := by
  obtain ⟨h7, hall⟩ := builtin_presets_legal p hp
  obtain ⟨hleg, hlen⟩ := hall rc hrc
  have hord := hleg.ordered (by omega)
  obtain ⟨ins, g1, hgen, -, -, hl4, hops, hfb, halg1, halg2⟩ :=
    generate_spec g ins0 role rc hord hins
  refine ⟨rfl, h7, hleg, ins, g1, hgen, ?_, ?_, hl4, ?_⟩
  · by_cases hne : rc.algorithms = []
    · exact halg2 hne
    · obtain ⟨a, ha, hia⟩ := halg1 hne
      have hb := hleg.2.2.1 a ha
      have := toU8_of_range hb.1 (by omega : a ≤ 255)
      rw [hia]
      omega
  · have := hleg.1
    omega
  · intro op hop
    obtain ⟨i, hi, rfl⟩ := List.getElem_of_mem hop
    have hi4 : i < rc.ops.length := by rw [hleg.2.1]; omega
    have hw := (hops i ins.op[i] rc.ops[i] (List.getElem?_eq_getElem hi)
      (List.getElem?_eq_getElem hi4)).1
    exact hw.legal (hleg.2.2.2 _ (List.getElem_mem hi4))

/-- C39, instance: the Lead constraints of Thunder Force, from the state of a newly
constructed generator. -/
theorem builtin_presets_well_formed_witness :
    genPresetThunderForce ∈ StyleEngine.init.presets ∧
    (∃ rc, genPresetThunderForce.roles[0]? = some rc ∧ rc ∈ genPresetThunderForce.roles ∧
      rc.Legal ∧
      ∃ ins g1, PatchGenerator.generate GenRNG.init
          { isFM := false, name := "", alg := 0, fb := 0, ops := 0,
            op := List.replicate 4 ⟨0, 0, 0, 0, 0, 0, 0, 0, 0, 0, false⟩ } 0 rc
          = some (ins, g1) ∧
        ins.alg ≤ 7 ∧ ins.fb ≤ 7 ∧ ins.op.length = 4 ∧ ∀ op ∈ ins.op, op.Legal) := by
  have hp : genPresetThunderForce ∈ StyleEngine.init.presets := by
    simp [StyleEngine.init, StyleEngine.loadBuiltinPresets]
  obtain ⟨rc, hrc⟩ : ∃ rc, genPresetThunderForce.roles[0]? = some rc := ⟨_, rfl⟩
  have hmem : rc ∈ genPresetThunderForce.roles := List.getElem?_mem hrc
  have h := builtin_presets_well_formed GenRNG.init
    { isFM := false, name := "", alg := 0, fb := 0, ops := 0,
      op := List.replicate 4 ⟨0, 0, 0, 0, 0, 0, 0, 0, 0, 0, false⟩ } 0
    genPresetThunderForce rc hp hmem rfl
  exact ⟨hp, rc, hrc, hmem, h.2.2.1, h.2.2.2⟩

/-! ## The generator never degenerates -/

/-- A word that equals its own right shift is zero. -/
theorem xor_shiftRight_eq_zero {z k : Nat} (hk : k ≠ 0) (h : z ^^^ (z >>> k) = 0) : z = 0 := by
  rw [Nat.xor_eq_zero, Nat.shiftRight_eq_div_pow] at h
  by_contra hz
  have : z / 2 ^ k < z := Nat.div_lt_self (Nat.pos_of_ne_zero hz) (Nat.one_lt_two_pow hk)
  omega

/-- The xor of a `uint32_t` with a right shift of itself is a `uint32_t`. -/
theorem xor_shiftRight_lt {z : Nat} (k : Nat) (hz : z < 4294967296) :
    z ^^^ (z >>> k) < 4294967296 := by
  have h1 : z < 2 ^ 32 := hz
  have h2 : z >>> k < 2 ^ 32 := by
    rw [Nat.shiftRight_eq_div_pow]
    exact lt_of_le_of_lt (Nat.div_le_self _ _) h1
  exact Nat.xor_lt_two_pow h1 h2

/-- One round of the splitmix32 finaliser, a xor-shift followed by a multiplication by an
odd constant, maps only zero to zero. -/
theorem mix_round_eq_zero {x : Nat} (k c : Nat) (hk : k ≠ 0)
    (hc : c = 0x85ebca6b ∨ c = 0xc2b2ae35) (hx : x < 4294967296)
    (h : u32 ((x ^^^ x >>> k) * c) = 0) : x = 0 := by
  have b := xor_shiftRight_lt k hx
  apply xor_shiftRight_eq_zero hk
  generalize x ^^^ x >>> k = y at h b
  have hd : 4294967296 ∣ y * c := Nat.dvd_of_mod_eq_zero h
  have hco : Nat.Coprime 4294967296 c := by
    rcases hc with rfl | rfl <;> norm_num
  exact Nat.eq_zero_of_dvd_of_lt (hco.dvd_of_dvd_mul_right hd) b

/-- The splitmix32 finaliser maps only zero to zero. -/
theorem seedMix_eq_zero {z : Nat} (hz : z < 4294967296) (h : seedMix z = 0) : z = 0 := by
  unfold seedMix at h
  have h2 := xor_shiftRight_eq_zero (by decide) h
  have h3 := mix_round_eq_zero 13 0xc2b2ae35 (by decide) (Or.inr rfl)
    (show u32 ((z ^^^ z >>> 16) * 0x85ebca6b) < 4294967296 from Nat.mod_lt _ (by decide)) h2
  exact mix_round_eq_zero 16 0x85ebca6b (by decide) (Or.inl rfl) hz h3

/-- The splitmix32 finaliser returns a `uint32_t`. -/
theorem seedMix_lt (z : Nat) : seedMix z < 4294967296 := by
  unfold seedMix
  exact xor_shiftRight_lt 16 (Nat.mod_lt _ (by decide))

/-- A disjunction of words is zero only if both are. -/
theorem or_eq_zero_both {a b : Nat} (h : a ||| b = 0) : a = 0 ∧ b = 0 := by
  constructor <;>
  · apply Nat.eq_of_testBit_eq
    intro i
    have := congrArg (fun n => n.testBit i) h
    simp only [Nat.testBit_or, Nat.zero_testBit, Bool.or_eq_false_iff] at this
    simp [this.1, this.2]

/-- A rotation by 11 of a `uint32_t` is zero only for zero. -/
theorem rotl_eleven_eq_zero {x : Nat} (hx : x < 4294967296) (h : rotl x 11 = 0) : x = 0 := by
  have ha : u32 (x <<< 11) < 2 ^ 32 := Nat.mod_lt _ (by decide)
  have hb : x >>> 21 < 2 ^ 32 := by
    rw [Nat.shiftRight_eq_div_pow]
    exact lt_of_le_of_lt (Nat.div_le_self _ _) hx
  have hor := Nat.or_lt_two_pow ha hb
  have h0 : u32 (x <<< 11) ||| x >>> 21 = 0 := by
    have h' : (u32 (x <<< 11) ||| x >>> 21) % 4294967296 = 0 := h
    rwa [Nat.mod_eq_of_lt hor] at h'
  obtain ⟨h1, h2⟩ := or_eq_zero_both h0
  rw [Nat.shiftRight_eq_div_pow] at h2
  rw [Nat.shiftLeft_eq] at h1
  unfold u32 at h1
  norm_num at h1 h2
  omega

/-- A rotation of a `uint32_t` is a `uint32_t`. -/
theorem rotl_lt (x k : Nat) : rotl x k < 4294967296 := by
  unfold rotl u32
  exact Nat.mod_lt _ (by decide)

/-- `next()` keeps the state words in `uint32_t` and maps only the all-zero state to the
all-zero state. -/
theorem next_state_ne_zero (g : GenRNG) (hw : g.WF) (hne : g ≠ GenRNG.zero) :
    g.next.2.WF ∧ g.next.2 ≠ GenRNG.zero := by
  obtain ⟨h0, h1, h2, h3⟩ := hw
  have e0 : g.s0 < 2 ^ 32 := h0
  have e1 : g.s1 < 2 ^ 32 := h1
  have e2 : g.s2 < 2 ^ 32 := h2
  have e3 : g.s3 < 2 ^ 32 := h3
  have x20 := Nat.xor_lt_two_pow e2 e0
  have x31 := Nat.xor_lt_two_pow e3 e1
  constructor
  · unfold GenRNG.next GenRNG.WF
    simp only
    refine ⟨Nat.xor_lt_two_pow e0 x31, Nat.xor_lt_two_pow e1 x20, ?_, rotl_lt _ _⟩
    exact Nat.xor_lt_two_pow x20 (show u32 (g.s1 <<< 9) < 2 ^ 32 from Nat.mod_lt _ (by decide))
  · intro hz
    apply hne
    unfold GenRNG.next GenRNG.zero at hz
    simp only [GenRNG.mk.injEq] at hz
    obtain ⟨z0, z1, z2, z3⟩ := hz
    have a3 := rotl_eleven_eq_zero x31 z3
    rw [a3, Nat.xor_zero] at z0
    rw [Nat.xor_eq_zero] at a3 z1 z2
    rw [z0, Nat.xor_zero] at z1 z2
    have hs1 : g.s1 = 0 := by
      have : g.s1 = u32 (g.s1 <<< 9) := z1.trans z2
      rw [Nat.shiftLeft_eq] at this
      unfold u32 at this
      norm_num at this
      omega
    cases g
    simp only [GenRNG.zero, GenRNG.mk.injEq] at *
    omega

/-- After a running seed of zero, the next three running seeds of `seed` are not zero. -/
theorem seed_running_ne_zero {a : Nat} (h : a = 0) :
    u32 (a + 0x9e3779b9) ≠ 0 ∧ u32 (u32 (a + 0x9e3779b9) + 0x9e3779b9) ≠ 0 ∧
    u32 (u32 (u32 (a + 0x9e3779b9) + 0x9e3779b9) + 0x9e3779b9) ≠ 0 := by
  subst h
  decide

/-- The state after `seed(s)`: every word is a `uint32_t` and at most one of them is
zero. -/
theorem seed_state (g : GenRNG) (s : Nat) :
    (g.seed s).WF ∧ (g.seed s).zeroWords ≤ 1 := by
  rw [seed_eq]
  constructor
  · exact ⟨seedMix_lt _, seedMix_lt _, seedMix_lt _, seedMix_lt _⟩
  · unfold GenRNG.zeroWords
    simp only
    have l1 : u32 (u32 s + 0x9e3779b9) < 4294967296 := Nat.mod_lt _ (by decide)
    have n1 := @seed_running_ne_zero (u32 (u32 s + 0x9e3779b9))
    generalize u32 (u32 s + 0x9e3779b9) = a1 at l1 n1 ⊢
    have l2 : u32 (a1 + 0x9e3779b9) < 4294967296 := Nat.mod_lt _ (by decide)
    have n2 := @seed_running_ne_zero (u32 (a1 + 0x9e3779b9))
    generalize u32 (a1 + 0x9e3779b9) = a2 at l2 n1 n2 ⊢
    have l3 : u32 (a2 + 0x9e3779b9) < 4294967296 := Nat.mod_lt _ (by decide)
    have n3 := @seed_running_ne_zero (u32 (a2 + 0x9e3779b9))
    generalize u32 (a2 + 0x9e3779b9) = a3 at l3 n1 n2 n3 ⊢
    have l4 : u32 (a3 + 0x9e3779b9) < 4294967296 := Nat.mod_lt _ (by decide)
    generalize u32 (a3 + 0x9e3779b9) = a4 at l4 n1 n2 n3 ⊢
    have k1 := @seedMix_eq_zero a1 l1
    have k2 := @seedMix_eq_zero a2 l2
    have k3 := @seedMix_eq_zero a3 l3
    have k4 := @seedMix_eq_zero a4 l4
    generalize seedMix a1 = w1 at k1 ⊢
    generalize seedMix a2 = w2 at k2 ⊢
    generalize seedMix a3 = w3 at k3 ⊢
    generalize seedMix a4 = w4 at k4 ⊢
    split_ifs with c1 c2 c3 c4 <;> omega

/-- A state with at most one zero word is not the all-zero state. -/
theorem zeroWords_ne_zero {g : GenRNG} (h : g.zeroWords ≤ 1) : g ≠ GenRNG.zero := by
  intro hz
  rw [hz] at h
  revert h
  decide

/-- Every state reached by calls of `next()` from a state that is not all-zero is a
`uint32_t` state that is not all-zero. -/
theorem advance_ne_zero (n : Nat) : ∀ g : GenRNG, g.WF → g ≠ GenRNG.zero →
    (GenRNG.advance n g).WF ∧ GenRNG.advance n g ≠ GenRNG.zero := by
  induction n with
  | zero => intro g hw hne; exact ⟨hw, hne⟩
  | succ n ih =>
    intro g hw hne
    obtain ⟨h1, h2⟩ := next_state_ne_zero g hw hne
    exact ih _ h1 h2

/-- C40. For every seed `s` and prior state, the state produced by `seed(s)` has at most
one zero word among its four `uint32_t` words, so it is not the all-zero state; `next()`
maps every `uint32_t` state that is not all-zero to a state that is not all-zero; hence no
state reached from a seed by calls of `next()` is the all-zero state, which `next()` maps to
itself while returning 0. -/
theorem rng_never_degenerates (g0 : GenRNG) (s : Nat) :
    (g0.seed s).WF ∧ (g0.seed s).zeroWords ≤ 1 ∧ g0.seed s ≠ GenRNG.zero ∧
    (∀ g : GenRNG, g.WF → g ≠ GenRNG.zero → g.next.2.WF ∧ g.next.2 ≠ GenRNG.zero) ∧
    (∀ n : Nat, GenRNG.advance n (g0.seed s) ≠ GenRNG.zero) ∧
    GenRNG.zero.next = (0, GenRNG.zero) := by
  obtain ⟨hw, hz⟩ := seed_state g0 s
  exact ⟨hw, hz, zeroWords_ne_zero hz, next_state_ne_zero,
    fun n => (advance_ne_zero n _ hw (zeroWords_ne_zero hz)).2, by decide⟩

/-! ## Runs that return -/

/-- A run that returns a value satisfying `P` returns a value satisfying what `P` implies. -/
theorem returns_mono {α : Type} {x : Except Fault α} {P Q : α → Prop} (h : Returns x P)
    (hpq : ∀ a, P a → Q a) : Returns x Q := by
  obtain ⟨a, ha, hp⟩ := h
  exact ⟨a, ha, hpq a hp⟩

/-- A returned value satisfies the postcondition it is given. -/
theorem returns_ok {α : Type} {a : α} {Q : α → Prop} (h : Q a) :
    Returns (Except.ok a : Except Fault α) Q := ⟨a, rfl, h⟩

/-- The same for `pure`. -/
theorem returns_pure {α : Type} {a : α} {Q : α → Prop} (h : Q a) :
    Returns (pure a : Except Fault α) Q := ⟨a, rfl, h⟩

/-- Sequencing of two runs that return. -/
theorem returns_bind {α β : Type} {x : Except Fault α} {f : α → Except Fault β}
    {P : α → Prop} {Q : β → Prop} (hx : Returns x P) (hf : ∀ a, P a → Returns (f a) Q) :
    Returns (x >>= f) Q := by
  obtain ⟨a, rfl, hp⟩ := hx
  exact hf a hp

/-- The same for `Except.bind`. -/
theorem returns_bind2 {α β : Type} {x : Except Fault α} {f : α → Except Fault β}
    {P : α → Prop} {Q : β → Prop} (hx : Returns x P) (hf : ∀ a, P a → Returns (f a) Q) :
    Returns (x.bind f) Q := by
  obtain ⟨a, rfl, hp⟩ := hx
  exact hf a hp

/-- A function applied to the value of a run that returns. -/
theorem returns_map {α β : Type} {x : Except Fault α} {f : α → β}
    {P : α → Prop} {Q : β → Prop} (hx : Returns x P) (hf : ∀ a, P a → Q (f a)) :
    Returns (x.map f) Q := by
  obtain ⟨a, rfl, hp⟩ := hx
  exact ⟨f a, rfl, hf a hp⟩

/-- The same in the functor notation. -/
theorem returns_fmap {α β : Type} {x : Except Fault α} {f : α → β}
    {P : α → Prop} {Q : β → Prop} (hx : Returns x P) (hf : ∀ a, P a → Q (f a)) :
    Returns (f <$> x) Q := by
  obtain ⟨a, rfl, hp⟩ := hx
  exact ⟨f a, rfl, hf a hp⟩

/-- A conditional both of whose branches return. -/
theorem returns_ite {α : Type} {c : Prop} [Decidable c] {X Y : Except Fault α}
    {Q : α → Prop} (hX : c → Returns X Q) (hY : ¬c → Returns Y Q) :
    Returns (if c then X else Y) Q := by
  split
  · exact hX ‹c›
  · exact hY ‹¬c›

/-- A loop returns when its body returns and keeps the invariant `I` wherever the condition
holds, and the condition fails after `fuel` iterations at the latest. The invariant is
indexed by the loop variable; the loop ends at an index at which the condition fails. -/
theorem forLoop_returns {σ : Type} (cond : Int → σ → Bool) (step : Int)
    (body : Int → σ → Except Fault σ) (I : Int → σ → Prop) (i0 : Int) (hstep : 0 ≤ step)
    (hbody : ∀ i s, i0 ≤ i → cond i s = true → I i s →
      Returns (body i s) (fun s1 => I (i + step) s1)) :
    ∀ (fuel : Nat) (i : Int) (s : σ), i0 ≤ i → I i s →
      (∀ s1, I (i + fuel * step) s1 → cond (i + fuel * step) s1 = false) →
      Returns (forLoop cond step body fuel i s)
        (fun s1 => ∃ j, i ≤ j ∧ I j s1 ∧ cond j s1 = false) := by
  intro fuel
  induction fuel with
  | zero =>
    intro i s hi hI hend
    have hc : cond i s = false := by
      have := hend s (by simpa using hI)
      simpa using this
    exact ⟨s, forLoop_stop hc, i, le_refl _, hI, hc⟩
  | succ n ih =>
    intro i s hi hI hend
    by_cases hc : cond i s = true
    · obtain ⟨s1, hb, hI1⟩ := hbody i s hi hc hI
      have e : i + step + (n : Int) * step = i + ((n + 1 : Nat) : Int) * step := by
        push_cast
        ring
      obtain ⟨s2, h2, j, hj, hIj, hcj⟩ := ih (i + step) s1 (by omega) hI1
        (fun s' hs' => by rw [e] at hs' ⊢; exact hend s' hs')
      refine ⟨s2, ?_, j, by omega, hIj, hcj⟩
      rw [forLoop_step hc hb rfl]
      exact h2
    · have hc' : cond i s = false := by simpa using hc
      exact ⟨s, forLoop_stop hc', i, le_refl _, hI, hc'⟩

/-- A draw of `randIntE` over a small range returns a value of the range. -/
theorem randIntE_returns (g : GenRNG) (min max : Int) (h0 : -1073741824 ≤ min)
    (h : min ≤ max) (h1 : max ≤ 1073741823) :
    Returns (randIntE g min max) (fun p => min ≤ p.1 ∧ p.1 ≤ max) := by
  obtain ⟨r, g1, hr, ha, hb, -⟩ := randIntE_total g min max h0 h h1
  exact ⟨(r, g1), hr, ha, hb⟩

/-- A remainder by a divisor that is not zero returns. -/
theorem imod_returns (a b : Int) (hb : b ≠ 0) :
    Returns (imod a b) (fun r => r = Int.tmod a b) := by
  unfold imod
  rw [if_neg hb]
  exact ⟨_, rfl, rfl⟩

/-- A read of a list inside its length returns an entry of the list. -/
theorem orFault_getElem_returns {α : Type} (f : Fault) (l : List α) (i : Nat)
    (hi : i < l.length) : Returns (orFault f l[i]?) (fun x => x ∈ l) := by
  rw [List.getElem?_eq_getElem hi]
  exact ⟨_, rfl, List.getElem_mem hi⟩

/-! ## Well-formed motifs -/

/-- The motif of the constructor `Motif()` has well-formed notes in every slot. -/
theorem allWF_default (r c : Int) : ({ lengthInRows := r, noteCount := c } : Motif).AllWF := by
  have h : (List.replicate 8 ({} : MotifNote)).length = 8 ∧
      ∀ n ∈ List.replicate 8 ({} : MotifNote), n.WellFormed := by decide
  exact h

/-- An assignment of a well-formed note to a slot of the array keeps every slot well
formed and leaves `noteCount` as it is. -/
theorem modifyNote_returns {m : Motif} {k : Int} {f : MotifNote → MotifNote} (hm : m.AllWF)
    (hk0 : 0 ≤ k) (hk : k < 8) (hf : ∀ n : MotifNote, n.WellFormed → (f n).WellFormed) :
    Returns (m.modifyNote k f) (fun m1 => m1.AllWF ∧ m1.noteCount = m.noteCount) := by
  obtain ⟨hl, hall⟩ := hm
  obtain ⟨i, rfl⟩ := Int.eq_ofNat_of_zero_le hk0
  have hi : i < m.notes.length := by omega
  rw [modifyNote_ok m i m.notes[i] f (by omega) (List.getElem?_eq_getElem hi)]
  refine ⟨_, rfl, ⟨by simp [hl], ?_⟩, rfl⟩
  intro n hn
  rcases List.mem_or_eq_of_mem_set hn with h | h
  · exact hall n h
  · rw [h]
    exact hf _ (hall _ (List.getElem_mem hi))

/-- The used notes of a motif whose slots are all well formed are well formed. -/
theorem Motif.AllWF.wellFormed {m : Motif} (h : m.AllWF) (h1 : 1 ≤ m.noteCount)
    (h8 : m.noteCount ≤ 8) : m.WellFormed :=
  ⟨h1, h8, h.1, fun _ n _ hn => h.2 n (List.getElem?_mem hn)⟩

/-! ## Role motif generators on a bar of 16 rows -/

/-- A note assembled from a row offset in `[0,15]`, a velocity offset in `[-20,20]` and the
rest flag of a well-formed note is well formed. -/
theorem wf_mk {n : MotifNote} (hn : n.WellFormed) (d r du v : Int) (hr0 : 0 ≤ r)
    (hr : r ≤ 15) (hv0 : -20 ≤ v) (hv : v ≤ 20) :
    ({ relativeDegree := d, rowOffset := r, duration := du, velOffset := v,
       isRest := n.isRest } : MotifNote).WellFormed :=
  ⟨hr0, hr, hv0, hv, hn.2.2.2.2⟩

/-- `generatePadMotif` on a bar of 16 rows returns 1 to 3 well-formed notes. -/
theorem generatePadMotif_wf (g : GenRNG) (density complexity : Int) (syncopation : F32)
    (scaleLen : Int) :
    Returns (generatePadMotif g density complexity syncopation 16 scaleLen)
      (fun p => p.1.AllWF ∧ 1 ≤ p.1.noteCount ∧ p.1.noteCount ≤ 8) := by
  unfold generatePadMotif
  dsimp only
  refine returns_bind (modifyNote_returns ?_ ?_ ?_ ?_) ?_
  · exact allWF_default _ _
  · decide
  · decide
  · exact fun n hn => wf_mk hn _ _ _ _ (by decide) (by decide) (by decide) (by decide)
  intro m1 ⟨w1, c1⟩
  dsimp only at c1
  refine returns_bind (P := fun m => m.AllWF ∧ 1 ≤ m.noteCount ∧ m.noteCount ≤ 2) ?_ ?_
  · refine returns_ite (fun _ => ?_) (fun _ => returns_pure ⟨w1, by omega, by omega⟩)
    refine returns_map (modifyNote_returns w1 (by decide) (by decide) ?_) ?_
    · exact fun n hn => wf_mk hn _ _ _ _ (by decide) (by decide) (by decide) (by decide)
    · intro m2 ⟨w2, c2⟩
      exact ⟨w2, le_of_eq_of_le rfl (by decide : (1 : Int) ≤ 2), le_refl _⟩
  intro m2 ⟨w2, l2, u2⟩
  refine returns_ite (fun _ => ?_) (fun _ => returns_pure ⟨w2, by dsimp only; omega, by dsimp only; omega⟩)
  refine returns_bind (modifyNote_returns w2 (by omega) (by omega) ?_) ?_
  · exact fun n hn => wf_mk hn _ _ _ _ (by decide) (by decide) (by decide) (by decide)
  intro m3 ⟨w3, c3⟩
  refine returns_pure ⟨w3, ?_, ?_⟩
  · show 1 ≤ iadd m3.noteCount 1
    rw [iadd_eq (by unfold InI32; omega)]
    omega
  · show iadd m3.noteCount 1 ≤ 8
    rw [iadd_eq (by unfold InI32; omega)]
    omega

/-- The value of a coin draw is one of its two arguments. -/
theorem coin_cases (g : GenRNG) (a b : Int) : (coin g a b).1 = a ∨ (coin g a b).1 = b := by
  unfold coin
  dsimp only
  split
  · exact Or.inl rfl
  · exact Or.inr rfl

/-- The scaled candidate rows of the funk bass lie in the bar. -/
theorem bassCandidates_range :
    ∀ x ∈ [0, 3, 6, 8, 11, 14].map (fun c : Int => Int.tdiv (imul c 16) 16),
      (0 : Int) ≤ x ∧ x ≤ 15 := by
  decide

/-- The body of the loop of the funk bass keeps the slots well formed and adds at most one
note. -/
theorem bassFunkStep_returns (df : F32) (scaleLen : Int) (c : Int) (s : Motif × GenRNG)
    (hc0 : 0 ≤ c) (hc : c < 6) (hw : s.1.AllWF) (h0 : 0 ≤ s.1.noteCount)
    (h8 : s.1.noteCount < 8) :
    Returns (bassFunkStep ([0, 3, 6, 8, 11, 14].map (fun c : Int => Int.tdiv (imul c 16) 16))
        df 16 scaleLen c s)
      (fun s1 => s1.1.AllWF ∧ 0 ≤ s1.1.noteCount ∧ s1.1.noteCount ≤ 8) := by
  unfold bassFunkStep
  dsimp only
  refine returns_ite (fun _ => ?_) (fun _ => returns_ok ⟨hw, h0, by dsimp only; omega⟩)
  rw [if_neg (by omega)]
  refine returns_bind2 (orFault_getElem_returns _ _ _ (by simp; omega)) ?_
  intro cand hcand
  have hr := bassCandidates_range cand hcand
  refine returns_bind2 (imod_returns _ _ (by decide)) ?_
  intro r _
  refine returns_map (modifyNote_returns hw h0 h8 ?_) ?_
  · exact fun n hn => wf_mk hn _ _ _ _ hr.1 hr.2 (by split <;> decide) (by split <;> decide)
  · intro m1 ⟨w1, c1⟩
    refine ⟨w1, ?_, ?_⟩
    · show 0 ≤ iadd m1.noteCount 1
      rw [iadd_eq (by unfold InI32; omega)]
      omega
    · show iadd m1.noteCount 1 ≤ 8
      rw [iadd_eq (by unfold InI32; omega)]
      omega

/-- `generateBassMotif` on a bar of 16 rows returns 2 to 8 well-formed notes. -/
theorem generateBassMotif_wf (g : GenRNG) (density complexity : Int) (syncopation : F32)
    (scaleLen : Int) :
    Returns (generateBassMotif g density complexity syncopation 16 scaleLen)
      (fun p => p.1.AllWF ∧ 1 ≤ p.1.noteCount ∧ p.1.noteCount ≤ 8) := by
  unfold generateBassMotif
  dsimp only
  refine returns_ite (fun _ => ?_) (fun _ => returns_ite (fun _ => ?_) (fun _ => ?_))
  · refine returns_bind (modifyNote_returns (allWF_default _ _) (by decide) (by decide) ?_) ?_
    · exact fun n hn => wf_mk hn _ _ _ _ (by decide) (by decide) (by decide) (by decide)
    intro m1 ⟨w1, c1⟩
    dsimp only at c1
    refine returns_bind (modifyNote_returns w1 (by decide) (by decide) ?_) ?_
    · intro n hn
      have hc := coin_cases
        (if (F32.round (3 / 10)).lt syncopation = true then g.randFloat.2 else g) (-1) 1
      refine wf_mk hn _ _ _ _ ?_ ?_ (by decide) (by decide) <;> split <;>
        rcases hc with h | h <;> first | (rw [h]; decide) | decide
    intro m2 ⟨w2, c2⟩
    refine returns_ite (fun _ => returns_ite (fun _ => ?_)
      (fun _ => returns_pure ⟨w2, by dsimp only; omega, by dsimp only; omega⟩))
      (fun _ => returns_pure ⟨w2, by dsimp only; omega, by dsimp only; omega⟩)
    refine returns_bind (modifyNote_returns w2 (by decide) (by decide) ?_) ?_
    · exact fun n hn => wf_mk hn _ _ _ _ (by decide) (by decide) (by decide) (by decide)
    intro m3 ⟨w3, c3⟩
    exact returns_pure ⟨w3, by dsimp only; omega, by dsimp only; omega⟩
  · refine returns_bind (modifyNote_returns (allWF_default _ _) (by decide) (by decide) ?_) ?_
    · exact fun n hn => wf_mk hn _ _ _ _ (by decide) (by decide) (by decide) (by decide)
    intro m1 ⟨w1, c1⟩
    refine returns_bind (modifyNote_returns w1 (by decide) (by decide) ?_) ?_
    · exact fun n hn => wf_mk hn _ _ _ _ (by decide) (by decide) (by decide) (by decide)
    intro m2 ⟨w2, c2⟩
    refine returns_bind (modifyNote_returns w2 (by decide) (by decide) ?_) ?_
    · exact fun n hn => wf_mk hn _ _ _ _ (by decide) (by decide) (by decide) (by decide)
    intro m3 ⟨w3, c3⟩
    refine returns_bind (modifyNote_returns w3 (by decide) (by decide) ?_) ?_
    · exact fun n hn => wf_mk hn _ _ _ _ (by decide) (by decide) (by decide) (by decide)
    intro m4 ⟨w4, c4⟩
    refine returns_pure ⟨w4, ?_, ?_⟩ <;>
    · dsimp only at c1 c2 c3 c4 ⊢
      omega
  · refine returns_bind (forLoop_returns _ 1 _
      (fun _ s => s.1.AllWF ∧ 0 ≤ s.1.noteCount ∧ s.1.noteCount ≤ 8) 0 (by decide) ?_
      6 0 _ (le_refl _) ⟨allWF_default _ _, by dsimp only; omega, by dsimp only; omega⟩ ?_) ?_
    · intro i s hi hc ⟨hw, h0, _⟩
      simp only [Bool.and_eq_true, decide_eq_true_eq] at hc
      exact bassFunkStep_returns _ _ i s hi hc.1 hw h0 hc.2
    · intro s1 _
      simp
    intro s ⟨j, _, ⟨hw, h0, h8⟩, _⟩
    refine returns_ite (fun _ => ?_) (fun hge => returns_pure ⟨hw, by omega, h8⟩)
    refine returns_bind (modifyNote_returns hw (by decide) (by decide) ?_) ?_
    · exact fun n hn => wf_mk hn _ _ _ _ (by decide) (by decide) (by decide) (by decide)
    intro m1 ⟨w1, c1⟩
    refine returns_bind (modifyNote_returns w1 (by decide) (by decide) ?_) ?_
    · exact fun n hn => wf_mk hn _ _ _ _ (by decide) (by decide) (by decide) (by decide)
    intro m2 ⟨w2, c2⟩
    exact returns_pure ⟨w2, by dsimp only; omega, by dsimp only; omega⟩

/-- The body of the loop of the stepwise lead keeps the slots well formed. -/
theorem leadStepwiseStep_returns (bp : List Int) (hl : bp.length = 5)
    (hb : ∀ x ∈ bp, (0 : Int) ≤ x ∧ x ≤ 15) (syncopation : F32) (i : Int)
    (s : Motif × Int × GenRNG) (hi0 : 0 ≤ i) (hi : i < s.1.noteCount) (hw : s.1.AllWF)
    (h8 : s.1.noteCount ≤ 8) :
    Returns (leadStepwiseStep bp syncopation 16 i s)
      (fun s1 => s1.1.AllWF ∧ s1.1.noteCount = s.1.noteCount) := by
  unfold leadStepwiseStep
  rw [if_neg (by omega)]
  have ht := Int.tmod_lt_of_pos i (show (0 : Int) < 5 by decide)
  have ht0 := Int.tmod_nonneg 5 hi0
  refine returns_bind (orFault_getElem_returns _ _ _ (by omega)) ?_
  intro pos hpos
  have hr := hb pos hpos
  dsimp only
  refine returns_bind (P := fun _ => True) ?_ ?_
  · refine returns_ite (fun _ => ?_) (fun _ => returns_pure trivial)
    exact returns_map (randIntE_returns _ 1 2 (by decide) (by decide) (by decide))
      (fun _ _ => trivial)
  intro dg _
  refine returns_bind (modifyNote_returns hw hi0 (by omega) ?_) ?_
  · intro n hn
    have hcl := genClamp_range (iadd pos (coin (if (F32.round (2 / 10)).lt syncopation = true
      then s.2.2.randFloat.2 else s.2.2) (-1) 1).1) 0 15 (by decide)
    refine wf_mk hn _ _ _ _ ?_ ?_ (by decide) (by decide) <;> split
    · exact hcl.1
    · exact hr.1
    · exact hcl.2
    · exact hr.2
  intro m1 ⟨w1, c1⟩
  exact returns_pure ⟨w1, c1⟩

/-- The body of the first loop of the sequential lead keeps the slots well formed. -/
theorem leadSeqStepA_returns (kernel : List Int) (hk : kernel.length = 3) (i : Int) (m : Motif)
    (hi0 : 0 ≤ i) (hi : i < 3) (hw : m.AllWF) :
    Returns (leadSeqStepA kernel 2 i m) (fun m1 => m1.AllWF ∧ m1.noteCount = m.noteCount) := by
  unfold leadSeqStepA
  rw [if_neg (by omega)]
  refine returns_bind2 (orFault_getElem_returns _ _ _ (by omega)) ?_
  intro k _
  refine modifyNote_returns hw hi0 (by omega) ?_
  intro n hn
  have e : imul i 2 = i * 2 := imul_eq (by unfold InI32; omega)
  refine wf_mk hn _ _ _ _ ?_ ?_ (by split <;> decide) (by split <;> decide)
  · rw [e]; omega
  · rw [e]; omega

/-- The body of the second loop of the sequential lead keeps the slots well formed. -/
theorem leadSeqStepB_returns (kernel : List Int) (hk : kernel.length = 3) (i : Int) (m : Motif)
    (hi0 : 0 ≤ i) (hi : i < 3) (hw : m.AllWF) :
    Returns (leadSeqStepB kernel 2 8 i m) (fun m1 => m1.AllWF ∧ m1.noteCount = m.noteCount) := by
  unfold leadSeqStepB
  rw [if_neg (by omega)]
  refine returns_bind2 (orFault_getElem_returns _ _ _ (by omega)) ?_
  intro k _
  have e3 : iadd 3 i = 3 + i := iadd_eq (by unfold InI32; omega)
  refine modifyNote_returns hw (by omega) (by omega) ?_
  intro n hn
  have e : imul i 2 = i * 2 := imul_eq (by unfold InI32; omega)
  have e2 : iadd 8 (i * 2) = 8 + i * 2 := iadd_eq (by unfold InI32; omega)
  refine wf_mk hn _ _ _ _ ?_ ?_ (by split <;> decide) (by split <;> decide)
  · rw [e, e2]; omega
  · rw [e, e2]; omega

/-- The body of the loop of the arpeggio lead keeps the slots well formed. -/
theorem leadArpStep_returns (startPos : Int) (hs : startPos = 0 ∨ startPos = 8) (i : Int)
    (m : Motif) (hi0 : 0 ≤ i) (hi : i < 8) (hw : m.AllWF) :
    Returns (leadArpStep startPos 16 i m)
      (fun m1 => m1.AllWF ∧ m1.noteCount = m.noteCount) := by
  unfold leadArpStep
  refine modifyNote_returns hw hi0 hi ?_
  intro n hn
  have e : iadd startPos i = startPos + i := iadd_eq (by unfold InI32; omega)
  have e15 : isub 16 1 = 15 := by decide
  have ev : iadd (-5) (if i = 0 then 10 else 0) = if i = 0 then 5 else -5 := by
    split <;> decide
  refine wf_mk hn _ _ _ _ ?_ ?_ ?_ ?_
  · rw [e, e15]; split <;> omega
  · rw [e, e15]; split <;> omega
  · rw [ev]; split <;> decide
  · rw [ev]; split <;> decide

/-- `generateLeadMotif` on a bar of 16 rows returns 3 to 8 well-formed notes. -/
theorem generateLeadMotif_wf (g : GenRNG) (density complexity : Int) (syncopation : F32)
    (scaleLen : Int) :
    Returns (generateLeadMotif g density complexity syncopation 16 scaleLen)
      (fun p => p.1.AllWF ∧ 1 ≤ p.1.noteCount ∧ p.1.noteCount ≤ 8) := by
  unfold generateLeadMotif
  dsimp only
  refine returns_ite (fun _ => ?_) (fun _ => returns_ite (fun _ => ?_) (fun _ => ?_))
  · refine returns_bind (randIntE_returns _ 0 2 (by decide) (by decide) (by decide)) ?_
    intro p ⟨hp0, hp2⟩
    have e : iadd 3 p.1 = 3 + p.1 := iadd_eq (by unfold InI32; omega)
    refine returns_bind (forLoop_returns _ 1 _
      (fun _ (s : Motif × Int × GenRNG) => s.1.AllWF ∧ s.1.noteCount = 3 + p.1) 0 (by decide)
      ?_ _ 0 _ (le_refl _) ⟨allWF_default _ _, e⟩ ?_) ?_
    · intro i s hi hc ⟨hw, hn⟩
      simp only [decide_eq_true_eq] at hc
      refine returns_mono (leadStepwiseStep_returns _ (by rfl) (by decide) _ i s hi hc hw
        (by omega)) ?_
      intro s1 ⟨w1, c1⟩
      exact ⟨w1, by omega⟩
    · intro s1 ⟨_, hn⟩
      simp only [decide_eq_false_iff_not, not_lt]
      rw [hn, e]
      have : (((3 + p.1).toNat : Nat) : Int) = 3 + p.1 := Int.toNat_of_nonneg (by omega)
      omega
    intro s ⟨j, _, ⟨hw, hn⟩, _⟩
    exact returns_pure ⟨hw, by dsimp only; omega, by dsimp only; omega⟩
  · refine returns_bind (randIntE_returns _ 1 2 (by decide) (by decide) (by decide)) ?_
    intro k1 _
    refine returns_bind (randIntE_returns _ (-1) 1 (by decide) (by decide) (by decide)) ?_
    intro k2 _
    refine returns_bind (forLoop_returns _ 1 _
      (fun _ (m : Motif) => m.AllWF ∧ m.noteCount = 6) 0 (by decide)
      ?_ 3 0 _ (le_refl _) ⟨allWF_default _ _, rfl⟩ ?_) ?_
    · intro i m hi hc ⟨hw, hn⟩
      simp only [decide_eq_true_eq] at hc
      refine returns_mono (leadSeqStepA_returns [0, k1.1, k2.1] rfl i m hi hc hw) ?_
      intro m1 ⟨w1, c1⟩
      exact ⟨w1, by omega⟩
    · intro s1 _
      simp
    intro ma ⟨_, _, ⟨hwa, hna⟩, _⟩
    refine returns_bind (forLoop_returns _ 1 _
      (fun _ (m : Motif) => m.AllWF ∧ m.noteCount = 6) 0 (by decide)
      ?_ 3 0 _ (le_refl _) ⟨hwa, hna⟩ ?_) ?_
    · intro i m hi hc ⟨hw, hn⟩
      simp only [decide_eq_true_eq] at hc
      refine returns_mono (leadSeqStepB_returns [0, k1.1, k2.1] rfl i m hi hc hw) ?_
      intro m1 ⟨w1, c1⟩
      exact ⟨w1, by omega⟩
    · intro s1 _
      simp
    intro mb ⟨_, _, ⟨hwb, hnb⟩, _⟩
    exact returns_pure ⟨hwb, by dsimp only; omega, by dsimp only; omega⟩
  · refine returns_bind (randIntE_returns _ 0 3 (by decide) (by decide) (by decide)) ?_
    intro p ⟨hp0, hp3⟩
    have e : iadd 5 p.1 = 5 + p.1 := iadd_eq (by unfold InI32; omega)
    have en : (if iadd 5 p.1 > 8 then 8 else iadd 5 p.1) = 5 + p.1 := by
      rw [e, if_neg (by omega)]
    rw [en]
    have hs := coin_cases p.2 0 (Int.tdiv 16 2)
    refine returns_bind (forLoop_returns _ 1 _
      (fun _ (m : Motif) => m.AllWF ∧ m.noteCount = 5 + p.1) 0 (by decide)
      ?_ _ 0 _ (le_refl _) ⟨allWF_default _ _, rfl⟩ ?_) ?_
    · intro i m hi hc ⟨hw, hn⟩
      simp only [decide_eq_true_eq] at hc
      refine returns_mono (leadArpStep_returns _ hs i m hi (by omega) hw) ?_
      intro m1 ⟨w1, c1⟩
      exact ⟨w1, by omega⟩
    · intro s1 ⟨_, hn⟩
      simp only [decide_eq_false_iff_not, not_lt]
      rw [hn]
      have : (((5 + p.1).toNat : Nat) : Int) = 5 + p.1 := Int.toNat_of_nonneg (by omega)
      omega
    intro m ⟨j, _, ⟨hw, hn⟩, _⟩
    exact returns_pure ⟨hw, by dsimp only; omega, by dsimp only; omega⟩

/-! ## Rhythm, SFX, slap bass and distorted guitar on a bar of 16 rows -/

/-- The body of the loop of `generateRhythmMotif` keeps the slots well formed, and after it
the motif has a note. -/
theorem rhythmStep_returns (syncopation : F32) (step sub : Int)
    (hcase : (step = 4 ∧ sub = 4) ∨ (step = 2 ∧ sub = 8) ∨ (step = 1 ∧ sub = 16)) (s : Int)
    (st : Motif × GenRNG) (hs0 : 0 ≤ s) (hs : s < sub) (hw : st.1.AllWF)
    (h0 : 0 ≤ st.1.noteCount) (h8 : st.1.noteCount < 8) (h1 : 0 < s → 1 ≤ st.1.noteCount) :
    Returns (rhythmStep syncopation 16 step s st)
      (fun st1 => st1.1.AllWF ∧ 1 ≤ st1.1.noteCount ∧ st1.1.noteCount ≤ 8) := by
  have e : imul s step = s * step := by
    apply imul_eq
    unfold InI32
    rcases hcase with ⟨rfl, rfl⟩ | ⟨rfl, rfl⟩ | ⟨rfl, rfl⟩ <;> omega
  have hp0 : 0 ≤ s * step := by
    rcases hcase with ⟨rfl, rfl⟩ | ⟨rfl, rfl⟩ | ⟨rfl, rfl⟩ <;> omega
  have hp15 : s * step ≤ 15 := by
    rcases hcase with ⟨rfl, rfl⟩ | ⟨rfl, rfl⟩ | ⟨rfl, rfl⟩ <;> omega
  have hpz : s * step = 0 → s = 0 := by
    rcases hcase with ⟨rfl, rfl⟩ | ⟨rfl, rfl⟩ | ⟨rfl, rfl⟩ <;> omega
  unfold rhythmStep
  dsimp only
  rw [e]
  refine returns_bind (P := fun skip => skip = true → s * step ≠ 0) ?_ ?_
  · refine returns_ite (fun _ => ?_) (fun _ => returns_pure (by simp))
    refine returns_map (imod_returns _ _ (by decide)) ?_
    intro r _ hsk
    simp only [decide_eq_true_eq] at hsk
    exact hsk.2
  intro skip hskip
  refine returns_ite (fun hsk => ?_) (fun _ => ?_)
  · have : 0 < s := by
      have := hskip hsk
      have : s ≠ 0 := fun h => this (by rw [h]; simp)
      omega
    exact returns_pure ⟨hw, h1 this, by dsimp only; omega⟩
  refine returns_bind (P := fun vel : Int => -20 ≤ vel ∧ vel ≤ 20) ?_ ?_
  · refine returns_ite (fun _ => returns_pure (by decide))
      (fun _ => returns_ite (fun _ => returns_pure (by decide)) (fun _ => ?_))
    refine returns_map (imod_returns _ _ (by decide)) ?_
    intro r _
    dsimp only
    split <;> decide
  intro vel hvel
  refine returns_bind (modifyNote_returns hw h0 h8 ?_) ?_
  · exact fun n hn => wf_mk hn _ _ _ _ hp0 hp15 hvel.1 hvel.2
  intro m1 ⟨w1, c1⟩
  refine returns_pure ⟨w1, ?_, ?_⟩
  · show 1 ≤ iadd m1.noteCount 1
    rw [iadd_eq (by unfold InI32; omega)]
    omega
  · show iadd m1.noteCount 1 ≤ 8
    rw [iadd_eq (by unfold InI32; omega)]
    omega

/-- The loop of `generateRhythmMotif` for each of its three subdivisions. -/
theorem rhythmLoop_returns (g : GenRNG) (syncopation : F32) (step sub : Int)
    (hcase : (step = 4 ∧ sub = 4) ∨ (step = 2 ∧ sub = 8) ∨ (step = 1 ∧ sub = 16)) :
    Returns (forLoop (fun s st => decide (s < sub) && decide (st.1.noteCount < 8)) 1
        (rhythmStep syncopation 16 step) 16 0
        (({ lengthInRows := 16, noteCount := 0 } : Motif), g))
      (fun p => p.1.AllWF ∧ 1 ≤ p.1.noteCount ∧ p.1.noteCount ≤ 8) := by
  have hsub : 0 < sub ∧ sub ≤ 16 := by
    rcases hcase with ⟨-, rfl⟩ | ⟨-, rfl⟩ | ⟨-, rfl⟩ <;> decide
  refine returns_mono (forLoop_returns _ 1 _
    (fun s (st : Motif × GenRNG) => st.1.AllWF ∧ 0 ≤ st.1.noteCount ∧ st.1.noteCount ≤ 8 ∧
      (0 < s → 1 ≤ st.1.noteCount)) 0 (by decide) ?_ 16 0 _ (le_refl _)
    ⟨allWF_default _ _, by dsimp only; omega, by dsimp only; omega, fun h => absurd h (by decide)⟩
    ?_) ?_
  · intro i st hi hc ⟨hw, h0, _, h1⟩
    simp only [Bool.and_eq_true, decide_eq_true_eq] at hc
    refine returns_mono (rhythmStep_returns syncopation step sub hcase i st hi hc.1 hw h0 hc.2
      h1) ?_
    intro st1 ⟨w1, l1, u1⟩
    exact ⟨w1, by omega, u1, fun _ => l1⟩
  · intro s1 _
    simp only [Bool.and_eq_false_iff, decide_eq_false_iff_not, not_lt]
    left
    omega
  · intro st ⟨j, hj, ⟨hw, h0, h8, h1⟩, hc⟩
    simp only [Bool.and_eq_false_iff, decide_eq_false_iff_not, not_lt] at hc
    refine ⟨hw, ?_, h8⟩
    rcases hc with hc | hc
    · exact h1 (by omega)
    · omega

/-- `generateRhythmMotif` on a bar of 16 rows returns 1 to 8 well-formed notes. -/
theorem generateRhythmMotif_wf (g : GenRNG) (density complexity : Int) (syncopation : F32)
    (scaleLen : Int) :
    Returns (generateRhythmMotif g density complexity syncopation 16 scaleLen)
      (fun p => p.1.AllWF ∧ 1 ≤ p.1.noteCount ∧ p.1.noteCount ≤ 8) := by
  unfold generateRhythmMotif
  dsimp only
  by_cases h1 : ((F32.ofInt density).div (F32.fin 100)).lt (F32.round (33 / 100)) = true
  · simp only [h1, if_true]
    exact rhythmLoop_returns g syncopation 4 4 (Or.inl ⟨rfl, rfl⟩)
  · by_cases h2 : ((F32.ofInt density).div (F32.fin 100)).lt (F32.round (66 / 100)) = true
    · simp only [h1, h2, if_true, if_false]
      exact rhythmLoop_returns g syncopation 2 8 (Or.inr (Or.inl ⟨rfl, rfl⟩))
    · simp only [h1, h2, if_false]
      exact rhythmLoop_returns g syncopation 1 16 (Or.inr (Or.inr ⟨rfl, rfl⟩))

/-- The body of the loop of `generateSfxMotif` keeps the slots well formed. -/
theorem sfxStep_returns (burstStart : Int) (hbs : burstStart = 0 ∨ burstStart = 12) (i : Int)
    (s : Motif × GenRNG) (hi0 : 0 ≤ i) (hi : i < 4) (hw : s.1.AllWF) :
    Returns (sfxStep burstStart 16 i s)
      (fun s1 => s1.1.AllWF ∧ s1.1.noteCount = s.1.noteCount) := by
  unfold sfxStep
  refine returns_bind (randIntE_returns _ (-3) 3 (by decide) (by decide) (by decide)) ?_
  intro p _
  refine returns_bind (modifyNote_returns hw hi0 (by omega) ?_) ?_
  · intro n hn
    have e : iadd burstStart i = burstStart + i := iadd_eq (by unfold InI32; omega)
    have e15 : isub 16 1 = 15 := by decide
    have e5 : imul i 5 = i * 5 := imul_eq (by unfold InI32; omega)
    have ev : isub 10 (i * 5) = 10 - i * 5 := isub_eq (by unfold InI32; omega)
    refine wf_mk hn _ _ _ _ ?_ ?_ ?_ ?_
    · rw [e, e15]; split <;> omega
    · rw [e, e15]; split <;> omega
    · rw [e5, ev]; omega
    · rw [e5, ev]; omega
  intro m1 ⟨w1, c1⟩
  exact returns_pure ⟨w1, c1⟩

/-- `generateSfxMotif` on a bar of 16 rows returns 2 to 4 well-formed notes. -/
theorem generateSfxMotif_wf (g : GenRNG) (density complexity : Int) (syncopation : F32)
    (scaleLen : Int) :
    Returns (generateSfxMotif g density complexity syncopation 16 scaleLen)
      (fun p => p.1.AllWF ∧ 1 ≤ p.1.noteCount ∧ p.1.noteCount ≤ 8) := by
  unfold generateSfxMotif
  dsimp only
  have hbs : (if (coin g 0 (isub 16 4)).1 < 0 then 0 else (coin g 0 (isub 16 4)).1) = 0 ∨
      (if (coin g 0 (isub 16 4)).1 < 0 then 0 else (coin g 0 (isub 16 4)).1) = 12 := by
    rcases coin_cases g 0 (isub 16 4) with h | h <;> rw [h]
    · left; decide
    · right; decide
  refine returns_bind (randIntE_returns _ 2 4 (by decide) (by decide) (by decide)) ?_
  intro p ⟨hp2, hp4⟩
  have en : (if p.1 > 8 then 8 else p.1) = p.1 := by rw [if_neg (by omega)]
  rw [en]
  refine returns_mono (forLoop_returns _ 1 _
    (fun _ (s : Motif × GenRNG) => s.1.AllWF ∧ s.1.noteCount = p.1) 0 (by decide)
    ?_ _ 0 _ (le_refl _) ⟨allWF_default _ _, rfl⟩ ?_) ?_
  · intro i s hi hc ⟨hw, hn⟩
    simp only [decide_eq_true_eq] at hc
    refine returns_mono (sfxStep_returns _ hbs i s hi (by omega) hw) ?_
    intro s1 ⟨w1, c1⟩
    exact ⟨w1, by omega⟩
  · intro s1 ⟨_, hn⟩
    simp only [decide_eq_false_iff_not, not_lt]
    rw [hn]
    have : ((p.1.toNat : Nat) : Int) = p.1 := Int.toNat_of_nonneg (by omega)
    omega
  · intro s ⟨j, _, ⟨hw, hn⟩, _⟩
    exact ⟨hw, by omega, by omega⟩

/-- The scaled ghost positions of the slap bass, as read by the loop. -/
theorem ghostPositions_length : ghostPositions.length = 6 := rfl

/-- The body of the loop over the ghost positions of `generateSlapBassMotif` keeps the slots
well formed and adds at most one note. -/
theorem slapGhostStep_returns (df syncopation : F32) (k : Int) (s : Motif × GenRNG)
    (hk0 : 0 ≤ k) (hk : k < 6) (hw : s.1.AllWF) (h1 : 1 ≤ s.1.noteCount)
    (h7 : s.1.noteCount < 7) :
    Returns (slapGhostStep df syncopation 16 k s)
      (fun s1 => s1.1.AllWF ∧ 1 ≤ s1.1.noteCount ∧ s1.1.noteCount ≤ 7) := by
  unfold slapGhostStep
  dsimp only
  refine returns_ite (fun _ => ?_) (fun _ => returns_ok ⟨hw, h1, by dsimp only; omega⟩)
  rw [if_neg (by omega)]
  refine returns_bind2 (orFault_getElem_returns _ _ _ (by rw [ghostPositions_length]; omega)) ?_
  intro gp _
  refine returns_map (modifyNote_returns hw (by omega) (by omega) ?_) ?_
  · intro n hn
    have hcl := genClamp_range
      (if (F32.round (3 / 10)).lt syncopation = true
        then iadd (Int.tdiv (imul gp 16) 16) (coin s.2.randFloat.2 (-1) 0).1
        else Int.tdiv (imul gp 16) 16) 1 15 (by decide)
    exact wf_mk hn _ _ _ _ (le_trans (by decide) hcl.1) hcl.2 (by decide) (by decide)
  · intro m1 ⟨w1, c1⟩
    refine ⟨w1, ?_, ?_⟩
    · show 1 ≤ iadd m1.noteCount 1
      rw [iadd_eq (by unfold InI32; omega)]
      omega
    · show iadd m1.noteCount 1 ≤ 7
      rw [iadd_eq (by unfold InI32; omega)]
      omega

/-- `generateSlapBassMotif` on a bar of 16 rows returns 1 to 8 well-formed notes. -/
theorem generateSlapBassMotif_wf (g : GenRNG) (density complexity : Int) (syncopation : F32)
    (scaleLen : Int) :
    Returns (generateSlapBassMotif g density complexity syncopation 16 scaleLen)
      (fun p => p.1.AllWF ∧ 1 ≤ p.1.noteCount ∧ p.1.noteCount ≤ 8) := by
  unfold generateSlapBassMotif
  dsimp only
  refine returns_bind (modifyNote_returns (allWF_default _ _) (by decide) (by decide) ?_) ?_
  · exact fun n hn => wf_mk hn _ _ _ _ (by decide) (by decide) (by decide) (by decide)
  intro m1 ⟨w1, c1⟩
  dsimp only at c1
  have e1 : iadd m1.noteCount 1 = 1 := by rw [c1]; decide
  refine returns_bind (forLoop_returns _ 1 _
    (fun _ (s : Motif × GenRNG) => s.1.AllWF ∧ 1 ≤ s.1.noteCount ∧ s.1.noteCount ≤ 7) 0
    (by decide) ?_ 6 0 _ (le_refl _) ⟨w1, by dsimp only; omega, by dsimp only; omega⟩ ?_) ?_
  · intro i s hi hc ⟨hw, h1, _⟩
    simp only [Bool.and_eq_true, decide_eq_true_eq] at hc
    exact slapGhostStep_returns _ _ i s hi hc.1 hw h1 hc.2
  · intro s1 _
    simp
  intro s ⟨j, _, ⟨hw, h1, h7⟩, _⟩
  refine returns_ite (fun _ => returns_ite (fun _ => ?_)
    (fun _ => returns_pure ⟨hw, by dsimp only; omega, by dsimp only; omega⟩))
    (fun _ => returns_pure ⟨hw, by dsimp only; omega, by dsimp only; omega⟩)
  refine returns_bind (modifyNote_returns hw (by omega) (by omega) ?_) ?_
  · intro n hn
    have hc := coin_cases s.2.randFloat.2 (Int.tdiv (imul 16 3) 8) (Int.tdiv (imul 16 5) 8)
    refine wf_mk hn _ _ _ _ ?_ ?_ (by decide) (by decide) <;>
      rcases hc with h | h <;> rw [h] <;> decide
  intro m2 ⟨w2, c2⟩
  refine returns_pure ⟨w2, ?_, ?_⟩
  · show 1 ≤ iadd m2.noteCount 1
    rw [iadd_eq (by unfold InI32; omega)]
    omega
  · show iadd m2.noteCount 1 ≤ 8
    rw [iadd_eq (by unfold InI32; omega)]
    omega

/-- The body of the loop of the first branch of `generateDistGuitarMotif` adds a
well-formed note. -/
theorem distChugStep_returns (r : Int) (m : Motif) (hr0 : 0 ≤ r) (hr : r < 16) (hw : m.AllWF)
    (h0 : 0 ≤ m.noteCount) (h8 : m.noteCount < 8) :
    Returns (distChugStep 16 r m)
      (fun m1 => m1.AllWF ∧ m1.noteCount = m.noteCount + 1) := by
  unfold distChugStep
  refine returns_bind2 (imod_returns _ _ (by decide)) ?_
  intro q _
  refine returns_map (modifyNote_returns hw h0 h8 ?_) ?_
  · exact fun n hn => wf_mk hn _ _ _ _ hr0 (by omega) (by split <;> decide)
      (by split <;> decide)
  · intro m1 ⟨w1, c1⟩
    refine ⟨w1, ?_⟩
    show iadd m1.noteCount 1 = m.noteCount + 1
    rw [iadd_eq (by unfold InI32; omega)]
    omega

/-- The scaled rows of the riff of the distorted guitar lie in the bar. -/
theorem distPattern_range :
    ∀ pt ∈ distPattern, (0 : Int) ≤ Int.tdiv (imul pt 16) 16 ∧ Int.tdiv (imul pt 16) 16 ≤ 15 := by
  decide

/-- The body of the loop of the second branch of `generateDistGuitarMotif` keeps the slots
well formed and adds at most one note. -/
theorem distRiffStep_returns (i : Int) (s : Motif × GenRNG) (hi0 : 0 ≤ i) (hi : i < 5)
    (hw : s.1.AllWF) (h0 : 0 ≤ s.1.noteCount) (h8 : s.1.noteCount < 8) :
    Returns (distRiffStep 16 i s)
      (fun s1 => s1.1.AllWF ∧ s.1.noteCount ≤ s1.1.noteCount ∧
        s1.1.noteCount ≤ s.1.noteCount + 1) := by
  unfold distRiffStep
  dsimp only
  refine returns_ite (fun _ => ?_)
    (fun _ => returns_ok ⟨hw, by dsimp only; omega, by dsimp only; omega⟩)
  rw [if_neg (by omega)]
  refine returns_bind2 (orFault_getElem_returns _ _ _ (by unfold distPattern; simp; omega)) ?_
  intro pt hpt
  have hr := distPattern_range pt hpt
  refine returns_bind2 (orFault_getElem_returns _ _ _ (by unfold distDegrees; simp; omega)) ?_
  intro dg _
  refine returns_map (modifyNote_returns hw h0 h8 ?_) ?_
  · exact fun n hn => wf_mk hn _ _ _ _ hr.1 hr.2 (by split <;> decide) (by split <;> decide)
  · intro m1 ⟨w1, c1⟩
    refine ⟨w1, ?_, ?_⟩
    · show s.1.noteCount ≤ iadd m1.noteCount 1
      rw [iadd_eq (by unfold InI32; omega)]
      omega
    · show iadd m1.noteCount 1 ≤ s.1.noteCount + 1
      rw [iadd_eq (by unfold InI32; omega)]
      omega

/-- `generateDistGuitarMotif` on a bar of 16 rows returns well-formed notes: exactly 8 in
the branch `cf<0.5f` and 2 to 5 in the other branch. -/
theorem generateDistGuitarMotif_wf (g : GenRNG) (density complexity : Int) (syncopation : F32)
    (scaleLen : Int) :
    Returns (generateDistGuitarMotif g density complexity syncopation 16 scaleLen)
      (fun p => p.1.AllWF ∧ 1 ≤ p.1.noteCount ∧ p.1.noteCount ≤ 8 ∧
        (((F32.ofInt complexity).div (F32.fin 100)).lt (F32.fin (1 / 2)) = true →
          p.1.noteCount = 8 ∧ p.2 = g) ∧
        (¬((F32.ofInt complexity).div (F32.fin 100)).lt (F32.fin (1 / 2)) = true →
          p.1.noteCount ≤ 5)) := by
  unfold generateDistGuitarMotif
  dsimp only
  refine returns_ite (fun hlt => ?_) (fun hlt => ?_)
  · refine returns_bind (forLoop_returns _ 2 _
      (fun r (m : Motif) => m.AllWF ∧ m.noteCount * 2 = r ∧ 0 ≤ m.noteCount ∧ m.noteCount ≤ 8)
      0 (by decide) ?_ 8 0 _ (le_refl _)
      ⟨allWF_default _ _, by dsimp only; omega, by dsimp only; omega, by dsimp only; omega⟩ ?_) ?_
    · intro r m hr hc ⟨hw, hn, h0, _⟩
      simp only [Bool.and_eq_true, decide_eq_true_eq] at hc
      refine returns_mono (distChugStep_returns r m hr hc.1 hw h0 hc.2) ?_
      intro m1 ⟨w1, c1⟩
      exact ⟨w1, by omega, by omega, by omega⟩
    · intro s1 _
      simp
    intro m ⟨j, hj, ⟨hw, hn, h0, h8⟩, hc⟩
    simp only [Bool.and_eq_false_iff, decide_eq_false_iff_not, not_lt] at hc
    have h8' : m.noteCount = 8 := by omega
    exact returns_pure ⟨hw, by dsimp only; omega, by dsimp only; omega,
      fun _ => ⟨h8', rfl⟩, fun h => absurd hlt h⟩
  · refine returns_bind (forLoop_returns _ 1 _
      (fun i (s : Motif × GenRNG) => s.1.AllWF ∧ 0 ≤ s.1.noteCount ∧ s.1.noteCount ≤ i ∧
        i ≤ 5) 0 (by decide) ?_ 5 0 _ (le_refl _)
      ⟨allWF_default _ _, by dsimp only; omega, by dsimp only; omega, by decide⟩ ?_) ?_
    · intro i s hi hc ⟨hw, h0, hle, _⟩
      simp only [Bool.and_eq_true, decide_eq_true_eq] at hc
      refine returns_mono (distRiffStep_returns i s hi hc.1 hw h0 hc.2) ?_
      intro s1 ⟨w1, l1, u1⟩
      exact ⟨w1, by omega, by omega, by omega⟩
    · intro s1 _
      simp
    intro s ⟨j, hj, ⟨hw, h0, hle, h5⟩, hc⟩
    refine returns_ite (fun _ => ?_) (fun hge => returns_pure
      ⟨hw, by omega, by omega, fun h => absurd h hlt, fun _ => by omega⟩)
    refine returns_bind (modifyNote_returns hw (by decide) (by decide) ?_) ?_
    · exact fun n hn => wf_mk hn _ _ _ _ (by decide) (by decide) (by decide) (by decide)
    intro m1 ⟨w1, c1⟩
    refine returns_bind (modifyNote_returns w1 (by decide) (by decide) ?_) ?_
    · exact fun n hn => wf_mk hn _ _ _ _ (by decide) (by decide) (by decide) (by decide)
    intro m2 ⟨w2, c2⟩
    exact returns_pure ⟨w2, by dsimp only; omega, by dsimp only; omega,
      fun h => absurd h hlt, fun _ => by dsimp only; omega⟩

/-- `generateRoleMotif` on a bar of 16 rows returns 1 to 8 well-formed notes, for every
role. -/
theorem generateRoleMotif_wf (g : GenRNG) (role density complexity : Int) (syncopation : F32)
    (motifLengthHint scaleLen : Int) :
    Returns (generateRoleMotif g role density complexity syncopation 16 motifLengthHint
        scaleLen)
      (fun p => p.1.AllWF ∧ 1 ≤ p.1.noteCount ∧ p.1.noteCount ≤ 8) := by
  unfold generateRoleMotif
  split_ifs
  · exact generateBassMotif_wf _ _ _ _ _
  · exact generateLeadMotif_wf _ _ _ _ _
  · exact generatePadMotif_wf _ _ _ _ _
  · exact generateRhythmMotif_wf _ _ _ _ _
  · exact generateSfxMotif_wf _ _ _ _ _
  · exact generateSlapBassMotif_wf _ _ _ _ _
  · exact returns_mono (generateDistGuitarMotif_wf _ _ _ _ _) (fun _ h => ⟨h.1, h.2.1, h.2.2.1⟩)
  · exact generateLeadMotif_wf _ _ _ _ _

/-! ## Claim on the motifs -/

/-- C38. For every role (known or not), density, complexity, syncopation, motif length
hint, scale length and generator state, `generateRoleMotif` with 16 rows per bar returns a
motif with `1 <= noteCount <= 8` in its array of 8 slots whose used notes all have a
`rowOffset` in `[0,15]`, a `velOffset` in `[-20,20]` and `isRest = false`; hence for every
used note the groove index `rowOffset % 16` is the row offset itself and addresses one of
the 16 velocities of every groove template. -/
theorem generateRoleMotif_well_formed (g : GenRNG) (role density complexity : Int)
    (syncopation : F32) (motifLengthHint scaleLen : Int) :
    ∃ m g1, generateRoleMotif g role density complexity syncopation 16 motifLengthHint
        scaleLen = .ok (m, g1) ∧ m.WellFormed ∧
      ∀ (i : Nat) (n : MotifNote), (i : Int) < m.noteCount → m.notes[i]? = some n →
        Int.tmod n.rowOffset 16 = n.rowOffset ∧
        ∀ type : Int, ∃ v,
          (buildGrooveTemplate type).velocity[(Int.tmod n.rowOffset 16).toNat]? = some v := by
  obtain ⟨⟨m, g1⟩, h, hw, h1, h8⟩ :=
    generateRoleMotif_wf g role density complexity syncopation motifLengthHint scaleLen
  have hwf := hw.wellFormed h1 h8
  refine ⟨m, g1, h, hwf, ?_⟩
  intro i n hi hn
  obtain ⟨hr0, hr15, -⟩ := hwf.2.2.2 i n hi hn
  have e : Int.tmod n.rowOffset 16 = n.rowOffset := by
    rw [Int.tmod_eq_emod hr0 (by decide)]
    omega
  refine ⟨e, fun type => ?_⟩
  rw [e]
  have hl := (buildGrooveTemplate_shape type).1
  have hlt : n.rowOffset.toNat < (buildGrooveTemplate type).velocity.length := by omega
  exact ⟨_, List.getElem?_eq_getElem hlt⟩

/-! ## Complexity bands -/

/-- For `complexity` from 34 on the test `cf<0.34f` fails. -/
theorem F32.cf_not_lt_034 {c : Int} (h0 : 34 ≤ c) (h1 : c < 16777216) :
    F32.lt (F32.div (F32.ofInt c) (F32.fin 100)) (F32.round (34 / 100)) = false := by
  rw [F32.div_hundred (by omega) h1]
  rcases (show c = 34 ∨ 35 ≤ c by omega) with rfl | h35
  · have e : ((34 : Int) : ℚ) / 100 = 34 / 100 := by norm_num
    rw [e]
    cases F32.round (34 / 100) <;> simp [F32.lt]
  · have ha := F32.round_dyadic 88 8 (by decide) (by decide)
    have hc : (35 : ℚ) ≤ c := by exact_mod_cast h35
    exact F32.round_not_lt_round ha (by positivity) (by norm_num) (by norm_num; linarith)

/-- For `complexity` in `0..66` the test `cf<0.67f` holds. -/
theorem F32.cf_lt_067 {c : Int} (h0 : 0 ≤ c) (h1 : c ≤ 66) :
    F32.lt (F32.div (F32.ofInt c) (F32.fin 100)) (F32.round (67 / 100)) = true := by
  rw [F32.div_hundred h0 (by omega)]
  have ha := F32.round_dyadic 170 8 (by decide) (by decide)
  have hb := F32.round_dyadic 171 8 (by decide) (by decide)
  have hc : (c : ℚ) ≤ 66 := by exact_mod_cast h1
  have hc0 : (0 : ℚ) ≤ c := by exact_mod_cast h0
  exact F32.round_lt_round ha hb (by positivity) (by norm_num; linarith) (by norm_num)
    (by norm_num)

/-- For `complexity` from 67 on the test `cf<0.67f` fails. -/
theorem F32.cf_not_lt_067 {c : Int} (h0 : 67 ≤ c) (h1 : c < 16777216) :
    F32.lt (F32.div (F32.ofInt c) (F32.fin 100)) (F32.round (67 / 100)) = false := by
  rw [F32.div_hundred (by omega) h1]
  rcases (show c = 67 ∨ 68 ≤ c by omega) with rfl | h68
  · have e : ((67 : Int) : ℚ) / 100 = 67 / 100 := by norm_num
    rw [e]
    cases F32.round (67 / 100) <;> simp [F32.lt]
  · have ha := F32.round_dyadic 174 8 (by decide) (by decide)
    have hc : (68 : ℚ) ≤ c := by exact_mod_cast h68
    exact F32.round_not_lt_round ha (by positivity) (by norm_num) (by norm_num; linarith)

/-- The float `0.5f`. -/
theorem F32.round_half : F32.round (1 / 2) = F32.fin (1 / 2) := by
  have h := F32.round_dyadic 1 1 (by decide) (by decide)
  norm_num at h
  exact h

/-- For `complexity` in `0..49` the test `cf<0.5f` holds. -/
theorem F32.cf_lt_half {c : Int} (h0 : 0 ≤ c) (h1 : c ≤ 49) :
    F32.lt (F32.div (F32.ofInt c) (F32.fin 100)) (F32.fin (1 / 2)) = true := by
  rw [F32.div_hundred h0 (by omega), ← F32.round_half]
  have ha := F32.round_dyadic 127 8 (by decide) (by decide)
  have hb := F32.round_dyadic 128 8 (by decide) (by decide)
  have hc : (c : ℚ) ≤ 49 := by exact_mod_cast h1
  have hc0 : (0 : ℚ) ≤ c := by exact_mod_cast h0
  exact F32.round_lt_round ha hb (by positivity) (by norm_num; linarith) (by norm_num)
    (by norm_num)

/-- For `complexity` from 50 on the test `cf<0.5f` fails. -/
theorem F32.cf_not_lt_half {c : Int} (h0 : 50 ≤ c) (h1 : c < 16777216) :
    F32.lt (F32.div (F32.ofInt c) (F32.fin 100)) (F32.fin (1 / 2)) = false := by
  rw [F32.div_hundred (by omega) h1, ← F32.round_half]
  have ha := F32.round_dyadic 128 8 (by decide) (by decide)
  have hc : (50 : ℚ) ≤ c := by exact_mod_cast h0
  exact F32.round_not_lt_round ha (by positivity) (by norm_num) (by norm_num; linarith)

/-- For `complexity` in `0..30` the test `cf>0.3f` fails. -/
theorem F32.cf_not_gt_03 {c : Int} (h0 : 0 ≤ c) (h1 : c ≤ 30) :
    F32.lt (F32.round (3 / 10)) (F32.div (F32.ofInt c) (F32.fin 100)) = false := by
  rw [F32.div_hundred h0 (by omega)]
  rcases (show c = 30 ∨ c ≤ 29 by omega) with rfl | h29
  · have e : ((30 : Int) : ℚ) / 100 = 3 / 10 := by norm_num
    rw [e]
    cases F32.round (3 / 10) <;> simp [F32.lt]
  · have ha := F32.round_dyadic 76 8 (by decide) (by decide)
    have hc : (c : ℚ) ≤ 29 := by exact_mod_cast h29
    have hc0 : (0 : ℚ) ≤ c := by exact_mod_cast h0
    exact F32.round_not_lt_round ha (by positivity) (by norm_num; linarith) (by norm_num)

/-- For `complexity` 33 the test `cf>0.3f` holds. -/
theorem F32.cf_33_gt_03 :
    F32.lt (F32.round (3 / 10)) (F32.div (F32.ofInt 33) (F32.fin 100)) = true := by
  rw [F32.div_hundred (by decide) (by decide)]
  have ha := F32.round_dyadic 77 8 (by decide) (by decide)
  have hb := F32.round_dyadic 84 8 (by decide) (by decide)
  exact F32.round_lt_round ha hb (by norm_num) (by norm_num) (by norm_num) (by norm_num)

/-- The two tests of the three bands on complexities of one band of the specification. -/
theorem band_tests {c1 c2 : Int} (h1 : 0 ≤ c1 ∧ c1 ≤ 100) (h2 : 0 ≤ c2 ∧ c2 ≤ 100)
    (hb : specBand c1 = specBand c2) :
    F32.lt (F32.div (F32.ofInt c1) (F32.fin 100)) (F32.round (34 / 100))
      = F32.lt (F32.div (F32.ofInt c2) (F32.fin 100)) (F32.round (34 / 100)) ∧
    F32.lt (F32.div (F32.ofInt c1) (F32.fin 100)) (F32.round (67 / 100))
      = F32.lt (F32.div (F32.ofInt c2) (F32.fin 100)) (F32.round (67 / 100)) := by
  unfold specBand at hb
  by_cases a1 : c1 ≤ 33
  · have a2 : c2 ≤ 33 := by
      rw [if_pos a1] at hb
      by_contra hc
      rw [if_neg hc] at hb
      split at hb <;> omega
    rw [F32.cf_lt_034 h1.1 a1, F32.cf_lt_034 h2.1 a2, F32.cf_lt_067 h1.1 (by omega),
      F32.cf_lt_067 h2.1 (by omega)]
    exact ⟨rfl, rfl⟩
  · rw [if_neg a1] at hb
    have a2 : ¬ c2 ≤ 33 := by
      intro hc
      rw [if_pos hc] at hb
      split at hb <;> omega
    rw [if_neg a2] at hb
    rw [F32.cf_not_lt_034 (by omega) (by omega), F32.cf_not_lt_034 (by omega) (by omega)]
    refine ⟨rfl, ?_⟩
    by_cases b1 : c1 ≤ 66
    · have b2 : c2 ≤ 66 := by
        rw [if_pos b1] at hb
        by_contra hc
        rw [if_neg hc] at hb
        omega
      rw [F32.cf_lt_067 h1.1 b1, F32.cf_lt_067 h2.1 b2]
    · have b2 : ¬ c2 ≤ 66 := by
        intro hc
        rw [if_neg b1, if_pos hc] at hb
        omega
      rw [F32.cf_not_lt_067 (by omega) (by omega), F32.cf_not_lt_067 (by omega) (by omega)]

/-- The bass motif depends on the complexity through the tests `cf<0.34f` and `cf<0.67f`
only. -/
theorem generateBassMotif_band (g : GenRNG) (density c1 c2 : Int) (syncopation : F32)
    (rowsPerBar scaleLen : Int) (h1 : 0 ≤ c1 ∧ c1 ≤ 100) (h2 : 0 ≤ c2 ∧ c2 ≤ 100)
    (hb : specBand c1 = specBand c2) :
    generateBassMotif g density c1 syncopation rowsPerBar scaleLen
      = generateBassMotif g density c2 syncopation rowsPerBar scaleLen := by
  obtain ⟨hA, hB⟩ := band_tests h1 h2 hb
  unfold generateBassMotif
  dsimp only
  rw [hA, hB]

/-- The lead motif depends on the complexity through the tests `cf<0.34f` and `cf<0.67f`
only. -/
theorem generateLeadMotif_band (g : GenRNG) (density c1 c2 : Int) (syncopation : F32)
    (rowsPerBar scaleLen : Int) (h1 : 0 ≤ c1 ∧ c1 ≤ 100) (h2 : 0 ≤ c2 ∧ c2 ≤ 100)
    (hb : specBand c1 = specBand c2) :
    generateLeadMotif g density c1 syncopation rowsPerBar scaleLen
      = generateLeadMotif g density c2 syncopation rowsPerBar scaleLen := by
  obtain ⟨hA, hB⟩ := band_tests h1 h2 hb
  unfold generateLeadMotif
  dsimp only
  rw [hA, hB]

/-- The motif of the distorted guitar depends on the complexity through the test `cf<0.5f`
only. -/
theorem generateDistGuitarMotif_band (g : GenRNG) (density c1 c2 : Int) (syncopation : F32)
    (rowsPerBar scaleLen : Int) (h1 : 0 ≤ c1 ∧ c1 ≤ 100) (h2 : 0 ≤ c2 ∧ c2 ≤ 100)
    (hb : c1 < 50 ↔ c2 < 50) :
    generateDistGuitarMotif g density c1 syncopation rowsPerBar scaleLen
      = generateDistGuitarMotif g density c2 syncopation rowsPerBar scaleLen := by
  have hA : F32.lt (F32.div (F32.ofInt c1) (F32.fin 100)) (F32.fin (1 / 2))
      = F32.lt (F32.div (F32.ofInt c2) (F32.fin 100)) (F32.fin (1 / 2)) := by
    by_cases a1 : c1 < 50
    · rw [F32.cf_lt_half h1.1 (by omega), F32.cf_lt_half h2.1 (by have := hb.mp a1; omega)]
    · have a2 : ¬ c2 < 50 := fun h => a1 (hb.mpr h)
      rw [F32.cf_not_lt_half (by omega) (by omega), F32.cf_not_lt_half (by omega) (by omega)]
  unfold generateDistGuitarMotif
  dsimp only
  rw [hA]

/-- Up to complexity 30 the pad motif is its single root note and no draw is made. -/
theorem generatePadMotif_low (g : GenRNG) (density c : Int) (syncopation : F32)
    (rowsPerBar scaleLen : Int) (h0 : 0 ≤ c) (h1 : c ≤ 30) :
    generatePadMotif g density c syncopation rowsPerBar scaleLen
      = .ok ({ notes := [{ rowOffset := 0, relativeDegree := 0, duration := 0, velOffset := 5 },
                         {}, {}, {}, {}, {}, {}, {}],
               noteCount := 1, lengthInRows := rowsPerBar }, g) := by
  unfold generatePadMotif
  dsimp only
  rw [F32.cf_not_gt_03 h0 h1, F32.cf_not_gt_06 h0 (by omega)]
  rfl

/-- The first draw after construction is below `33/100.0f`. -/
theorem randFloat_init_lt_cf33 :
    F32.lt GenRNG.init.randFloat.1 (F32.div (F32.ofInt 33) (F32.fin 100)) = true := by
  rw [F32.div_hundred (by decide) (by decide)]
  obtain ⟨-, hr, -, -⟩ := randFloat_eq GenRNG.init
  rw [hr]
  have hk : GenRNG.init.next.1 >>> 8 = 2026044 := by decide
  rw [hk]
  have hb := F32.round_dyadic 84 8 (by decide) (by decide)
  have hle := F32.le_round_of_le hb (by norm_num) (show (((84 : Int) : ℚ) / 2 ^ 8) ≤
    ((33 : Int) : ℚ) / 100 by norm_num)
  generalize F32.round (((33 : Int) : ℚ) / 100) = y at hle
  cases y with
  | fin v =>
    simp only [F32.le, decide_eq_true_eq] at hle
    simp only [F32.lt, decide_eq_true_eq]
    have : (((2026044 : Nat) : ℚ) / 16777216) < ((84 : Int) : ℚ) / 2 ^ 8 := by norm_num
    linarith
  | inf s => cases s <;> simp_all [F32.le, F32.lt]
  | nan => simp [F32.le] at hle

/-- The pad motif at complexity 33 from the state of a newly constructed generator has two
notes. -/
theorem generatePadMotif_init_33 (density : Int) (syncopation : F32) (scaleLen : Int) :
    ∃ m g1, generatePadMotif GenRNG.init density 33 syncopation 16 scaleLen = .ok (m, g1) ∧
      m.noteCount = 2 := by
  unfold generatePadMotif
  dsimp only
  rw [F32.cf_33_gt_03, randFloat_init_lt_cf33, F32.cf_not_gt_06 (by decide) (by decide)]
  exact ⟨_, _, rfl, rfl⟩

/-! ## Claim on the complexity bands -/

/-- C36, amended. Complexity acts on the motif through bands that depend on the role. For
complexities `c1`, `c2` in `0..100`, the same generator state and equal other arguments
(every `rowsPerBar`), `generateRoleMotif` gives the same result, motif and final state, when
`c1` and `c2` lie in one of the three bands `0..33`, `34..66`, `67..100` and the role is
neither Pad nor Distorted Guitar (Bass and Lead have three branches split at `0.34f` and
`0.67f`; an unknown role is Lead; Rhythm, SFX and Slap Bass do not read the complexity, so
for them any two complexities agree); for Distorted Guitar when `c1` and `c2` are both below
50 or both from 50 on (two branches split at `0.5f`); and for Pad when both are at most 30
(above 30 the second and the third note of the pad appear with probabilities `cf` and
`cf*0.5`). -/
theorem generateRoleMotif_bands (g : GenRNG) (role density c1 c2 : Int) (syncopation : F32)
    (rowsPerBar motifLengthHint scaleLen : Int) (h1 : 0 ≤ c1 ∧ c1 ≤ 100)
    (h2 : 0 ≤ c2 ∧ c2 ≤ 100) :
    (role ≠ 2 → role ≠ 6 → specBand c1 = specBand c2 →
      generateRoleMotif g role density c1 syncopation rowsPerBar motifLengthHint scaleLen
        = generateRoleMotif g role density c2 syncopation rowsPerBar motifLengthHint
            scaleLen) ∧
    (role = 3 ∨ role = 4 ∨ role = 5 →
      generateRoleMotif g role density c1 syncopation rowsPerBar motifLengthHint scaleLen
        = generateRoleMotif g role density c2 syncopation rowsPerBar motifLengthHint
            scaleLen) ∧
    (role = 6 → (c1 < 50 ↔ c2 < 50) →
      generateRoleMotif g role density c1 syncopation rowsPerBar motifLengthHint scaleLen
        = generateRoleMotif g role density c2 syncopation rowsPerBar motifLengthHint
            scaleLen) ∧
    (role = 2 → c1 ≤ 30 → c2 ≤ 30 →
      generateRoleMotif g role density c1 syncopation rowsPerBar motifLengthHint scaleLen
        = generateRoleMotif g role density c2 syncopation rowsPerBar motifLengthHint
            scaleLen) := by
  refine ⟨?_, ?_, ?_, ?_⟩
  · intro hr2 hr6 hb
    unfold generateRoleMotif
    split_ifs
    · exact generateBassMotif_band g density c1 c2 syncopation rowsPerBar scaleLen h1 h2 hb
    · exact generateLeadMotif_band g density c1 c2 syncopation rowsPerBar scaleLen h1 h2 hb
    · rfl
    · rfl
    · rfl
    · exact generateLeadMotif_band g density c1 c2 syncopation rowsPerBar scaleLen h1 h2 hb
  · intro hr
    unfold generateRoleMotif
    rcases hr with rfl | rfl | rfl <;> rfl
  · intro hr hb
    subst hr
    unfold generateRoleMotif
    simp only [show ¬((6 : Int) = 1) by decide, show ¬((6 : Int) = 0) by decide,
      show ¬((6 : Int) = 2) by decide, show ¬((6 : Int) = 3) by decide,
      show ¬((6 : Int) = 4) by decide, show ¬((6 : Int) = 5) by decide, if_false, if_true]
    exact generateDistGuitarMotif_band g density c1 c2 syncopation rowsPerBar scaleLen h1 h2 hb
  · intro hr a1 a2
    subst hr
    unfold generateRoleMotif
    simp only [show ¬((2 : Int) = 1) by decide, show ¬((2 : Int) = 0) by decide, if_false,
      if_true]
    rw [generatePadMotif_low g density c1 syncopation rowsPerBar scaleLen h1.1 a1,
      generatePadMotif_low g density c2 syncopation rowsPerBar scaleLen h2.1 a2]

/-- C36, amended, instance: Bass at complexities 34 and 66 of the mid band, Distorted Guitar
at 50 and 100, Pad at 0 and 30. -/
theorem generateRoleMotif_bands_witness :
    ((0 : Int) ≤ 34 ∧ (34 : Int) ≤ 100) ∧ ((0 : Int) ≤ 66 ∧ (66 : Int) ≤ 100) ∧
    specBand 34 = specBand 66 ∧
    generateRoleMotif GenRNG.init 1 60 34 (F32.fin 0) 16 0 7
      = generateRoleMotif GenRNG.init 1 60 66 (F32.fin 0) 16 0 7 :=
  ⟨by decide, by decide, by decide,
    (generateRoleMotif_bands GenRNG.init 1 60 34 66 (F32.fin 0) 16 0 7 (by decide)
      (by decide)).1 (by decide) (by decide) (by decide)⟩

/-- C36, counterexample: from the state of a newly constructed generator the Pad motif has
one note at complexity 0 and two notes at complexity 33, both of the low band; and from
every state the motif of the Distorted Guitar has eight notes at complexity 34 and at most
five at complexity 66, both of the mid band. -/
theorem generateRoleMotif_band_mismatch :
    specBand 0 = specBand 33 ∧
    (∃ m1 g1 m2 g2,
      generateRoleMotif GenRNG.init 2 60 0 (F32.fin 0) 16 0 7 = .ok (m1, g1) ∧
      generateRoleMotif GenRNG.init 2 60 33 (F32.fin 0) 16 0 7 = .ok (m2, g2) ∧
      m1.noteCount = 1 ∧ m2.noteCount = 2) ∧
    specBand 34 = specBand 66 ∧
    (∃ m1 g1 m2 g2,
      generateRoleMotif GenRNG.init 6 60 34 (F32.fin 0) 16 0 7 = .ok (m1, g1) ∧
      generateRoleMotif GenRNG.init 6 60 66 (F32.fin 0) 16 0 7 = .ok (m2, g2) ∧
      m1.noteCount = 8 ∧ m2.noteCount ≤ 5) := by
  refine ⟨by decide, ?_, by decide, ?_⟩
  · obtain ⟨m2, g2, h2, hn2⟩ := generatePadMotif_init_33 60 (F32.fin 0) 7
    obtain ⟨m1, g1, h1, hn1⟩ : ∃ m1 g1,
        generatePadMotif GenRNG.init 60 0 (F32.fin 0) 16 7 = .ok (m1, g1) ∧ m1.noteCount = 1 :=
      ⟨_, _, generatePadMotif_low GenRNG.init 60 0 (F32.fin 0) 16 7 (by decide) (by decide),
        rfl⟩
    refine ⟨m1, g1, m2, g2, ?_, ?_, hn1, hn2⟩
    · unfold generateRoleMotif
      simp only [show ¬((2 : Int) = 1) by decide, show ¬((2 : Int) = 0) by decide, if_false,
        if_true]
      exact h1
    · unfold generateRoleMotif
      simp only [show ¬((2 : Int) = 1) by decide, show ¬((2 : Int) = 0) by decide, if_false,
        if_true]
      exact h2
  · obtain ⟨⟨m1, g1⟩, e1, -, -, -, hA, -⟩ :=
      generateDistGuitarMotif_wf GenRNG.init 60 34 (F32.fin 0) 7
    obtain ⟨⟨m2, g2⟩, e2, -, -, -, -, hB⟩ :=
      generateDistGuitarMotif_wf GenRNG.init 60 66 (F32.fin 0) 7
    refine ⟨m1, g1, m2, g2, ?_, ?_, (hA (F32.cf_lt_half (by decide) (by decide))).1,
      hB (by rw [F32.cf_not_lt_half (by decide) (by decide)]; decide)⟩
    · rw [generateRoleMotif_dist_guitar]
      exact e1
    · rw [generateRoleMotif_dist_guitar]
      exact e2

/-! ## Non-positive rows per bar -/

/-- The run of the bass scenario of `generateFill_bass` for a request whose metric grid
values resolve to 16 rows per bar and 4 rows per beat, whether given or replaced by the
defaults: the stages up to harmonic gravity work on the resolved values, and the passes
receive the request as it was given. -/
theorem generateFill_bass_defaulted (maxRows : Int) (sinf : F32 → F32) (g : GenRNG)
    (pat : DivPattern) (params : GenPatternParams) (style : StylePreset)
    (startRow endRow : Int)
    (hrole : params.role = 1) (hcx : params.complexity = 0) (hform : params.phraseForm = 0)
    (hcont : params.contourHint = 2) (hemph : params.chordToneEmphasis = F32.fin 0)
    (hbar : (if params.rowsPerBar ≤ 0 then 16 else params.rowsPerBar) = 16)
    (hbeat : (if params.rowsPerBeat ≤ 0 then 4 else params.rowsPerBeat) = 4)
    (hscale : params.scaleType = 0) (homin : params.octaveMin = 3)
    (homax : params.octaveMax = 5) (hsync : style.syncopation = F32.fin 0)
    (hlen : ¬(isub endRow startRow ≤ 0 ∨ isub endRow startRow > maxRows))
    (hbars : computeBarCount (isub endRow startRow) 16 = 1)
    (hstart : iadd startRow (imul 0 16) < endRow) :
    ∃ g2, generateFill maxRows sinf g pat params style startRow endRow
      = (writeMotifToPattern maxRows pat (ostinatoAscending 16) {} {}
          (buildGrooveTemplate params.grooveType) params 7 scaleMinor
          (iadd startRow (imul 0 16)) 10) >>= fun W =>
        (if params.allowEffects then applyEffects maxRows g2 W params style startRow endRow
          else pure (W, g2)) >>= fun s =>
        applyNoteOffs maxRows s.1 startRow endRow params.articulationGap 1 >>= fun pat2 =>
        if F32.lt (F32.fin 0) style.chromaticism then
          applyChromaticPassing maxRows s.2 pat2 params style.chromaticism startRow endRow
        else pure (pat2, s.2) := by
  obtain ⟨g1, hcg⟩ := generateChordProgression_one_bar g 0
  refine ⟨g1.randFloat.2.randFloat.2, ?_⟩
  unfold generateFill
  have h4 : genScaleIntervals 0 = ⟨scaleMinor, 7⟩ := by decide
  have hbase : Int.tdiv (if imul (iadd (isub (if genClamp 5 0 9 < genClamp 3 0 9
      then genClamp 3 0 9 else genClamp 5 0 9) (genClamp 3 0 9)) 1) 7 ≤ 0 then 7
      else imul (iadd (isub (if genClamp 5 0 9 < genClamp 3 0 9
      then genClamp 3 0 9 else genClamp 5 0 9) (genClamp 3 0 9)) 1) 7) 2 = 10 := by decide
  simp only [if_neg hlen, hrole, hcx, hform, hcont, hbar, hbeat, hscale, homin, homax, hsync,
    hbars, h4, hcg, hbase]
  rw [ok_bind]
  dsimp only
  rw [generateRoleMotif_bass, generateBassMotif_ostinato, ok_bind]
  dsimp only
  rw [generateRoleMotif_bass, generateBassMotif_ostinato, ok_bind]
  rw [if_neg (by decide), pure_bind_ok]
  dsimp only
  rw [if_neg (by decide), pure_bind_ok]
  dsimp only
  rw [applyMelodicContour_ostinato, ok_bind]
  dsimp only
  rw [applyMelodicContour_ostinato, ok_bind]
  dsimp only
  rw [buildPhrase_one_bar, ok_bind]
  dsimp only
  rw [show (1 : Int).toNat = 1 from rfl, forLoop_single rfl (fun _ => rfl),
    placementStep_ostinato maxRows params _ startRow endRow pat g1 hemph hstart]
  generalize writeMotifToPattern maxRows pat (ostinatoAscending 16) {} {}
    (buildGrooveTemplate params.grooveType) params 7 scaleMinor
    (iadd startRow (imul 0 16)) 10 = x
  cases x <;> rfl

/-- The statement `switch (params.role)` of `applyEffects` for a bass note on a bar start at
complexity 0 with 16 rows per bar: one draw, no effect. -/
theorem effectForRole_bass_bar_start (g : GenRNG) (W : DivPattern) (li ln : Bool) :
    effectForRole 256 (effectsBassParams 16) (F32.fin 0) 0 0 li ln (W, g)
      = .ok (W, g.randFloat.2) := by
  unfold effectForRole
  dsimp only
  have hrole : (effectsBassParams 16).role = 1 := rfl
  rw [hrole, if_neg (by decide), if_pos (Or.inl rfl)]
  have hm : imod (isub 0 0) (effectsBassParams 16).rowsPerBar = .ok 0 := rfl
  rw [hm]
  simp only [draw_not_below_zero_product, Bool.false_eq_true, and_false, if_false]
  rfl

/-- The bass scenario with effects enabled and 16 rows per bar on the bar `[0,16)` of an
empty grid of 256 rows: for every generator state the call returns, and the grid holds the
ostinato at rows 0 and 8. -/
theorem generateFill_bass_effects (sinf : F32 → F32) (g : GenRNG) :
    ∃ pat1 g1, generateFill 256 sinf g emptyPattern (effectsBassParams 16) plainStyle 0 16
        = .ok (pat1, g1) ∧
      (pat1.newData 0).note = 122 ∧ (pat1.newData 8).note = 132 ∧
      (pat1.newData 0).fx = -1 ∧ (pat1.newData 8).fx = -1 := by
  obtain ⟨g2, h⟩ := generateFill_bass_defaulted 256 sinf g emptyPattern (effectsBassParams 16)
    plainStyle 0 16 rfl rfl rfl rfl rfl rfl rfl rfl rfl rfl rfl (by decide) (by decide)
    (by decide)
  rw [h]
  obtain ⟨W, hW, hn, hp, hl, hrest, hoff, h0, h8, f0, f8⟩ : ∃ W : DivPattern,
      writeMotifToPattern 256 emptyPattern (ostinatoAscending 16) {} {}
        (buildGrooveTemplate (effectsBassParams 16).grooveType) (effectsBassParams 16) 7
        scaleMinor (iadd 0 (imul 0 16)) 10 = .ok W ∧
      W.readNote 256 0 = .ok 122 ∧
      findPrevNote 256 W 0 ((0 : Int) - 0).toNat (0 - 1) = .ok (-1) ∧
      isLongNote 256 W 0 16 2 (0 + 1) = .ok true ∧
      (∀ g3 : GenRNG, forLoop (fun row _ => decide (row < 16)) 1
        (effectStep 256 (effectsBassParams 16) (F32.fin 0) 0 16) 15 (0 + 1) (W, g3)
          = .ok (W, g3)) ∧
      (∃ W2, applyNoteOffs 256 W 0 16 (effectsBassParams 16).articulationGap 1 = .ok W2 ∧
        (W2.newData 0).note = 122 ∧ (W2.newData 8).note = 132 ∧
        (W2.newData 0).fx = -1 ∧ (W2.newData 8).fx = -1) ∧
      (W.newData 0).note = 122 ∧ (W.newData 8).note = 132 ∧
      (W.newData 0).fx = -1 ∧ (W.newData 8).fx = -1 :=
    ⟨_, rfl, rfl, rfl, rfl, fun _ => rfl, ⟨_, rfl, rfl, rfl, rfl, rfl⟩, rfl, rfl, rfl, rfl⟩
  obtain ⟨W2, hW2, a0, a8, b0, b8⟩ := hoff
  have he : applyEffects 256 g2 W (effectsBassParams 16) plainStyle 0 16
      = .ok (W, g2.randFloat.2) := by
    unfold applyEffects
    have hc : (effectsBassParams 16).complexity = 0 := rfl
    simp only [hc, F32.div_zero_hundred]
    have hstep : effectStep 256 (effectsBassParams 16) (F32.fin 0) 0 16 0 (W, g2)
        = .ok (W, g2.randFloat.2) := by
      unfold effectStep
      rw [if_neg (by decide)]
      dsimp only
      rw [hn, ok_bind, if_neg (by decide), hp, ok_bind, if_neg (by decide), pure_bind_ok, hl,
        ok_bind]
      exact effectForRole_bass_bar_start g2 W _ _
    rw [show ((16 : Int) - 0).toNat = 15 + 1 from rfl, forLoop_step rfl hstep rfl]
    exact hrest _
  rw [hW, ok_bind]
  have ha : (effectsBassParams 16).allowEffects = true := rfl
  rw [ha, if_pos rfl, he, ok_bind]
  dsimp only
  rw [hW2, ok_bind]
  have hch : F32.lt (F32.fin 0) plainStyle.chromaticism = false := by
    simp [plainStyle, F32.lt]
  rw [hch]
  exact ⟨W2, _, rfl, a0, a8, b0, b8⟩

/-! ## Claim on the defaults of the metric grid -/

/-- C37. The defaults of the metric grid do not hold for the whole call. For the bass
scenario with effects enabled (role Bass, complexity 0, one bar `[0,16)` of an empty grid of
256 rows) and every generator state: with `rowsPerBar = 0` the stages up to the grid writing
work on 16 rows per bar, and the effects pass then evaluates `(row-startRow)%
params.rowsPerBar` with the divisor 0 at the note of row 0; with `rowsPerBar = 16` the same
call returns with the ostinato at rows 0 and 8 and no effect. -/
theorem generateFill_zero_rowsPerBar_divides_by_zero (sinf : F32 → F32) (g : GenRNG) :
    (effectsBassParams 0).rowsPerBar ≤ 0 ∧ (effectsBassParams 0).rowsPerBeat = 4 ∧
    (effectsBassParams 0).role = 1 ∧ (effectsBassParams 0).allowEffects = true ∧
    generateFill 256 sinf g emptyPattern (effectsBassParams 0) plainStyle 0 16
      = .error .divByZero ∧
    ∃ pat1 g1, generateFill 256 sinf g emptyPattern (effectsBassParams 16) plainStyle 0 16
        = .ok (pat1, g1) ∧
      (pat1.newData 0).note = 122 ∧ (pat1.newData 8).note = 132 ∧
      (pat1.newData 0).fx = -1 ∧ (pat1.newData 8).fx = -1 := by
  refine ⟨by decide, rfl, rfl, rfl, ?_, generateFill_bass_effects sinf g⟩
  obtain ⟨g2, h⟩ := generateFill_bass_defaulted 256 sinf g emptyPattern (effectsBassParams 0)
    plainStyle 0 16 rfl rfl rfl rfl rfl rfl rfl rfl rfl rfl rfl (by decide) (by decide)
    (by decide)
  rw [h]
  rfl

/-! ## Frame of the effects pass -/

/-- A property kept by the body of a loop wherever the loop runs it, from the first index
on and under the loop condition, is kept by the loop. -/
theorem forLoop_inv_from {σ : Type} (P : σ → Prop) (cond : Int → σ → Bool) (step : Int)
    (body : Int → σ → Except Fault σ) (i0 : Int) (hstep : 0 ≤ step)
    (hbody : ∀ i s s1, i0 ≤ i → cond i s = true → P s → body i s = .ok s1 → P s1) :
    ∀ (n : Nat) (i : Int) (s s1 : σ), i0 ≤ i → P s →
      forLoop cond step body n i s = .ok s1 → P s1 := by
  intro n
  induction n with
  | zero =>
    intro i s s1 _ hP h
    rw [forLoop] at h
    split at h
    · cases h
    · cases h; exact hP
  | succ n ih =>
    intro i s s1 hi hP h
    rw [forLoop] at h
    split at h
    · obtain ⟨s2, h1, h2⟩ := bind_ok2 h
      exact ih _ _ _ (by omega) (hbody i s s2 hi ‹_› hP h1) h2
    · cases h; exact hP

/-- The relation between a grid and a later grid that differs from it at most in the effect
cells of `row`, where the command is then one of those of the effects pass. -/
theorem modifyRow_effect {maxRows : Int} {pat p1 p2 : DivPattern} {row : Int}
    {f1 f2 : PatRow → PatRow} (h1 : pat.modifyRow maxRows row f1 = .ok p1)
    (h2 : p1.modifyRow maxRows row f2 = .ok p2)
    (hf1 : ∀ c : PatRow, (f1 c).note = c.note ∧ (f1 c).ins = c.ins ∧ (f1 c).vol = c.vol ∧
      ((f1 c).fx = 0x02 ∨ (f1 c).fx = 0x03 ∨ (f1 c).fx = 0x04 ∨ (f1 c).fx = 0x0A))
    (hf2 : ∀ c : PatRow, (f2 c).note = c.note ∧ (f2 c).ins = c.ins ∧ (f2 c).vol = c.vol ∧
      (f2 c).fx = c.fx) :
    ∀ r : Int, (p2.newData r).note = (pat.newData r).note ∧
      (p2.newData r).ins = (pat.newData r).ins ∧ (p2.newData r).vol = (pat.newData r).vol ∧
      (((p2.newData r).fx = (pat.newData r).fx ∧ (p2.newData r).fxVal = (pat.newData r).fxVal) ∨
        (r = row ∧ ((p2.newData r).fx = 0x02 ∨ (p2.newData r).fx = 0x03 ∨
          (p2.newData r).fx = 0x04 ∨ (p2.newData r).fx = 0x0A))) := by
  obtain ⟨a1, b1⟩ := modifyRow_eq h1
  obtain ⟨a2, b2⟩ := modifyRow_eq h2
  intro r
  by_cases hr : r = row
  · subst hr
    rw [b2, b1]
    obtain ⟨n1, i1, v1, x1⟩ := hf1 (pat.newData r)
    obtain ⟨n2, i2, v2, x2⟩ := hf2 (f1 (pat.newData r))
    refine ⟨n2.trans n1, i2.trans i1, v2.trans v1, Or.inr ⟨rfl, ?_⟩⟩
    rw [x2]
    exact x1
  · rw [a2 r hr, a1 r hr]
    exact ⟨rfl, rfl, rfl, Or.inl ⟨rfl, rfl⟩⟩

/-- The statement `switch (params.role)` of `applyEffects` changes at most the effect cells
of `row`, and writes one of the commands `0x02`, `0x03`, `0x04`, `0x0A`. -/
theorem effectForRole_frame {maxRows : Int} {params : GenPatternParams} {cf : F32}
    {startRow row : Int} {largeInterval longNote : Bool} {s s1 : DivPattern × GenRNG}
    (h : effectForRole maxRows params cf startRow row largeInterval longNote s = .ok s1) :
    ∀ r : Int, (s1.1.newData r).note = (s.1.newData r).note ∧
      (s1.1.newData r).ins = (s.1.newData r).ins ∧
      (s1.1.newData r).vol = (s.1.newData r).vol ∧
      (((s1.1.newData r).fx = (s.1.newData r).fx ∧
          (s1.1.newData r).fxVal = (s.1.newData r).fxVal) ∨
        (r = row ∧ ((s1.1.newData r).fx = 0x02 ∨ (s1.1.newData r).fx = 0x03 ∨
          (s1.1.newData r).fx = 0x04 ∨ (s1.1.newData r).fx = 0x0A))) := by
  have hsame : ∀ r : Int, (s.1.newData r).note = (s.1.newData r).note ∧
      (s.1.newData r).ins = (s.1.newData r).ins ∧
      (s.1.newData r).vol = (s.1.newData r).vol ∧
      (((s.1.newData r).fx = (s.1.newData r).fx ∧
          (s.1.newData r).fxVal = (s.1.newData r).fxVal) ∨
        (r = row ∧ ((s.1.newData r).fx = 0x02 ∨ (s.1.newData r).fx = 0x03 ∨
          (s.1.newData r).fx = 0x04 ∨ (s.1.newData r).fx = 0x0A))) :=
    fun r => ⟨rfl, rfl, rfl, Or.inl ⟨rfl, rfl⟩⟩
  unfold effectForRole at h
  dsimp only at h
  rcases ite_ok h with ⟨-, h⟩ | ⟨-, h⟩
  · rcases ite_ok h with ⟨-, h⟩ | ⟨-, h⟩
    · obtain ⟨p1, h1, h⟩ := bind_ok h
      obtain ⟨p, -, h⟩ := bind_ok h
      obtain ⟨p2, h2, h⟩ := bind_ok h
      cases h
      exact modifyRow_effect h1 h2 (fun _ => ⟨rfl, rfl, rfl, Or.inr (Or.inl rfl)⟩)
        (fun _ => ⟨rfl, rfl, rfl, rfl⟩)
    · rcases ite_ok h with ⟨-, h⟩ | ⟨-, h⟩
      · obtain ⟨p1, h1, h⟩ := bind_ok h
        obtain ⟨sp, -, h⟩ := bind_ok h
        obtain ⟨dp, -, h⟩ := bind_ok h
        obtain ⟨p2, h2, h⟩ := bind_ok h
        cases h
        exact modifyRow_effect h1 h2 (fun _ => ⟨rfl, rfl, rfl, Or.inr (Or.inr (Or.inl rfl))⟩)
          (fun _ => ⟨rfl, rfl, rfl, rfl⟩)
      · cases h
        exact hsame
  rcases ite_ok h with ⟨-, h⟩ | ⟨-, h⟩
  · obtain ⟨r, -, h⟩ := bind_ok h
    rcases ite_ok h with ⟨-, h⟩ | ⟨-, h⟩
    · obtain ⟨p1, h1, h⟩ := bind_ok h
      obtain ⟨p, -, h⟩ := bind_ok h
      obtain ⟨p2, h2, h⟩ := bind_ok h
      cases h
      exact modifyRow_effect h1 h2 (fun _ => ⟨rfl, rfl, rfl, Or.inl rfl⟩)
        (fun _ => ⟨rfl, rfl, rfl, rfl⟩)
    · cases h
      exact hsame
  rcases ite_ok h with ⟨-, h⟩ | ⟨-, h⟩
  · rcases ite_ok h with ⟨-, h⟩ | ⟨-, h⟩
    · obtain ⟨p1, h1, h⟩ := bind_ok h
      obtain ⟨sp, -, h⟩ := bind_ok h
      obtain ⟨dp, -, h⟩ := bind_ok h
      obtain ⟨p2, h2, h⟩ := bind_ok h
      cases h
      exact modifyRow_effect h1 h2 (fun _ => ⟨rfl, rfl, rfl, Or.inr (Or.inr (Or.inl rfl))⟩)
        (fun _ => ⟨rfl, rfl, rfl, rfl⟩)
    · cases h
      exact hsame
  rcases ite_ok h with ⟨-, h⟩ | ⟨-, h⟩
  · obtain ⟨r, -, h⟩ := bind_ok h
    rcases ite_ok h with ⟨-, h⟩ | ⟨-, h⟩
    · obtain ⟨p1, h1, h⟩ := bind_ok h
      obtain ⟨p2, h2, h⟩ := bind_ok h
      cases h
      exact modifyRow_effect h1 h2 (fun _ => ⟨rfl, rfl, rfl, Or.inr (Or.inr (Or.inr rfl))⟩)
        (fun _ => ⟨rfl, rfl, rfl, rfl⟩)
    · cases h
      exact hsame
  rcases ite_ok h with ⟨-, h⟩ | ⟨-, h⟩
  · obtain ⟨p1, h1, h⟩ := bind_ok h
    obtain ⟨p, -, h⟩ := bind_ok h
    obtain ⟨p2, h2, h⟩ := bind_ok h
    cases h
    exact modifyRow_effect h1 h2 (fun _ => ⟨rfl, rfl, rfl, Or.inr (Or.inl rfl)⟩)
      (fun _ => ⟨rfl, rfl, rfl, rfl⟩)
  · cases h
    exact hsame

/-- The body of the loop of `applyEffects` at a row of the region keeps the frame of the
pass. -/
theorem effectStep_frame {maxRows : Int} {params : GenPatternParams} {cf : F32}
    {startRow endRow row : Int} {pat : DivPattern} {s s1 : DivPattern × GenRNG}
    (hrow : startRow ≤ row) (hend : row < endRow)
    (hs : pat.EffectFrame startRow endRow s.1)
    (h : effectStep maxRows params cf startRow endRow row s = .ok s1) :
    pat.EffectFrame startRow endRow s1.1 := by
  unfold effectStep at h
  rcases ite_pure_ok h with ⟨-, rfl⟩ | ⟨-, h⟩
  · exact hs
  obtain ⟨note, hnote, h⟩ := bind_ok h
  rcases ite_pure_ok h with ⟨-, rfl⟩ | ⟨hrange, h⟩
  · exact hs
  obtain ⟨prevRow, -, h⟩ := bind_ok h
  obtain ⟨li, -, h⟩ := bind_ok h
  obtain ⟨ln, -, h⟩ := bind_ok h
  have hf := effectForRole_frame h
  have hn : note = (s.1.newData row).note := by
    unfold DivPattern.readNote at hnote
    split at hnote
    · cases hnote; rfl
    · cases hnote
  intro r
  obtain ⟨n1, i1, v1, x1⟩ := hf r
  obtain ⟨n0, i0, v0, x0⟩ := hs r
  refine ⟨n1.trans n0, i1.trans i0, v1.trans v0, ?_⟩
  rcases x1 with ⟨a, b⟩ | ⟨rfl, c⟩
  · rcases x0 with ⟨a0, b0⟩ | ⟨q1, q2, q3, q4, q5⟩
    · exact Or.inl ⟨a.trans a0, b.trans b0⟩
    · refine Or.inr ⟨q1, q2, q3, q4, ?_⟩
      rw [a]
      exact q5
  · refine Or.inr ⟨hrow, hend, ?_, ?_, c⟩
    · rw [← n0, ← hn]; omega
    · rw [← n0, ← hn]; omega

/-- Every run of `applyEffects` that returns keeps the frame of the pass. -/
theorem applyEffects_effectFrame {maxRows : Int} {g : GenRNG} {pat : DivPattern}
    {params : GenPatternParams} {style : StylePreset} {startRow endRow : Int}
    {s1 : DivPattern × GenRNG}
    (h : applyEffects maxRows g pat params style startRow endRow = .ok s1) :
    pat.EffectFrame startRow endRow s1.1 := by
  unfold applyEffects at h
  refine forLoop_inv_from (fun s => pat.EffectFrame startRow endRow s.1) _ 1 _ startRow
    (by decide) ?_ _ _ _ _ (le_refl _) ?_ h
  · intro i s s2 hi hc hs hb
    simp only [decide_eq_true_eq] at hc
    exact effectStep_frame hi hc hs hb
  · exact fun r => ⟨rfl, rfl, rfl, Or.inl ⟨rfl, rfl⟩⟩

/-! ## Passes that leave the effect cells alone -/

/-- Grids related by `FxSame` compose. -/
theorem DivPattern.FxSame.fxSame_trans {p0 p1 p2 : DivPattern} (h1 : p0.FxSame p1)
    (h2 : p1.FxSame p2) : p0.FxSame p2 :=
  fun r => ⟨(h2 r).1.trans (h1 r).1, (h2 r).2.trans (h1 r).2⟩

/-- A grid has its own effect cells. -/
theorem DivPattern.FxSame.fxSame_refl (p : DivPattern) : p.FxSame p := fun _ => ⟨rfl, rfl⟩

/-- A row assignment that keeps the effect cells. -/
theorem modifyRow_fxSame {maxRows : Int} {pat pat1 : DivPattern} {row : Int}
    {f : PatRow → PatRow} (h : pat.modifyRow maxRows row f = .ok pat1)
    (hf : ∀ c : PatRow, (f c).fx = c.fx ∧ (f c).fxVal = c.fxVal) : pat.FxSame pat1 := by
  obtain ⟨a, b⟩ := modifyRow_eq h
  intro r
  by_cases hr : r = row
  · subst hr
    rw [b]
    exact hf _
  · rw [a r hr]
    exact ⟨rfl, rfl⟩

/-- The body of the loop of `writeMotifToPattern` keeps the effect cells. -/
theorem writeNoteStep_fxSame {maxRows : Int} {motif : Motif} {placement : MotifPlacement}
    {chord : BarChord} {groove : GrooveTemplate} {params : GenPatternParams}
    {scaleLen : Int} {intervals : List Int} {barStartRow degreeRangeBase octMin degreeRange : Int}
    {i : Int} {pat pat1 : DivPattern}
    (h : writeNoteStep maxRows motif placement chord groove params scaleLen intervals
      barStartRow degreeRangeBase octMin degreeRange i pat = .ok pat1) :
    pat.FxSame pat1 := by
  unfold writeNoteStep at h
  obtain ⟨mn, -, h⟩ := bind_ok h
  rcases ite_pure_ok h with ⟨-, rfl⟩ | ⟨-, h⟩
  · exact DivPattern.FxSame.fxSame_refl _
  rcases ite_pure_ok h with ⟨-, rfl⟩ | ⟨-, h⟩
  · exact DivPattern.FxSame.fxSame_refl _
  obtain ⟨d1, -, h⟩ := bind_ok h
  obtain ⟨d2, -, h⟩ := bind_ok h
  obtain ⟨q, -, h⟩ := bind_ok h
  obtain ⟨r, -, h⟩ := bind_ok h
  obtain ⟨dis, -, h⟩ := bind_ok h
  obtain ⟨-, h⟩ := ite_error_ok h
  obtain ⟨iv, -, h⟩ := bind_ok h
  obtain ⟨p1, hw1, h⟩ := bind_ok h
  obtain ⟨-, h⟩ := ite_error_ok h
  obtain ⟨gv, -, h⟩ := bind_ok h
  exact (modifyRow_fxSame hw1 (fun _ => ⟨rfl, rfl⟩)).fxSame_trans
    (modifyRow_fxSame h (fun _ => ⟨rfl, rfl⟩))

/-- `writeMotifToPattern` keeps the effect cells. -/
theorem writeMotifToPattern_fxSame {maxRows : Int} {pat pat1 : DivPattern} {motif : Motif}
    {placement : MotifPlacement} {chord : BarChord} {groove : GrooveTemplate}
    {params : GenPatternParams} {scaleLen : Int} {intervals : List Int}
    {barStartRow degreeRangeBase : Int}
    (h : writeMotifToPattern maxRows pat motif placement chord groove params scaleLen
      intervals barStartRow degreeRangeBase = .ok pat1) :
    pat.FxSame pat1 := by
  unfold writeMotifToPattern at h
  exact forLoop_inv (fun p => pat.FxSame p) _ _ _
    (fun i s s1 hs hb => hs.fxSame_trans (writeNoteStep_fxSame hb)) _ _ _ _
    (DivPattern.FxSame.fxSame_refl pat) h

/-- The body of the loop of `applyNoteOffs` keeps the effect cells. -/
theorem noteOffStep_fxSame {maxRows endRow gap row : Int} {pat pat1 : DivPattern}
    (h : noteOffStep maxRows endRow gap row pat = .ok pat1) : pat.FxSame pat1 := by
  unfold noteOffStep at h
  rcases ite_pure_ok h with ⟨-, rfl⟩ | ⟨-, h⟩
  · exact DivPattern.FxSame.fxSame_refl _
  obtain ⟨note, -, h⟩ := bind_ok h
  rcases ite_pure_ok h with ⟨-, rfl⟩ | ⟨-, h⟩
  · exact DivPattern.FxSame.fxSame_refl _
  obtain ⟨nn, -, h⟩ := bind_ok h
  rcases ite_pure_ok h with ⟨-, rfl⟩ | ⟨-, h⟩
  · exact DivPattern.FxSame.fxSame_refl _
  rcases ite_pure_ok h with ⟨-, rfl⟩ | ⟨-, h⟩
  · exact DivPattern.FxSame.fxSame_refl _
  obtain ⟨v, -, h⟩ := bind_ok h
  rcases ite_ok h with ⟨-, h⟩ | ⟨-, h⟩
  · exact modifyRow_fxSame h (fun _ => ⟨rfl, rfl⟩)
  · cases h
    exact DivPattern.FxSame.fxSame_refl _

/-- `applyNoteOffs` keeps the effect cells. -/
theorem applyNoteOffs_fxSame {maxRows : Int} {pat pat1 : DivPattern}
    {startRow endRow articulationGap role : Int}
    (h : applyNoteOffs maxRows pat startRow endRow articulationGap role = .ok pat1) :
    pat.FxSame pat1 := by
  unfold applyNoteOffs at h
  dsimp only at h
  rcases ite_ok h with ⟨-, h⟩ | ⟨-, h⟩
  · cases h
    exact DivPattern.FxSame.fxSame_refl _
  · exact forLoop_inv (fun p => pat.FxSame p) _ _ _
      (fun i s s1 hs hb => hs.fxSame_trans (noteOffStep_fxSame hb)) _ _ _ _
      (DivPattern.FxSame.fxSame_refl pat) h

/-- The body of the loop of `applyChromaticPassing` keeps the effect cells. -/
theorem chromaticStep_fxSame {maxRows : Int} {params : GenPatternParams}
    {chromaticism : F32} {startRow endRow i : Int} {s s1 : DivPattern × GenRNG}
    (h : chromaticStep maxRows params chromaticism startRow endRow i s = .ok s1) :
    s.1.FxSame s1.1 := by
  unfold chromaticStep at h
  rcases ite_pure_ok h with ⟨-, rfl⟩ | ⟨-, h⟩
  · exact DivPattern.FxSame.fxSame_refl _
  obtain ⟨note, -, h⟩ := bind_ok h
  rcases ite_pure_ok h with ⟨-, rfl⟩ | ⟨-, h⟩
  · exact DivPattern.FxSame.fxSame_refl _
  rcases ite_pure_ok h with ⟨-, rfl⟩ | ⟨-, h⟩
  · exact DivPattern.FxSame.fxSame_refl _
  obtain ⟨prevRow, -, h⟩ := bind_ok h
  obtain ⟨nextRow, -, h⟩ := bind_ok h
  rcases ite_pure_ok h with ⟨-, rfl⟩ | ⟨-, h⟩
  · exact DivPattern.FxSame.fxSame_refl _
  dsimp only at h
  rcases ite_ok h with ⟨-, h⟩ | ⟨-, h⟩
  · obtain ⟨prevNote, -, h⟩ := bind_ok h
    obtain ⟨nextNote, -, h⟩ := bind_ok h
    rcases ite_pure_ok h with ⟨-, rfl⟩ | ⟨-, h⟩
    · exact DivPattern.FxSame.fxSame_refl _
    obtain ⟨p1, h1, h⟩ := bind_ok h
    obtain ⟨p, hp, h⟩ := bind_ok h
    obtain ⟨p2, h2, h⟩ := bind_ok h
    cases h
    exact (modifyRow_fxSame h1 (fun _ => ⟨rfl, rfl⟩)).fxSame_trans
      (modifyRow_fxSame h2 (fun _ => ⟨rfl, rfl⟩))
  · cases h
    exact DivPattern.FxSame.fxSame_refl _

/-- `applyChromaticPassing` keeps the effect cells. -/
theorem applyChromaticPassing_fxSame {maxRows : Int} {g : GenRNG} {pat : DivPattern}
    {params : GenPatternParams} {chromaticism : F32} {startRow endRow : Int}
    {s1 : DivPattern × GenRNG}
    (h : applyChromaticPassing maxRows g pat params chromaticism startRow endRow = .ok s1) :
    pat.FxSame s1.1 := by
  unfold applyChromaticPassing at h
  exact forLoop_inv (fun s => pat.FxSame s.1) _ _ _
    (fun i s s1 hs hb => hs.fxSame_trans (chromaticStep_fxSame hb)) _ _ _ _
    (DivPattern.FxSame.fxSame_refl pat) h

/-- The body of the loop over the placements of `generateFill` keeps the effect cells. -/
theorem placementStep_fxSame {maxRows : Int} {params : GenPatternParams} {phrase : Phrase}
    {motifPool : List Motif} {chords : List BarChord} {groove : GrooveTemplate}
    {scaleLen : Int} {intervals : List Int}
    {barCount rowsPerBar rowsPerBeat startRow endRow degreeRangeBase p : Int}
    {s s1 : DivPattern × GenRNG}
    (h : placementStep maxRows params phrase motifPool chords groove scaleLen intervals
      barCount rowsPerBar rowsPerBeat startRow endRow degreeRangeBase p s = .ok s1) :
    s.1.FxSame s1.1 := by
  unfold placementStep at h
  obtain ⟨-, h⟩ := ite_error_ok h
  obtain ⟨mp, -, h⟩ := bind_ok h
  rcases ite_pure_ok h with ⟨-, rfl⟩ | ⟨-, h⟩
  · exact DivPattern.FxSame.fxSame_refl _
  rcases ite_pure_ok h with ⟨-, rfl⟩ | ⟨-, h⟩
  · exact DivPattern.FxSame.fxSame_refl _
  obtain ⟨-, h⟩ := ite_error_ok h
  obtain ⟨m, -, h⟩ := bind_ok h
  obtain ⟨chord, -, h⟩ := bind_ok h
  obtain ⟨mg, -, h⟩ := bind_ok h
  obtain ⟨pat1, hw, h⟩ := bind_ok h
  cases h
  exact writeMotifToPattern_fxSame hw

/-- Every run of `generateFill` with effects disabled that returns keeps the effect
cells. -/
theorem generateFill_fxSame {maxRows : Int} {sinf : F32 → F32} {g : GenRNG}
    {pat : DivPattern} {params : GenPatternParams} {style : StylePreset}
    {startRow endRow : Int} {s1 : DivPattern × GenRNG} (hoff : params.allowEffects = false)
    (h : generateFill maxRows sinf g pat params style startRow endRow = .ok s1) :
    pat.FxSame s1.1 := by
  unfold generateFill at h
  rcases ite_pure_ok h with ⟨-, rfl⟩ | ⟨-, h⟩
  · exact DivPattern.FxSame.fxSame_refl _
  obtain ⟨cg, -, h⟩ := bind_ok h
  obtain ⟨ma, -, h⟩ := bind_ok h
  obtain ⟨mb, -, h⟩ := bind_ok h
  obtain ⟨ca, -, h⟩ := bind_ok h
  obtain ⟨cb, -, h⟩ := bind_ok h
  obtain ⟨motifA, -, h⟩ := bind_ok h
  obtain ⟨motifB, -, h⟩ := bind_ok h
  obtain ⟨phrase, -, h⟩ := bind_ok h
  obtain ⟨s, hs, h⟩ := bind_ok h
  obtain ⟨s2, hs2, h⟩ := bind_ok h
  obtain ⟨pat3, hs3, h⟩ := bind_ok h
  have h1 : pat.FxSame s.1 :=
    forLoop_inv (fun s => pat.FxSame s.1) _ _ _
      (fun i s s1 hs hb => hs.fxSame_trans (placementStep_fxSame hb)) _ _ _ _
      (DivPattern.FxSame.fxSame_refl pat) hs
  have h2 : s.1.FxSame s2.1 := by
    rcases ite_ok hs2 with ⟨hon, -⟩ | ⟨-, hs2⟩
    · rw [hoff] at hon
      cases hon
    · cases hs2
      exact DivPattern.FxSame.fxSame_refl _
  have h3 : s2.1.FxSame pat3 := applyNoteOffs_fxSame hs3
  rcases ite_ok h with ⟨-, h⟩ | ⟨-, h⟩
  · exact ((h1.fxSame_trans h2).fxSame_trans h3).fxSame_trans (applyChromaticPassing_fxSame h)
  · cases h
    exact (h1.fxSame_trans h2).fxSame_trans h3

/-! ## Claim on the frame of the effects pass -/

/-- C31. Every run of `applyEffects` that returns changes no note, instrument or volume
cell, and changes the effect command and the effect value only in rows of
`[startRow, endRow)` whose note cell holds a note in `[0,179]`, where the command is then one
of `0x02`, `0x03`, `0x04`, `0x0A`; and every run of `generateFill` with `allowEffects = false`
that returns leaves every effect command and effect value of the grid as it was. -/
theorem applyEffects_frame (maxRows : Int) (sinf : F32 → F32) (g g0 : GenRNG)
    (pat pat0 : DivPattern) (params params0 : GenPatternParams) (style style0 : StylePreset)
    (startRow endRow startRow0 endRow0 : Int) (pat1 pat2 : DivPattern) (g1 g2 : GenRNG)
    (h : applyEffects maxRows g pat params style startRow endRow = .ok (pat1, g1))
    (hoff : params0.allowEffects = false)
    (hfill : generateFill maxRows sinf g0 pat0 params0 style0 startRow0 endRow0
      = .ok (pat2, g2)) :
    pat.EffectFrame startRow endRow pat1 ∧ pat0.FxSame pat2 :=
  ⟨applyEffects_effectFrame h, generateFill_fxSame hoff hfill⟩

/-- C31, instance: the effects pass for the role Pad on the grid of one note, where the
vibrato command is written at row 0, and the bass scenario with effects disabled. -/
theorem applyEffects_frame_witness :
    ∃ pat1 g1 pat2 g2,
      applyEffects 256 GenRNG.init singleNotePattern padParams plainStyle 0 1
        = .ok (pat1, g1) ∧
      bassParams.allowEffects = false ∧
      generateFill 256 (fun x => x) GenRNG.init emptyPattern bassParams plainStyle 0 16
        = .ok (pat2, g2) ∧
      (pat1.newData 0).fx = 4 ∧ (pat2.newData 0).note = 122 ∧
      singleNotePattern.EffectFrame 0 1 pat1 ∧ emptyPattern.FxSame pat2 := by
  obtain ⟨pat1, g1, h1, hfx, -, -⟩ :=
    applyEffects_pad_single GenRNG.init plainStyle randFloat_init_lt_half
  obtain ⟨pat2, g2, h2, hn, -⟩ := generateFill_bass_bar (fun x => x) GenRNG.init
  exact ⟨pat1, g1, pat2, g2, h1, rfl, h2, hfx, hn,
    applyEffects_frame 256 (fun x => x) GenRNG.init GenRNG.init singleNotePattern emptyPattern
      padParams bassParams plainStyle plainStyle 0 1 0 16 pat1 pat2 g1 g2 h1 rfl h2⟩

/-! ## Postcondition of the articulation pass -/

/-- A read of a note cell inside the grid returns the cell. -/
theorem readNote_in (maxRows : Int) (pat : DivPattern) (row : Int) (h0 : 0 ≤ row)
    (h1 : row < maxRows) : pat.readNote maxRows row = .ok (pat.newData row).note := by
  unfold DivPattern.readNote
  rw [if_pos ⟨h0, h1⟩]

/-- The search of `applyNoteOffs` for the next event returns the first row at or after `r`
that is not empty, or `endRow`. -/
theorem findNextEvent_returns (maxRows : Int) (pat : DivPattern) (endRow : Int)
    (he : endRow ≤ maxRows) :
    ∀ (fuel : Nat) (r : Int), 0 ≤ r → r ≤ endRow → endRow - r ≤ fuel →
      Returns (findNextEvent maxRows pat endRow fuel r) (fun n => r ≤ n ∧ n ≤ endRow ∧
        (∀ y : Int, r ≤ y → y < n → (pat.newData y).note = -1) ∧
        (n = endRow ∨ (pat.newData n).note ≠ -1)) := by
  intro fuel
  induction fuel with
  | zero =>
    intro r h0 h1 h2
    rw [findNextEvent, if_neg (by omega)]
    exact returns_ok ⟨h1, le_refl _, fun y _ _ => by omega, Or.inl rfl⟩
  | succ n ih =>
    intro r h0 h1 h2
    rw [findNextEvent]
    by_cases hc : r < endRow ∧ r < maxRows
    · rw [if_pos hc, readNote_in maxRows pat r h0 hc.2, ok_bind2]
      by_cases hv : (pat.newData r).note ≠ -1
      · rw [if_pos hv]
        exact returns_ok ⟨le_refl _, by omega, fun y _ _ => by omega, Or.inr hv⟩
      · rw [if_neg hv]
        have hv1 : (pat.newData r).note = -1 := not_not.mp hv
        refine returns_mono (ih (r + 1) (by omega) (by omega) (by push_cast at h2; omega)) ?_
        rintro m ⟨a1, a2, a3, a4⟩
        refine ⟨by omega, a2, fun y hy1 hy2 => ?_, a4⟩
        by_cases hy : y = r
        · rw [hy]; exact hv1
        · exact a3 y (by omega) hy2
    · rw [if_neg hc]
      exact returns_ok ⟨h1, le_refl _, fun y _ _ => by omega, Or.inl rfl⟩

/-- The next event after a row is unique. -/
theorem DivPattern.NextEvent.unique {pat : DivPattern} {endRow r n m : Int}
    (h1 : pat.NextEvent endRow r n) (h2 : pat.NextEvent endRow r m) : n = m := by
  obtain ⟨a1, a2, a3, a4⟩ := h1
  obtain ⟨b1, b2, b3, b4⟩ := h2
  rcases lt_trichotomy n m with h | h | h
  · exfalso
    rcases a4 with e | e
    · omega
    · exact e (b3 n a1 h)
  · exact h
  · exfalso
    rcases b4 with e | e
    · omega
    · exact e (a3 m b1 h)

/-- The body of the loop of `applyNoteOffs` at a row of the region returns and moves the
invariant of the loop to the next row. -/
theorem noteOffStep_returns {maxRows : Int} {pat p : DivPattern}
    {startRow endRow gap row : Int} (hs : 0 ≤ startRow) (he : endRow ≤ maxRows)
    (hmax : maxRows ≤ 2147483647) (hg : 1 ≤ gap) (hgi : gap ≤ 2147483647)
    (hrow : row < endRow) (hI : NoteOffInv pat startRow endRow gap row p) :
    Returns (noteOffStep maxRows endRow gap row p)
      (fun p1 => NoteOffInv pat startRow endRow gap (row + 1) p1) := by
  obtain ⟨h1, h2, hA, hB, hC⟩ := hI
  have keep : (∀ n : Int, (pat.newData row).IsNote → pat.NextEvent endRow row n →
      row < n - gap → (p.newData (n - gap)).note = 253) →
      NoteOffInv pat startRow endRow gap (row + 1) p := by
    intro hnew
    refine ⟨by omega, by omega, hA, fun x hx hne y hy hyx => hB x (by omega) hne y (by omega) hyx,
      fun r n hr hlt hnote hne hgap => ?_⟩
    by_cases hr2 : r < row
    · exact hC r n hr hr2 hnote hne hgap
    · have hrr : r = row := by omega
      subst hrr
      exact hnew n hnote hne hgap
  unfold noteOffStep
  rw [if_neg (by omega), readNote_in maxRows p row (by omega) (by omega), ok_bind]
  by_cases hn : (p.newData row).note < 0 ∨ (p.newData row).note > 179
  · rw [if_pos hn]
    refine returns_pure (keep ?_)
    intro n hnote
    exfalso
    unfold PatRow.IsNote at hnote
    rcases hA row with e | ⟨e1, -⟩
    · rw [e] at hn
      omega
    · omega
  rw [if_neg hn]
  have hrow_eq : p.newData row = pat.newData row := by
    rcases hA row with e | ⟨-, e2⟩
    · exact e
    · exfalso
      rw [e2] at hn
      exact hn (Or.inr (by show (253 : Int) > 179; decide))
  have hafter : ∀ x : Int, row ≤ x → p.newData x = pat.newData x := by
    intro x hx
    by_contra hne
    have h := hB x hx hne row (le_refl _) hx
    rw [← hrow_eq] at h
    omega
  refine returns_bind
    (findNextEvent_returns maxRows p endRow he _ (row + 1) (by omega) (by omega) (by omega)) ?_
  rintro m ⟨a1, a2, a3, a4⟩
  dsimp only
  have hoff : isub m gap = m - gap := isub_eq ⟨by omega, by omega⟩
  rw [hoff]
  have hNE : pat.NextEvent endRow row m := by
    refine ⟨by omega, a2, fun y hy1 hy2 => ?_, ?_⟩
    · rw [← hafter y (by omega)]
      exact a3 y (by omega) hy2
    · rcases a4 with e | e
      · exact Or.inl e
      · right
        rw [← hafter m (by omega)]
        exact e
  by_cases c1 : m - gap ≤ row
  · rw [if_pos c1]
    refine returns_pure (keep ?_)
    intro n _ hne hlt
    rw [hne.unique hNE] at hlt
    omega
  rw [if_neg c1, if_neg (by omega), readNote_in maxRows p (m - gap) (by omega) (by omega),
    ok_bind]
  have hv : (p.newData (m - gap)).note = -1 := a3 _ (by omega) (by omega)
  rw [if_pos hv, modifyRow_in _ _ _ _ ⟨by omega, by omega⟩]
  refine returns_ok ⟨by omega, by omega, ?_, ?_, ?_⟩
  · intro x
    dsimp only
    by_cases hx : x = m - gap
    · rw [if_pos hx]
      right
      subst hx
      rw [hafter _ (by omega)] at hv
      exact ⟨hv, by rw [hafter _ (by omega)]⟩
    · rw [if_neg hx]
      exact hA x
  · intro x hx hne y hy1 hy2
    dsimp only at hne
    by_cases hxo : x = m - gap
    · rw [← hafter y (by omega)]
      exact a3 y (by omega) (by omega)
    · rw [if_neg hxo] at hne
      exact absurd (hafter x (by omega)) hne
  · intro r n hr hlt hnote hne hgap
    dsimp only
    by_cases hxo : n - gap = m - gap
    · rw [if_pos hxo]
    · rw [if_neg hxo]
      by_cases hr2 : r < row
      · exact hC r n hr hr2 hnote hne hgap
      · have hrr : r = row := by omega
        subst hrr
        exact absurd (by rw [hne.unique hNE]) hxo

/-- With an explicit gap `applyNoteOffs` returns, changes only empty note cells, to the
note-off sentinel, and gives every note of the region its note-off. -/
theorem applyNoteOffs_returns {maxRows : Int} (pat : DivPattern)
    {startRow endRow gap : Int} (role : Int) (hs : 0 ≤ startRow) (hse : startRow < endRow)
    (he : endRow ≤ maxRows) (hmax : maxRows ≤ 2147483647) (hg : 1 ≤ gap)
    (hgi : gap ≤ 2147483647) :
    Returns (applyNoteOffs maxRows pat startRow endRow gap role) (fun pat1 =>
      (∀ x : Int, pat1.newData x = pat.newData x ∨
        ((pat.newData x).note = -1 ∧ pat1.newData x = { pat.newData x with note := 253 })) ∧
      (∀ r n : Int, startRow ≤ r → (pat.newData r).IsNote → pat.NextEvent endRow r n →
        r < n - gap → (pat1.newData (n - gap)).note = 253)) := by
  unfold applyNoteOffs
  dsimp only
  rw [if_neg (by omega), if_neg (by omega)]
  have hloop := forLoop_returns (fun row _ => decide (row < endRow)) 1
    (noteOffStep maxRows endRow gap) (fun i p => NoteOffInv pat startRow endRow gap i p)
    startRow (by decide)
    (fun i s _ hc hI =>
      noteOffStep_returns hs he hmax hg hgi (by simpa using hc) hI)
    (endRow - startRow).toNat startRow pat (le_refl _)
    ⟨le_refl _, by omega, fun x => Or.inl rfl, fun x _ hne => absurd rfl hne,
      fun r n hr hlt => by omega⟩
    (fun s1 _ => by
      simp only [decide_eq_false_iff_not, not_lt]
      have : ((endRow - startRow).toNat : Int) = endRow - startRow := Int.toNat_of_nonneg (by omega)
      omega)
  refine returns_mono hloop ?_
  rintro pat1 ⟨j, hj, ⟨i1, i2, iA, -, iC⟩, hc⟩
  simp only [decide_eq_false_iff_not, not_lt] at hc
  refine ⟨iA, fun r n hr hnote hne hgap => iC r n hr ?_ hnote hne hgap⟩
  have := hne.1
  have := hne.2.1
  omega

/-- The two statements of `applyNoteOffs` with the table of defaults named. -/
theorem applyNoteOffs_eq (maxRows : Int) (pat : DivPattern) (startRow endRow gap0 : Int)
    (role : Int) :
    applyNoteOffs maxRows pat startRow endRow gap0 role =
      if (if gap0 ≤ 0 then specDefaultGap role else gap0) ≤ 0 then .ok pat
      else forLoop (fun row _ => decide (row < endRow)) 1
        (noteOffStep maxRows endRow (if gap0 ≤ 0 then specDefaultGap role else gap0))
        (endRow - startRow).toNat startRow pat := rfl

/-- A default gap is 0 or positive. -/
theorem specDefaultGap_nonneg (role : Int) : 0 ≤ specDefaultGap role := by
  unfold specDefaultGap
  split_ifs <;> decide

/-- With a gap that is not positive `applyNoteOffs` uses the default of the role: it returns
the grid as it is when that default is 0, and else runs as with the default as the explicit
gap. -/
theorem applyNoteOffs_default (maxRows : Int) (pat : DivPattern) (startRow endRow gap0 : Int)
    (role : Int) (h0 : gap0 ≤ 0) :
    applyNoteOffs maxRows pat startRow endRow gap0 role =
      if specDefaultGap role = 0 then .ok pat
      else applyNoteOffs maxRows pat startRow endRow (specDefaultGap role) role := by
  have hnn := specDefaultGap_nonneg role
  rw [applyNoteOffs_eq, if_pos h0]
  by_cases hz : specDefaultGap role = 0
  · rw [if_pos hz, if_pos (by omega)]
  · have hp : ¬ specDefaultGap role ≤ 0 := by omega
    rw [if_neg hz, applyNoteOffs_eq, if_neg hp, if_neg hp, if_neg hp]

/-- C32. For a region `0 ≤ startRow < endRow ≤ maxRows` and an explicit gap `gap ≥ 1`,
`applyNoteOffs` returns; every row of the grid is then as it was, or was empty and differs
only by the note-off sentinel 253 in its note cell; and for every note at a row `r` of the
region whose next non-empty row is `n` (`endRow` if there is none) with `n - gap > r`, row
`n - gap` holds a note-off. With a gap that is not positive the gap is the default of the
role: Bass 1, Slap Bass 2, Lead 0, Pad 0, Rhythm 2, SFX 3, Distorted Guitar 1, any other
role 1, where 0 means that nothing is done. -/
theorem applyNoteOffs_postcondition (maxRows : Int) (pat : DivPattern)
    (startRow endRow gap role : Int) (hs : 0 ≤ startRow) (hse : startRow < endRow)
    (he : endRow ≤ maxRows) (hmax : maxRows ≤ 2147483647) (hg : 1 ≤ gap)
    (hgi : gap ≤ 2147483647) :
    (∃ pat1, applyNoteOffs maxRows pat startRow endRow gap role = .ok pat1 ∧
      (∀ x : Int, pat1.newData x = pat.newData x ∨
        ((pat.newData x).note = -1 ∧ pat1.newData x = { pat.newData x with note := 253 })) ∧
      (∀ r n : Int, startRow ≤ r → (pat.newData r).IsNote → pat.NextEvent endRow r n →
        r < n - gap → (pat1.newData (n - gap)).note = 253)) ∧
    (∀ gap0 : Int, gap0 ≤ 0 →
      applyNoteOffs maxRows pat startRow endRow gap0 role =
        if specDefaultGap role = 0 then .ok pat
        else applyNoteOffs maxRows pat startRow endRow (specDefaultGap role) role) :=
  ⟨applyNoteOffs_returns pat role hs hse he hmax hg hgi,
    fun gap0 h0 => applyNoteOffs_default maxRows pat startRow endRow gap0 role h0⟩

/-- C32, instance: the grid of one note at row 0, the region `[0,4)` and the gap 1 of the
role Bass; the note-off is at row 3 and the note is as it was. -/
theorem applyNoteOffs_postcondition_witness :
    ∃ pat1, applyNoteOffs 256 singleNotePattern 0 4 1 1 = .ok pat1 ∧
      (pat1.newData 3).note = 253 ∧ pat1.newData 0 = singleNotePattern.newData 0 := by
  obtain ⟨⟨pat1, h1, hA, hC⟩, -⟩ := applyNoteOffs_postcondition 256 singleNotePattern 0 4 1 1
    (by decide) (by decide) (by decide) (by decide) (by decide) (by decide)
  refine ⟨pat1, h1, ?_, ?_⟩
  · exact hC 0 4 (le_refl _) ⟨by decide, by decide⟩
      ⟨by decide, by decide, fun y h1 h2 => by
        have hy : y ≠ 0 := by omega
        show (if y = 0 then _ else _ : PatRow).note = -1
        rw [if_neg hy], Or.inl rfl⟩ (by decide)
  · rcases hA 0 with e | ⟨e, -⟩
    · exact e
    · exact absurd e (by decide)

/-! ## The chromatic passing pass -/

/-- The backward search of `applyChromaticPassing` over rows of the grid returns the
nearest row at or before `r` that holds a note, or `-1`. -/
theorem findPrevNote_returns (maxRows : Int) (p : DivPattern) (startRow : Int)
    (hs : 0 ≤ startRow) :
    ∀ (fuel : Nat) (r : Int), r < maxRows → r + 1 - startRow ≤ fuel →
      Returns (findPrevNote maxRows p startRow fuel r) (fun a =>
        (a = -1 ∧ ∀ z : Int, startRow ≤ z → z ≤ r → ¬ (p.newData z).IsNote) ∨
        (startRow ≤ a ∧ a ≤ r ∧ (p.newData a).IsNote ∧
          ∀ z : Int, a < z → z ≤ r → ¬ (p.newData z).IsNote)) := by
  intro fuel
  induction fuel with
  | zero =>
    intro r h1 h2
    rw [findPrevNote, if_neg (by omega)]
    exact returns_ok (Or.inl ⟨rfl, fun z _ _ => by omega⟩)
  | succ n ih =>
    intro r h1 h2
    rw [findPrevNote]
    by_cases hc : r ≥ startRow
    · rw [if_pos hc, readNote_in maxRows p r (by omega) h1, ok_bind2]
      by_cases hv : 0 ≤ (p.newData r).note ∧ (p.newData r).note ≤ 179
      · rw [if_pos hv]
        exact returns_ok (Or.inr ⟨hc, le_refl _, hv, fun z _ _ => by omega⟩)
      · rw [if_neg hv]
        refine returns_mono (ih (r - 1) (by omega) (by push_cast at h2; omega)) ?_
        rintro a (⟨a1, a2⟩ | ⟨a1, a2, a3, a4⟩)
        · refine Or.inl ⟨a1, fun z hz1 hz2 => ?_⟩
          by_cases hz : z = r
          · rw [hz]; exact hv
          · exact a2 z hz1 (by omega)
        · refine Or.inr ⟨a1, by omega, a3, fun z hz1 hz2 => ?_⟩
          by_cases hz : z = r
          · rw [hz]; exact hv
          · exact a4 z hz1 (by omega)
    · rw [if_neg hc]
      exact returns_ok (Or.inl ⟨rfl, fun z _ _ => by omega⟩)

/-- The forward search of `applyChromaticPassing` returns the nearest row at or after `r`
that holds a note, or `-1`. -/
theorem findNextNote_returns (maxRows : Int) (p : DivPattern) (endRow : Int)
    (he : endRow ≤ maxRows) :
    ∀ (fuel : Nat) (r : Int), 0 ≤ r → endRow - r ≤ fuel →
      Returns (findNextNote maxRows p endRow fuel r) (fun b =>
        (b = -1 ∧ ∀ z : Int, r ≤ z → z < endRow → ¬ (p.newData z).IsNote) ∨
        (r ≤ b ∧ b < endRow ∧ (p.newData b).IsNote ∧
          ∀ z : Int, r ≤ z → z < b → ¬ (p.newData z).IsNote)) := by
  intro fuel
  induction fuel with
  | zero =>
    intro r h0 h2
    rw [findNextNote, if_neg (by omega)]
    exact returns_ok (Or.inl ⟨rfl, fun z _ _ => by omega⟩)
  | succ n ih =>
    intro r h0 h2
    rw [findNextNote]
    by_cases hc : r < endRow ∧ r < maxRows
    · rw [if_pos hc, readNote_in maxRows p r h0 hc.2, ok_bind2]
      by_cases hv : 0 ≤ (p.newData r).note ∧ (p.newData r).note ≤ 179
      · rw [if_pos hv]
        exact returns_ok (Or.inr ⟨le_refl _, hc.1, hv, fun z _ _ => by omega⟩)
      · rw [if_neg hv]
        refine returns_mono (ih (r + 1) (by omega) (by push_cast at h2; omega)) ?_
        rintro b (⟨b1, b2⟩ | ⟨b1, b2, b3, b4⟩)
        · refine Or.inl ⟨b1, fun z hz1 hz2 => ?_⟩
          by_cases hz : z = r
          · rw [hz]; exact hv
          · exact b2 z (by omega) hz2
        · refine Or.inr ⟨by omega, b2, b3, fun z hz1 hz2 => ?_⟩
          by_cases hz : z = r
          · rw [hz]; exact hv
          · exact b4 z (by omega) hz2
    · rw [if_neg hc]
      exact returns_ok (Or.inl ⟨rfl, fun z _ _ => by omega⟩)

/-- The `int` function `abs` on a value other than `INT_MIN`. -/
theorem iabs_eq (x : Int) (h0 : -2147483647 ≤ x) (h1 : x ≤ 2147483647) :
    iabs x = (x.natAbs : Int) := by
  unfold iabs
  rw [Int.abs_eq_natAbs]
  exact toI32_of_InI32 ⟨by omega, by omega⟩

/-- The cast `(short)` of a value of the range of `short`. -/
theorem toI16_eq (x : Int) (h0 : -32768 ≤ x) (h1 : x ≤ 32767) : toI16 x = x := by
  unfold toI16
  omega

/-- The body of the loop of `applyChromaticPassing` at an offset of the region returns and
moves the invariant of the loop to the next offset. -/
theorem chromaticStep_returns {maxRows : Int} {params : GenPatternParams}
    {chromaticism : F32} {pat : DivPattern} {startRow endRow i : Int}
    {s : DivPattern × GenRNG} (hs : 0 ≤ startRow) (he : endRow ≤ maxRows)
    (hmax : maxRows ≤ 2147483647) (hiN : i < endRow - startRow - 1)
    (hI : ChromaticInv pat startRow endRow params.insIndex i s.1) :
    Returns (chromaticStep maxRows params chromaticism startRow endRow i s)
      (fun s1 => ChromaticInv pat startRow endRow params.insIndex (i + 1) s1.1) := by
  obtain ⟨h1, hA, hB, hC⟩ := hI
  have keep : ChromaticInv pat startRow endRow params.insIndex (i + 1) s.1 :=
    ⟨by omega, hA, fun x hx => hB x (by omega), hC⟩
  have hrow : iadd startRow i = startRow + i := iadd_eq ⟨by omega, by omega⟩
  unfold chromaticStep
  dsimp only
  rw [hrow, if_neg (by omega), readNote_in maxRows s.1 _ (by omega) (by omega), ok_bind]
  by_cases hn : (s.1.newData (startRow + i)).note ≠ -1
  · rw [if_pos hn]
    exact returns_pure keep
  rw [if_neg hn]
  have hempty : (pat.newData (startRow + i)).note = -1 := by
    rw [← hB _ (le_refl _)]
    exact not_not.mp hn
  by_cases h4 : Int.tmod i 4 = 0
  · rw [if_pos h4]
    exact returns_pure keep
  rw [if_neg h4]
  refine returns_bind (findPrevNote_returns maxRows s.1 startRow hs _ (startRow + i - 1)
    (by omega) (by omega)) ?_
  intro a ha
  refine returns_bind (findNextNote_returns maxRows s.1 endRow he _ (startRow + i + 1)
    (by omega) (by omega)) ?_
  intro b hb
  by_cases hneg : a < 0 ∨ b < 0
  · rw [if_pos hneg]
    exact returns_pure keep
  rw [if_neg hneg]
  by_cases hdraw : F32.lt s.2.randFloat.1 (F32.mul chromaticism (F32.fin (1 / 4))) = true
  swap
  · rw [if_neg hdraw]
    exact returns_pure keep
  rw [if_pos hdraw]
  obtain ⟨a1, a2, a3, a4⟩ : startRow ≤ a ∧ a ≤ startRow + i - 1 ∧ (s.1.newData a).IsNote ∧
      ∀ z : Int, a < z → z ≤ startRow + i - 1 → ¬ (s.1.newData z).IsNote := by
    rcases ha with ⟨e, -⟩ | h
    · omega
    · exact h
  obtain ⟨b1, b2, b3, b4⟩ : startRow + i + 1 ≤ b ∧ b < endRow ∧ (s.1.newData b).IsNote ∧
      ∀ z : Int, startRow + i + 1 ≤ z → z < b → ¬ (s.1.newData z).IsNote := by
    rcases hb with ⟨e, -⟩ | h
    · omega
    · exact h
  rw [readNote_in maxRows s.1 a (by omega) (by omega), ok_bind,
    readNote_in maxRows s.1 b (by omega) (by omega), ok_bind]
  have a3' := a3
  have b3' := b3
  unfold PatRow.IsNote at a3' b3'
  have hdiff : isub (s.1.newData b).note (s.1.newData a).note
      = (s.1.newData b).note - (s.1.newData a).note := isub_eq ⟨by omega, by omega⟩
  rw [hdiff, iabs_eq _ (by omega) (by omega)]
  by_cases hd : ((((s.1.newData b).note - (s.1.newData a).note).natAbs : Int) < 2 ∨
      (((s.1.newData b).note - (s.1.newData a).note).natAbs : Int) > 6)
  · rw [if_pos hd]
    exact returns_pure keep
  rw [if_neg hd]
  -- the notes found are notes of the grid before the pass
  have hnoNote : ∀ z : Int, ¬ (s.1.newData z).IsNote → ¬ (pat.newData z).IsNote := by
    intro z hz
    rcases hA z with e | ⟨e, -⟩
    · rw [← e]; exact hz
    · intro hc
      unfold PatRow.IsNote at hc
      omega
  have hbpat : s.1.newData b = pat.newData b := hB b (by omega)
  have hgap : ∀ z : Int, a < z → z < b → ¬ (pat.newData z).IsNote := by
    intro z hz1 hz2
    rcases lt_trichotomy z (startRow + i) with h | h | h
    · exact hnoNote z (a4 z hz1 (by omega))
    · rw [h]
      intro hc
      unfold PatRow.IsNote at hc
      omega
    · exact hnoNote z (b4 z (by omega) hz2)
  have hapat : s.1.newData a = pat.newData a := by
    rcases hA a with e | ⟨-, -, a0, b0, -, -, ⟨n1, n2, n3, n4, n5⟩, -, -, hstep, -⟩
    · exact e
    · exfalso
      have hb0 : b0 = b := by
        rcases lt_trichotomy b0 b with h | h | h
        · exact absurd n4 (hgap b0 n2 h)
        · exact h
        · exfalso
          refine n5 b (by omega) h ?_
          rw [← hbpat]
          exact b3
      subst hb0
      rw [← hbpat] at hstep
      omega
  have hnear : pat.Nearest a (startRow + i) b :=
    ⟨by omega, by omega, by rw [← hapat]; exact a3, by rw [← hbpat]; exact b3, hgap⟩
  -- the passing tone
  have hpass : genClamp (iadd (s.1.newData b).note
      (if (s.1.newData b).note - (s.1.newData a).note > 0 then -1 else 1)) 0 179
      = (if (s.1.newData b).note - (s.1.newData a).note > 0 then (s.1.newData b).note - 1
          else (s.1.newData b).note + 1) := by
    by_cases hpos : (s.1.newData b).note - (s.1.newData a).note > 0
    · rw [if_pos hpos, if_pos hpos, iadd_eq ⟨by omega, by omega⟩]
      unfold genClamp
      rw [if_neg (by omega), if_neg (by omega)]
      rfl
    · rw [if_neg hpos, if_neg hpos, iadd_eq ⟨by omega, by omega⟩]
      unfold genClamp
      rw [if_neg (by omega), if_neg (by omega)]
  rw [hpass, modifyRow_in _ _ _ _ ⟨by omega, by omega⟩, ok_bind]
  refine returns_bind (randIntE_returns _ 0x30 0x50 (by decide) (by decide) (by decide)) ?_
  rintro v ⟨v0, v1⟩
  rw [modifyRow_in _ _ _ _ ⟨by omega, by omega⟩, ok_bind]
  refine returns_pure ⟨by omega, ?_, ?_, ?_⟩
  · intro x
    dsimp only
    by_cases hx : x = startRow + i
    · subst hx
      rw [if_pos rfl, if_pos rfl]
      right
      refine ⟨hempty, ⟨i, rfl, h1, by omega, h4⟩, a, b, a1, b2, hnear, ?_, ?_, ?_, ?_, ?_, ?_, ?_,
        ?_, ?_⟩
      · rw [← hapat, ← hbpat]; omega
      · rw [← hapat, ← hbpat]; omega
      · dsimp only
        rw [← hbpat, toI16_eq _ (by split_ifs <;> omega) (by split_ifs <;> omega)]
        split_ifs <;> omega
      · dsimp only
        rw [← hbpat, ← hapat, toI16_eq _ (by split_ifs <;> omega) (by split_ifs <;> omega)]
        split_ifs <;> omega
      · rfl
      · dsimp only
        rw [toI16_eq _ (by omega) (by omega)]
        exact v0
      · dsimp only
        rw [toI16_eq _ (by omega) (by omega)]
        exact v1
      · dsimp only
        rw [hB _ (le_refl _)]
      · dsimp only
        rw [hB _ (le_refl _)]
    · rw [if_neg hx, if_neg hx]
      exact hA x
  · intro x hx
    dsimp only
    rw [if_neg (by omega), if_neg (by omega)]
    exact hB x (by omega)
  · intro x y hxy hx hy
    dsimp only at hx hy
    by_cases hy1 : y = startRow + i
    · have hx1 : x ≠ startRow + i := by omega
      rw [if_neg hx1, if_neg hx1] at hx
      refine ⟨a, ?_, by omega, by rw [← hapat]; exact a3⟩
      have hxa : x ≠ a := fun e => hx (by rw [e]; exact hapat)
      have hxn : (s.1.newData x).IsNote := by
        rcases hA x with e | ⟨-, -, a0, b0, -, -, ⟨-, -, n3, n4, -⟩, -, -, hstep, hbet, -⟩
        · exact absurd e hx
        · unfold PatRow.IsNote at n3 n4 ⊢
          omega
      by_contra hlt
      exact a4 x (by omega) (by omega) hxn
    · rw [if_neg hy1, if_neg hy1] at hy
      by_cases hx1 : x = startRow + i
      · exact absurd (hB y (by omega)) hy
      · rw [if_neg hx1, if_neg hx1] at hx
        exact hC x y hxy hx hy

/-- For a region `0 ≤ startRow ≤ endRow ≤ maxRows` the pass `applyChromaticPassing` returns;
every row of the grid is then as it was or is a passing tone, and between two changed rows
lies a note of the grid before the pass. -/
theorem applyChromaticPassing_returns {maxRows : Int} (g : GenRNG) (pat : DivPattern)
    (params : GenPatternParams) (chromaticism : F32) {startRow endRow : Int}
    (hs : 0 ≤ startRow) (hse : startRow ≤ endRow) (he : endRow ≤ maxRows)
    (hmax : maxRows ≤ 2147483647) :
    Returns (applyChromaticPassing maxRows g pat params chromaticism startRow endRow)
      (fun s1 =>
        (∀ x : Int, s1.1.newData x = pat.newData x ∨
          pat.PassingTone startRow endRow params.insIndex x (s1.1.newData x)) ∧
        (∀ x y : Int, x < y → s1.1.newData x ≠ pat.newData x →
          s1.1.newData y ≠ pat.newData y →
          ∃ z : Int, x < z ∧ z < y ∧ (pat.newData z).IsNote)) := by
  unfold applyChromaticPassing
  have hN : isub (isub endRow startRow) 1 = endRow - startRow - 1 := by
    rw [isub_eq (a := endRow) ⟨by omega, by omega⟩, isub_eq ⟨by omega, by omega⟩]
  rw [hN]
  have hloop := forLoop_returns (fun i (_ : DivPattern × GenRNG) =>
      decide (i < endRow - startRow - 1)) 1
    (chromaticStep maxRows params chromaticism startRow endRow)
    (fun i s => ChromaticInv pat startRow endRow params.insIndex i s.1)
    1 (by decide)
    (fun i s _ hc hI => chromaticStep_returns hs he hmax (by simpa using hc) hI)
    (endRow - startRow - 1 - 1).toNat 1 (pat, g) (le_refl _)
    ⟨le_refl _, fun x => Or.inl rfl, fun x _ => rfl, fun x y _ hne => absurd rfl hne⟩
    (fun s1 _ => by
      simp only [decide_eq_false_iff_not, not_lt]
      omega)
  refine returns_mono hloop ?_
  rintro s1 ⟨j, -, ⟨-, iA, -, iC⟩, -⟩
  exact ⟨iA, iC⟩

/-- With a chromaticism that is not above zero `generateFill` is its statements before the
pass: the pass is not run and the generator is as the articulation pass left it. -/
theorem generateFill_chromatic_off (maxRows : Int) (sinf : F32 → F32) (g : GenRNG)
    (pat : DivPattern) (params : GenPatternParams) (style : StylePreset)
    (startRow endRow : Int) (h : F32.lt (F32.fin 0) style.chromaticism = false) :
    generateFill maxRows sinf g pat params style startRow endRow
      = generateFillArticulated maxRows sinf g pat params style startRow endRow := by
  unfold generateFill generateFillArticulated
  simp only [h, Bool.false_eq_true, if_false]

/-! ## Claims on the chromatic passing pass -/

/-- The first draw of `randFloat` after construction is below `1.0f*0.25f`. -/
theorem randFloat_init_lt_quarter :
    F32.lt GenRNG.init.randFloat.1 (F32.mul (F32.fin 1) (F32.fin (1 / 4))) = true := by
  have hm : F32.mul (F32.fin 1) (F32.fin (1 / 4)) = F32.fin (1 / 4) := by
    show F32.round (1 * (1 / 4)) = F32.fin (1 / 4)
    have h := F32.round_dyadic 1 2 (by decide) (by decide)
    norm_num at h
    norm_num
    exact h
  rw [hm]
  obtain ⟨-, hr, -, -⟩ := randFloat_eq GenRNG.init
  rw [hr]
  have hk : GenRNG.init.next.1 >>> 8 = 2026044 := by decide
  rw [hk]
  simp only [F32.lt, decide_eq_true_eq]
  norm_num

/-- The pass on the grid with C-0 on row 0 and D-0 on row 2, for the region `[0,3)` and a
state whose first draw is below `chromaticism*0.25f`: the passing tone C#0 is written on
row 1. -/
theorem applyChromaticPassing_whole_tone_run (g : GenRNG) (params : GenPatternParams)
    (chromaticism : F32)
    (hdraw : F32.lt g.randFloat.1 (F32.mul chromaticism (F32.fin (1 / 4))) = true) :
    ∃ pat1 g1, applyChromaticPassing 256 g wholeTonePattern params chromaticism 0 3
        = .ok (pat1, g1) ∧ (pat1.newData 1).note = 61 := by
  obtain ⟨v, g2, hv, -, -, -⟩ := randIntE_total g.randFloat.2 0x30 0x50
    (by decide) (by decide) (by decide)
  apply Exists.intro
  refine ⟨g2, ?_, ?_⟩
  · unfold applyChromaticPassing
    rw [show (isub (isub 3 0) 1 - 1).toNat = 1 from rfl, forLoop_single rfl (fun _ => rfl)]
    unfold chromaticStep
    dsimp only
    rw [show iadd 0 1 = 1 from rfl, if_neg (by decide)]
    have hr : wholeTonePattern.readNote 256 1 = .ok (-1) := rfl
    rw [hr, ok_bind, if_neg (by decide), if_neg (by decide)]
    have hp : findPrevNote 256 wholeTonePattern 0 ((1 : Int) - 0).toNat (1 - 1) = .ok 0 := rfl
    have hx : findNextNote 256 wholeTonePattern 3 ((3 : Int) - 1).toNat (1 + 1) = .ok 2 := rfl
    rw [hp, ok_bind, hx, ok_bind, if_neg (by decide), if_pos hdraw]
    have hr0 : wholeTonePattern.readNote 256 0 = .ok 60 := rfl
    have hr2 : wholeTonePattern.readNote 256 2 = .ok 62 := rfl
    rw [hr0, ok_bind, hr2, ok_bind, if_neg (by decide),
      modifyRow_in 256 _ 1 _ (by decide), ok_bind, hv, ok_bind,
      modifyRow_in 256 _ 1 _ (by decide), ok_bind]
    rfl
  · rfl

/-- C33, as amended. For a region `0 ≤ startRow ≤ endRow ≤ maxRows`, every grid, request,
chromaticism and generator state, `applyChromaticPassing` returns, and a row it has changed
was empty and lies between a nearest previous note and a nearest next note of the grid whose
pitch distance `D` satisfies `2 ≤ D ≤ 6`: the test of the code is `abs(diff)<2||abs(diff)>6`,
so a distance of exactly 2 semitones is inside the window. -/
theorem applyChromaticPassing_distance_window (maxRows : Int) (g : GenRNG) (pat : DivPattern)
    (params : GenPatternParams) (chromaticism : F32) (startRow endRow : Int)
    (hs : 0 ≤ startRow) (hse : startRow ≤ endRow) (he : endRow ≤ maxRows)
    (hmax : maxRows ≤ 2147483647) :
    ∃ pat1 g1, applyChromaticPassing maxRows g pat params chromaticism startRow endRow
        = .ok (pat1, g1) ∧
      ∀ x : Int, pat1.newData x ≠ pat.newData x →
        (pat.newData x).note = -1 ∧
        ∃ a b : Int, startRow ≤ a ∧ b < endRow ∧ pat.Nearest a x b ∧
          2 ≤ ((pat.newData b).note - (pat.newData a).note).natAbs ∧
          ((pat.newData b).note - (pat.newData a).note).natAbs ≤ 6 := by
  obtain ⟨s1, h1, hA, -⟩ :=
    applyChromaticPassing_returns g pat params chromaticism hs hse he hmax
  refine ⟨s1.1, s1.2, h1, fun x hx => ?_⟩
  rcases hA x with e | ⟨e, -, a, b, ha, hb, hn, d1, d2, -⟩
  · exact absurd e hx
  · exact ⟨e, a, b, ha, hb, hn, d1, d2⟩

/-- C33 as amended, instance: the grid with a whole tone between rows 0 and 2, the region
`[0,3)` of a grid of 256 rows, chromaticism 1 and the generator as constructed. -/
theorem applyChromaticPassing_distance_window_witness :
    (0 : Int) ≤ 0 ∧ (0 : Int) ≤ 3 ∧ (3 : Int) ≤ 256 ∧ (256 : Int) ≤ 2147483647 ∧
    ∃ pat1 g1, applyChromaticPassing 256 GenRNG.init wholeTonePattern bassParams (F32.fin 1) 0 3
        = .ok (pat1, g1) ∧
      ∀ x : Int, pat1.newData x ≠ wholeTonePattern.newData x →
        (wholeTonePattern.newData x).note = -1 ∧
        ∃ a b : Int, 0 ≤ a ∧ b < 3 ∧ wholeTonePattern.Nearest a x b ∧
          2 ≤ ((wholeTonePattern.newData b).note - (wholeTonePattern.newData a).note).natAbs ∧
          ((wholeTonePattern.newData b).note - (wholeTonePattern.newData a).note).natAbs ≤ 6 :=
  ⟨by decide, by decide, by decide, by decide,
    applyChromaticPassing_distance_window 256 GenRNG.init wholeTonePattern bassParams (F32.fin 1)
      0 3 (by decide) (by decide) (by decide) (by decide)⟩

/-- C33, counterexample to the window `2 < D ≤ 6`: on the grid with C-0 (60) on row 0 and
D-0 (62) on row 2, whose pitch distance is exactly 2, the pass with chromaticism 1 from the
generator as constructed writes the passing tone C#0 (61) on the empty row 1. -/
theorem applyChromaticPassing_whole_tone :
    (wholeTonePattern.newData 0).note = 60 ∧ (wholeTonePattern.newData 1).note = -1 ∧
    (wholeTonePattern.newData 2).note = 62 ∧
    ((wholeTonePattern.newData 2).note - (wholeTonePattern.newData 0).note).natAbs = 2 ∧
    ∃ pat1 g1, applyChromaticPassing 256 GenRNG.init wholeTonePattern bassParams (F32.fin 1) 0 3
        = .ok (pat1, g1) ∧ (pat1.newData 1).note = 61 :=
  ⟨rfl, rfl, rfl, rfl,
    applyChromaticPassing_whole_tone_run GenRNG.init bassParams (F32.fin 1)
      randFloat_init_lt_quarter⟩

/-- C34. For a region `0 ≤ startRow ≤ endRow ≤ maxRows`, `applyChromaticPassing` returns and
every row of the grid is then as it was or is a passing tone: a row that was empty, at a
region offset `i` with `1 ≤ i ≤ (endRow-startRow)-2` and `i mod 4 ≠ 0`, whose note differs
from the nearest next note by exactly one semitone and lies strictly between the pitches of
the nearest previous and the nearest next note, with a volume in `[0x30,0x50]`; so no
existing note is altered. Between two changed rows lies a note of the grid before the pass,
so at most one passing tone is inserted between two notes that were consecutive. When the
test `style.chromaticism > 0.0f` fails, `generateFill` is its statements before the pass: the
pass is not run and no draw is made for it. -/
theorem applyChromaticPassing_single_step (maxRows : Int) (sinf : F32 → F32) (g : GenRNG)
    (pat : DivPattern) (params : GenPatternParams) (style : StylePreset) (chromaticism : F32)
    (startRow endRow : Int) (hs : 0 ≤ startRow) (hse : startRow ≤ endRow)
    (he : endRow ≤ maxRows) (hmax : maxRows ≤ 2147483647) :
    (∃ pat1 g1, applyChromaticPassing maxRows g pat params chromaticism startRow endRow
        = .ok (pat1, g1) ∧
      (∀ x : Int, pat1.newData x = pat.newData x ∨
        pat.PassingTone startRow endRow params.insIndex x (pat1.newData x)) ∧
      (∀ x y : Int, x < y → pat1.newData x ≠ pat.newData x → pat1.newData y ≠ pat.newData y →
        ∃ z : Int, x < z ∧ z < y ∧ (pat.newData z).IsNote)) ∧
    (F32.lt (F32.fin 0) style.chromaticism = false →
      generateFill maxRows sinf g pat params style startRow endRow
        = generateFillArticulated maxRows sinf g pat params style startRow endRow) := by
  obtain ⟨s1, h1, hA, hC⟩ :=
    applyChromaticPassing_returns g pat params chromaticism hs hse he hmax
  exact ⟨⟨s1.1, s1.2, h1, hA, hC⟩,
    generateFill_chromatic_off maxRows sinf g pat params style startRow endRow⟩

/-- C34, instance: the grid with a whole tone between rows 0 and 2, the region `[0,3)`,
chromaticism 1 and the generator as constructed, where row 1 receives the passing tone 61;
and the bass scenario, whose style has chromaticism 0. -/
theorem applyChromaticPassing_single_step_witness :
    ∃ pat1 g1, applyChromaticPassing 256 GenRNG.init wholeTonePattern bassParams (F32.fin 1) 0 3
        = .ok (pat1, g1) ∧
      (pat1.newData 1).note = 61 ∧
      wholeTonePattern.PassingTone 0 3 bassParams.insIndex 1 (pat1.newData 1) ∧
      pat1.newData 0 = wholeTonePattern.newData 0 ∧
      pat1.newData 2 = wholeTonePattern.newData 2 ∧
      generateFill 256 (fun x => x) GenRNG.init wholeTonePattern bassParams plainStyle 0 3
        = generateFillArticulated 256 (fun x => x) GenRNG.init wholeTonePattern bassParams
            plainStyle 0 3 := by
  obtain ⟨⟨pat1, g1, h1, hA, -⟩, hoff⟩ :=
    applyChromaticPassing_single_step 256 (fun x => x) GenRNG.init wholeTonePattern bassParams
      plainStyle (F32.fin 1) 0 3 (by decide) (by decide) (by decide) (by decide)
  obtain ⟨pat2, g2, h2, hn⟩ := applyChromaticPassing_whole_tone_run GenRNG.init bassParams
    (F32.fin 1) randFloat_init_lt_quarter
  rw [h1] at h2
  cases h2
  refine ⟨pat1, g1, h1, hn, ?_, ?_, ?_, hoff rfl⟩
  · rcases hA 1 with e | h
    · rw [e] at hn
      exact absurd hn (by decide)
    · exact h
  · rcases hA 0 with e | ⟨e, -⟩
    · exact e
    · exact absurd e (by decide)
  · rcases hA 2 with e | ⟨e, -⟩
    · exact e
    · exact absurd e (by decide)

end Furnace
